import Mathlib

/-!
# go-plist keyed archiver: a shallow embedding

The development follows `typeinfo.go`, `keyed_archiver.go` and `map_marshal.go`.

* `reflect.Type` is the inductive `GoType`; struct types are nominal and their
  declarations live in a `TypeEnv`, so that a struct may mention itself behind
  a pointer, as Go allows.
* `reflect.Value` is `GoValue`; a function writing through a `reflect.Value`
  returns the updated value next to its Go result.
* A Go call ends in `Res.ok`, in `Res.err` (a returned `error`), in `Res.panic`
  (a run-time panic) or in `Res.fuel` (the recursion budget ran out: the Go
  recursion is unbounded, the budget stands for the depth the run may use).
* Machine integers are `Int`/`Nat` with explicit wrap-around; `int`, `uint`
  and `uintptr` are 64 bits wide.
-/

namespace Plist

/-! ## Results of Go calls -/

/-- The `error` values of the package: the sentinel `errArchiverNilElem` and every
other error, kept by its message. -/
inductive GoError where
  | nilElem
  | other (msg : String)
  deriving DecidableEq, Repr

/-- Outcome of a Go call. -/
inductive Res (α : Type) where
  | ok (a : α)
  | err (e : GoError)
  | panic (msg : String)
  | fuel
  deriving DecidableEq, Repr

/-- Sequencing of Go calls: anything but `ok` ends the run. -/
def Res.bind {α β : Type} (r : Res α) (f : α → Res β) : Res β :=
  match r with
  | .ok a => f a
  | .err e => .err e
  | .panic m => .panic m
  | .fuel => .fuel

instance : Monad Res where
  pure := Res.ok
  bind := Res.bind

/-- The call returned normally with a nil error. -/
def Res.isOk {α : Type} : Res α → Bool
  | .ok _ => true
  | _ => false

/-- The call returned a non-nil error. -/
def Res.isErr {α : Type} : Res α → Bool
  | .err _ => true
  | _ => false

/-! ## Types -/

inductive IntKind where
  | int | int8 | int16 | int32 | int64
  deriving DecidableEq, Repr

inductive UintKind where
  | uint | uint8 | uint16 | uint32 | uint64 | uintptr
  deriving DecidableEq, Repr

inductive FloatKind where
  | float32 | float64
  deriving DecidableEq, Repr

/-- Width in bits. -/
def IntKind.bits : IntKind → Nat
  | .int => 64 | .int8 => 8 | .int16 => 16 | .int32 => 32 | .int64 => 64

/-- Width in bits. -/
def UintKind.bits : UintKind → Nat
  | .uint => 64 | .uint8 => 8 | .uint16 => 16 | .uint32 => 32 | .uint64 => 64
  | .uintptr => 64

/-- The `reflect.Kind` values. -/
inductive Kind where
  | Invalid | Bool | Int | Int8 | Int16 | Int32 | Int64
  | Uint | Uint8 | Uint16 | Uint32 | Uint64 | Uintptr
  | Float32 | Float64 | Complex64 | Complex128 | Array | Chan | Func | Interface | Map | Ptr
  | Slice | String | Struct | UnsafePointer
  deriving DecidableEq, Repr

/-- A Go type. `struct name` is the struct type declared under `name`;
`array name n elem` is an array type, `name` being empty for the unnamed
`[n]elem`; `uid` is the package's `UID` (a named `uint64`); `other name` is a type
of a kind the package has no case for, told as `UnsafePointer`. -/
inductive GoType where
  | bool
  | int (k : IntKind)
  | uint (k : UintKind)
  | uid
  | float (k : FloatKind)
  | string
  | slice (elem : GoType)
  | array (name : String) (len : Nat) (elem : GoType)
  | struct (name : String)
  | ptr (elem : GoType)
  | map (key : GoType) (val : GoType)
  | func
  | chan (elem : GoType)
  | iface
  | other (name : String)
  deriving DecidableEq, Repr

def IntKind.kind : IntKind → Kind
  | .int => .Int | .int8 => .Int8 | .int16 => .Int16 | .int32 => .Int32
  | .int64 => .Int64

def UintKind.kind : UintKind → Kind
  | .uint => .Uint | .uint8 => .Uint8 | .uint16 => .Uint16 | .uint32 => .Uint32
  | .uint64 => .Uint64 | .uintptr => .Uintptr

/-- The method `reflect.Type.Kind`. -/
def GoType.kind : GoType → Kind
  | .bool => .Bool
  | .int k => k.kind
  | .uint k => k.kind
  | .uid => .Uint64
  | .float .float32 => .Float32
  | .float .float64 => .Float64
  | .string => .String
  | .slice _ => .Slice
  | .array _ _ _ => .Array
  | .struct _ => .Struct
  | .ptr _ => .Ptr
  | .map _ _ => .Map
  | .func => .Func
  | .chan _ => .Chan
  | .iface => .Interface
  | .other _ => .UnsafePointer

/-- A `reflect.StructField`. `Tag` is what `f.Tag.Get("plist")` returns; `Index`
is the position of the field in its struct. -/
structure StructField where
  Name : String
  PkgPath : String
  Typ : GoType
  Tag : String
  Anonymous : Bool
  deriving DecidableEq, Repr

/-- The struct declarations of a program: the fields of each struct type. -/
abbrev TypeEnv := String → List StructField

/-! ## typeinfo.go -/

/-- The struct `FieldInfo`. -/
structure FieldInfo where
  idx : List Nat
  Name : String
  OmitEmpty : Bool
  deriving DecidableEq, Repr

/-- The struct `TypeInfo`. -/
structure TypeInfo where
  Fields : List FieldInfo
  deriving DecidableEq, Repr

/-- The call `strings.Split(s, ",")` on the characters of `s`. -/
def splitComma : List Char → List (List Char)
  | [] => [[]]
  | c :: cs =>
    if c = ',' then [] :: splitComma cs
    else
      match splitComma cs with
      | [] => [[c]]
      | t :: ts => (c :: t) :: ts

/-- The function `structFieldInfo`, for the field at position `i`. -/
def structFieldInfo (i : Nat) (f : StructField) : Res FieldInfo :=
  let tokens := (splitComma f.Tag.data).map String.mk
  let tag := tokens.headD ""
  let omitEmpty := tokens.tail.any (fun flag => flag == "omitempty")
  if tag = "" then .ok { idx := [i], Name := f.Name, OmitEmpty := omitEmpty }
  else .ok { idx := [i], Name := tag, OmitEmpty := omitEmpty }

/-- The indices of the fields of `fields` named `name`, ascending (the slice
`conflicts` of `addFieldInfo`). -/
def conflictsOf (fields : List FieldInfo) (name : String) : List Nat :=
  (List.range fields.length).filter
    (fun i => match fields.get? i with
      | some oldf => name == oldf.Name
      | none => false)

/-- The function `addFieldInfo`. -/
def addFieldInfo (tinfo : TypeInfo) (newf : FieldInfo) : Res TypeInfo :=
  let conflicts := conflictsOf tinfo.Fields newf.Name
  if conflicts = [] then
    .ok { Fields := tinfo.Fields ++ [newf] }
  else if conflicts.any (fun i =>
      match tinfo.Fields.get? i with
      | some oldf => decide (oldf.idx.length < newf.idx.length)
      | none => false) then
    .ok tinfo
  else
    .ok { Fields :=
      (conflicts.reverse.foldl (fun fs i => fs.eraseIdx i) tinfo.Fields) ++ [newf] }

/-- The inner loop of `GetTypeInfo`: the fields of an embedded struct at position
`i`, each with `i` put in front of its access path. -/
def embedFields (i : Nat) (inner : List FieldInfo) (tinfo : TypeInfo) : Res TypeInfo :=
  inner.foldlM (fun t finfo => addFieldInfo t { finfo with idx := i :: finfo.idx }) tinfo

/-- The package's own struct declarations and `time.Time` (whose fields are all
unexported), then the program's. -/
def decl (env : TypeEnv) (name : String) : List StructField :=
  if name = "time.Time" then
    [ { Name := "wall", PkgPath := "time", Typ := .uint .uint64, Tag := "", Anonymous := false },
      { Name := "ext", PkgPath := "time", Typ := .int .int64, Tag := "", Anonymous := false },
      { Name := "loc", PkgPath := "time", Typ := .ptr (.struct "time.Location"), Tag := "",
        Anonymous := false } ]
  else if name = "plist.archiverDate" then
    [ { Name := "Time", PkgPath := "", Typ := .float .float64, Tag := "NS.time", Anonymous := false },
      { Name := "Class", PkgPath := "", Typ := .uid, Tag := "$class", Anonymous := false } ]
  else if name = "plist.archiverData" then
    [ { Name := "Data", PkgPath := "", Typ := .slice (.uint .uint8), Tag := "NS.data",
        Anonymous := false },
      { Name := "Class", PkgPath := "", Typ := .uid, Tag := "$class", Anonymous := false } ]
  else if name = "plist.archiverUUID" then
    [ { Name := "Bytes", PkgPath := "", Typ := .slice (.uint .uint8), Tag := "NS.uuidbytes",
        Anonymous := false },
      { Name := "Class", PkgPath := "", Typ := .uid, Tag := "$class", Anonymous := false } ]
  else if name = "plist.archiverArray" then
    [ { Name := "Objects", PkgPath := "", Typ := .slice .iface, Tag := "NS.objects",
        Anonymous := false },
      { Name := "Class", PkgPath := "", Typ := .uid, Tag := "$class", Anonymous := false } ]
  else if name = "plist.archiverTable" then
    [ { Name := "Keys", PkgPath := "", Typ := .slice .uid, Tag := "NS.keys", Anonymous := false },
      { Name := "Objects", PkgPath := "", Typ := .slice .iface, Tag := "NS.objects",
        Anonymous := false },
      { Name := "Class", PkgPath := "", Typ := .uid, Tag := "$class", Anonymous := false } ]
  else if name = "plist.archiverClass" then
    [ { Name := "ClassName", PkgPath := "", Typ := .string, Tag := "$classname",
        Anonymous := false },
      { Name := "Classes", PkgPath := "", Typ := .slice .string, Tag := "$classes",
        Anonymous := false } ]
  else env name

/-- The body of `GetTypeInfo`, the recursive call being `recur`. The cache
`tinfoMap` holds, for a type, only the descriptor a completed call computed
for it, so a lookup returns what the computation returns and the cache is left
out. -/
def getTypeInfoBody (env : TypeEnv) (recur : GoType → Res TypeInfo) (typ : GoType) :
    Res TypeInfo :=
  match typ with
  | .struct name =>
    (decl env name).enum.foldlM (fun tinfo (p : Nat × StructField) =>
      let i := p.1
      let f := p.2
      if f.Tag = "-" || (!f.Anonymous && f.PkgPath ≠ "") then .ok tinfo
      else
        let t := match f.Typ with
          | .ptr e => e
          | t => t
        if f.Anonymous && t.kind = .Struct then
          (recur t).bind (fun inner => embedFields i inner.Fields tinfo)
        else
          (structFieldInfo i f).bind (fun finfo => addFieldInfo tinfo finfo))
      { Fields := [] }
  | _ => .ok { Fields := [] }

/-- The function `GetTypeInfo`; the first argument bounds the depth of the
recursion through embedded structs. -/
def GetTypeInfo (env : TypeEnv) : Nat → GoType → Res TypeInfo
  | 0 => getTypeInfoBody env (fun _ => .fuel)
  | fuel + 1 => getTypeInfoBody env (GetTypeInfo env fuel)

/-! ## float64

Only what the archiver does with a `float64` is modelled: carrying it, comparing
it with `==`, converting it from and to `int64`, and narrowing it to `float32`.
-/

/-- A `float64`. `num m k` is the number `m / 2 ^ k`, kept in lowest terms
(`k = 0` or `m` odd); the two zeros, which `==` identifies, are both `num 0 0`. -/
inductive F64 where
  | nan
  | inf (neg : Bool)
  | num (m : Int) (k : Nat)
  deriving DecidableEq, Repr

/-- The number `m / 2 ^ k` in lowest terms. -/
def F64.mk : Int → Nat → F64
  | m, 0 => .num m 0
  | m, k + 1 => if m % 2 = 0 then F64.mk (m / 2) k else .num m (k + 1)

/-- The number of binary digits of `a`, counted in at most `fuel` halvings. -/
def bitLenAux : Nat → Nat → Nat
  | 0, _ => 0
  | fuel + 1, a => if a = 0 then 0 else bitLenAux fuel (a / 2) + 1

/-- The number of binary digits of `a`. -/
def bitLen (a : Nat) : Nat := bitLenAux a a

/-- Round `a` to `p` significant bits, to nearest and ties to even. -/
def roundToBits (p : Nat) (a : Nat) : Nat :=
  if a < 2 ^ p then a
  else
    let d := bitLen a - p
    let j0 := a / 2 ^ d
    let rem := a % 2 ^ d
    let half := 2 ^ (d - 1)
    let j := if half < rem ∨ (rem = half ∧ j0 % 2 = 1) then j0 + 1 else j0
    j * 2 ^ d

/-- The conversion `float64(n)` of an `int64`. -/
def F64.ofInt64 (n : Int) : F64 :=
  if n < 0 then .num (-(roundToBits 53 n.natAbs : Int)) 0
  else .num (roundToBits 53 n.natAbs : Int) 0

/-- The conversion `int64(f)`: truncation toward zero. Where the result does not
fit (and for NaN and the infinities) Go leaves the value to the implementation;
`-2 ^ 63` is what amd64 gives. -/
def F64.toInt64 : F64 → Int
  | .num m k =>
    let t := Int.tdiv m (2 ^ k)
    if -(2 : Int) ^ 63 ≤ t ∧ t < (2 : Int) ^ 63 then t else -(2 : Int) ^ 63
  | _ => -(2 : Int) ^ 63

/-- The conversion `float64(float32(f))`: the nearest `float32`, ties to even. -/
def F64.toFloat32 : F64 → F64
  | .nan => .nan
  | .inf s => .inf s
  | .num m k =>
    if m = 0 then .num 0 0
    else
      let a := m.natAbs
      let e : Int := (bitLen a : Int) - 1 - (k : Int)
      let q : Int := max (e - 23) (-149)
      let s : Int := -(k : Int) - q
      let j : Nat :=
        if 0 ≤ s then a * 2 ^ s.toNat
        else
          let d := (-s).toNat
          let j0 := a / 2 ^ d
          let rem := a % 2 ^ d
          let half := 2 ^ (d - 1)
          if half < rem ∨ (rem = half ∧ j0 % 2 = 1) then j0 + 1 else j0
      if 0 ≤ q ∧ 2 ^ 128 ≤ j * 2 ^ q.toNat then .inf (decide (m < 0))
      else if 0 ≤ q then .num ((if m < 0 then -1 else 1) * ((j * 2 ^ q.toNat : Nat) : Int)) 0
      else F64.mk ((if m < 0 then -1 else 1) * (j : Int)) (-q).toNat

/-- The Go comparison `x == y` of two `float64`. -/
def F64.goEq (x y : F64) : Bool :=
  x ≠ .nan && decide (x = y)

/-! ## The object table -/

/-- A dynamic value held in an `interface{}`: what the plist codec hands to the
archiver (`null` to `time`), any other dynamic type (`other`), and the pointers
to wrapper structs `Archiver.marshal` puts in the table (`classRef` to
`tableRef`, fields in declaration order). A `dict` built by the package keeps
its keys sorted and distinct, so that equal maps are equal terms. -/
inductive Obj where
  | null
  | bool (b : Bool)
  | int (k : IntKind) (n : Int)
  | uint (k : UintKind) (n : Nat)
  | float (k : FloatKind) (f : F64)
  | string (s : String)
  | bytes (b : Option (List Nat))
  | uid (i : Nat)
  | array (xs : List Obj)
  | dict (kvs : List (String × Obj))
  | time (sec : Int) (nsec : Nat)
  | other (typ : String)
  | classRef (ClassName : String) (Classes : Option (List String))
  | uuidRef (Bytes : Option (List Nat)) (Class : Nat)
  | dateRef (Time : F64) (Class : Nat)
  | dataRef (Data : Option (List Nat)) (Class : Nat)
  | arrayRef (Objects : List Nat) (Class : Nat)
  | tableRef (Keys : List Nat) (Objects : List Nat) (Class : Nat)
  deriving Repr

mutual
/-- Equality of terms, as a Boolean. -/
def Obj.beq : Obj → Obj → Bool
  | .null, b => match b with
    | .null => true
    | _ => false
  | .bool x, b => match b with
    | .bool y => x == y
    | _ => false
  | .int k x, b => match b with
    | .int l y => k == l && x == y
    | _ => false
  | .uint k x, b => match b with
    | .uint l y => k == l && x == y
    | _ => false
  | .float k x, b => match b with
    | .float l y => k == l && x == y
    | _ => false
  | .string x, b => match b with
    | .string y => x == y
    | _ => false
  | .bytes x, b => match b with
    | .bytes y => x == y
    | _ => false
  | .uid x, b => match b with
    | .uid y => x == y
    | _ => false
  | .array xs, b => match b with
    | .array ys => Obj.beqList xs ys
    | _ => false
  | .dict xs, b => match b with
    | .dict ys => Obj.beqDict xs ys
    | _ => false
  | .time x n, b => match b with
    | .time y m => x == y && n == m
    | _ => false
  | .other x, b => match b with
    | .other y => x == y
    | _ => false
  | .classRef x xs, b => match b with
    | .classRef y ys => x == y && xs == ys
    | _ => false
  | .uuidRef x c, b => match b with
    | .uuidRef y d => x == y && c == d
    | _ => false
  | .dateRef x c, b => match b with
    | .dateRef y d => x == y && c == d
    | _ => false
  | .dataRef x c, b => match b with
    | .dataRef y d => x == y && c == d
    | _ => false
  | .arrayRef x c, b => match b with
    | .arrayRef y d => x == y && c == d
    | _ => false
  | .tableRef k x c, b => match b with
    | .tableRef l y d => k == l && x == y && c == d
    | _ => false
/-- Equality of lists of objects, as a Boolean. -/
def Obj.beqList : List Obj → List Obj → Bool
  | [], ys => match ys with
    | [] => true
    | _ :: _ => false
  | x :: xs, ys => match ys with
    | [] => false
    | y :: ys => Obj.beq x y && Obj.beqList xs ys
/-- Equality of association lists of objects, as a Boolean. -/
def Obj.beqDict : List (String × Obj) → List (String × Obj) → Bool
  | [], ys => match ys with
    | [] => true
    | _ :: _ => false
  | (k, x) :: xs, ys => match ys with
    | [] => false
    | (l, y) :: ys => k == l && Obj.beq x y && Obj.beqDict xs ys
end

mutual
/-- A NaN occurs in the object. -/
def Obj.hasNaN : Obj → Bool
  | .float _ f => f == .nan
  | .dateRef t _ => t == .nan
  | .array xs => Obj.hasNaNList xs
  | .dict kvs => Obj.hasNaNDict kvs
  | _ => false
/-- A NaN occurs in one of the objects. -/
def Obj.hasNaNList : List Obj → Bool
  | [] => false
  | x :: xs => Obj.hasNaN x || Obj.hasNaNList xs
/-- A NaN occurs in one of the values. -/
def Obj.hasNaNDict : List (String × Obj) → Bool
  | [] => false
  | (_, x) :: xs => Obj.hasNaN x || Obj.hasNaNDict xs
end

/-- The call `cmp.Equal(o, obj)` on table objects: same dynamic type and
recursively equal contents, a pointer compared through its target and a
`float64` with `==`, under which a NaN differs from itself. -/
def cmpEqual (o obj : Obj) : Bool :=
  Obj.beq o obj && !Obj.hasNaN obj

/-- The struct `archiverClass`; `Classes` is `none` for a nil slice. -/
structure ArchiverClass where
  ClassName : String
  Classes : Option (List String)
  deriving DecidableEq, Repr

def archiverMutableDictionaryClass : ArchiverClass :=
  { ClassName := "NSMutableDictionary",
    Classes := some ["NSMutableDictionary", "NSDictionary", "NSObject"] }

def archiverDictionaryClass : ArchiverClass :=
  { ClassName := "NSDictionary", Classes := some ["NSDictionary", "NSObject"] }

def archiverMutableArrayClass : ArchiverClass :=
  { ClassName := "NSMutableArray", Classes := some ["NSMutableArray", "NSArray", "NSObject"] }

def archiverArrayClass : ArchiverClass :=
  { ClassName := "NSArray", Classes := some ["NSArray", "NSObject"] }

def archiverMutableDataClass : ArchiverClass :=
  { ClassName := "NSMutableData", Classes := some ["NSMutableData", "NSData", "NSObject"] }

def archiverDateClass : ArchiverClass :=
  { ClassName := "NSDate", Classes := some ["NSDate", "NSObject"] }

def archiverUUIDClass : ArchiverClass :=
  { ClassName := "NSUUID", Classes := some ["NSUUID", "NSObject"] }

/-- The type `time.Time`. -/
def archiverDateType : GoType := .struct "time.Time"

/-- The type `uuid.UUID`, a named `[16]byte`. -/
def archiverUUIDType : GoType := .array "uuid.UUID" 16 (.uint .uint8)

def ArchiverClass.isDictionary (c : ArchiverClass) : Bool :=
  c.ClassName == "NSMutableDictionary" || c.ClassName == "NSDictionary"

def ArchiverClass.isArray (c : ArchiverClass) : Bool :=
  c.ClassName == "NSMutableArray" || c.ClassName == "NSArray"

def ArchiverClass.isData (c : ArchiverClass) : Bool :=
  c.ClassName == "NSMutableData" || c.ClassName == "NSData"

def ArchiverClass.isUUID (c : ArchiverClass) : Bool :=
  c.ClassName == "NSUUID"

def ArchiverClass.isDate (c : ArchiverClass) : Bool :=
  c.ClassName == "NSDate"

/-- A pointer to an `archiverClass`, as an object of the table. -/
def ArchiverClass.toObj (c : ArchiverClass) : Obj :=
  .classRef c.ClassName c.Classes

/-- The map `archiverClasses`; the first entry for a type is the one in force. -/
abbrev Registry := List (GoType × ArchiverClass)

/-- The function `ArchiverAddFoundation`. -/
def ArchiverAddFoundation (reg : Registry) (typ : GoType) (name : String)
    (classes : Option (List String)) : Registry :=
  (typ, { ClassName := name, Classes := classes }) :: reg

/-- Lexicographic order on strings, by code point. -/
def ltChars : List Char → List Char → Bool
  | [], [] => false
  | [], _ :: _ => true
  | _ :: _, [] => false
  | a :: as, b :: bs =>
    if a.toNat < b.toNat then true
    else if a.toNat = b.toNat then ltChars as bs
    else false

/-- The assignment `m[k] = v` on a map kept with sorted, distinct keys. -/
def dictInsert (k : String) (v : Obj) : List (String × Obj) → List (String × Obj)
  | [] => [(k, v)]
  | (k', v') :: rest =>
    if ltChars k.data k'.data then (k, v) :: (k', v') :: rest
    else if k = k' then (k, v) :: rest
    else (k', v') :: dictInsert k v rest

/-- The constant `unixToCocoa`. -/
def unixToCocoa : Int := (31 * 365 + 31 / 4 + 1) * (24 * (60 * 60))

/-- The loop of `addObject`: the first index, counted from `i`, of an entry that
`cmp.Equal` finds equal to `obj`. -/
def findEqual (obj : Obj) : List Obj → Nat → Option Nat
  | [], _ => none
  | o :: rest, i => if cmpEqual o obj then some i else findEqual obj rest (i + 1)

/-- The method `Archiver.addObject`: the returned `UID` and the table after the
call. -/
def addObject (objs : List Obj) (obj : Obj) : Nat × List Obj :=
  match findEqual obj objs 0 with
  | some i => (i, objs)
  | none => ((objs ++ [obj]).length - 1, objs ++ [obj])

/-! ## Values -/

/-- The `Location` pointer of a `time.Time`, which `==` and `reflect.DeepEqual`
compare: `utc` is the nil pointer of an instant built in UTC and of the zero `Time`,
`local` is `time.Local`, which `time.Unix` sets, `zone` any other location. -/
inductive TimeLoc where
  | utc
  | local
  | zone (name : String)
  deriving DecidableEq, Repr

/-- A `reflect.Value`, with the type information `reflect` keeps next to it:
`invalid` is the zero `Value` (what `reflect.ValueOf(nil)` returns); a slice, a
pointer or a map is `none` when nil; `time sec nsec loc` is a `time.Time` without
monotonic reading: the instant `sec` seconds and `nsec` nanoseconds after the Unix
epoch, with its `Location`; `iface` is a location of
type `interface{}` with the value it holds; `other` is a value of a type that is
not modelled. -/
inductive GoValue where
  | invalid
  | bool (b : Bool)
  | int (k : IntKind) (n : Int)
  | uint (k : UintKind) (n : Nat)
  | uid (n : Nat)
  | float (k : FloatKind) (f : F64)
  | string (s : String)
  | slice (elem : GoType) (xs : Option (List GoValue))
  | array (name : String) (elem : GoType) (xs : List GoValue)
  | struct (name : String) (fields : List GoValue)
  | time (sec : Int) (nsec : Nat) (loc : TimeLoc)
  | ptr (elem : GoType) (v : Option GoValue)
  | map (key : GoType) (val : GoType) (entries : Option (List (GoValue × GoValue)))
  | func (isNil : Bool)
  | chan (elem : GoType)
  | iface (v : Option GoValue)
  | other (typ : String)
  deriving Repr

/-- The method `reflect.Value.Type`; `none` for the zero `Value`, on which the
method panics. -/
def GoValue.typ : GoValue → Option GoType
  | .invalid => none
  | .bool _ => some .bool
  | .int k _ => some (.int k)
  | .uint k _ => some (.uint k)
  | .uid _ => some .uid
  | .float k _ => some (.float k)
  | .string _ => some .string
  | .slice e _ => some (.slice e)
  | .array name e xs => some (.array name xs.length e)
  | .struct name _ => some (.struct name)
  | .time _ _ _ => some (.struct "time.Time")
  | .ptr e _ => some (.ptr e)
  | .map k v _ => some (.map k v)
  | .func _ => some .func
  | .chan e => some (.chan e)
  | .iface _ => some .iface
  | .other t => some (.other t)

/-- The method `reflect.Value.Kind`. -/
def GoValue.kind (v : GoValue) : Kind :=
  match v.typ with
  | some t => t.kind
  | none => .Invalid

/-- The body of `zeroValue`, with `recur` for the component types. -/
def zeroBody (env : TypeEnv) (recur : GoType → Option GoValue) : GoType → Option GoValue
  | .bool => some (.bool false)
  | .int k => some (.int k 0)
  | .uint k => some (.uint k 0)
  | .uid => some (.uid 0)
  | .float k => some (.float k (.num 0 0))
  | .string => some (.string "")
  | .slice e => some (.slice e none)
  | .array name len e => (recur e).map (fun z => .array name e (List.replicate len z))
  | .struct name =>
    if name = "time.Time" then some (.time (-62135596800) 0 .utc)
    else ((decl env name).mapM (fun f => recur f.Typ)).map (fun fs => .struct name fs)
  | .ptr e => some (.ptr e none)
  | .map k v => some (.map k v none)
  | .func => some (.func true)
  | .chan e => some (.chan e)
  | .iface => some (.iface none)
  | .other t => some (.other t)

/-- The zero value of a type (`reflect.Zero`, `reflect.New(t).Elem()`); the first
argument bounds the nesting of structs and arrays, `none` when it is too small. -/
def zeroValue (env : TypeEnv) : Nat → GoType → Option GoValue
  | 0 => zeroBody env (fun _ => none)
  | fuel + 1 => zeroBody env (zeroValue env fuel)

/-- The call `v.Field(x)` followed by `cont` on the field, whose result is put
back in place. `cont` is told whether the field was reached through an
unexported name (such a value can be read, not set). -/
def onField {α : Type} (env : TypeEnv) (x : Nat) (v : GoValue)
    (cont : GoValue → Bool → GoValue × Res α) : GoValue × Res α :=
  match v with
  | .struct name fields =>
    match fields.get? x, (decl env name).get? x with
    | some fv, some f =>
      let (fv', r) := cont fv (f.PkgPath != "")
      (.struct name (fields.set x fv'), r)
    | _, _ => (v, .panic "reflect: Field index out of range")
  | _ => (v, .panic "reflect: call of reflect.Value.Field on a value that is not a declared struct")

/-- The method `FieldInfo.Value`, followed by `k` on the value it returns: the walk
along the access path `idx`, allocating the nil pointers to embedded structs on
the way, which panics where the pointer cannot be set. `first` tells that no step
was made yet, `addr` that the value is addressable, `ro` that it was reached
through an unexported name. The first component is the walked value after the
allocations and after what `k` did to the field. -/
def atPath {α : Type} (env : TypeEnv) (zero : GoType → Option GoValue)
    (k : GoValue → Bool → Bool → GoValue × Res α) :
    List Nat → Bool → Bool → Bool → GoValue → GoValue × Res α
  | [], _, addr, ro, v => k v addr ro
  | x :: rest, first, addr, ro, v =>
    match first, v with
    | false, .ptr (.struct sname) (some inner) =>
      let (inner', r) := onField env x inner (fun fv ro' => atPath env zero k rest false true ro' fv)
      (.ptr (.struct sname) (some inner'), r)
    | false, .ptr (.struct sname) none =>
      if addr && !ro then
        match zero (.struct sname) with
        | some z =>
          let (inner', r) := onField env x z (fun fv ro' => atPath env zero k rest false true ro' fv)
          (.ptr (.struct sname) (some inner'), r)
        | none => (v, .fuel)
      else (v, .panic "reflect: reflect.Value.Set using a value that cannot be set")
    | _, _ => onField env x v (fun fv ro' => atPath env zero k rest false addr ro' fv)

/-- The payload of a slice or array of bytes (`reflect.Value.Bytes`). -/
def bytesOf (xs : List GoValue) : List Nat :=
  xs.map (fun v => match v with
    | .uint _ n => n
    | _ => 0)

/-- Wrap-around of `int64` arithmetic. -/
def wrapInt64 (x : Int) : Int := (x + 2 ^ 63) % 2 ^ 64 - 2 ^ 63

/-! ## keyed_archiver.go: the encoder -/

/-- The struct `Archiver`: `ArchiverName` is its field `Archiver`, and `Top` the field
`Root` of the `archiverTop` it points to, `none` for a nil pointer. -/
structure Archiver where
  Version : Int
  Objects : List Obj
  ArchiverName : String
  Top : Option Nat
  deriving Repr

/-- The flags of a `reflect.Value` the encoder depends on: `addr`, that the value
is addressable, and `ro`, that it carries `flagRO`, being reached through an
unexported name. A struct the encoder reaches with `flagRO` is a slice element or
was reached from one: it carries `flagStickyRO`, which its fields inherit. -/
structure Flags where
  addr : Bool
  ro : Bool
  deriving DecidableEq, Repr

/-- The shape of `Archiver.marshal`: the table before, the value and its flags; the
table after, and the returned `UID` or what ended the call. -/
abbrev MarshalFn := List Obj → GoValue → Flags → List Obj × Res Nat

/-- The call `ti.Value(val)` of the encoder: the field, and its flags. The field
carries `flagRO` when the struct does or when its own name is unexported. Under
the `flagStickyRO` of the struct no nil pointer on the way can be set: the walk is
then given no zero value, and its running out of them is the panic of `v.Set`. -/
def fieldValue (env : TypeEnv) (zero : GoType → Option GoValue) (val : GoValue) (fl : Flags)
    (ti : FieldInfo) : Res (GoValue × Flags) :=
  match (atPath env (if fl.ro then fun _ => none else zero)
      (fun fv a r => (fv, Res.ok (fv, a, r))) ti.idx true fl.addr fl.ro val).2 with
  | .ok (fv, a, r) => .ok (fv, { addr := a, ro := fl.ro || r })
  | .err e => .err e
  | .panic m => .panic m
  | .fuel =>
    if fl.ro then .panic "reflect: reflect.Value.Set using value obtained using unexported field"
    else .fuel

/-- The call `a.marshal(ti.Value(val))`. -/
def marshalField (env : TypeEnv) (zero : GoType → Option GoValue) (recur : MarshalFn)
    (objs : List Obj) (val : GoValue) (fl : Flags) (ti : FieldInfo) : List Obj × Res Nat :=
  match fieldValue env zero val fl ti with
  | .ok (fv, ffl) => recur objs fv ffl
  | .err e => (objs, .err e)
  | .panic m => (objs, .panic m)
  | .fuel => (objs, .fuel)

/-- The loop of `marshalSlice` over the elements `val.Index(i)`, which are
addressable and carry `flagRO` when the slice does. -/
def marshalElems (recur : MarshalFn) (ro : Bool) : List GoValue → List Obj → List Nat →
    List Obj × Res (List Nat)
  | [], objs, acc => (objs, .ok acc)
  | v :: vs, objs, acc =>
    match recur objs v { addr := true, ro := ro } with
    | (objs', .ok i) => marshalElems recur ro vs objs' (acc ++ [i])
    | (objs', .err e) => (objs', .err e)
    | (objs', .panic m) => (objs', .panic m)
    | (objs', .fuel) => (objs', .fuel)

/-- The method `Archiver.marshalSlice`; `ro` is the `flagRO` of the slice. -/
def marshalSlice (recur : MarshalFn) (objs : List Obj) (val : GoValue) (ro : Bool) :
    List Obj × Res Nat :=
  match val with
  | .slice elem xs =>
    if elem.kind = .Uint8 then
      let c := addObject objs archiverMutableDataClass.toObj
      let r := addObject c.2 (.dataRef (xs.map bytesOf) c.1)
      (r.2, .ok r.1)
    else
      match marshalElems recur ro (xs.getD []) objs [] with
      | (objs1, .ok uids) =>
        let c := addObject objs1 archiverMutableArrayClass.toObj
        let r := addObject c.2 (.arrayRef uids c.1)
        (r.2, .ok r.1)
      | (objs1, .err e) => (objs1, .err e)
      | (objs1, .panic m) => (objs1, .panic m)
      | (objs1, .fuel) => (objs1, .fuel)
  | _ => (objs, .panic "marshalSlice on a value that is not a slice")

/-- The first loop of `marshalStruct`, for a type with a registered class: any
error ends it. -/
def marshalFieldsNS (env : TypeEnv) (zero : GoType → Option GoValue) (recur : MarshalFn)
    (val : GoValue) (fl : Flags) :
    List FieldInfo → List Obj → List (String × Obj) → List Obj × Res (List (String × Obj))
  | [], objs, nsobj => (objs, .ok nsobj)
  | ti :: tis, objs, nsobj =>
    match marshalField env zero recur objs val fl ti with
    | (objs', .ok i) =>
      marshalFieldsNS env zero recur val fl tis objs' (dictInsert ti.Name (.uid i) nsobj)
    | (objs', .err e) => (objs', .err e)
    | (objs', .panic m) => (objs', .panic m)
    | (objs', .fuel) => (objs', .fuel)

/-- The second loop of `marshalStruct`: a field whose encoding returns
`errArchiverNilElem` is skipped when it is tagged `omitempty`. -/
def marshalFieldsTable (env : TypeEnv) (zero : GoType → Option GoValue) (recur : MarshalFn)
    (val : GoValue) (fl : Flags) :
    List FieldInfo → List Obj → List Nat → List Nat → List Obj × Res (List Nat × List Nat)
  | [], objs, keys, objects => (objs, .ok (keys, objects))
  | ti :: tis, objs, keys, objects =>
    match marshalField env zero recur objs val fl ti with
    | (objs', .ok i) =>
      let k := addObject objs' (.string ti.Name)
      marshalFieldsTable env zero recur val fl tis k.2 (keys ++ [k.1]) (objects ++ [i])
    | (objs', .err e) =>
      if e = .nilElem && ti.OmitEmpty then
        marshalFieldsTable env zero recur val fl tis objs' keys objects
      else (objs', .err e)
    | (objs', .panic m) => (objs', .panic m)
    | (objs', .fuel) => (objs', .fuel)

/-- The method `Archiver.marshalStruct`. -/
def marshalStruct (env : TypeEnv) (reg : Registry) (tinfoOf : GoType → Res TypeInfo)
    (zero : GoType → Option GoValue) (recur : MarshalFn)
    (objs : List Obj) (val : GoValue) (fl : Flags) : List Obj × Res Nat :=
  match val with
  | .struct name _ =>
    match tinfoOf (.struct name) with
    | .ok tinfo =>
      match reg.lookup (.struct name) with
      | some cls =>
        match marshalFieldsNS env zero recur val fl tinfo.Fields objs [] with
        | (objs1, .ok nsobj) =>
          let c := addObject objs1 cls.toObj
          let r := addObject c.2 (.dict (dictInsert "$class" (.uid c.1) nsobj))
          (r.2, .ok r.1)
        | (objs1, .err e) => (objs1, .err e)
        | (objs1, .panic m) => (objs1, .panic m)
        | (objs1, .fuel) => (objs1, .fuel)
      | none =>
        match marshalFieldsTable env zero recur val fl tinfo.Fields objs [] [] with
        | (objs1, .ok (keys, objects)) =>
          let c := addObject objs1 archiverMutableDictionaryClass.toObj
          let r := addObject c.2 (.tableRef keys objects c.1)
          (r.2, .ok r.1)
        | (objs1, .err e) => (objs1, .err e)
        | (objs1, .panic m) => (objs1, .panic m)
        | (objs1, .fuel) => (objs1, .fuel)
    | .err e => (objs, .err e)
    | .panic m => (objs, .panic m)
    | .fuel => (objs, .fuel)
  | _ => (objs, .panic "marshalStruct on a value that is not a declared struct")

/-- The `switch val.Kind()` of `Archiver.marshal`, after the pointer step. The
branches of `uuid.UUID` and `time.Time` call `val.Interface()`, which panics on a
value that carries `flagRO`. -/
def marshalKind (env : TypeEnv) (reg : Registry) (tinfoOf : GoType → Res TypeInfo)
    (zero : GoType → Option GoValue) (recur : MarshalFn)
    (objs : List Obj) (val : GoValue) (fl : Flags) : List Obj × Res Nat :=
  match val with
  | .int _ n => let r := addObject objs (.int .int64 n); (r.2, .ok r.1)
  | .uint _ n => let r := addObject objs (.uint .uint64 n); (r.2, .ok r.1)
  | .uid n => let r := addObject objs (.uint .uint64 n); (r.2, .ok r.1)
  | .float _ f => let r := addObject objs (.float .float64 f); (r.2, .ok r.1)
  | .bool b => let r := addObject objs (.bool b); (r.2, .ok r.1)
  | .string str =>
    if str = "$null" then (objs, .ok 0)
    else let r := addObject objs (.string str); (r.2, .ok r.1)
  | .slice _ _ => marshalSlice recur objs val fl.ro
  | .array name elem xs =>
    if GoType.array name xs.length elem = archiverUUIDType then
      if fl.ro then
        (objs, .panic
          "reflect.Value.Interface: cannot return value obtained from unexported field or method")
      else
        let c := addObject objs archiverUUIDClass.toObj
        let r := addObject c.2 (.uuidRef (some (bytesOf xs)) c.1)
        (r.2, .ok r.1)
    else (objs, .err (.other "unknow array"))
  | .time sec _ _ =>
    if fl.ro then
      (objs, .panic
        "reflect.Value.Interface: cannot return value obtained from unexported field or method")
    else
      let c := addObject objs archiverDateClass.toObj
      let r := addObject c.2 (.dateRef (F64.ofInt64 (wrapInt64 (sec - unixToCocoa))) c.1)
      (r.2, .ok r.1)
  | .struct _ _ => marshalStruct env reg tinfoOf zero recur objs val fl
  | .invalid => (objs, .panic "reflect: call of reflect.Value.Type on zero Value")
  | _ => (objs, .err (.other "unknow type"))

/-- The body of `Archiver.marshal`, the recursive call being `recur`: `val.Elem()`
is addressable and keeps the `flagRO` of the pointer. -/
def marshalBody (env : TypeEnv) (reg : Registry) (tinfoOf : GoType → Res TypeInfo)
    (zero : GoType → Option GoValue) (recur : MarshalFn) : MarshalFn :=
  fun objs val fl =>
    match val with
    | .ptr _ none => (objs, .err .nilElem)
    | .ptr _ (some v) => marshalKind env reg tinfoOf zero recur objs v { addr := true, ro := fl.ro }
    | v => marshalKind env reg tinfoOf zero recur objs v fl

/-- The method `Archiver.marshal`. `tfuel` bounds the recursion of `GetTypeInfo` and
the nesting of zero values, the next argument the depth of the recursion of
`marshal` itself. -/
def marshal (env : TypeEnv) (reg : Registry) (tfuel : Nat) : Nat → MarshalFn
  | 0 => marshalBody env reg (GetTypeInfo env tfuel) (zeroValue env tfuel)
      (fun objs _ _ => (objs, .fuel))
  | fuel + 1 => marshalBody env reg (GetTypeInfo env tfuel) (zeroValue env tfuel)
      (marshal env reg tfuel fuel)

/-- The flags of `reflect.ValueOf(v)`: not addressable, no `flagRO`. -/
def Flags.root : Flags := { addr := false, ro := false }

/-- The method `Archiver.Marshal`, up to the call of the external encoder: the
archiver it hands to the encoder, or what ended the call before. The argument is
`reflect.ValueOf(v)`. -/
def Marshal (env : TypeEnv) (reg : Registry) (tfuel fuel : Nat) (a : Archiver) (v : GoValue) :
    Archiver × Res Unit :=
  let objs0 := (addObject [] (.string "$null")).2
  match marshal env reg tfuel fuel objs0 v Flags.root with
  | (objs, .ok index) =>
    ({ Version := 100000, Objects := objs, ArchiverName := "NSKeyedArchiver", Top := some index },
      .ok ())
  | (objs, .err e) =>
    ({ Version := 100000, Objects := objs, ArchiverName := "NSKeyedArchiver", Top := a.Top }, .err e)
  | (objs, .panic m) =>
    ({ Version := 100000, Objects := objs, ArchiverName := "NSKeyedArchiver", Top := a.Top },
      .panic m)
  | (objs, .fuel) =>
    ({ Version := 100000, Objects := objs, ArchiverName := "NSKeyedArchiver", Top := a.Top }, .fuel)

/-! ## Writing through a `reflect.Value` -/

/-- Two's complement wrap-around to `bits` bits, signed. -/
def wrapInt (bits : Nat) (x : Int) : Int :=
  (x + 2 ^ (bits - 1)) % 2 ^ bits - 2 ^ (bits - 1)

/-- Two's complement wrap-around to `bits` bits, unsigned. -/
def wrapUint (bits : Nat) (x : Int) : Nat :=
  (x % 2 ^ bits).toNat

/-- The methods `reflect.Value.SetXxx` and `Set`: they panic on a value that is not
addressable or was reached through an unexported name. -/
def setVal (addr ro : Bool) (old new : GoValue) : GoValue × Res Unit :=
  if addr && !ro then (new, .ok ())
  else (old, .panic "reflect: value cannot be set")

/-- The `switch val.Kind()` that stores an integer `x`: `val.SetInt(int64(x))` for
the signed kinds, `val.SetUint(uint64(x))` for the unsigned ones; `none` for the
`default` branch. -/
def storeInteger (val : GoValue) (x : Int) : Option GoValue :=
  match val with
  | .int k _ => some (.int k (wrapInt k.bits (wrapInt 64 x)))
  | .uint k _ => some (.uint k (wrapUint k.bits (wrapUint 64 x)))
  | .uid _ => some (.uid (wrapUint 64 (wrapUint 64 x)))
  | _ => none

/-- The payload of `SetBytes`, as a slice with elements of type `elem`. -/
def bytesValue (elem : GoType) (b : Option (List Nat)) : GoValue :=
  .slice elem (b.map (fun bs => bs.map (fun n => GoValue.uint .uint8 n)))

/-- The opening of both `unmarshal` methods: a nil pointer is allocated, a pointer
is followed, and `k` goes on with the value, told whether it is addressable and
whether it was reached through an unexported name. -/
def ptrStep (zero : GoType → Option GoValue) (val : GoValue) (addr ro : Bool)
    (k : GoValue → Bool → Bool → GoValue × Res Unit) : GoValue × Res Unit :=
  match val with
  | .ptr e none =>
    if addr && !ro then
      match zero e with
      | some z =>
        let (z', r) := k z true ro
        (.ptr e (some z'), r)
      | none => (val, .fuel)
    else (val, .panic "reflect: reflect.Value.Set using a value that cannot be set")
  | .ptr e (some v) =>
    let (v', r) := k v true ro
    (.ptr e (some v'), r)
  | _ => k val addr ro

mutual
/-- The call `reflect.ValueOf(v)` for a dynamic value `v`. -/
def Obj.toValue : Obj → GoValue
  | .null => .invalid
  | .bool b => .bool b
  | .int k n => .int k n
  | .uint k n => .uint k n
  | .float k f => .float k f
  | .string s => .string s
  | .bytes b => bytesValue (.uint .uint8) b
  | .uid i => .uid i
  | .array xs => .slice .iface (some (Obj.toValueList xs))
  | .dict kvs => .map .string .iface (some (Obj.toValueDict kvs))
  | .time sec nsec => .time sec nsec .utc
  | .other t => .other t
  | .classRef n cs =>
    .ptr (.struct "plist.archiverClass") (some (.struct "plist.archiverClass"
      [.string n, .slice .string (cs.map (fun l => l.map GoValue.string))]))
  | .uuidRef b c =>
    .ptr (.struct "plist.archiverUUID") (some (.struct "plist.archiverUUID"
      [bytesValue (.uint .uint8) b, .uid c]))
  | .dateRef t c =>
    .ptr (.struct "plist.archiverDate") (some (.struct "plist.archiverDate"
      [.float .float64 t, .uid c]))
  | .dataRef b c =>
    .ptr (.struct "plist.archiverData") (some (.struct "plist.archiverData"
      [bytesValue (.uint .uint8) b, .uid c]))
  | .arrayRef os c =>
    .ptr (.struct "plist.archiverArray") (some (.struct "plist.archiverArray"
      [.slice .iface (if os = [] then none else some (os.map (fun i => .iface (some (.uid i))))),
       .uid c]))
  | .tableRef ks os c =>
    .ptr (.struct "plist.archiverTable") (some (.struct "plist.archiverTable"
      [.slice .uid (if ks = [] then none else some (ks.map GoValue.uid)),
       .slice .iface (if os = [] then none else some (os.map (fun i => .iface (some (.uid i))))),
       .uid c]))
/-- The elements of a `[]interface{}`. -/
def Obj.toValueList : List Obj → List GoValue
  | [] => []
  | x :: xs => .iface (some (Obj.toValue x)) :: Obj.toValueList xs
/-- The entries of a `map[string]interface{}`. -/
def Obj.toValueDict : List (String × Obj) → List (GoValue × GoValue)
  | [] => []
  | (k, x) :: xs => (.string k, .iface (some (Obj.toValue x))) :: Obj.toValueDict xs
end

/-- A dynamic value `dyn` may be stored where a `t` is expected: the types are
identical, or `t` is `interface{}` (the zero `Value` is not assignable). -/
def assignable (dyn : GoValue) (t : GoType) : Bool :=
  match dyn.typ with
  | some dt => dt == t || (t == .iface && dyn.kind != .Interface)
  | none => false

/-- What is stored in a location of type `t` when `dyn` is assigned to it. -/
def boxFor (t : GoType) (dyn : GoValue) : GoValue :=
  if t == .iface then .iface (some dyn) else dyn

/-- The assignment `m[k] = v` on the entries of a Go map. -/
def mapSet (k v : GoValue) (kEq : GoValue → Bool) :
    List (GoValue × GoValue) → List (GoValue × GoValue)
  | [] => [(k, v)]
  | (k', v') :: rest => if kEq k' then (k, v) :: rest else (k', v') :: mapSet k v kEq rest

/-- The deletion `delete(m, k)` on the entries of a Go map. -/
def mapDelete (kEq : GoValue → Bool) (m : List (GoValue × GoValue)) : List (GoValue × GoValue) :=
  m.filter (fun p => !kEq p.1)

/-- The key of a map entry is the string `s`, directly or in an interface. -/
def isStringKey (s : String) : GoValue → Bool
  | .string t => s == t
  | .iface (some (.string t)) => s == t
  | _ => false

/-- The loop `for k, v := range pval { val.SetMapIndex(reflect.ValueOf(k),
reflect.ValueOf(v)) }` on the entries of the target map, whose key and element
types are `kt` and `vt`: a key or a value that is not assignable panics, and a
nil value deletes the key. -/
def setMapEntries (kt vt : GoType) :
    List (String × Obj) → List (GoValue × GoValue) → Res (List (GoValue × GoValue))
  | [], m => .ok m
  | (k, v) :: rest, m =>
    if !assignable (.string k) kt then .panic "reflect: key is not assignable"
    else
      match v with
      | .null => setMapEntries kt vt rest (mapDelete (isStringKey k) m)
      | _ =>
        if !assignable v.toValue vt then .panic "reflect: value is not assignable"
        else
          setMapEntries kt vt rest
            (mapSet (boxFor kt (.string k)) (boxFor vt v.toValue) (isStringKey k) m)

/-! ## map_marshal.go -/

/-- The shape of the `unmarshal` methods: the decoded value, the target, whether the
target is addressable and whether it was reached through an unexported name; the
target after the call, and how the call ended. -/
abbrev UnmarshalFn := Obj → GoValue → Bool → Bool → GoValue × Res Unit

/-- The loop of `Dictionary.unmarshalSlice` over the elements `val.Index(i)`: the
first error ends it. -/
def dictUnmarshalElems (recur : UnmarshalFn) (ro : Bool) :
    List Obj → List GoValue → List GoValue × Res Unit
  | v :: vs, slot :: slots =>
    match recur v slot true ro with
    | (slot', .ok _) =>
      let (slots', r) := dictUnmarshalElems recur ro vs slots
      (slot' :: slots', r)
    | (slot', r) => (slot' :: slots, r)
  | _, slots => (slots, .ok ())

/-- The method `Dictionary.unmarshalSlice`. -/
def dictUnmarshalSlice (zero : GoType → Option GoValue) (recur : UnmarshalFn)
    (array : List Obj) (val : GoValue) (addr ro : Bool) : GoValue × Res Unit :=
  match val with
  | .slice elem _ =>
    match zero elem with
    | some z =>
      if addr && !ro then
        let (xs, r) := dictUnmarshalElems recur ro array (List.replicate array.length z)
        (.slice elem (some xs), r)
      else (val, .panic "reflect: value cannot be set")
    | none => (val, .fuel)
  | _ => (val, .panic "reflect: MakeSlice of a type that is not a slice")

/-- The loop of the `unmarshalStruct` methods over the fields of the descriptor:
a field whose name is a key of `kvs` is decoded from the value under that key. -/
def unmarshalFields (env : TypeEnv) (zero : GoType → Option GoValue) (recur : UnmarshalFn)
    (kvs : List (String × Obj)) (addr ro : Bool) :
    List FieldInfo → GoValue → GoValue × Res Unit
  | [], val => (val, .ok ())
  | finfo :: rest, val =>
    match kvs.lookup finfo.Name with
    | some dval =>
      match atPath env zero (fun fv a r => recur dval fv a r) finfo.idx true addr ro val with
      | (val', .ok _) => unmarshalFields env zero recur kvs addr ro rest val'
      | (val', r) => (val', r)
    | none => unmarshalFields env zero recur kvs addr ro rest val

/-- The method `Dictionary.unmarshalStruct`. -/
def dictUnmarshalStruct (env : TypeEnv) (tinfoOf : GoType → Res TypeInfo)
    (zero : GoType → Option GoValue) (recur : UnmarshalFn)
    (dict : List (String × Obj)) (val : GoValue) (addr ro : Bool) : GoValue × Res Unit :=
  match val.typ with
  | some typ =>
    match tinfoOf typ with
    | .ok tinfo => unmarshalFields env zero recur dict addr ro tinfo.Fields val
    | .err e => (val, .err e)
    | .panic m => (val, .panic m)
    | .fuel => (val, .fuel)
  | none => (val, .panic "reflect: call of reflect.Value.Type on zero Value")

/-- The `switch pval := v.(type)` of `Dictionary.unmarshal`, after the pointer
step. -/
def dictUnmarshalKind (env : TypeEnv) (tinfoOf : GoType → Res TypeInfo)
    (zero : GoType → Option GoValue) (recur : UnmarshalFn) : UnmarshalFn :=
  fun v val addr ro =>
    match v with
    | .string pval =>
      match val with
      | .string _ => setVal addr ro val (.string pval)
      | _ => (val, .err (.other "not string field"))
    | .int k pval =>
      if k = .int then (val, .err (.other "not plist type"))
      else
        match storeInteger val pval with
        | some new => setVal addr ro val new
        | none => (val, .err (.other "not integer field"))
    | .uint k pval =>
      if k = .uint ∨ k = .uintptr then (val, .err (.other "not plist type"))
      else
        match storeInteger val pval with
        | some new => setVal addr ro val new
        | none => (val, .err (.other "not integer field"))
    | .float .float64 pval =>
      match val with
      | .float .float64 _ => setVal addr ro val (.float .float64 pval)
      | .float .float32 _ => setVal addr ro val (.float .float32 pval.toFloat32)
      | _ => (val, .err (.other "not float field"))
    | .bool pval =>
      match val with
      | .bool _ => setVal addr ro val (.bool pval)
      | _ => (val, .err (.other "not bool field"))
    | .bytes pval =>
      match val with
      | .slice elem _ =>
        if elem.kind = .Uint8 then setVal addr ro val (bytesValue elem pval)
        else (val, .err (.other "not data field"))
      | _ => (val, .err (.other "not data field"))
    | .uid pval =>
      match storeInteger val pval with
      | some new => setVal addr ro val new
      | none =>
        match val.typ with
        | some t =>
          if assignable (.uid pval) t then setVal addr ro val (boxFor t (.uid pval))
          else (val, .panic "reflect.Set: value of type plist.UID is not assignable")
        | none => (val, .panic "reflect: call of reflect.Value.Set on zero Value")
    | .array pval =>
      match val with
      | .slice _ _ => dictUnmarshalSlice zero recur pval val addr ro
      | _ => (val, .err (.other "not slice field"))
    | .dict pval =>
      match val with
      | .map kt vt _ =>
        if addr && !ro then
          match setMapEntries kt vt pval [] with
          | .ok m => (.map kt vt (some m), .ok ())
          | .err e => (.map kt vt (some []), .err e)
          | .panic msg => (.map kt vt (some []), .panic msg)
          | .fuel => (.map kt vt (some []), .fuel)
        else (val, .panic "reflect: value cannot be set")
      | .struct _ _ => dictUnmarshalStruct env tinfoOf zero recur pval val addr ro
      | .time _ _ _ => dictUnmarshalStruct env tinfoOf zero recur pval val addr ro
      | _ => (val, .err (.other "not map or struct field"))
    | _ => (val, .err (.other "not plist type"))

/-- The body of `Dictionary.unmarshal`, the recursive call being `recur`. -/
def dictUnmarshalBody (env : TypeEnv) (tinfoOf : GoType → Res TypeInfo)
    (zero : GoType → Option GoValue) (recur : UnmarshalFn) : UnmarshalFn :=
  fun v val addr ro => ptrStep zero val addr ro (dictUnmarshalKind env tinfoOf zero recur v)

/-- The method `Dictionary.unmarshal`. `tfuel` bounds the recursion of `GetTypeInfo`
and the nesting of zero values, the next argument the depth of the recursion of
`unmarshal` itself. -/
def dictUnmarshal (env : TypeEnv) (tfuel : Nat) : Nat → UnmarshalFn
  | 0 => dictUnmarshalBody env (GetTypeInfo env tfuel) (zeroValue env tfuel)
      (fun _ val _ _ => (val, .fuel))
  | fuel + 1 => dictUnmarshalBody env (GetTypeInfo env tfuel) (zeroValue env tfuel)
      (dictUnmarshal env tfuel fuel)

/-- The method `Dictionary.Unmarshal` on a pointer `v`, which `reflect.ValueOf`
makes a value that is not addressable. -/
def DictionaryUnmarshal (env : TypeEnv) (tfuel : Nat) (m : List (String × Obj)) (v : GoValue) :
    GoValue × Res Unit :=
  dictUnmarshal env tfuel tfuel (.dict m) v false false

/-! ## keyed_archiver.go: the decoder -/

/-- The struct a wrapper pointer points to, once `Dictionary.Unmarshal` filled it. -/
def pointee : GoValue → List GoValue
  | .ptr _ (some (.struct _ fields)) => fields
  | _ => []

/-- A string field of a wrapper struct. -/
def stringField (fields : List GoValue) (i : Nat) : String :=
  match fields.get? i with
  | some (.string s) => s
  | _ => ""

/-- A `[]byte` field of a wrapper struct. -/
def bytesField (fields : List GoValue) (i : Nat) : Option (List Nat) :=
  match fields.get? i with
  | some (.slice _ xs) => xs.map bytesOf
  | _ => none

/-- A slice field of a wrapper struct, `[]` when nil. -/
def sliceField (fields : List GoValue) (i : Nat) : List GoValue :=
  match fields.get? i with
  | some (.slice _ (some xs)) => xs
  | _ => []

/-- A `float64` field of a wrapper struct. -/
def floatField (fields : List GoValue) (i : Nat) : F64 :=
  match fields.get? i with
  | some (.float _ f) => f
  | _ => .num 0 0

/-- The value `&archiverClass{}`. -/
def newArchiverClass : GoValue :=
  .ptr (.struct "plist.archiverClass")
    (some (.struct "plist.archiverClass" [.string "", .slice .string none]))

/-- The value `&archiverDate{}`. -/
def newArchiverDate : GoValue :=
  .ptr (.struct "plist.archiverDate")
    (some (.struct "plist.archiverDate" [.float .float64 (.num 0 0), .uid 0]))

/-- The value `&archiverData{}`. -/
def newArchiverData : GoValue :=
  .ptr (.struct "plist.archiverData")
    (some (.struct "plist.archiverData" [.slice (.uint .uint8) none, .uid 0]))

/-- The value `&archiverUUID{}`. -/
def newArchiverUUID : GoValue :=
  .ptr (.struct "plist.archiverUUID")
    (some (.struct "plist.archiverUUID" [.slice (.uint .uint8) none, .uid 0]))

/-- The value `&archiverArray{}`. -/
def newArchiverArray : GoValue :=
  .ptr (.struct "plist.archiverArray")
    (some (.struct "plist.archiverArray" [.slice .iface none, .uid 0]))

/-- The value `&archiverTable{}`. -/
def newArchiverTable : GoValue :=
  .ptr (.struct "plist.archiverTable")
    (some (.struct "plist.archiverTable" [.slice .uid none, .slice .iface none, .uid 0]))

/-- The method `Archiver.getClass`: the type assertions and the indexing panic
where they fail. `dictU` is `Dictionary.Unmarshal`. -/
def getClass (dictU : List (String × Obj) → GoValue → GoValue × Res Unit)
    (objects : List Obj) (dict : List (String × Obj)) : Res ArchiverClass :=
  match dict.lookup "$class" with
  | some (.uid i) =>
    match objects.get? i with
    | some (.dict dval) =>
      match dictU dval newArchiverClass with
      | (cls, .ok _) =>
        .ok { ClassName := stringField (pointee cls) 0,
              Classes := match (pointee cls).get? 1 with
                | some (.slice _ (some xs)) =>
                  some (xs.map (fun x => match x with
                    | .string t => t
                    | _ => ""))
                | _ => none }
      | (_, .err e) => .err e
      | (_, .panic m) => .panic m
      | (_, .fuel) => .fuel
    | some _ => .panic "interface conversion: interface {} is not map[string]interface {}"
    | none => .panic "index out of range"
  | _ => .panic "interface conversion: interface {} is not plist.UID"

/-- The method `Archiver.unmarshalMap`: a nil map panics on the first entry. -/
def unmarshalMap (pval : List (String × Obj)) (val : GoValue) : GoValue × Res Unit :=
  match val with
  | .map kt vt entries =>
    match pval, entries with
    | [], _ => (val, .ok ())
    | _ :: _, none => (val, .panic "assignment to entry in nil map")
    | _ :: _, some m =>
      match setMapEntries kt vt pval m with
      | .ok m' => (.map kt vt (some m'), .ok ())
      | .err e => (val, .err e)
      | .panic msg => (val, .panic msg)
      | .fuel => (val, .fuel)
  | _ => (val, .panic "reflect: call of reflect.Value.SetMapIndex on a value that is not a map")

/-- The method `Archiver.unmarshalDate`. -/
def unmarshalDate (dictU : List (String × Obj) → GoValue → GoValue × Res Unit)
    (pval : List (String × Obj)) (val : GoValue) (addr ro : Bool) : GoValue × Res Unit :=
  match dictU pval newArchiverDate with
  | (date, .ok _) =>
    setVal addr ro val
      (.time (wrapInt64 (F64.toInt64 (floatField (pointee date) 0) + unixToCocoa)) 0 .local)
  | (_, r) => (val, r)

/-- The method `Archiver.unmarshalData`. -/
def unmarshalData (dictU : List (String × Obj) → GoValue → GoValue × Res Unit)
    (pval : List (String × Obj)) (val : GoValue) (addr ro : Bool) : GoValue × Res Unit :=
  match dictU pval newArchiverData with
  | (data, .ok _) =>
    match val with
    | .slice elem _ =>
      if elem.kind = .Uint8 then setVal addr ro val (bytesValue elem (bytesField (pointee data) 0))
      else (val, .panic "reflect.Value.SetBytes of a slice that is not a byte slice")
    | _ => (val, .panic "reflect: call of reflect.Value.SetBytes on a value that is not a slice")
  | (_, r) => (val, r)

/-- The method `Archiver.unmarshalUUID`. -/
def unmarshalUUID (dictU : List (String × Obj) → GoValue → GoValue × Res Unit)
    (pval : List (String × Obj)) (val : GoValue) (addr ro : Bool) : GoValue × Res Unit :=
  match dictU pval newArchiverUUID with
  | (uid, .ok _) =>
    match val with
    | .slice elem _ =>
      if elem.kind = .Uint8 then setVal addr ro val (bytesValue elem (bytesField (pointee uid) 0))
      else (val, .panic "reflect.Value.SetBytes of a slice that is not a byte slice")
    | _ => (val, .panic "reflect: call of reflect.Value.SetBytes on a value that is not a slice")
  | (_, r) => (val, r)

/-- The loop of `Archiver.unmarshalSlice` over the elements `val.Index(i)`: the
error an element returns is dropped. -/
def unmarshalElems (recur : UnmarshalFn) (ro : Bool) :
    List Obj → List GoValue → List GoValue × Res Unit
  | v :: vs, slot :: slots =>
    match recur v slot true ro with
    | (slot', .ok _) =>
      let (slots', r) := unmarshalElems recur ro vs slots
      (slot' :: slots', r)
    | (slot', .err _) =>
      let (slots', r) := unmarshalElems recur ro vs slots
      (slot' :: slots', r)
    | (slot', .panic m) => (slot' :: slots, .panic m)
    | (slot', .fuel) => (slot' :: slots, .fuel)
  | _, slots => (slots, .ok ())

/-- The method `Archiver.unmarshalSlice`. -/
def unmarshalSlice (zero : GoType → Option GoValue) (recur : UnmarshalFn)
    (array : List Obj) (val : GoValue) (addr ro : Bool) : GoValue × Res Unit :=
  match val with
  | .slice elem _ =>
    match zero elem with
    | some z =>
      if addr && !ro then
        let (xs, r) := unmarshalElems recur ro array (List.replicate array.length z)
        (.slice elem (some xs), r)
      else (val, .panic "reflect: value cannot be set")
    | none => (val, .fuel)
  | _ => (val, .panic "reflect: MakeSlice of a type that is not a slice")

/-- The loop of `Archiver.unmarshalArray` over `arr.Objects`, `val` being a slice
with elements of type `elem` that holds `acc`. -/
def unmarshalArrayLoop (zero : GoType → Option GoValue) (recur : UnmarshalFn)
    (objects : List Obj) (elem : GoType) (addr ro : Bool) :
    List GoValue → Option (List GoValue) → Option (List GoValue) × Res Unit
  | [], acc => (acc, .ok ())
  | v :: vs, acc =>
    match v with
    | .iface (some (.uid vuid)) =>
      match zero elem with
      | some z =>
        match objects.get? vuid with
        | some o =>
          match recur o (.ptr elem (some z)) false false with
          | (.ptr _ (some item), .ok _) =>
            if addr && !ro then
              unmarshalArrayLoop zero recur objects elem addr ro vs (some (acc.getD [] ++ [item]))
            else (acc, .panic "reflect: value cannot be set")
          | (_, .ok _) => (acc, .panic "reflect: call of reflect.Value.Elem on a nil pointer")
          | (_, r) => (acc, r)
        | none => (acc, .panic "index out of range")
      | none => (acc, .fuel)
    | .iface (some dyn) =>
      if assignable dyn elem then
        if addr && !ro then
          unmarshalArrayLoop zero recur objects elem addr ro vs
            (some (acc.getD [] ++ [boxFor elem dyn]))
        else (acc, .panic "reflect: value cannot be set")
      else (acc, .panic "reflect.Append: value is not assignable")
    | _ => (acc, .panic "reflect: call of reflect.Value.Type on zero Value")

/-- The method `Archiver.unmarshalArray`. -/
def unmarshalArray (dictU : List (String × Obj) → GoValue → GoValue × Res Unit)
    (zero : GoType → Option GoValue) (recur : UnmarshalFn) (objects : List Obj)
    (dict : List (String × Obj)) (val : GoValue) (addr ro : Bool) : GoValue × Res Unit :=
  match dictU dict newArchiverArray with
  | (arr, .ok _) =>
    match val with
    | .slice elem xs =>
      let (xs', r) :=
        unmarshalArrayLoop zero recur objects elem addr ro (sliceField (pointee arr) 0) xs
      (.slice elem xs', r)
    | _ => (val, .panic "reflect: Elem of a type that is not a slice")
  | (_, r) => (val, r)

/-- The loop of `Archiver.unmarshalNSType` over the fields of the descriptor. -/
def unmarshalNSFields (env : TypeEnv) (zero : GoType → Option GoValue) (recur : UnmarshalFn)
    (objects : List Obj) (pval : List (String × Obj)) (addr ro : Bool) :
    List FieldInfo → GoValue → GoValue × Res Unit
  | [], val => (val, .ok ())
  | finfo :: rest, val =>
    let value : Res Obj :=
      match pval.lookup finfo.Name with
      | some (.uid uindex) =>
        match objects.get? uindex with
        | some o => .ok o
        | none => .panic "index out of range"
      | some o => .ok o
      | none => .ok .null
    match value with
    | .ok o =>
      match atPath env zero (fun fv a r => recur o fv a r) finfo.idx true addr ro val with
      | (val', .ok _) => unmarshalNSFields env zero recur objects pval addr ro rest val'
      | (val', r) => (val', r)
    | .err e => (val, .err e)
    | .panic m => (val, .panic m)
    | .fuel => (val, .fuel)

/-- The method `Archiver.unmarshalNSType`. -/
def unmarshalNSType (env : TypeEnv) (tinfoOf : GoType → Res TypeInfo)
    (zero : GoType → Option GoValue) (recur : UnmarshalFn) (objects : List Obj)
    (pval : List (String × Obj)) (val : GoValue) (addr ro : Bool) : GoValue × Res Unit :=
  match val.typ with
  | some typ =>
    match tinfoOf typ with
    | .ok tinfo => unmarshalNSFields env zero recur objects pval addr ro tinfo.Fields val
    | .err e => (val, .err e)
    | .panic m => (val, .panic m)
    | .fuel => (val, .fuel)
  | none => (val, .panic "reflect: call of reflect.Value.Type on zero Value")

/-- The first loop of `Archiver.unmarshalStruct`: the map `kvs`, the entry in force
for a key being the first in the list. The objects of a decoded `archiverTable`
are `UID`s held in interfaces. -/
def tableEntries (objects : List Obj) (tabObjects : List GoValue) :
    List GoValue → Nat → List (String × Obj) → Res (List (String × Obj))
  | [], _, kvs => .ok kvs
  | keyI :: keys, i, kvs =>
    match keyI with
    | .uid k =>
      match objects.get? k with
      | some (.string key) =>
        match tabObjects.get? i with
        | some (.iface (some (.uid uid))) =>
          match objects.get? uid with
          | some o => tableEntries objects tabObjects keys (i + 1) ((key, o) :: kvs)
          | none => .panic "index out of range"
        | some _ => tableEntries objects tabObjects keys (i + 1) ((key, .null) :: kvs)
        | none => .panic "index out of range"
      | some _ => .panic "interface conversion: interface {} is not string"
      | none => .panic "index out of range"
    | _ => .panic "index out of range"

/-- The method `Archiver.unmarshalStruct`. -/
def unmarshalStruct (env : TypeEnv) (tinfoOf : GoType → Res TypeInfo)
    (dictU : List (String × Obj) → GoValue → GoValue × Res Unit)
    (zero : GoType → Option GoValue) (recur : UnmarshalFn) (objects : List Obj)
    (dict : List (String × Obj)) (val : GoValue) (addr ro : Bool) : GoValue × Res Unit :=
  match val.typ with
  | some typ =>
    match tinfoOf typ with
    | .ok tinfo =>
      match dictU dict newArchiverTable with
      | (tab, .ok _) =>
        match tableEntries objects (sliceField (pointee tab) 1) (sliceField (pointee tab) 0) 0 []
          with
        | .ok kvs => unmarshalFields env zero recur kvs addr ro tinfo.Fields val
        | .err e => (val, .err e)
        | .panic m => (val, .panic m)
        | .fuel => (val, .fuel)
      | (_, r) => (val, r)
    | .err e => (val, .err e)
    | .panic m => (val, .panic m)
    | .fuel => (val, .fuel)
  | none => (val, .panic "reflect: call of reflect.Value.Type on zero Value")

/-- The `case reflect.Struct` of `Archiver.unmarshal`, which `case reflect.Ptr` falls
through to. -/
def unmarshalStructCase (env : TypeEnv) (tinfoOf : GoType → Res TypeInfo)
    (dictU : List (String × Obj) → GoValue → GoValue × Res Unit)
    (zero : GoType → Option GoValue) (recur : UnmarshalFn) (objects : List Obj)
    (cls : ArchiverClass) (pval : List (String × Obj)) (val : GoValue) (addr ro : Bool) :
    GoValue × Res Unit :=
  if cls.isDictionary then unmarshalStruct env tinfoOf dictU zero recur objects pval val addr ro
  else if cls.isDate && val.typ = some archiverDateType then unmarshalDate dictU pval val addr ro
  else if cls.isUUID && val.typ = some archiverUUIDType then unmarshalUUID dictU pval val addr ro
  else unmarshalNSType env tinfoOf zero recur objects pval val addr ro

/-- The `switch pval := v.(type)` of `Archiver.unmarshal`, after the pointer step. -/
def unmarshalKind (env : TypeEnv) (tinfoOf : GoType → Res TypeInfo)
    (dictU : List (String × Obj) → GoValue → GoValue × Res Unit)
    (zero : GoType → Option GoValue) (recur : UnmarshalFn) (objects : List Obj) : UnmarshalFn :=
  fun v val addr ro =>
    match v with
    | .string pval =>
      match val with
      | .string _ => setVal addr ro val (.string pval)
      | _ => (val, .err (.other "not string field"))
    | .uint .uint64 pval =>
      match storeInteger val pval with
      | some new => setVal addr ro val new
      | none => (val, .err (.other "not int field"))
    | .float .float64 pval =>
      match val with
      | .float .float64 _ => setVal addr ro val (.float .float64 pval)
      | .float .float32 _ => setVal addr ro val (.float .float32 pval.toFloat32)
      | _ => (val, .err (.other "not float field"))
    | .bool pval =>
      match val with
      | .bool _ => setVal addr ro val (.bool pval)
      | _ => (val, .err (.other "not bool field"))
    | .bytes pval =>
      match val with
      | .slice elem _ =>
        if elem.kind = .Uint8 then setVal addr ro val (bytesValue elem pval)
        else (val, .err (.other "not data field"))
      | _ => (val, .err (.other "not data field"))
    | .uid pval =>
      match storeInteger val pval with
      | some new => setVal addr ro val new
      | none => (val, .err (.other "not UID/int field"))
    | .array pval =>
      match val with
      | .slice _ _ => unmarshalSlice zero recur pval val addr ro
      | _ => (val, .err (.other "not slice field"))
    | .dict pval =>
      match getClass dictU objects pval with
      | .ok cls =>
        match val.kind with
        | .Map =>
          if !cls.isDictionary then (val, .err (.other "not map field"))
          else unmarshalMap pval val
        | .Array =>
          if cls.isUUID && val.typ = some archiverUUIDType then
            match pval.lookup "NS.uuidbytes" with
            | some (.bytes b) =>
              if (b.getD []).length = 16 then
                setVal addr ro val
                  (.array "uuid.UUID" (.uint .uint8)
                    ((b.getD []).map (fun n => GoValue.uint .uint8 n)))
              else (val, .err (.other "uuid: UUID must be exactly 16 bytes long"))
            | _ => (val, .panic "interface conversion: interface {} is not []uint8")
          else (val, .err (.other "not uid type"))
        | .Slice =>
          match val with
          | .slice elem _ =>
            if cls.isData && elem.kind = .Uint8 then unmarshalData dictU pval val addr ro
            else if cls.isArray then unmarshalArray dictU zero recur objects pval val addr ro
            else (val, .err (.other "not data type"))
          | _ => (val, .err (.other "not data type"))
        | .Ptr =>
          ptrStep zero val addr ro
            (unmarshalStructCase env tinfoOf dictU zero recur objects cls pval)
        | .Struct => unmarshalStructCase env tinfoOf dictU zero recur objects cls pval val addr ro
        | _ => (val, .err (.other "unknow dict type"))
      | .err e => (val, .err e)
      | .panic m => (val, .panic m)
      | .fuel => (val, .fuel)
    | .null => (val, .ok ())
    | _ => (val, .err (.other "type not assay"))

/-- The body of `Archiver.unmarshal`, the recursive call being `recur`. -/
def unmarshalBody (env : TypeEnv) (tinfoOf : GoType → Res TypeInfo)
    (dictU : List (String × Obj) → GoValue → GoValue × Res Unit)
    (zero : GoType → Option GoValue) (recur : UnmarshalFn) (objects : List Obj) : UnmarshalFn :=
  fun v val addr ro =>
    ptrStep zero val addr ro (unmarshalKind env tinfoOf dictU zero recur objects v)

/-- The method `Archiver.unmarshal` for the table `objects`. `tfuel` bounds the
recursion of `GetTypeInfo` and of `Dictionary.unmarshal` and the nesting of zero
values, the next argument the depth of the recursion of `unmarshal` itself. -/
def unmarshal (env : TypeEnv) (tfuel : Nat) (objects : List Obj) : Nat → UnmarshalFn
  | 0 => unmarshalBody env (GetTypeInfo env tfuel) (DictionaryUnmarshal env tfuel)
      (zeroValue env tfuel) (fun _ val _ _ => (val, .fuel)) objects
  | fuel + 1 => unmarshalBody env (GetTypeInfo env tfuel) (DictionaryUnmarshal env tfuel)
      (zeroValue env tfuel) (unmarshal env tfuel objects fuel) objects

/-- The method `Archiver.Unmarshal`; the argument is `reflect.ValueOf(v)`, which is
not addressable. -/
def Unmarshal (env : TypeEnv) (tfuel fuel : Nat) (a : Archiver) (v : GoValue) :
    GoValue × Res Unit :=
  match a.Top with
  | some root =>
    match a.Objects.get? root with
    | some o => unmarshal env tfuel a.Objects fuel o v false false
    | none => (v, .panic "index out of range")
  | none => (v, .panic "invalid memory address or nil pointer dereference")

/-- Modelled from the spec: the external codec (the encoder and the parser are not
in the sources) writes the table and reads it back as decoded values. A pointer
to a wrapper struct comes back as the mapping keyed by the plist tags of its
fields, a `UID` as a reference, the other entries as they are; how an `int64`
entry comes back is the codec's `signed`. -/
def decodedForm (signed : Int → Obj) : Obj → Obj
  | .int .int64 n => signed n
  | .classRef n cs =>
    .dict [("$classname", .string n), ("$classes", .array ((cs.getD []).map Obj.string))]
  | .uuidRef b c => .dict [("NS.uuidbytes", .bytes b), ("$class", .uid c)]
  | .dateRef t c => .dict [("NS.time", .float .float64 t), ("$class", .uid c)]
  | .dataRef b c => .dict [("NS.data", .bytes b), ("$class", .uid c)]
  | .arrayRef os c => .dict [("NS.objects", .array (os.map Obj.uid)), ("$class", .uid c)]
  | .tableRef ks os c =>
    .dict [("NS.keys", .array (ks.map Obj.uid)), ("NS.objects", .array (os.map Obj.uid)),
      ("$class", .uid c)]
  | o => o

/-- The archiver a decoder holds after the bytes written by `Marshal` were read
back. -/
def Archiver.decoded (signed : Int → Obj) (a : Archiver) : Archiver :=
  { a with Objects := a.Objects.map (decodedForm signed) }

/-! ## Reference definitions for the type descriptors -/

/-- The descriptor entry `structFieldInfo` builds for the field `f` at position `i`. -/
def fieldInfoOf (i : Nat) (f : StructField) : FieldInfo :=
  let tokens := (splitComma f.Tag.data).map String.mk
  { idx := [i],
    Name := if tokens.headD "" = "" then f.Name else tokens.headD "",
    OmitEmpty := tokens.tail.any (fun flag => flag == "omitempty") }

/-- What `addFieldInfo` does to the field list, as its doc comment has it but
with a candidate of equal depth taking the place of the entry it conflicts
with. -/
def addFieldSpec (fields : List FieldInfo) (newf : FieldInfo) : List FieldInfo :=
  if fields.all (fun oldf => newf.Name != oldf.Name) then fields ++ [newf]
  else if fields.any (fun oldf => newf.Name == oldf.Name &&
      decide (oldf.idx.length < newf.idx.length)) then fields
  else fields.filter (fun oldf => newf.Name != oldf.Name) ++ [newf]

/-- A field `GetTypeInfo` passes over: tagged `-`, or unexported and not embedded. -/
def StructField.skipped (f : StructField) : Bool :=
  f.Tag = "-" || (!f.Anonymous && f.PkgPath ≠ "")

/-- The struct type a field embeds, if it embeds one (directly or by pointer). -/
def StructField.embedded (f : StructField) : Option GoType :=
  let t := match f.Typ with
    | .ptr e => e
    | t => t
  if f.Anonymous && t.kind = .Struct then some t else none

/-- The position `i` put in front of the access path of a descriptor entry. -/
def FieldInfo.under (i : Nat) (c : FieldInfo) : FieldInfo :=
  { c with idx := i :: c.idx }

/-- The candidate fields of a type, `recur` giving those of an embedded type: every
declared field that is not passed over, in declaration order, an embedded struct
standing for its own candidates, each with the position of the embedding field
put in front of its access path. -/
def candidatesBody (env : TypeEnv) (recur : GoType → List FieldInfo) : GoType → List FieldInfo
  | .struct name =>
    ((decl env name).enum.map (fun (p : Nat × StructField) =>
      if p.2.skipped then []
      else
        match p.2.embedded with
        | some t => (recur t).map (FieldInfo.under p.1)
        | none => [fieldInfoOf p.1 p.2])).flatten
  | _ => []

/-- The candidate fields of a type, through at most `fuel` levels of embedding. -/
def candidates (env : TypeEnv) : Nat → GoType → List FieldInfo
  | 0 => candidatesBody env (fun _ => [])
  | fuel + 1 => candidatesBody env (candidates env fuel)

/-- The body of `embedsWithin`, `recur` telling whether an embedded struct fits. -/
def embedsWithinBody (env : TypeEnv) (recur : GoType → Bool) : GoType → Bool
  | .struct name =>
    (decl env name).all (fun f =>
      f.skipped ||
        match f.embedded with
        | some t => recur t
        | none => true)
  | _ => true

/-- The embedding of structs under a type is at most `d` levels deep. -/
def embedsWithin (env : TypeEnv) : Nat → GoType → Bool
  | 0 => embedsWithinBody env (fun _ => false)
  | d + 1 => embedsWithinBody env (embedsWithin env d)

/-- The anonymous field `*T`. -/
def selfField : StructField :=
  { Name := "T", PkgPath := "", Typ := .ptr (.struct "T"), Tag := "", Anonymous := true }

/-- A struct that embeds a pointer to itself: `type T struct { *T }`. -/
def selfEmbedding : TypeEnv := fun name =>
  if name = "T" then [selfField] else []

/-- The better of the candidate in hand and a later one of the same name: the later
one unless the one in hand has a strictly shorter access path. -/
def better (w : Option FieldInfo) (c : FieldInfo) : Option FieldInfo :=
  match w with
  | none => some c
  | some old => if old.idx.length < c.idx.length then some old else some c

/-- The survivor among the candidates named `n`: the last of those with the
shortest access path. -/
def winner (n : String) (cs : List FieldInfo) : Option FieldInfo :=
  cs.foldl (fun w c => if c.Name = n then better w c else w) none

/-- An embedder whose own field `X` comes before the embedded struct that has an
`X` of its own, and whose own `Y` comes after it. -/
def shadowing : TypeEnv := fun name =>
  if name = "Outer" then
    [ { Name := "X", PkgPath := "", Typ := .int .int, Tag := "", Anonymous := false },
      { Name := "Inner", PkgPath := "", Typ := .struct "Inner", Tag := "", Anonymous := true },
      { Name := "Y", PkgPath := "", Typ := .string, Tag := ",omitempty", Anonymous := false } ]
  else if name = "Inner" then
    [ { Name := "Y", PkgPath := "", Typ := .string, Tag := "", Anonymous := false },
      { Name := "X", PkgPath := "", Typ := .int .int, Tag := "", Anonymous := false },
      { Name := "Z", PkgPath := "", Typ := .bool, Tag := "X", Anonymous := false } ]
  else []

/-- The field `Secret string` tagged `plist:"-"`. -/
def secretField : StructField :=
  { Name := "Secret", PkgPath := "", Typ := .string, Tag := "-", Anonymous := false }

/-- The declaration of `S`, a struct with a field `Name string` and the field
`secretField`. -/
def exclusionEnv : TypeEnv := fun name =>
  if name = "S" then
    [ { Name := "Name", PkgPath := "", Typ := .string, Tag := "", Anonymous := false },
      secretField ]
  else []

/-- The mapping at index 6 of `exclusionObjects`. -/
def exclusionDict : List (String × Obj) :=
  [("NS.keys", .array [.uid 1, .uid 2]), ("NS.objects", .array [.uid 3, .uid 4]),
   ("$class", .uid 5)]

/-- A decoded table whose mapping at index 6 has the keys `Name` and `Secret`. -/
def exclusionObjects : List Obj :=
  [ .string "$null", .string "Name", .string "Secret", .string "alice", .string "stolen",
    .dict [("$classname", .string "NSMutableDictionary"),
           ("$classes", .array [.string "NSMutableDictionary", .string "NSDictionary",
             .string "NSObject"])],
    .dict exclusionDict ]

/-- The descriptor `D` holds, for every name, exactly the survivor among the
candidates `cs`. -/
def Resolves (D cs : List FieldInfo) : Prop :=
  ∀ n : String, D.filter (fun f => n == f.Name) = (winner n cs).toList

/-- The survivor of two runs of candidates, from the survivors of each. -/
def combine (w x : Option FieldInfo) : Option FieldInfo :=
  match x with
  | none => w
  | some b => better w b

/-- One turn of the loop of `GetTypeInfo` over the fields. -/
def fieldStep (recur : GoType → Res TypeInfo) (tinfo : TypeInfo) (p : Nat × StructField) :
    Res TypeInfo :=
  if p.2.skipped then .ok tinfo
  else
    match p.2.embedded with
    | some t =>
      (recur t).bind (fun inner =>
        .ok { Fields := (inner.Fields.map (FieldInfo.under p.1)).foldl addFieldSpec tinfo.Fields })
    | none => .ok { Fields := addFieldSpec tinfo.Fields (fieldInfoOf p.1 p.2) }

/-- The call returned a descriptor or ran out of budget: no error, no panic. -/
def Res.okOrFuel {α : Type} : Res α → Prop
  | .ok _ => True
  | .fuel => True
  | _ => False

/-- The field at position `i` of a struct value replaced by `w`. -/
def GoValue.setField (i : Nat) (w : GoValue) : GoValue → GoValue
  | .struct name fields => .struct name (fields.set i w)
  | v => v

/-! ## Inputs of the evaluations -/

/-- An archiver before its first use. -/
def emptyArchiver : Archiver :=
  { Version := 0, Objects := [], ArchiverName := "", Top := none }

/-- The declarations `type R struct { P *string }`, the field tagged
`plist:",omitempty"`, and `type Q struct { P *string }`, the field untagged. -/
def omitEnv : TypeEnv := fun name =>
  if name = "R" then
    [ { Name := "P", PkgPath := "", Typ := .ptr .string, Tag := ",omitempty", Anonymous := false } ]
  else if name = "Q" then
    [ { Name := "P", PkgPath := "", Typ := .ptr .string, Tag := "", Anonymous := false } ]
  else []

/-- The registry after `ArchiverAddFoundation(reflect.TypeOf(R{}), "R", "R", "NSObject")`. -/
def omitRegistry : Registry :=
  ArchiverAddFoundation [] (.struct "R") "R" (some ["R", "NSObject"])

/-- The declarations `type Outer struct { In Inner }`, the field tagged
`plist:",omitempty"`, and `type Inner struct { A string; P *string }`, no field
tagged. -/
def nestedEnv : TypeEnv := fun name =>
  if name = "Outer" then
    [ { Name := "In", PkgPath := "", Typ := .struct "Inner", Tag := ",omitempty",
        Anonymous := false } ]
  else if name = "Inner" then
    [ { Name := "A", PkgPath := "", Typ := .string, Tag := "", Anonymous := false },
      { Name := "P", PkgPath := "", Typ := .ptr .string, Tag := "", Anonymous := false } ]
  else []

/-- The value `Outer{In: Inner{A: "a", P: nil}}`. -/
def nestedValue : GoValue :=
  .struct "Outer" [.struct "Inner" [.string "a", .ptr .string none]]

/-! ## Reference definitions for the encoder -/

/-- The table `T'` is `T` with entries appended. -/
def Grows (T T' : List Obj) : Prop := ∃ s, T' = T ++ s

mutual
/-- No `float32` or `float64` inside the value is a NaN. -/
def GoValue.noNaN : GoValue → Bool
  | .float _ f => f != .nan
  | .slice _ (some xs) => GoValue.noNaNList xs
  | .array _ _ xs => GoValue.noNaNList xs
  | .struct _ fields => GoValue.noNaNList fields
  | .ptr _ (some v) => GoValue.noNaN v
  | .map _ _ (some es) => GoValue.noNaNPairs es
  | .iface (some v) => GoValue.noNaN v
  | _ => true
/-- No value of the list holds a NaN. -/
def GoValue.noNaNList : List GoValue → Bool
  | [] => true
  | v :: vs => GoValue.noNaN v && GoValue.noNaNList vs
/-- No key and no value of the entries holds a NaN. -/
def GoValue.noNaNPairs : List (GoValue × GoValue) → Bool
  | [] => true
  | (k, v) :: es => GoValue.noNaN k && GoValue.noNaN v && GoValue.noNaNPairs es
end

/-- An encoder that appends to the table and, run again on a value free of NaN
after the table has grown, ends the same way without touching the table. -/
def Stable (f : MarshalFn) : Prop :=
  ∀ (objs : List Obj) (v : GoValue) (fl : Flags) (objs1 : List Obj) (r : Res Nat),
    v.noNaN = true → f objs v fl = (objs1, r) →
      Grows objs objs1 ∧ ∀ objs2, Grows objs1 objs2 → f objs2 v fl = (objs2, r)

/-- The declaration `type TT struct { A time.Time; B time.Time }`. -/
def twoTimesEnv : TypeEnv := fun name =>
  if name = "TT" then
    [ { Name := "A", PkgPath := "", Typ := .struct "time.Time", Tag := "", Anonymous := false },
      { Name := "B", PkgPath := "", Typ := .struct "time.Time", Tag := "", Anonymous := false } ]
  else []

/-- A computation on the table that appends to it and, run again after the table
has grown, ends the same way without touching the table. -/
def TStable {α : Type} (g : List Obj → List Obj × Res α) (objs : List Obj) : Prop :=
  Grows objs (g objs).1 ∧ ∀ objs2, Grows (g objs).1 objs2 → g objs2 = (objs2, (g objs).2)

/-- One computation on the table, then another on its result; `e` is what follows
an error of the first. -/
def seqT {α β : Type} (g : List Obj → List Obj × Res α)
    (h : α → List Obj → List Obj × Res β) (e : GoError → List Obj → List Obj × Res β) :
    List Obj → List Obj × Res β :=
  fun T =>
    match g T with
    | (o, .ok a) => h a o
    | (o, .err er) => e er o
    | (o, .panic m) => (o, .panic m)
    | (o, .fuel) => (o, .fuel)

/-! ## Inputs of the decoder evaluations -/

/-- The declaration `type S struct { A string }`. -/
def plainEnv : TypeEnv := fun name =>
  if name = "S" then
    [ { Name := "A", PkgPath := "", Typ := .string, Tag := "", Anonymous := false } ]
  else []

/-- An archiver read from a file whose object table is `objs` and whose root
reference is `root`. -/
def archiveOf (objs : List Obj) (root : Nat) : Archiver :=
  { Version := 100000, Objects := objs, ArchiverName := "NSKeyedArchiver", Top := some root }

/-- The decoded class descriptor of `cls`, as the parser returns it. -/
def classDict (cls : ArchiverClass) : Obj :=
  .dict [("$classname", .string cls.ClassName),
    ("$classes", .array ((cls.Classes.getD []).map Obj.string))]

/-! ## Reference definitions for the graph the encoder builds -/

/-- An encoder that only appends to the table. -/
def GrowsFn (f : MarshalFn) : Prop :=
  ∀ (T : List Obj) (v : GoValue) (fl : Flags), Grows T (f T v fl).1

mutual
/-- The references stored inside a table entry: the class reference of a wrapper,
its keys and objects, and every `UID` inside a mapping or an array. -/
def Obj.refs : Obj → List Nat
  | .uid i => [i]
  | .array xs => Obj.refsList xs
  | .dict kvs => Obj.refsDict kvs
  | .uuidRef _ c => [c]
  | .dateRef _ c => [c]
  | .dataRef _ c => [c]
  | .arrayRef os c => os ++ [c]
  | .tableRef ks os c => ks ++ (os ++ [c])
  | _ => []
/-- The references inside the objects of a list. -/
def Obj.refsList : List Obj → List Nat
  | [] => []
  | x :: xs => Obj.refs x ++ Obj.refsList xs
/-- The references inside the values of a mapping. -/
def Obj.refsDict : List (String × Obj) → List Nat
  | [] => []
  | (_, x) :: xs => Obj.refs x ++ Obj.refsDict xs
end

/-- Every reference stored inside the entry at index `i` is smaller than `i`. -/
def Acyclic (T : List Obj) : Prop :=
  ∀ (i : Nat) (o : Obj), T[i]? = some o → ∀ r ∈ o.refs, r < i

/-- The table is not empty and its references point backwards. -/
def Good (T : List Obj) : Prop := 0 < T.length ∧ Acyclic T

/-- A computation on the table that leaves it `Good` and whose result, when there
is one, satisfies `post` on the table it leaves. -/
def TKeeps {α : Type} (post : α → List Obj → Prop) (g : List Obj → List Obj × Res α)
    (T : List Obj) : Prop :=
  Good (g T).1 ∧ ∀ a, (g T).2 = .ok a → post a (g T).1

/-- An encoder that keeps the table `Good` and returns an index of the table. -/
def Keeps (f : MarshalFn) : Prop :=
  ∀ (T : List Obj) (v : GoValue) (fl : Flags), Good T →
    TKeeps (fun i T1 => i < T1.length) (fun T0 => f T0 v fl) T

/-- What the second loop of `marshalStruct` did with the field `f`, seen from the
table `T1` it ended with: `some (k, o)` when it emitted the key reference `k`
and the object reference `o`, `none` when it left the field out. -/
def FieldMark (env : TypeEnv) (zero : GoType → Option GoValue) (recur : MarshalFn)
    (val : GoValue) (fl : Flags) (T T1 : List Obj) (f : FieldInfo) :
    Option (Nat × Nat) → Prop
  | some (k, o) =>
    T1[k]? = some (.string f.Name) ∧
      ∃ Ta Tb, Grows T Ta ∧ Grows Tb T1 ∧
        marshalField env zero recur Ta val fl f = (Tb, .ok o)
  | none =>
    f.OmitEmpty = true ∧
      ∃ Ta Tb, Grows T Ta ∧ Grows Tb T1 ∧
        marshalField env zero recur Ta val fl f = (Tb, .err .nilElem)

/-! ## Inputs of the evaluations of the encoder and the descriptors -/

/-- The declaration `type D struct { X int; Y int }`, both fields tagged
`plist:"A"`. -/
def sameNameEnv : TypeEnv := fun name =>
  if name = "D" then
    [ { Name := "X", PkgPath := "", Typ := .int .int, Tag := "A", Anonymous := false },
      { Name := "Y", PkgPath := "", Typ := .int .int, Tag := "A", Anonymous := false } ]
  else []

/-- The declarations `type A struct { B }` and `type B struct { *A }`: each embeds
the other. -/
def mutualEmbedding : TypeEnv := fun name =>
  if name = "A" then
    [ { Name := "B", PkgPath := "", Typ := .struct "B", Tag := "", Anonymous := true } ]
  else if name = "B" then
    [ { Name := "A", PkgPath := "", Typ := .ptr (.struct "A"), Tag := "", Anonymous := true } ]
  else []

/-- The declarations `type C struct { K string }`, the field tagged
`plist:"$class"`, and `type P struct { A string; B int }`, no field tagged. -/
def classKeyEnv : TypeEnv := fun name =>
  if name = "C" then
    [ { Name := "K", PkgPath := "", Typ := .string, Tag := "$class", Anonymous := false } ]
  else if name = "P" then
    [ { Name := "A", PkgPath := "", Typ := .string, Tag := "", Anonymous := false },
      { Name := "B", PkgPath := "", Typ := .int .int, Tag := "", Anonymous := false } ]
  else []

/-- The registry after `ArchiverAddFoundation(reflect.TypeOf(C{}), "C", "C", "NSObject")`
and `ArchiverAddFoundation(reflect.TypeOf(P{}), "P", "P", "NSObject")`. -/
def classKeyRegistry : Registry :=
  ArchiverAddFoundation
    (ArchiverAddFoundation [] (.struct "C") "C" (some ["C", "NSObject"]))
    (.struct "P") "P" (some ["P", "NSObject"])

/-! ## Reference definitions for the values the encoder accepts -/

/-- The values `marshal` is proved to accept, `n` bounding the nesting of slices
and structs and `ro` telling that the value carries `flagRO`: bools, integers,
floats, strings, `UID`s, byte slices, instants and `uuid.UUID` values that do not
carry `flagRO`, slices of such values, pointers that are not nil to such values
that are not pointers themselves, and structs for which `GetTypeInfo` returns a
descriptor and `FieldInfo.Value` returns every listed field, the fields holding
such values, a nil pointer being allowed in a field tagged `omitempty` of a struct
without registered class. -/
inductive Encodable (env : TypeEnv) (reg : Registry) (tfuel : Nat) :
    Nat → Bool → GoValue → Prop where
  | bool (n : Nat) (ro : Bool) (b : Bool) : Encodable env reg tfuel n ro (.bool b)
  | int (n : Nat) (ro : Bool) (k : IntKind) (x : Int) : Encodable env reg tfuel n ro (.int k x)
  | uint (n : Nat) (ro : Bool) (k : UintKind) (x : Nat) : Encodable env reg tfuel n ro (.uint k x)
  | uid (n : Nat) (ro : Bool) (x : Nat) : Encodable env reg tfuel n ro (.uid x)
  | float (n : Nat) (ro : Bool) (k : FloatKind) (f : F64) :
      Encodable env reg tfuel n ro (.float k f)
  | string (n : Nat) (ro : Bool) (s : String) : Encodable env reg tfuel n ro (.string s)
  | time (n : Nat) (s : Int) (ns : Nat) (loc : TimeLoc) :
      Encodable env reg tfuel n false (.time s ns loc)
  | bytes (n : Nat) (ro : Bool) (elem : GoType) (xs : Option (List GoValue))
      (hk : elem.kind = .Uint8) : Encodable env reg tfuel n ro (.slice elem xs)
  | uuid (n : Nat) (name : String) (elem : GoType) (xs : List GoValue)
      (ht : GoType.array name xs.length elem = archiverUUIDType) :
      Encodable env reg tfuel n false (.array name elem xs)
  | slice (n : Nat) (ro : Bool) (elem : GoType) (xs : Option (List GoValue))
      (hk : elem.kind ≠ .Uint8) (hx : ∀ x ∈ xs.getD [], Encodable env reg tfuel n ro x) :
      Encodable env reg tfuel (n + 1) ro (.slice elem xs)
  | ptr (n : Nat) (ro : Bool) (e : GoType) (w : GoValue) (hk : w.kind ≠ .Ptr)
      (hw : Encodable env reg tfuel n ro w) : Encodable env reg tfuel n ro (.ptr e (some w))
  | struct (n : Nat) (ro : Bool) (name : String) (fields : List GoValue) (tinfo : TypeInfo)
      (hti : GetTypeInfo env tfuel (.struct name) = .ok tinfo)
      (hread : ∀ (addr : Bool), ∀ ti ∈ tinfo.Fields,
        ∃ fv ffl, fieldValue env (zeroValue env tfuel) (.struct name fields)
          { addr := addr, ro := ro } ti = .ok (fv, ffl))
      (hnil : ∀ (addr : Bool), ∀ ti ∈ tinfo.Fields, ∀ e ffl,
        fieldValue env (zeroValue env tfuel) (.struct name fields)
          { addr := addr, ro := ro } ti = .ok (.ptr e none, ffl) →
          ti.OmitEmpty = true ∧ reg.lookup (.struct name) = none)
      (hx : ∀ (addr : Bool), ∀ ti ∈ tinfo.Fields, ∀ fv ffl,
        fieldValue env (zeroValue env tfuel) (.struct name fields)
          { addr := addr, ro := ro } ti = .ok (fv, ffl) →
          (∀ e, fv ≠ .ptr e none) → Encodable env reg tfuel n ffl.ro fv) :
      Encodable env reg tfuel (n + 1) ro (.struct name fields)

/-- The declarations `type u = uuid.UUID` and `type O struct { u }`: the embedded
field has the unexported name `u`. -/
def aliasEnv : TypeEnv := fun name =>
  if name = "O" then
    [ { Name := "u", PkgPath := "main", Typ := archiverUUIDType, Tag := "", Anonymous := true } ]
  else []

/-- The panic of `reflect.Value.Interface` on a value that carries `flagRO`. -/
def interfacePanic : String :=
  "reflect.Value.Interface: cannot return value obtained from unexported field or method"

/-- The declarations `type In struct { X int }` and `type Out struct { *In }`, the
embedded pointer tagged `plist:",omitempty"`. -/
def nilEmbedEnv : TypeEnv := fun name =>
  if name = "Out" then
    [ { Name := "In", PkgPath := "", Typ := .ptr (.struct "In"), Tag := ",omitempty",
        Anonymous := true } ]
  else if name = "In" then
    [ { Name := "X", PkgPath := "", Typ := .int .int, Tag := "", Anonymous := false } ]
  else []

/-- The declarations `type A struct { B }` and `type B struct { *A }`, the embedded
pointer tagged `plist:",omitempty"`: each embeds the other. -/
def loopEnv : TypeEnv := fun name =>
  if name = "A" then
    [ { Name := "B", PkgPath := "", Typ := .struct "B", Tag := "", Anonymous := true } ]
  else if name = "B" then
    [ { Name := "A", PkgPath := "", Typ := .ptr (.struct "A"), Tag := ",omitempty",
        Anonymous := true } ]
  else []

/-- The keys of a mapping are strictly increasing, hence distinct. -/
def SortedKeys (m : List (String × Obj)) : Prop :=
  List.Pairwise (fun p q => ltChars p.1.data q.1.data = true) m

/-! ## keyed_archiver.go: the printer -/

/-- The calls of `fmt.Sprintf` the printer makes, taken as given: a value under the
format of a leaf, the time `time.Unix(sec, 0)` under `time(%v)`, and an entry of
a sequence or of a mapping under `\t[%d]: %s\n` and `\t[%s]: %s\n`. -/
structure Fmt where
  leaf : String → Obj → String
  time : Int → String
  index : Nat → String → String
  key : String → String → String

/-- The method `Error` of an `error`. -/
def GoError.Error : GoError → String
  | .nilElem => "nil item"
  | .other msg => msg

/-- The shape of `Archiver.printObject`. -/
abbrev PrintFn := Obj → Res String

/-- The dynamic value of an element of a decoded `[]interface{}`:
`Dictionary.unmarshal` stores nothing but a `UID` in an interface, and an element
left untouched is the nil interface. -/
def ifaceObj : GoValue → Obj
  | .iface (some (.uid i)) => .uid i
  | _ => .null

/-- The statement `panic(err)` after a failed `Dictionary.Unmarshal`, and what any
other outcome of the call passes on. -/
def panicErr {α : Type} : Res Unit → Res α
  | .err e => .panic e.Error
  | .panic m => .panic m
  | _ => .fuel

/-- The method `Archiver.printDate`. -/
def printDate (fmt : Fmt) (dictU : List (String × Obj) → GoValue → GoValue × Res Unit)
    (pval : List (String × Obj)) : Res String :=
  match dictU pval newArchiverDate with
  | (date, .ok _) =>
    .ok (fmt.time (wrapInt64 (F64.toInt64 (floatField (pointee date) 0) + unixToCocoa)))
  | (_, r) => panicErr r

/-- The method `Archiver.printData`. -/
def printData (fmt : Fmt) (dictU : List (String × Obj) → GoValue → GoValue × Res Unit)
    (pval : List (String × Obj)) : Res String :=
  match dictU pval newArchiverData with
  | (data, .ok _) => .ok (fmt.leaf "[]byte(%x)" (.bytes (bytesField (pointee data) 0)))
  | (_, r) => panicErr r

/-- The method `Archiver.printUUID`. -/
def printUUID (fmt : Fmt) (dictU : List (String × Obj) → GoValue → GoValue × Res Unit)
    (pval : List (String × Obj)) : Res String :=
  match dictU pval newArchiverUUID with
  | (uid, .ok _) => .ok (fmt.leaf "UID(%x)" (.bytes (bytesField (pointee uid) 0)))
  | (_, r) => panicErr r

/-- The loop of `Archiver.printSlice` over the elements, `acc` being what the builder
holds. -/
def printElems (fmt : Fmt) (recur : PrintFn) : List Obj → Nat → String → Res String
  | [], _, acc => .ok acc
  | v :: vs, i, acc =>
    (recur v).bind (fun s => printElems fmt recur vs (i + 1) (acc ++ fmt.index i s))

/-- The method `Archiver.printSlice`. -/
def printSlice (fmt : Fmt) (recur : PrintFn) (array : List Obj) : Res String :=
  (printElems fmt recur array 0 "[]interface\x7b\n").bind (fun s => .ok (s ++ "\x7d"))

/-- The method `Archiver.printArray`. -/
def printArray (fmt : Fmt) (dictU : List (String × Obj) → GoValue → GoValue × Res Unit)
    (recur : PrintFn) (dict : List (String × Obj)) : Res String :=
  match dictU dict newArchiverArray with
  | (arr, .ok _) =>
    (printElems fmt recur ((sliceField (pointee arr) 0).map ifaceObj) 0 "[]array\x7b\n").bind
      (fun s => .ok (s ++ "\x7d"))
  | (_, r) => panicErr r

/-- The loop of `Archiver.printNSType` over the entries of the mapping, taken in the
order of their keys (Go leaves the order open). -/
def printEntries (fmt : Fmt) (recur : PrintFn) : List (String × Obj) → String → Res String
  | [], acc => .ok acc
  | (k, v) :: rest, acc =>
    (recur v).bind (fun s => printEntries fmt recur rest (acc ++ fmt.key k s))

/-- The method `Archiver.printNSType`. -/
def printNSType (fmt : Fmt) (recur : PrintFn) (pval : List (String × Obj)) : Res String :=
  (printEntries fmt recur pval "NS\x7b\n").bind (fun s => .ok (s ++ "\x7d"))

/-- The first loop of `Archiver.printStruct`: the map `kvs` of the printed values,
with the type assertion and the indexing that panic where they fail. -/
def printTable (objects : List Obj) (recur : PrintFn) (tabObjects : List GoValue) :
    List GoValue → Nat → List (String × Obj) → Res (List (String × Obj))
  | [], _, kvs => .ok kvs
  | keyI :: keys, i, kvs =>
    match keyI with
    | .uid k =>
      match objects.get? k with
      | some (.string key) =>
        match tabObjects.get? i with
        | some x =>
          (recur (ifaceObj x)).bind (fun value =>
            printTable objects recur tabObjects keys (i + 1) (dictInsert key (.string value) kvs))
        | none => .panic "index out of range"
      | some _ => .panic "interface conversion: interface {} is not string"
      | none => .panic "index out of range"
    | _ => .panic "index out of range"

/-- The second loop of `Archiver.printStruct`, over the entries of `kvs` in the
order of their keys (Go leaves the order open). -/
def printKvs (fmt : Fmt) : List (String × Obj) → String → String
  | [], acc => acc
  | (k, .string v) :: rest, acc => printKvs fmt rest (acc ++ fmt.key k v)
  | (k, _) :: rest, acc => printKvs fmt rest (acc ++ fmt.key k "")

/-- The method `Archiver.printStruct`. -/
def printStruct (fmt : Fmt) (dictU : List (String × Obj) → GoValue → GoValue × Res Unit)
    (objects : List Obj) (recur : PrintFn) (dict : List (String × Obj)) : Res String :=
  match dictU dict newArchiverTable with
  | (tab, .ok _) =>
    (printTable objects recur (sliceField (pointee tab) 1) (sliceField (pointee tab) 0) 0 []).bind
      (fun kvs => .ok (printKvs fmt kvs "struct\x7b\n" ++ "\x7d"))
  | (_, r) => panicErr r

/-- The body of `Archiver.printObject`, the recursive call being `recur`. -/
def printBody (fmt : Fmt) (dictU : List (String × Obj) → GoValue → GoValue × Res Unit)
    (objects : List Obj) (recur : PrintFn) : PrintFn :=
  fun v =>
    match v with
    | .string _ => .ok (fmt.leaf "string(%v)" v)
    | .int .int64 _ => .ok (fmt.leaf "int64(%v)" v)
    | .uint .uint64 _ => .ok (fmt.leaf "uint64(%v)" v)
    | .float .float32 _ => .ok (fmt.leaf "float32(%v)" v)
    | .float .float64 _ => .ok (fmt.leaf "float64(%v)" v)
    | .bool _ => .ok (fmt.leaf "bool(%v)" v)
    | .bytes _ => .ok (fmt.leaf "[]byte(%x)" v)
    | .uid pval =>
      match objects.get? pval with
      | some o => recur o
      | none => .panic "index out of range"
    | .array pval => printSlice fmt recur pval
    | .dict pval =>
      match getClass dictU objects pval with
      | .ok cls =>
        if cls.isDate then printDate fmt dictU pval
        else if cls.isData then printData fmt dictU pval
        else if cls.isArray then printArray fmt dictU recur pval
        else if cls.isUUID then printUUID fmt dictU pval
        else if cls.isDictionary then printStruct fmt dictU objects recur pval
        else printNSType fmt recur pval
      | .err e => .panic e.Error
      | .panic m => .panic m
      | .fuel => .fuel
    | _ => .ok (fmt.leaf "unknow : %v" v)

/-- The method `Archiver.printObject`. `tfuel` bounds the recursion of `GetTypeInfo`
and of `Dictionary.unmarshal`, the other number the depth of `printObject`. -/
def printObject (env : TypeEnv) (tfuel : Nat) (fmt : Fmt) (objects : List Obj) : Nat → PrintFn
  | 0 => fun _ => .fuel
  | fuel + 1 =>
    printBody fmt (DictionaryUnmarshal env tfuel) objects (printObject env tfuel fmt objects fuel)

/-- The method `Archiver.Print`: a nil `Top` and a root outside the table panic. -/
def Print (env : TypeEnv) (tfuel fuel : Nat) (fmt : Fmt) (a : Archiver) : Res String :=
  match a.Top with
  | some root =>
    match a.Objects.get? root with
    | some o => printObject env tfuel fmt a.Objects fuel o
    | none => .panic "index out of range"
  | none => .panic "invalid memory address or nil pointer dereference"

/-- A table whose root is a mapping with no `$class` entry. -/
def classlessArchiver : Archiver :=
  { Version := 100000, Objects := [.string "$null", .dict [("NS.time", .float .float64 (.num 0 0))]],
    ArchiverName := "NSKeyedArchiver", Top := some 1 }

/-- A table whose root is an `NSDate` whose `NS.time` is a string. -/
def badDateArchiver : Archiver :=
  { Version := 100000,
    Objects := [.string "$null",
      .dict [("$class", .uid 2), ("NS.time", .string "now")],
      .dict [("$classes", .array [.string "NSDate", .string "NSObject"]),
             ("$classname", .string "NSDate")]],
    ArchiverName := "NSKeyedArchiver", Top := some 1 }

/-- A table whose root is the string `hello`. -/
def helloArchiver : Archiver :=
  { Version := 100000, Objects := [.string "$null", .string "hello"],
    ArchiverName := "NSKeyedArchiver", Top := some 1 }

/-- Modelled from the spec: the body of the field list of claim C30, `recur`
giving the list of an embedded type. In declaration order, every field not tagged
`-`: an anonymous field of struct type (or pointer to struct) stands for the list of
the embedded type, the position `i` put in front of each access path; any other
field is listed if it is exported, with the entry `fieldInfoOf i f`. -/
def describedBody (env : TypeEnv) (recur : GoType → List FieldInfo) : GoType → List FieldInfo
  | .struct name =>
    ((decl env name).enum.map (fun (p : Nat × StructField) =>
      if p.2.Tag = "-" then []
      else
        match p.2.embedded with
        | some t => (recur t).map (FieldInfo.under p.1)
        | none => if p.2.PkgPath = "" then [fieldInfoOf p.1 p.2] else [])).flatten
  | _ => []

/-- Modelled from the spec: the field list of claim C30, through at most `fuel`
levels of embedding. -/
def described (env : TypeEnv) : Nat → GoType → List FieldInfo
  | 0 => describedBody env (fun _ => [])
  | fuel + 1 => describedBody env (described env fuel)

/-- The declarations `type myInt int`, `type Base struct { ID int }`, the field tagged
`plist:"id,omitempty"`, and `type E struct { myInt; Base; A string; b bool }` in a
package `main`: the embedded field `myInt` and the field `b` are unexported. -/
def embedEnv : TypeEnv := fun name =>
  if name = "E" then
    [ { Name := "myInt", PkgPath := "main", Typ := .int .int, Tag := "", Anonymous := true },
      { Name := "Base", PkgPath := "", Typ := .struct "Base", Tag := "", Anonymous := true },
      { Name := "A", PkgPath := "", Typ := .string, Tag := "", Anonymous := false },
      { Name := "b", PkgPath := "main", Typ := .bool, Tag := "", Anonymous := false } ]
  else if name = "Base" then
    [ { Name := "ID", PkgPath := "", Typ := .int .int, Tag := "id,omitempty", Anonymous := false } ]
  else []

/-! ## Reference definitions for the round trip -/

/-- The field at the end of the access path `idx`, every step of which is a field of
a struct held by value. -/
def getAt : List Nat → GoValue → Option GoValue
  | [], v => some v
  | j :: rest, .struct _ fields =>
    match fields[j]? with
    | some fv => getAt rest fv
    | none => none
  | _ :: _, _ => none

/-- The body of `Plain`, `recur` telling whether an embedded struct is plain. -/
def plainBody (env : TypeEnv) (recur : GoValue → Prop) : GoValue → Prop
  | .struct name fields =>
    List.Forall₂ (fun (f : StructField) (fv : GoValue) =>
      f.Tag ≠ "-" ∧ fv.typ = some f.Typ ∧
        ((f.embedded = none ∧ f.PkgPath = "") ∨ (f.embedded = some f.Typ ∧ recur fv)))
      (decl env name) fields
  | _ => False

/-- A struct value that holds one field of the declared type for every declared
field, none of them tagged `-`, each either exported and not an embedded struct,
or a struct embedded by value that is plain in turn, through at most `d` levels
of embedding. -/
def Plain (env : TypeEnv) : Nat → GoValue → Prop
  | 0 => plainBody env (fun _ => False)
  | d + 1 => plainBody env (Plain env d)

/-- A loop over the fields of a descriptor that runs `g finfo` on the value
`finfo.Value` returns: the shape of the loops of `unmarshalStruct` and
`unmarshalNSType` once the object of every field is known. -/
def pathLoop (env : TypeEnv) (zero : GoType → Option GoValue)
    (g : FieldInfo → GoValue → Bool → Bool → GoValue × Res Unit) (addr ro : Bool) :
    List FieldInfo → GoValue → GoValue × Res Unit
  | [], val => (val, .ok ())
  | finfo :: rest, val =>
    match atPath env zero (g finfo) finfo.idx true addr ro val with
    | (val1, .ok _) => pathLoop env zero g addr ro rest val1
    | (val1, r) => (val1, r)

/-- The values the round trip is proved for, `n` bounding the nesting of slices and
structs: bools; signed integers that fit their kind and satisfy `P`; unsigned
integers that fit their kind; floats other than NaN, a `float32` being one that
`float32` holds exactly; strings; byte slices; instants of whole seconds within
`2 ^ 53` seconds of the reference epoch, in the location `time.Local`; `uuid.UUID`
values; slices that are nil or not empty, of such values; plain structs whose
candidate fields have distinct names and hold such values, with or without a
registered class, the class not being a dictionary class and no field being named
`$class` when there is one. `tfuel` is the budget given to `GetTypeInfo` and to the
zero values, and bounds the embedding. -/
inductive RT (env : TypeEnv) (reg : Registry) (tfuel : Nat) (P : Int → Prop) :
    Nat → GoValue → Prop where
  | bool (n : Nat) (b : Bool) : RT env reg tfuel P n (.bool b)
  | int (n : Nat) (k : IntKind) (x : Int) (hp : P x) (hlo : -(2 ^ (k.bits - 1)) ≤ x)
      (hx : x < 2 ^ (k.bits - 1)) : RT env reg tfuel P n (.int k x)
  | uint (n : Nat) (k : UintKind) (x : Nat) (hx : x < 2 ^ k.bits) :
      RT env reg tfuel P n (.uint k x)
  | float64 (n : Nat) (f : F64) (hf : f ≠ .nan) : RT env reg tfuel P n (.float .float64 f)
  | float32 (n : Nat) (f : F64) (hf : f ≠ .nan) (h32 : f.toFloat32 = f) :
      RT env reg tfuel P n (.float .float32 f)
  | string (n : Nat) (s : String) : RT env reg tfuel P n (.string s)
  | bytes (n : Nat) (b : Option (List Nat)) :
      RT env reg tfuel P n (bytesValue (.uint .uint8) b)
  | time (n : Nat) (s : Int) (hs : |s - unixToCocoa| ≤ 2 ^ 53) :
      RT env reg tfuel P n (.time s 0 .local)
  | uuid (n : Nat) (b : List Nat) (hb : b.length = 16) :
      RT env reg tfuel P n
        (.array "uuid.UUID" (.uint .uint8) (b.map (fun x => GoValue.uint .uint8 x)))
  | nilSlice (n : Nat) (elem : GoType) (hk : elem.kind ≠ .Uint8) :
      RT env reg tfuel P n (.slice elem none)
  | slice (n : Nat) (elem : GoType) (xs : List GoValue) (ze : GoValue)
      (hk : elem.kind ≠ .Uint8) (hne : xs ≠ []) (hz : zeroValue env tfuel elem = some ze)
      (ht : ∀ x ∈ xs, x.typ = some elem)
      (hx : ∀ x ∈ xs, RT env reg tfuel P n x) :
      RT env reg tfuel P (n + 1) (.slice elem (some xs))
  | struct (n : Nat) (name : String) (fields : List GoValue)
      (hplain : Plain env tfuel (.struct name fields))
      (hnames : ((candidates env tfuel (.struct name)).map (fun c => c.Name)).Nodup)
      (hreg : ∀ cls, reg.lookup (.struct name) = some cls →
        cls.isDictionary = false ∧
          ∀ c ∈ candidates env tfuel (.struct name), c.Name ≠ "$class")
      (hx : ∀ c ∈ candidates env tfuel (.struct name), ∀ x,
        getAt c.idx (.struct name fields) = some x → RT env reg tfuel P n x) :
      RT env reg tfuel P (n + 1) (.struct name fields)

/-- The value `v` goes through `marshal` and, on the decoded form of any table grown
from the result, comes back from `unmarshal` into a zero value of its type. -/
def RoundTrips (env : TypeEnv) (reg : Registry) (tfuel : Nat) (signed : Int → Obj) (n : Nat)
    (v : GoValue) : Prop :=
  ∀ (T : List Obj) (addr : Bool), T[0]? = some (.string "$null") →
    ∃ (T1 : List Obj) (i : Nat) (o : Obj),
      marshal env reg tfuel n T v { addr := addr, ro := false } = (T1, .ok i) ∧ Grows T T1 ∧ T1[i]? = some o ∧
      ∀ (T2 : List Obj), Grows T1 T2 → T2.length ≤ 2 ^ 64 →
        ∀ (t : GoType) (z : GoValue) (m : Nat), v.typ = some t → zeroValue env m t = some z →
          unmarshal env tfuel (T2.map (decodedForm signed)) n (decodedForm signed o) z true false =
            (v, .ok ())

/-- The entry `i` of the table `T1` holds an object from which, in the decoded form
of any table grown from `T1`, `unmarshal` rebuilds `v` in a zero value of its
type. -/
def Decodes (env : TypeEnv) (tfuel : Nat) (signed : Int → Obj) (n : Nat) (T1 : List Obj)
    (i : Nat) (v : GoValue) : Prop :=
  ∃ o : Obj, T1[i]? = some o ∧
    ∀ (T2 : List Obj), Grows T1 T2 → T2.length ≤ 2 ^ 64 →
      ∀ (t : GoType) (z : GoValue) (m : Nat), v.typ = some t → zeroValue env m t = some z →
        unmarshal env tfuel (T2.map (decodedForm signed)) n (decodedForm signed o) z true false =
          (v, .ok ())

/-! ## Reference definitions for access paths -/

/-- What `finfo.Value(v)` returns for the access path `idx`: the field, whether it is
addressable and whether it was reached through an unexported name; the panic of
the walk where it has one. -/
def readAt (env : TypeEnv) (zero : GoType → Option GoValue) (idx : List Nat) (first addr ro : Bool)
    (v : GoValue) : Res (GoValue × Bool × Bool) :=
  (atPath env zero (fun fv a r => (fv, Res.ok (fv, a, r))) idx first addr ro v).2

/-- Two access paths part ways: after a common start they go on with different
field positions. -/
def Diverge (p q : List Nat) : Prop :=
  ∃ (c : List Nat) (i j : Nat) (p1 q1 : List Nat), p = c ++ i :: p1 ∧ q = c ++ j :: q1 ∧ i ≠ j

/-- How a walk ends that does not reach its field: with a panic, or out of zero
values. -/
def walkFailure {α : Type} : Option String → Res α
  | some m => .panic m
  | none => .fuel

/-- The mapping at index 1 of `shadowObjects`: the keys `X`, `Y` and `Q`. -/
def shadowDict : List (String × Obj) :=
  [("NS.keys", .array [.uid 3, .uid 5, .uid 7]), ("NS.objects", .array [.uid 4, .uid 6, .uid 0]),
   ("$class", .uid 2)]

/-- A decoded table whose mapping at index 1 pairs `X` with 7, `Y` with `"hello"` and
`Q` with `"$null"`. -/
def shadowObjects : List Obj :=
  [ .string "$null", .dict shadowDict,
    .dict [("$classname", .string "NSMutableDictionary"),
           ("$classes", .array [.string "NSMutableDictionary", .string "NSDictionary",
             .string "NSObject"])],
    .string "X", .uint .uint64 7, .string "Y", .string "hello", .string "Q" ]

/-- A zero `Outer` of the declarations `shadowing`. -/
def shadowTarget : GoValue :=
  .struct "Outer" [.int .int 0, .struct "Inner" [.string "", .int .int 0, .bool false],
    .string ""]

/-! ## Inputs of the round trips -/

/-- A reading of the `int64` entries by the codec, an argument of `decodedForm`: every
entry comes back as the `uint64` of the same 64 bits. -/
def readsUint64 : Int → Obj := fun x => .uint .uint64 (wrapUint 64 x)

/-- A reading of the `int64` entries by the codec, an argument of `decodedForm`: every
entry comes back as an `int64`. -/
def readsInt64 : Int → Obj := fun x => .int .int64 x

/-- The declaration `type H struct { A string; b string }` in a package `main`: the
field `b` is unexported. -/
def hiddenEnv : TypeEnv := fun name =>
  if name = "H" then
    [ { Name := "A", PkgPath := "", Typ := .string, Tag := "", Anonymous := false },
      { Name := "b", PkgPath := "main", Typ := .string, Tag := "", Anonymous := false } ]
  else []

/-- The declarations `type Base struct { ID int }` and
`type W struct { Base; A string }`: `W` embeds `Base` by value. -/
def baseEnv : TypeEnv := fun name =>
  if name = "W" then
    [ { Name := "Base", PkgPath := "", Typ := .struct "Base", Tag := "", Anonymous := true },
      { Name := "A", PkgPath := "", Typ := .string, Tag := "", Anonymous := false } ]
  else if name = "Base" then
    [ { Name := "ID", PkgPath := "", Typ := .int .int, Tag := "", Anonymous := false } ]
  else []

/-- The registry after `ArchiverAddFoundation(reflect.TypeOf(W{}), "W", "W", "NSObject")`. -/
def baseRegistry : Registry :=
  ArchiverAddFoundation [] (.struct "W") "W" (some ["W", "NSObject"])

/-- The registry after
`ArchiverAddFoundation(reflect.TypeOf(S{}), "NSDictionary", "NSDictionary", "NSObject")`:
the struct `S` is given the name of a dictionary class. -/
def dictionaryNamed : Registry :=
  ArchiverAddFoundation [] (.struct "S") "NSDictionary" (some ["NSDictionary", "NSObject"])

/-! # Theorems -/

/-! ## Object table -/

theorem findEqual_none (obj : Obj) : ∀ (T : List Obj) (k : Nat),
    findEqual obj T k = none ↔ ∀ x ∈ T, cmpEqual x obj = false
  | [], k => by simp [findEqual]
  | x :: T, k => by
    by_cases h : cmpEqual x obj = true
    · simp [findEqual, h]
    · simp only [Bool.not_eq_true] at h
      simp [findEqual, h, findEqual_none obj T (k + 1)]

theorem findEqual_some (obj : Obj) : ∀ (T : List Obj) (k i : Nat),
    findEqual obj T k = some i →
      k ≤ i ∧ (∃ x, T[(i - k)]? = some x ∧ cmpEqual x obj = true) ∧
        ∀ (j : Nat) (x : Obj), T[j]? = some x → cmpEqual x obj = true → i - k ≤ j
  | [], k, i => by simp [findEqual]
  | y :: T, k, i => by
    by_cases h : cmpEqual y obj = true
    · simp only [findEqual, h, if_true, Option.some.injEq]
      rintro rfl
      simp [h]
    · simp only [findEqual, h]
      intro hf
      obtain ⟨hk, ⟨x, hx, hxe⟩, hmin⟩ := findEqual_some obj T (k + 1) i hf
      have e : i - k = (i - (k + 1)) + 1 := by omega
      refine ⟨by omega, ⟨x, by simpa [e] using hx, hxe⟩, ?_⟩
      intro j z hz hze
      cases j with
      | zero =>
        simp at hz
        subst hz
        exact absurd hze h
      | succ j =>
        have := hmin j z (by simpa using hz) hze
        omega

/-- Claim C2. `addObject` is first-structural-match deduplication: when some entry
of the table is equal to `o` under `cmp.Equal`, it returns the smallest index of
such an entry and leaves the table as it is; when none is, it returns the length
of the table and the table with `o` appended; either way every entry of the
table keeps its index and value. -/
theorem addObject_first_match (T : List Obj) (o : Obj) :
    ((∃ (i : Nat) (x : Obj), T[i]? = some x ∧ cmpEqual x o = true) →
      (addObject T o).2 = T ∧
      (∃ x, T[(addObject T o).1]? = some x ∧ cmpEqual x o = true) ∧
      ∀ (j : Nat) (x : Obj), T[j]? = some x → cmpEqual x o = true → (addObject T o).1 ≤ j) ∧
    ((∀ (i : Nat) (x : Obj), T[i]? = some x → cmpEqual x o = false) →
      addObject T o = (T.length, T ++ [o])) ∧
    (∀ j : Nat, j < T.length → (addObject T o).2[j]? = T[j]?) := by
  refine ⟨?_, ?_, ?_⟩
  · rintro ⟨i, x, hx, hxe⟩
    cases hf : findEqual o T 0 with
    | none =>
      have := (findEqual_none o T 0).1 hf x (List.getElem?_mem hx)
      simp [this] at hxe
    | some k =>
      obtain ⟨_, h2, h3⟩ := findEqual_some o T 0 k hf
      simp only [Nat.sub_zero] at h2 h3
      simpa [addObject, hf] using ⟨h2, h3⟩
  · intro hall
    have : findEqual o T 0 = none := by
      rw [findEqual_none]
      intro x hx
      obtain ⟨i, hi⟩ := List.getElem?_of_mem hx
      exact hall i x hi
    simp [addObject, this]
  · intro j hj
    cases hf : findEqual o T 0 with
    | none => simp [addObject, hf, List.getElem?_append_left hj]
    | some k => simp [addObject, hf]

/-! ## Equality of table objects -/

mutual
theorem Obj.beq_refl : ∀ a : Obj, Obj.beq a a = true
  | .null | .bool _ | .int _ _ | .uint _ _ | .float _ _ | .string _ | .bytes _ | .uid _
  | .time _ _ | .other _ | .classRef _ _ | .uuidRef _ _ | .dateRef _ _ | .dataRef _ _
  | .arrayRef _ _ | .tableRef _ _ _ => by simp [Obj.beq]
  | .array xs => by simp [Obj.beq, Obj.beqList_refl xs]
  | .dict xs => by simp [Obj.beq, Obj.beqDict_refl xs]
theorem Obj.beqList_refl : ∀ xs : List Obj, Obj.beqList xs xs = true
  | [] => by simp [Obj.beqList]
  | x :: xs => by simp [Obj.beqList, Obj.beq_refl x, Obj.beqList_refl xs]
theorem Obj.beqDict_refl : ∀ xs : List (String × Obj), Obj.beqDict xs xs = true
  | [] => by simp [Obj.beqDict]
  | (k, x) :: xs => by simp [Obj.beqDict, Obj.beq_refl x, Obj.beqDict_refl xs]
end

mutual
theorem Obj.eq_of_beq : ∀ a b : Obj, Obj.beq a b = true → a = b
  | .array xs, b => by
    cases b <;> simp [Obj.beq]
    exact Obj.eq_of_beqList xs _
  | .dict xs, b => by
    cases b <;> simp [Obj.beq]
    exact Obj.eq_of_beqDict xs _
  | .null, b | .bool _, b | .int _ _, b | .uint _ _, b | .float _ _, b | .string _, b
  | .bytes _, b | .uid _, b | .time _ _, b
  | .other _, b | .classRef _ _, b | .uuidRef _ _, b | .dateRef _ _, b | .dataRef _ _, b
  | .arrayRef _ _, b
  | .tableRef _ _ _, b => by
    cases b <;> simp [Obj.beq] <;> intros <;> simp_all
theorem Obj.eq_of_beqList : ∀ xs ys : List Obj, Obj.beqList xs ys = true → xs = ys
  | [], [] => by simp
  | [], _ :: _ => by simp [Obj.beqList]
  | _ :: _, [] => by simp [Obj.beqList]
  | x :: xs, y :: ys => by
    simp only [Obj.beqList, Bool.and_eq_true, List.cons.injEq]
    exact fun h => ⟨Obj.eq_of_beq x y h.1, Obj.eq_of_beqList xs ys h.2⟩
theorem Obj.eq_of_beqDict : ∀ xs ys : List (String × Obj), Obj.beqDict xs ys = true → xs = ys
  | [], [] => by simp
  | [], _ :: _ => by simp [Obj.beqDict]
  | _ :: _, [] => by simp [Obj.beqDict]
  | (k, x) :: xs, (l, y) :: ys => by
    simp only [Obj.beqDict, Bool.and_eq_true, List.cons.injEq, Prod.mk.injEq, beq_iff_eq]
    exact fun h => ⟨⟨h.1.1, Obj.eq_of_beq x y h.1.2⟩, Obj.eq_of_beqDict xs ys h.2⟩
end

/-- `cmp.Equal` holds of two table objects exactly when they are the same object
and no NaN occurs in them. -/
theorem cmpEqual_iff (a b : Obj) : cmpEqual a b = true ↔ a = b ∧ b.hasNaN = false := by
  simp only [cmpEqual, Bool.and_eq_true, Bool.not_eq_true']
  constructor
  · exact fun h => ⟨Obj.eq_of_beq a b h.1, h.2⟩
  · rintro ⟨rfl, h⟩
    exact ⟨Obj.beq_refl a, h⟩

theorem structFieldInfo_eq (i : Nat) (f : StructField) :
    structFieldInfo i f = .ok (fieldInfoOf i f) := by
  unfold structFieldInfo fieldInfoOf
  dsimp only
  split <;> rename_i h <;> simp only [h, if_true, if_false]

theorem conflictsOf_append (fs : List FieldInfo) (a : FieldInfo) (n : String) :
    conflictsOf (fs ++ [a]) n =
      conflictsOf fs n ++ (if n == a.Name then [fs.length] else []) := by
  unfold conflictsOf
  simp only [List.length_append, List.length_singleton, List.range_succ, List.filter_append]
  congr 1
  · apply List.filter_congr
    intro i hi
    simp only [List.mem_range] at hi
    simp [List.getElem?_append_left hi]
  · simp [List.filter_cons]

theorem conflictsOf_lt (fs : List FieldInfo) (n : String) :
    ∀ i ∈ conflictsOf fs n, i < fs.length := by
  intro i hi
  unfold conflictsOf at hi
  simp only [List.mem_filter, List.mem_range] at hi
  exact hi.1

theorem foldl_eraseIdx_append (r : List FieldInfo) :
    ∀ (is : List Nat) (fs : List FieldInfo),
      (∀ i ∈ is, i < fs.length) → is.Pairwise (· > ·) →
      is.foldl (fun l i => l.eraseIdx i) (fs ++ r) =
        is.foldl (fun l i => l.eraseIdx i) fs ++ r
  | [], fs, _, _ => by simp
  | i :: is, fs, hlt, hp => by
    have hi : i < fs.length := hlt i (List.mem_cons_self _ _)
    simp only [List.foldl_cons]
    rw [List.eraseIdx_append_of_lt_length hi]
    apply foldl_eraseIdx_append r is (fs.eraseIdx i)
    · intro j hj
      have : i > j := (List.pairwise_cons.1 hp).1 j hj
      rw [List.length_eraseIdx]
      simp only [hi, if_true]
      omega
    · exact (List.pairwise_cons.1 hp).2

theorem conflictsOf_sorted (fs : List FieldInfo) (n : String) :
    (conflictsOf fs n).Pairwise (· < ·) := by
  unfold conflictsOf
  exact List.Pairwise.filter _ (List.pairwise_lt_range _)

theorem foldl_eraseIdx_conflicts (n : String) (fs : List FieldInfo) :
    (conflictsOf fs n).reverse.foldl (fun l i => l.eraseIdx i) fs =
      fs.filter (fun oldf => n != oldf.Name) := by
  induction fs using List.reverseRecOn with
  | nil => simp [conflictsOf]
  | append_singleton fs a ih =>
    rw [conflictsOf_append]
    have hp : (conflictsOf fs n).reverse.Pairwise (· > ·) :=
      List.pairwise_reverse.2 (conflictsOf_sorted fs n)
    have hl : ∀ i ∈ (conflictsOf fs n).reverse, i < fs.length := fun i hi =>
      conflictsOf_lt fs n i (List.mem_reverse.1 hi)
    by_cases h : n = a.Name
    · subst h
      simp only [beq_self_eq_true, if_true, List.reverse_append, List.reverse_cons,
        List.reverse_nil, List.nil_append, List.singleton_append, List.foldl_cons]
      have : (fs ++ [a]).eraseIdx fs.length = fs := by
        rw [List.eraseIdx_append_of_length_le (le_refl _)]
        simp
      rw [this, ih]
      simp [List.filter_append]
    · have hb : (n == a.Name) = false := by simpa using h
      simp only [hb, List.append_nil, Bool.false_eq_true, if_false]
      rw [foldl_eraseIdx_append [a] _ fs hl hp, ih]
      simp [List.filter_append, h]

theorem conflictsOf_eq_nil (fs : List FieldInfo) (n : String) :
    conflictsOf fs n = [] ↔ fs.all (fun oldf => n != oldf.Name) = true := by
  induction fs using List.reverseRecOn with
  | nil => simp [conflictsOf]
  | append_singleton fs a ih =>
    rw [conflictsOf_append]
    by_cases h : n = a.Name
    · simp [h]
    · simp [h, ih]

theorem conflictsOf_any (fs : List FieldInfo) (n : String) (p : FieldInfo → Bool)
    (g : Nat → Bool) (hg : ∀ (i : Nat) (oldf : FieldInfo), fs[i]? = some oldf → g i = p oldf) :
    (conflictsOf fs n).any g = fs.any (fun oldf => n == oldf.Name && p oldf) := by
  rw [Bool.eq_iff_iff]
  simp only [List.any_eq_true, conflictsOf, List.mem_filter, List.mem_range, Bool.and_eq_true]
  constructor
  · rintro ⟨i, ⟨hi, hm⟩, hgi⟩
    have hget : fs[i]? = some (fs[i]) := List.getElem?_eq_getElem hi
    refine ⟨fs[i], List.getElem_mem hi, ?_, ?_⟩
    · simpa [hget] using hm
    · rw [← hg i _ hget]
      exact hgi
  · rintro ⟨oldf, hmem, hn, hp⟩
    obtain ⟨i, hi, rfl⟩ := List.getElem_of_mem hmem
    have hget : fs[i]? = some (fs[i]) := List.getElem?_eq_getElem hi
    refine ⟨i, ⟨hi, ?_⟩, ?_⟩
    · simpa [hget] using hn
    · rw [hg i _ hget]
      exact hp

theorem addFieldInfo_eq (tinfo : TypeInfo) (newf : FieldInfo) :
    addFieldInfo tinfo newf = .ok { Fields := addFieldSpec tinfo.Fields newf } := by
  unfold addFieldInfo addFieldSpec
  simp only [conflictsOf_eq_nil, foldl_eraseIdx_conflicts]
  by_cases h1 : (tinfo.Fields.all fun oldf => newf.Name != oldf.Name) = true
  · simp only [h1, if_true]
  · simp only [h1, if_false]
    rw [conflictsOf_any tinfo.Fields newf.Name
      (fun oldf => decide (oldf.idx.length < newf.idx.length))]
    · by_cases h2 : (tinfo.Fields.any fun oldf =>
          newf.Name == oldf.Name && decide (oldf.idx.length < newf.idx.length)) = true
      · simp [h2]
      · simp [h2]
    · intro i oldf h
      simp [h]

theorem winner_snoc (n : String) (cs : List FieldInfo) (c : FieldInfo) :
    winner n (cs ++ [c]) = if c.Name = n then better (winner n cs) c else winner n cs := by
  simp [winner, List.foldl_append]

theorem resolves_nil : Resolves [] [] := by
  intro n
  simp [winner]

theorem resolves_step (D cs : List FieldInfo) (c : FieldInfo) (h : Resolves D cs) :
    Resolves (addFieldSpec D c) (cs ++ [c]) := by
  intro n
  rw [winner_snoc]
  have hn := h n
  by_cases hc : c.Name = n
  · subst hc
    simp only [if_true]
    have hall : D.all (fun oldf => c.Name != oldf.Name) = true ↔
        D.filter (fun f => c.Name == f.Name) = [] := by
      simp [List.filter_eq_nil_iff]
    have hany : D.any (fun oldf => c.Name == oldf.Name &&
        decide (oldf.idx.length < c.idx.length)) =
        (D.filter (fun f => c.Name == f.Name)).any
          (fun oldf => decide (oldf.idx.length < c.idx.length)) := by
      rw [List.any_filter]
    unfold addFieldSpec
    rw [hany]
    cases hw : winner c.Name cs with
    | none =>
      rw [hw] at hn
      simp only [Option.toList] at hn
      have := hall.2 hn
      simp [this, hn, better, List.filter_append]
    | some old =>
      rw [hw] at hn
      simp only [Option.toList] at hn
      have hna : ¬ (D.all (fun oldf => c.Name != oldf.Name) = true) := by
        rw [hall, hn]
        simp
      simp only [hna, if_false, hn, List.any_cons, List.any_nil, Bool.or_false, decide_eq_true_eq]
      by_cases hd : old.idx.length < c.idx.length
      · simp [hd, better, hn]
      · simp [hd, better, List.filter_append, List.filter_filter]
  · have hb : (n == c.Name) = false := by
      simp only [beq_eq_false_iff_ne, ne_eq]
      exact fun e => hc e.symm
    simp only [hc, if_false]
    rw [← hn]
    unfold addFieldSpec
    split
    · simp [List.filter_append, hb]
    · split
      · rfl
      · simp only [List.filter_append, List.filter_filter]
        simp only [List.filter_cons, hb, List.filter_nil, List.append_nil, Bool.false_eq_true,
          if_false]
        apply List.filter_congr
        intro x _
        by_cases hx : n = x.Name
        · subst hx
          simp [hc]
        · simp [hx]

theorem better_assoc (w : Option FieldInfo) (a c : FieldInfo) :
    better (better w a) c = better w ((better (some a) c).getD c) := by
  cases w with
  | none => simp only [better]; split <;> simp
  | some o =>
    simp only [better]
    by_cases h1 : o.idx.length < a.idx.length <;> by_cases h2 : a.idx.length < c.idx.length <;>
      by_cases h3 : o.idx.length < c.idx.length <;> simp [h1, h2, h3] <;> omega

theorem foldl_winner_combine (n : String) : ∀ (ys : List FieldInfo) (w : Option FieldInfo),
    ys.foldl (fun w c => if c.Name = n then better w c else w) w =
      combine w (ys.foldl (fun w c => if c.Name = n then better w c else w) none) := by
  intro ys
  induction ys using List.reverseRecOn with
  | nil => intro w; simp [combine]
  | append_singleton ys c ih =>
    intro w
    simp only [List.foldl_append, List.foldl_cons, List.foldl_nil]
    rw [ih w]
    by_cases hc : c.Name = n
    · simp only [hc, if_true]
      cases hx : ys.foldl (fun w c => if c.Name = n then better w c else w) none with
      | none => simp [combine, better]
      | some a =>
        simp only [combine]
        rw [better_assoc]
        by_cases h : a.idx.length < c.idx.length <;> simp [better, h]
    · simp [hc]

theorem winner_append (n : String) (xs ys : List FieldInfo) :
    winner n (xs ++ ys) = combine (winner n xs) (winner n ys) := by
  unfold winner
  rw [List.foldl_append, foldl_winner_combine]

theorem winner_filter (n : String) (cs : List FieldInfo) :
    winner n cs = winner n (cs.filter (fun f => n == f.Name)) := by
  induction cs using List.reverseRecOn with
  | nil => rfl
  | append_singleton cs c ih =>
    rw [winner_snoc, List.filter_append]
    by_cases hc : c.Name = n
    · subst hc
      simp only [if_true, List.filter_cons, beq_self_eq_true, List.filter_nil]
      rw [winner_snoc, ← ih]
      simp
    · have : (n == c.Name) = false := by
        simp only [beq_eq_false_iff_ne, ne_eq]
        exact fun e => hc e.symm
      simp [hc, this, ih]

theorem better_name (n : String) (w : Option FieldInfo) (c f : FieldInfo)
    (hw : ∀ o, w = some o → o.Name = n) (hc : c.Name = n) (h : better w c = some f) :
    f.Name = n := by
  cases w with
  | none => simp only [better, Option.some.injEq] at h; rw [← h]; exact hc
  | some o =>
    simp only [better] at h
    split at h
    · simp only [Option.some.injEq] at h; rw [← h]; exact hw o rfl
    · simp only [Option.some.injEq] at h; rw [← h]; exact hc

theorem winner_name (n : String) : ∀ (cs : List FieldInfo) (f : FieldInfo),
    winner n cs = some f → f.Name = n := by
  intro cs
  induction cs using List.reverseRecOn with
  | nil => intro f h; simp [winner] at h
  | append_singleton cs c ih =>
    intro f h
    rw [winner_snoc] at h
    by_cases hc : c.Name = n
    · simp only [hc, if_true] at h
      exact better_name n _ c f ih hc h
    · simp only [hc, if_false] at h
      exact ih f h

theorem winner_toList (n : String) (cs : List FieldInfo) :
    winner n (winner n cs).toList = winner n cs := by
  cases h : winner n cs with
  | none => rfl
  | some f =>
    have := winner_name n cs f h
    simp [winner, Option.toList, this, better]

theorem winner_of_resolves (D cs : List FieldInfo) (h : Resolves D cs) (n : String) :
    winner n D = winner n cs := by
  rw [winner_filter, h n, winner_toList]

theorem winner_map_under (n : String) (i : Nat) (cs : List FieldInfo) :
    winner n (cs.map (FieldInfo.under i)) = (winner n cs).map (FieldInfo.under i) := by
  induction cs using List.reverseRecOn with
  | nil => rfl
  | append_singleton cs c ih =>
    rw [List.map_append, List.map_singleton, winner_snoc, winner_snoc, ih]
    have : (FieldInfo.under i c).Name = c.Name := rfl
    rw [this]
    by_cases hc : c.Name = n
    · simp only [hc, if_true]
      cases winner n cs with
      | none => rfl
      | some o =>
        simp only [Option.map, better, FieldInfo.under, List.length_cons,
          Nat.add_lt_add_iff_right]
        split <;> rfl
    · simp [hc]

theorem resolves_map_under (i : Nat) (D cs : List FieldInfo) (h : Resolves D cs) :
    Resolves (D.map (FieldInfo.under i)) (cs.map (FieldInfo.under i)) := by
  intro n
  rw [winner_map_under, List.filter_map]
  have : ((fun f : FieldInfo => n == f.Name) ∘ FieldInfo.under i) =
      (fun f : FieldInfo => n == f.Name) := rfl
  rw [this, h n]
  cases winner n cs <;> rfl

theorem resolves_foldl : ∀ (xs D cs : List FieldInfo), Resolves D cs →
    Resolves (xs.foldl addFieldSpec D) (cs ++ xs)
  | [], D, cs, h => by simpa using h
  | x :: xs, D, cs, h => by
    have := resolves_foldl xs (addFieldSpec D x) (cs ++ [x]) (resolves_step D cs x h)
    simpa using this

theorem resolves_block (i : Nat) (D cs Din csin : List FieldInfo) (h : Resolves D cs)
    (hin : Resolves Din csin) :
    Resolves ((Din.map (FieldInfo.under i)).foldl addFieldSpec D)
      (cs ++ csin.map (FieldInfo.under i)) := by
  have h1 := resolves_foldl (Din.map (FieldInfo.under i)) D cs h
  intro n
  rw [h1 n, winner_append, winner_append,
    winner_of_resolves _ _ (resolves_map_under i Din csin hin) n]

theorem embedFields_eq (i : Nat) : ∀ (inner : List FieldInfo) (tinfo : TypeInfo),
    embedFields i inner tinfo =
      .ok { Fields := (inner.map (FieldInfo.under i)).foldl addFieldSpec tinfo.Fields }
  | [], tinfo => rfl
  | c :: inner, tinfo => by
    have ih := embedFields_eq i inner { Fields := addFieldSpec tinfo.Fields (FieldInfo.under i c) }
    unfold embedFields at ih ⊢
    simp only [List.foldlM_cons, List.map_cons, List.foldl_cons]
    rw [addFieldInfo_eq]
    exact ih

theorem kind_struct (typ : GoType) (h : typ.kind = .Struct) : ∃ name, typ = .struct name := by
  cases typ with
  | struct name => exact ⟨name, rfl⟩
  | int k => cases k <;> simp [GoType.kind, IntKind.kind] at h
  | uint k => cases k <;> simp [GoType.kind, UintKind.kind] at h
  | float k => cases k <;> simp [GoType.kind] at h
  | _ => simp [GoType.kind] at h

theorem getTypeInfoBody_struct (env : TypeEnv) (recur : GoType → Res TypeInfo) (name : String) :
    getTypeInfoBody env recur (.struct name) =
      (decl env name).enum.foldlM (fieldStep recur) { Fields := [] } := by
  unfold getTypeInfoBody
  simp only
  congr 1
  funext tinfo p
  obtain ⟨i, f⟩ := p
  unfold fieldStep StructField.skipped StructField.embedded
  by_cases hs : (decide (f.Tag = "-") || !f.Anonymous && decide (f.PkgPath ≠ "")) = true
  · simp only [hs, if_true]
  · rw [if_neg hs, if_neg hs]
    have key : ∀ t : GoType,
        (if (f.Anonymous && decide (t.kind = Kind.Struct)) = true then
          (recur t).bind (fun inner => embedFields i inner.Fields tinfo)
        else (structFieldInfo i f).bind (fun finfo => addFieldInfo tinfo finfo)) =
        (match (if (f.Anonymous && decide (t.kind = Kind.Struct)) = true then some t else none)
          with
        | some t =>
          (recur t).bind (fun inner =>
            .ok ⟨(inner.Fields.map (FieldInfo.under i)).foldl addFieldSpec tinfo.Fields⟩)
        | none => .ok { Fields := addFieldSpec tinfo.Fields (fieldInfoOf i f) }) := by
      intro t
      by_cases h : (f.Anonymous && decide (t.kind = Kind.Struct)) = true
      · rw [if_pos h, if_pos h]
        congr 1
        funext inner
        exact embedFields_eq _ _ _
      · rw [if_neg h, if_neg h]
        simp only [structFieldInfo_eq, Res.bind, addFieldInfo_eq]
    cases hT : f.Typ <;> exact key _

theorem getTypeInfoBody_other (env : TypeEnv) (recur : GoType → Res TypeInfo) (typ : GoType)
    (h : typ.kind ≠ .Struct) : getTypeInfoBody env recur typ = .ok { Fields := [] } := by
  cases typ <;> first | rfl | exact absurd rfl h

theorem foldlM_fieldStep_resolves (recur : GoType → Res TypeInfo)
    (crecur : GoType → List FieldInfo)
    (hrec : ∀ t inner, recur t = .ok inner → Resolves inner.Fields (crecur t)) :
    ∀ (l : List (Nat × StructField)) (D cs : List FieldInfo) (tinfo : TypeInfo),
      Resolves D cs → l.foldlM (fieldStep recur) { Fields := D } = .ok tinfo →
      Resolves tinfo.Fields
        (cs ++ (l.map (fun (p : Nat × StructField) =>
          if p.2.skipped then []
          else
            match p.2.embedded with
            | some t => (crecur t).map (FieldInfo.under p.1)
            | none => [fieldInfoOf p.1 p.2])).flatten)
  | [], D, cs, tinfo, hD, h => by
    simp only [List.foldlM_nil, pure, Res.ok.injEq] at h
    subst h
    simpa using hD
  | p :: l, D, cs, tinfo, hD, h => by
    simp only [List.foldlM_cons, bind] at h
    simp only [List.map_cons, List.flatten_cons, ← List.append_assoc]
    unfold fieldStep at h
    by_cases hs : p.2.skipped = true
    · simp only [hs, if_true, Res.bind] at h
      simp only [hs, if_true, List.append_nil]
      exact foldlM_fieldStep_resolves recur crecur hrec l D cs tinfo hD h
    · simp only [hs, if_false] at h
      simp only [hs, if_false]
      cases he : p.2.embedded with
      | none =>
        simp only [he, Res.bind] at h
        exact foldlM_fieldStep_resolves recur crecur hrec l _ _ tinfo
          (resolves_step D cs _ hD) h
      | some t =>
        simp only [he] at h
        cases hr : recur t with
        | ok inner =>
          simp only [hr, Res.bind] at h
          exact foldlM_fieldStep_resolves recur crecur hrec l _ _ tinfo
            (resolves_block p.1 D cs inner.Fields (crecur t) hD (hrec t inner hr)) h
        | err e => simp [hr, Res.bind] at h
        | panic m => simp [hr, Res.bind] at h
        | fuel => simp [hr, Res.bind] at h

theorem getTypeInfoBody_resolves (env : TypeEnv) (recur : GoType → Res TypeInfo)
    (crecur : GoType → List FieldInfo)
    (hrec : ∀ t inner, recur t = .ok inner → Resolves inner.Fields (crecur t))
    (typ : GoType) (tinfo : TypeInfo) (h : getTypeInfoBody env recur typ = .ok tinfo) :
    Resolves tinfo.Fields (candidatesBody env crecur typ) := by
  by_cases hk : typ.kind = .Struct
  · obtain ⟨name, rfl⟩ := kind_struct typ hk
    rw [getTypeInfoBody_struct] at h
    have := foldlM_fieldStep_resolves recur crecur hrec _ [] [] tinfo resolves_nil h
    simpa [candidatesBody] using this
  · rw [getTypeInfoBody_other env recur typ hk] at h
    simp only [Res.ok.injEq] at h
    subst h
    cases typ <;> first | exact resolves_nil | exact absurd rfl hk

theorem GetTypeInfo_resolves (env : TypeEnv) : ∀ (fuel : Nat) (typ : GoType) (tinfo : TypeInfo),
    GetTypeInfo env fuel typ = .ok tinfo → Resolves tinfo.Fields (candidates env fuel typ)
  | 0, typ, tinfo, h =>
    getTypeInfoBody_resolves env _ _ (fun t inner ht => by simp at ht) typ tinfo h
  | fuel + 1, typ, tinfo, h =>
    getTypeInfoBody_resolves env _ _ (fun t inner ht => GetTypeInfo_resolves env fuel t inner ht)
      typ tinfo h

theorem winner_none (n : String) : ∀ cs : List FieldInfo,
    winner n cs = none → ∀ c ∈ cs, c.Name ≠ n := by
  intro cs
  induction cs using List.reverseRecOn with
  | nil => intro _ c hc; simp at hc
  | append_singleton cs c ih =>
    intro h x hx
    rw [winner_snoc] at h
    by_cases hc : c.Name = n
    · simp only [hc, if_true] at h
      cases hw : winner n cs <;> simp [hw, better] at h
      split at h <;> simp at h
    · simp only [hc, if_false] at h
      rcases List.mem_append.1 hx with hx | hx
      · exact ih h x hx
      · simp only [List.mem_singleton] at hx
        subst hx
        exact hc

theorem winner_spec (n : String) : ∀ (cs : List FieldInfo) (f : FieldInfo),
    winner n cs = some f →
      ∃ pre post, cs = pre ++ f :: post ∧
        (∀ c ∈ pre, c.Name = n → f.idx.length ≤ c.idx.length) ∧
        (∀ c ∈ post, c.Name = n → f.idx.length < c.idx.length) := by
  intro cs
  induction cs using List.reverseRecOn with
  | nil => intro f h; simp [winner] at h
  | append_singleton cs c ih =>
    intro f h
    rw [winner_snoc] at h
    by_cases hc : c.Name = n
    · simp only [hc, if_true] at h
      cases hw : winner n cs with
      | none =>
        simp only [hw, better, Option.some.injEq] at h
        subst h
        refine ⟨cs, [], rfl, ?_, by simp⟩
        intro x hx hxn
        exact absurd hxn (winner_none n cs hw x hx)
      | some old =>
        obtain ⟨pre, post, rfl, hpre, hpost⟩ := ih old hw
        simp only [hw, better] at h
        by_cases hd : old.idx.length < c.idx.length
        · simp only [hd, if_true, Option.some.injEq] at h
          subst h
          refine ⟨pre, post ++ [c], by simp, hpre, ?_⟩
          intro x hx hxn
          rcases List.mem_append.1 hx with hx | hx
          · exact hpost x hx hxn
          · simp only [List.mem_singleton] at hx
            subst hx
            exact hd
        · simp only [hd, if_false, Option.some.injEq] at h
          subst h
          refine ⟨pre ++ old :: post, [], by simp, ?_, by simp⟩
          intro x hx hxn
          rcases List.mem_append.1 hx with hx | hx
          · have := hpre x hx hxn
            omega
          · rcases List.mem_cons.1 hx with hx | hx
            · subst hx
              omega
            · have := hpost x hx hxn
              omega
    · simp only [hc, if_false] at h
      obtain ⟨pre, post, rfl, hpre, hpost⟩ := ih f h
      refine ⟨pre, post ++ [c], by simp, hpre, ?_⟩
      intro x hx hxn
      rcases List.mem_append.1 hx with hx | hx
      · exact hpost x hx hxn
      · simp only [List.mem_singleton] at hx
        subst hx
        exact absurd hxn hc

theorem nodup_names_of_filter : ∀ D : List FieldInfo,
    (∀ n : String, (D.filter (fun f => n == f.Name)).length ≤ 1) →
      (D.map (fun f => f.Name)).Nodup
  | [], _ => by simp
  | a :: D, h => by
    rw [List.map_cons, List.nodup_cons]
    constructor
    · intro hmem
      obtain ⟨b, hb, hba⟩ := List.mem_map.1 hmem
      have h1 := h a.Name
      simp only [List.filter_cons, beq_self_eq_true, if_true, List.length_cons] at h1
      have : 0 < (D.filter (fun f => a.Name == f.Name)).length := by
        apply List.length_pos_of_mem (a := b)
        simp [List.mem_filter, hb, hba]
      omega
    · apply nodup_names_of_filter D
      intro n
      have h1 := h n
      simp only [List.filter_cons] at h1
      split at h1
      · simp only [List.length_cons] at h1
        omega
      · exact h1

theorem resolves_nodup (D cs : List FieldInfo) (h : Resolves D cs) :
    (D.map (fun f => f.Name)).Nodup := by
  apply nodup_names_of_filter
  intro n
  rw [h n]
  cases winner n cs <;> simp [Option.toList]

theorem resolves_mem (D cs : List FieldInfo) (h : Resolves D cs) (f : FieldInfo) (hf : f ∈ D) :
    winner f.Name cs = some f := by
  have h1 := h f.Name
  have : f ∈ D.filter (fun g => f.Name == g.Name) := by simp [List.mem_filter, hf]
  rw [h1] at this
  cases hw : winner f.Name cs with
  | none => simp [hw, Option.toList] at this
  | some g =>
    simp only [hw, Option.toList, List.mem_singleton] at this
    rw [this]

theorem resolves_covers (D cs : List FieldInfo) (h : Resolves D cs) (c : FieldInfo)
    (hc : c ∈ cs) : ∃ f ∈ D, f.Name = c.Name := by
  cases hw : winner c.Name cs with
  | none => exact absurd rfl (winner_none c.Name cs hw c hc)
  | some f =>
    have h1 := h c.Name
    rw [hw] at h1
    have : f ∈ D.filter (fun g => c.Name == g.Name) := by simp [h1, Option.toList]
    simp only [List.mem_filter, beq_iff_eq] at this
    exact ⟨f, this.1, this.2.symm⟩

/-- Claim C7. Whenever `GetTypeInfo` returns a descriptor, the descriptor holds at
most one field per name; every field in it is one of the candidate fields of the
type (declared, or reached through embedding, with its full access path), every
candidate of the same name before it in declaration order is at least as deep and
every one after it is strictly deeper, so that the shortest access path survives
and, among the shortest, the one registered last; and every candidate name is
kept. -/
theorem GetTypeInfo_conflict_resolution (env : TypeEnv) (fuel : Nat) (typ : GoType)
    (tinfo : TypeInfo) (h : GetTypeInfo env fuel typ = .ok tinfo) :
    (tinfo.Fields.map (fun f => f.Name)).Nodup ∧
    (∀ f ∈ tinfo.Fields, ∃ pre post, candidates env fuel typ = pre ++ f :: post ∧
      (∀ c ∈ pre, c.Name = f.Name → f.idx.length ≤ c.idx.length) ∧
      (∀ c ∈ post, c.Name = f.Name → f.idx.length < c.idx.length)) ∧
    (∀ c ∈ candidates env fuel typ, ∃ f ∈ tinfo.Fields, f.Name = c.Name) := by
  have hr := GetTypeInfo_resolves env fuel typ tinfo h
  refine ⟨resolves_nodup _ _ hr, ?_, resolves_covers _ _ hr⟩
  intro f hf
  exact winner_spec f.Name _ f (resolves_mem _ _ hr f hf)

theorem GetTypeInfo_conflict_resolution_witness :
    GetTypeInfo shadowing 1 (.struct "Outer") =
        .ok { Fields := [ { idx := [0], Name := "X", OmitEmpty := false },
                          { idx := [2], Name := "Y", OmitEmpty := true } ] } ∧
      candidates shadowing 1 (.struct "Outer") =
        [ { idx := [0], Name := "X", OmitEmpty := false },
          { idx := [1, 0], Name := "Y", OmitEmpty := false },
          { idx := [1, 1], Name := "X", OmitEmpty := false },
          { idx := [1, 2], Name := "X", OmitEmpty := false },
          { idx := [2], Name := "Y", OmitEmpty := true } ] ∧
      ([ ({ idx := [0], Name := "X", OmitEmpty := false } : FieldInfo),
         { idx := [2], Name := "Y", OmitEmpty := true } ].map (fun f => f.Name)).Nodup :=
  ⟨by decide, by decide,
    (GetTypeInfo_conflict_resolution shadowing 1 (.struct "Outer") _ (by decide)).1⟩

theorem foldlM_fieldStep_okOrFuel (recur : GoType → Res TypeInfo)
    (hrec : ∀ t, (recur t).okOrFuel) :
    ∀ (l : List (Nat × StructField)) (tinfo : TypeInfo),
      (l.foldlM (fieldStep recur) tinfo).okOrFuel
  | [], tinfo => by simp [Res.okOrFuel, pure]
  | p :: l, tinfo => by
    simp only [List.foldlM_cons, bind]
    unfold fieldStep
    by_cases hs : p.2.skipped = true
    · simp only [hs, if_true, Res.bind]
      exact foldlM_fieldStep_okOrFuel recur hrec l tinfo
    · simp only [hs, if_false]
      cases he : p.2.embedded with
      | none =>
        simp only [Res.bind]
        exact foldlM_fieldStep_okOrFuel recur hrec l _
      | some t =>
        simp only
        have := hrec t
        cases hr : recur t with
        | ok inner =>
          simp only [Res.bind]
          exact foldlM_fieldStep_okOrFuel recur hrec l _
        | err e => simp [hr, Res.okOrFuel] at this
        | panic m => simp [hr, Res.okOrFuel] at this
        | fuel => simp [Res.bind, Res.okOrFuel]

theorem getTypeInfoBody_okOrFuel (env : TypeEnv) (recur : GoType → Res TypeInfo)
    (hrec : ∀ t, (recur t).okOrFuel) (typ : GoType) :
    (getTypeInfoBody env recur typ).okOrFuel := by
  by_cases hk : typ.kind = .Struct
  · obtain ⟨name, rfl⟩ := kind_struct typ hk
    rw [getTypeInfoBody_struct]
    exact foldlM_fieldStep_okOrFuel recur hrec _ _
  · rw [getTypeInfoBody_other env recur typ hk]
    trivial

theorem GetTypeInfo_okOrFuel (env : TypeEnv) : ∀ (fuel : Nat) (typ : GoType),
    (GetTypeInfo env fuel typ).okOrFuel
  | 0, typ => getTypeInfoBody_okOrFuel env (fun _ => .fuel) (fun _ => True.intro) typ
  | fuel + 1, typ => getTypeInfoBody_okOrFuel env _ (GetTypeInfo_okOrFuel env fuel) typ

theorem foldlM_fieldStep_ok (recur : GoType → Res TypeInfo) :
    ∀ (l : List (Nat × StructField)) (tinfo : TypeInfo),
      (∀ p ∈ l, p.2.skipped = false → ∀ t, p.2.embedded = some t → ∃ inner, recur t = .ok inner) →
      ∃ out, l.foldlM (fieldStep recur) tinfo = .ok out
  | [], tinfo, _ => ⟨tinfo, rfl⟩
  | p :: l, tinfo, h => by
    simp only [List.foldlM_cons, bind]
    have hl : ∀ q ∈ l, q.2.skipped = false → ∀ t, q.2.embedded = some t →
        ∃ inner, recur t = .ok inner := fun q hq => h q (List.mem_cons_of_mem _ hq)
    unfold fieldStep
    by_cases hs : p.2.skipped = true
    · simp only [hs, if_true, Res.bind]
      exact foldlM_fieldStep_ok recur l tinfo hl
    · simp only [hs, if_false]
      cases he : p.2.embedded with
      | none =>
        simp only [Res.bind]
        exact foldlM_fieldStep_ok recur l _ hl
      | some t =>
        obtain ⟨inner, hi⟩ := h p (List.mem_cons_self _ _) (by simpa using hs) t he
        simp only [hi, Res.bind]
        exact foldlM_fieldStep_ok recur l _ hl

theorem GetTypeInfo_ok_of_embedsWithin (env : TypeEnv) : ∀ (fuel d : Nat) (typ : GoType),
    embedsWithin env d typ = true → d ≤ fuel → ∃ tinfo, GetTypeInfo env fuel typ = .ok tinfo := by
  intro fuel
  induction fuel with
  | zero =>
    intro d typ h hd
    have hd0 : d = 0 := by omega
    subst hd0
    by_cases hk : typ.kind = .Struct
    · obtain ⟨name, rfl⟩ := kind_struct typ hk
      show ∃ tinfo, getTypeInfoBody env _ _ = _
      rw [getTypeInfoBody_struct]
      apply foldlM_fieldStep_ok
      intro p hp hs t ht
      simp only [embedsWithin, embedsWithinBody, List.all_eq_true] at h
      have := h p.2 (List.snd_mem_of_mem_enumFrom hp)
      simp [hs, ht] at this
    · exact ⟨_, getTypeInfoBody_other env _ typ hk⟩
  | succ fuel ih =>
    intro d typ h hd
    by_cases hk : typ.kind = .Struct
    · obtain ⟨name, rfl⟩ := kind_struct typ hk
      show ∃ tinfo, getTypeInfoBody env _ _ = _
      rw [getTypeInfoBody_struct]
      apply foldlM_fieldStep_ok
      intro p hp hs t ht
      cases d with
      | zero =>
        simp only [embedsWithin, embedsWithinBody, List.all_eq_true] at h
        have := h p.2 (List.snd_mem_of_mem_enumFrom hp)
        simp [hs, ht] at this
      | succ d =>
        simp only [embedsWithin, embedsWithinBody, List.all_eq_true] at h
        have := h p.2 (List.snd_mem_of_mem_enumFrom hp)
        simp only [hs, ht, Bool.false_or] at this
        exact ih d t this (by omega)
    · exact ⟨_, getTypeInfoBody_other env _ typ hk⟩

theorem GetTypeInfo_selfEmbedding : ∀ fuel : Nat,
    GetTypeInfo selfEmbedding fuel (.struct "T") = .fuel
  | 0 => by decide
  | fuel + 1 => by
    show getTypeInfoBody selfEmbedding (GetTypeInfo selfEmbedding fuel) (.struct "T") = .fuel
    rw [getTypeInfoBody_struct]
    have hd : decl selfEmbedding "T" = [selfField] := by decide
    have h1 : selfField.skipped = false := by decide
    have h2 : selfField.embedded = some (.struct "T") := by decide
    rw [hd]
    simp only [List.enum, List.enumFrom, List.foldlM_cons, List.foldlM_nil, bind, fieldStep, h1,
      h2, GetTypeInfo_selfEmbedding fuel, Res.bind]
    rfl

/-- Claim C8, as stated, fails: on the struct `type T struct { *T }`, which embeds
a pointer to itself, `GetTypeInfo` never returns, whatever depth of recursion it
is given. -/
theorem GetTypeInfo_selfEmbedding_never_returns :
    ¬ ∃ (fuel : Nat) (tinfo : TypeInfo),
      GetTypeInfo selfEmbedding fuel (.struct "T") = .ok tinfo := by
  rintro ⟨fuel, tinfo, h⟩
  rw [GetTypeInfo_selfEmbedding fuel] at h
  exact Res.noConfusion h

/-- Claim C8, amended. `GetTypeInfo` never returns a non-nil error and never
panics; for a type under which structs are embedded at most `d` levels deep it
returns a descriptor once it may recurse `d` levels; and for a type that is not a
struct the descriptor has no fields. -/
theorem GetTypeInfo_never_fails (env : TypeEnv) (fuel d : Nat) (typ : GoType)
    (h : embedsWithin env d typ = true) (hd : d ≤ fuel) :
    (∃ tinfo, GetTypeInfo env fuel typ = .ok tinfo) ∧
    (typ.kind ≠ .Struct → GetTypeInfo env fuel typ = .ok { Fields := [] }) ∧
    (∀ (fuel' : Nat) (typ' : GoType) (e : GoError), GetTypeInfo env fuel' typ' ≠ .err e) ∧
    (∀ (fuel' : Nat) (typ' : GoType) (m : String), GetTypeInfo env fuel' typ' ≠ .panic m) := by
  refine ⟨GetTypeInfo_ok_of_embedsWithin env fuel d typ h hd, ?_, ?_, ?_⟩
  · intro hk
    cases fuel <;> exact getTypeInfoBody_other env _ typ hk
  · intro fuel' typ' e he
    have := GetTypeInfo_okOrFuel env fuel' typ'
    rw [he] at this
    exact this
  · intro fuel' typ' m he
    have := GetTypeInfo_okOrFuel env fuel' typ'
    rw [he] at this
    exact this

theorem GetTypeInfo_never_fails_witness :
    embedsWithin shadowing 1 (.struct "Outer") = true ∧
      ∃ tinfo, GetTypeInfo shadowing 1 (.struct "Outer") = .ok tinfo :=
  ⟨by decide, (GetTypeInfo_never_fails shadowing 1 1 (.struct "Outer") (by decide) (by decide)).1⟩

/-! ## Excluded fields -/

theorem mem_candidatesBody_head (env : TypeEnv) (crecur : GoType → List FieldInfo)
    (name : String) (f : FieldInfo) (hf : f ∈ candidatesBody env crecur (.struct name)) :
    ∃ (j : Nat) (rest : List Nat) (sf : StructField),
      f.idx = j :: rest ∧ (decl env name)[j]? = some sf ∧ sf.skipped = false := by
  simp only [candidatesBody, List.mem_flatten, List.mem_map] at hf
  obtain ⟨l, ⟨p, hp, rfl⟩, hfl⟩ := hf
  have hget : (decl env name)[p.1]? = some p.2 := List.mem_enum_iff_getElem?.1 hp
  by_cases hs : p.2.skipped = true
  · simp [hs] at hfl
  · rw [if_neg hs] at hfl
    cases he : p.2.embedded with
    | none =>
      simp only [he, List.mem_singleton] at hfl
      subst hfl
      exact ⟨p.1, [], p.2, rfl, hget, by simpa using hs⟩
    | some t =>
      simp only [he, List.mem_map] at hfl
      obtain ⟨c, _, rfl⟩ := hfl
      exact ⟨p.1, c.idx, p.2, rfl, hget, by simpa using hs⟩

theorem GetTypeInfo_fields_head (env : TypeEnv) (fuel : Nat) (name : String) (tinfo : TypeInfo)
    (h : GetTypeInfo env fuel (.struct name) = .ok tinfo) (f : FieldInfo)
    (hf : f ∈ tinfo.Fields) :
    ∃ (j : Nat) (rest : List Nat) (sf : StructField),
      f.idx = j :: rest ∧ (decl env name)[j]? = some sf ∧ sf.skipped = false := by
  have hr := GetTypeInfo_resolves env fuel (.struct name) tinfo h
  obtain ⟨pre, post, hc, _, _⟩ := winner_spec f.Name _ f (resolves_mem _ _ hr f hf)
  have hmem : f ∈ candidates env fuel (.struct name) := by
    rw [hc]
    simp
  cases fuel with
  | zero => exact mem_candidatesBody_head env _ name f hmem
  | succ fuel => exact mem_candidatesBody_head env _ name f hmem

theorem onField_set_ne {α : Type} (env : TypeEnv) (x i : Nat) (hxi : x ≠ i) (name : String)
    (fields : List GoValue) (w : GoValue) (cont : GoValue → Bool → GoValue × Res α) :
    onField env x (.struct name (fields.set i w)) cont =
      (GoValue.setField i w (onField env x (.struct name fields) cont).1,
        (onField env x (.struct name fields) cont).2) := by
  unfold onField
  have hget : (fields.set i w).get? x = fields.get? x := by
    simp [List.getElem?_set_ne (Ne.symm hxi)]
  simp only [hget]
  cases h1 : fields.get? x with
  | none => simp [GoValue.setField]
  | some fv =>
    cases h2 : (decl env name).get? x with
    | none => simp [GoValue.setField]
    | some f =>
      simp only [GoValue.setField]
      rw [List.set_comm _ _ _ (Ne.symm hxi)]

theorem atPath_cons_struct {α : Type} (env : TypeEnv) (zero : GoType → Option GoValue)
    (k : GoValue → Bool → Bool → GoValue × Res α) (x : Nat) (rest : List Nat) (addr ro : Bool)
    (name : String) (fields : List GoValue) :
    atPath env zero k (x :: rest) true addr ro (.struct name fields) =
      onField env x (.struct name fields)
        (fun fv ro' => atPath env zero k rest false addr ro' fv) := by
  simp [atPath]

theorem marshalField_set_ne (env : TypeEnv) (zero : GoType → Option GoValue) (recur : MarshalFn)
    (objs : List Obj) (name : String) (fields : List GoValue) (i : Nat) (w : GoValue)
    (fl : Flags) (ti : FieldInfo) (x : Nat) (rest : List Nat) (hidx : ti.idx = x :: rest)
    (hxi : x ≠ i) :
    marshalField env zero recur objs (.struct name (fields.set i w)) fl ti =
      marshalField env zero recur objs (.struct name fields) fl ti := by
  unfold marshalField fieldValue
  rw [hidx, atPath_cons_struct, atPath_cons_struct, onField_set_ne env x i hxi]

theorem marshalFieldsNS_set_ne (env : TypeEnv) (zero : GoType → Option GoValue)
    (recur : MarshalFn) (name : String) (fields : List GoValue) (i : Nat) (w : GoValue)
    (fl : Flags) :
    ∀ (tis : List FieldInfo) (objs : List Obj) (nsobj : List (String × Obj)),
      (∀ ti ∈ tis, ∃ x rest, ti.idx = x :: rest ∧ x ≠ i) →
      marshalFieldsNS env zero recur (.struct name (fields.set i w)) fl tis objs nsobj =
        marshalFieldsNS env zero recur (.struct name fields) fl tis objs nsobj
  | [], objs, nsobj, _ => rfl
  | ti :: tis, objs, nsobj, h => by
    obtain ⟨x, rest, hidx, hxi⟩ := h ti (List.mem_cons_self _ _)
    have ht : ∀ ti ∈ tis, ∃ x rest, ti.idx = x :: rest ∧ x ≠ i :=
      fun t ht => h t (List.mem_cons_of_mem _ ht)
    simp only [marshalFieldsNS, marshalField_set_ne env zero recur objs name fields i w fl ti x
      rest hidx hxi]
    split <;> first | rfl | exact marshalFieldsNS_set_ne env zero recur name fields i w fl tis _ _ ht

theorem marshalFieldsTable_set_ne (env : TypeEnv) (zero : GoType → Option GoValue)
    (recur : MarshalFn) (name : String) (fields : List GoValue) (i : Nat) (w : GoValue)
    (fl : Flags) :
    ∀ (tis : List FieldInfo) (objs : List Obj) (keys objects : List Nat),
      (∀ ti ∈ tis, ∃ x rest, ti.idx = x :: rest ∧ x ≠ i) →
      marshalFieldsTable env zero recur (.struct name (fields.set i w)) fl tis objs keys objects =
        marshalFieldsTable env zero recur (.struct name fields) fl tis objs keys objects
  | [], objs, keys, objects, _ => rfl
  | ti :: tis, objs, keys, objects, h => by
    obtain ⟨x, rest, hidx, hxi⟩ := h ti (List.mem_cons_self _ _)
    have ht : ∀ ti ∈ tis, ∃ x rest, ti.idx = x :: rest ∧ x ≠ i :=
      fun t ht => h t (List.mem_cons_of_mem _ ht)
    simp only [marshalFieldsTable, marshalField_set_ne env zero recur objs name fields i w fl ti
      x rest hidx hxi]
    split
    · exact marshalFieldsTable_set_ne env zero recur name fields i w fl tis _ _ _ ht
    · split
      · exact marshalFieldsTable_set_ne env zero recur name fields i w fl tis _ _ _ ht
      · rfl
    · rfl
    · rfl

theorem unmarshalFields_keeps (env : TypeEnv) (zero : GoType → Option GoValue)
    (recur : UnmarshalFn) (kvs : List (String × Obj)) (addr ro : Bool) (name : String)
    (i : Nat) :
    ∀ (fis : List FieldInfo) (fields : List GoValue),
      (∀ fi ∈ fis, ∃ x rest, fi.idx = x :: rest ∧ x ≠ i) →
      ∃ fields', (unmarshalFields env zero recur kvs addr ro fis (.struct name fields)).1 =
          .struct name fields' ∧ fields'[i]? = fields[i]?
  | [], fields, _ => ⟨fields, rfl, rfl⟩
  | fi :: fis, fields, h => by
    obtain ⟨x, rest, hidx, hxi⟩ := h fi (List.mem_cons_self _ _)
    have ht : ∀ fi ∈ fis, ∃ x rest, fi.idx = x :: rest ∧ x ≠ i :=
      fun t ht => h t (List.mem_cons_of_mem _ ht)
    simp only [unmarshalFields]
    cases hl : kvs.lookup fi.Name with
    | none => exact unmarshalFields_keeps env zero recur kvs addr ro name i fis fields ht
    | some dval =>
      simp only [hidx, atPath_cons_struct]
      have hon : ∃ fields', (onField env x (.struct name fields)
          (fun fv ro' => atPath env zero (fun fv a r => recur dval fv a r) rest false addr ro'
            fv)).1 = .struct name fields' ∧ fields'[i]? = fields[i]? := by
        unfold onField
        simp only [List.get?_eq_getElem?]
        cases h1 : fields[x]? with
        | none => exact ⟨fields, rfl, rfl⟩
        | some fv =>
          cases h2 : (decl env name)[x]? with
          | none => exact ⟨fields, rfl, rfl⟩
          | some f => exact ⟨_, rfl, by simp [List.getElem?_set_ne hxi]⟩
      obtain ⟨fields1, h1, h1i⟩ := hon
      generalize hres : onField env x (.struct name fields)
          (fun fv ro' => atPath env zero (fun fv a r => recur dval fv a r) rest false addr ro'
            fv) = res at h1
      obtain ⟨val', r⟩ := res
      simp only at h1
      subst h1
      cases r with
      | ok u =>
        obtain ⟨fields2, h2, h2i⟩ :=
          unmarshalFields_keeps env zero recur kvs addr ro name i fis fields1 ht
        exact ⟨fields2, h2, h2i.trans h1i⟩
      | err e => exact ⟨fields1, rfl, h1i⟩
      | panic m => exact ⟨fields1, rfl, h1i⟩
      | fuel => exact ⟨fields1, rfl, h1i⟩

theorem fields_avoid_excluded (env : TypeEnv) (tfuel : Nat) (name : String) (i : Nat)
    (sf : StructField) (hsf : (decl env name)[i]? = some sf) (htag : sf.Tag = "-")
    (tinfo : TypeInfo) (h : GetTypeInfo env tfuel (.struct name) = .ok tinfo) :
    ∀ f ∈ tinfo.Fields, ∃ x rest, f.idx = x :: rest ∧ x ≠ i := by
  intro f hf
  obtain ⟨j, rest, sf', hidx, hget, hsk⟩ := GetTypeInfo_fields_head env tfuel name tinfo h f hf
  refine ⟨j, rest, hidx, ?_⟩
  rintro rfl
  rw [hsf] at hget
  simp only [Option.some.injEq] at hget
  subst hget
  simp [StructField.skipped, htag] at hsk

/-- Claim C6. A field tagged `plist:"-"` is absent from the descriptor `GetTypeInfo`
returns: no entry of the descriptor has an access path through it. Consequently
`marshalStruct` returns the same reference and the same table whatever the field
holds, and `unmarshalStruct` leaves the field as it was, whatever the source
mapping and the object table hold. -/
theorem tag_exclusion (env : TypeEnv) (reg : Registry) (tfuel : Nat) (recur : MarshalFn)
    (urecur : UnmarshalFn) (dictU : List (String × Obj) → GoValue → GoValue × Res Unit)
    (objects : List Obj) (name : String) (i : Nat) (sf : StructField)
    (hsf : (decl env name)[i]? = some sf) (htag : sf.Tag = "-") :
    (∀ tinfo, GetTypeInfo env tfuel (.struct name) = .ok tinfo →
      ∀ f ∈ tinfo.Fields, f.idx.head? ≠ some i) ∧
    (∀ (objs : List Obj) (fields : List GoValue) (w : GoValue) (fl : Flags),
      marshalStruct env reg (GetTypeInfo env tfuel) (zeroValue env tfuel) recur objs
          (.struct name (fields.set i w)) fl =
        marshalStruct env reg (GetTypeInfo env tfuel) (zeroValue env tfuel) recur objs
          (.struct name fields) fl) ∧
    (∀ (dict : List (String × Obj)) (fields : List GoValue) (addr ro : Bool),
      ∃ fields', (unmarshalStruct env (GetTypeInfo env tfuel) dictU (zeroValue env tfuel) urecur
          objects dict (.struct name fields) addr ro).1 = .struct name fields' ∧
        fields'[i]? = fields[i]?) := by
  refine ⟨?_, ?_, ?_⟩
  · intro tinfo h f hf
    obtain ⟨x, rest, hidx, hxi⟩ := fields_avoid_excluded env tfuel name i sf hsf htag tinfo h f hf
    simp [hidx, hxi]
  · intro objs fields w fl
    unfold marshalStruct
    simp only
    cases h : GetTypeInfo env tfuel (.struct name) with
    | ok tinfo =>
      have ha := fields_avoid_excluded env tfuel name i sf hsf htag tinfo h
      simp only [marshalFieldsNS_set_ne env _ recur name fields i w fl tinfo.Fields _ _ ha,
        marshalFieldsTable_set_ne env _ recur name fields i w fl tinfo.Fields _ _ _ ha]
    | err e => rfl
    | panic m => rfl
    | fuel => rfl
  · intro dict fields addr ro
    unfold unmarshalStruct
    simp only [GoValue.typ]
    cases h : GetTypeInfo env tfuel (.struct name) with
    | ok tinfo =>
      have ha := fields_avoid_excluded env tfuel name i sf hsf htag tinfo h
      simp only
      generalize dictU dict newArchiverTable = tab
      obtain ⟨tv, tr⟩ := tab
      cases tr with
      | ok u =>
        simp only
        cases tableEntries objects (sliceField (pointee tv) 1) (sliceField (pointee tv) 0) 0 []
          with
        | ok kvs => exact unmarshalFields_keeps env _ urecur kvs addr ro name i tinfo.Fields fields ha
        | err e => exact ⟨fields, rfl, rfl⟩
        | panic m => exact ⟨fields, rfl, rfl⟩
        | fuel => exact ⟨fields, rfl, rfl⟩
      | err e => exact ⟨fields, rfl, rfl⟩
      | panic m => exact ⟨fields, rfl, rfl⟩
      | fuel => exact ⟨fields, rfl, rfl⟩
    | err e => exact ⟨fields, rfl, rfl⟩
    | panic m => exact ⟨fields, rfl, rfl⟩
    | fuel => exact ⟨fields, rfl, rfl⟩

theorem tag_exclusion_witness :
    (unmarshalStruct exclusionEnv (GetTypeInfo exclusionEnv 3) (DictionaryUnmarshal exclusionEnv 3)
        (zeroValue exclusionEnv 3) (unmarshal exclusionEnv 3 exclusionObjects 1) exclusionObjects
        exclusionDict (.struct "S" [.string "", .string "kept"]) true false) =
      (.struct "S" [.string "alice", .string "kept"], .ok ()) ∧
    ∃ fields', (unmarshalStruct exclusionEnv (GetTypeInfo exclusionEnv 3)
        (DictionaryUnmarshal exclusionEnv 3) (zeroValue exclusionEnv 3)
        (unmarshal exclusionEnv 3 exclusionObjects 1) exclusionObjects exclusionDict
        (.struct "S" [.string "", .string "kept"]) true false).1 = .struct "S" fields' ∧
      fields'[1]? = [GoValue.string "", GoValue.string "kept"][1]? :=
  ⟨by rfl,
    (tag_exclusion exclusionEnv [] 3 (marshal exclusionEnv [] 3 1)
      (unmarshal exclusionEnv 3 exclusionObjects 1) (DictionaryUnmarshal exclusionEnv 3)
      exclusionObjects "S" 1 secretField (by decide) (by decide)).2.2 exclusionDict
      [.string "", .string "kept"] true false⟩

/-! ## Timestamps -/

theorem roundToBits_53 (a : Nat) (h : a ≤ 2 ^ 53) : roundToBits 53 a = a := by
  by_cases hlt : a < 2 ^ 53
  · unfold roundToBits
    rw [if_pos hlt]
  · have ha : a = 2 ^ 53 := by omega
    subst ha
    decide

theorem ofInt64_exact (n : Int) (h : |n| ≤ 2 ^ 53) : F64.ofInt64 n = .num n 0 := by
  have hn : n.natAbs ≤ 2 ^ 53 := by
    have h1 := abs_le.1 h
    omega
  unfold F64.ofInt64
  rw [roundToBits_53 _ hn]
  by_cases h0 : n < 0
  · simp only [h0, if_true]
    congr 1
    omega
  · simp only [h0, if_false]
    congr 1
    omega

theorem toInt64_int (n : Int) (h : -(2 : Int) ^ 63 ≤ n ∧ n < (2 : Int) ^ 63) :
    F64.toInt64 (.num n 0) = n := by
  simp only [F64.toInt64, pow_zero, Int.tdiv_one]
  rw [if_pos h]

theorem wrapInt64_id (n : Int) (h : -(2 : Int) ^ 63 ≤ n ∧ n < (2 : Int) ^ 63) :
    wrapInt64 n = n := by
  unfold wrapInt64
  have h1 : (n + 2 ^ 63) % 2 ^ 64 = n + 2 ^ 63 := by
    apply Int.emod_eq_of_lt <;> omega
  omega

theorem dictUnmarshal_unfold (env : TypeEnv) (tfuel : Nat) : ∀ fuel : Nat,
    dictUnmarshal env tfuel fuel =
      dictUnmarshalBody env (GetTypeInfo env tfuel) (zeroValue env tfuel)
        (match fuel with
          | 0 => fun _ val _ _ => (val, .fuel)
          | k + 1 => dictUnmarshal env tfuel k)
  | 0 => rfl
  | _ + 1 => rfl

theorem GetTypeInfo_archiverDate (env : TypeEnv) : ∀ fuel : Nat,
    GetTypeInfo env fuel (.struct "plist.archiverDate") =
      .ok { Fields := [ { idx := [0], Name := "NS.time", OmitEmpty := false },
                        { idx := [1], Name := "$class", OmitEmpty := false } ] }
  | 0 => rfl
  | _ + 1 => rfl

theorem unmarshalDate_decoded (env : TypeEnv) (tfuel : Nat) (t : F64) (c : Nat) (val : GoValue) :
    unmarshalDate (DictionaryUnmarshal env (tfuel + 1))
        [("NS.time", .float .float64 t), ("$class", .uid c)] val true false =
      (.time (wrapInt64 (F64.toInt64 t + unixToCocoa)) 0 .local, .ok ()) := by
  unfold unmarshalDate DictionaryUnmarshal
  rw [dictUnmarshal_unfold]
  simp only [dictUnmarshalBody, newArchiverDate, ptrStep, dictUnmarshalKind, dictUnmarshalStruct,
    GoValue.typ, GetTypeInfo_archiverDate]
  rw [dictUnmarshal_unfold]
  cases tfuel <;> rfl

/-- Claim C9, as stated, fails: `unixToCocoa` is 978307200, but the offset is kept
as a `float64`. For the instant with Unix second 9007200233048193, whose offset is
`2 ^ 53 + 1`, the encoder stores `2 ^ 53`, and the decoder gives back the Unix
second 9007200233048192. -/
theorem timestamp_rounding :
    unixToCocoa = 978307200 ∧
    marshalKind (fun _ => []) [] (GetTypeInfo (fun _ => []) 0) (zeroValue (fun _ => []) 0)
        (marshal (fun _ => []) [] 0 0) [.string "$null"] (.time 9007200233048193 0 .utc)
        Flags.root =
      ([.string "$null", archiverDateClass.toObj, .dateRef (.num 9007199254740992 0) 1],
        .ok 2) ∧
    (9007200233048193 : Int) - 978307200 ≠ 9007199254740992 ∧
    unmarshalDate (DictionaryUnmarshal (fun _ => []) 1)
        [("NS.time", .float .float64 (.num 9007199254740992 0)), ("$class", .uid 1)]
        (.time 0 0 .utc) true false =
      (.time 9007200233048192 0 .local, .ok ()) :=
  ⟨by decide, by rfl, by decide, by rfl⟩

/-- Claim C9, amended. `unixToCocoa` is 978307200. For every instant whose Unix
second `s` is within `2 ^ 53` seconds of the reference epoch, the encoder stores
the offset `s - 978307200`; the decoder maps a stored whole offset `d` of at most
`2 ^ 53` in absolute value to the Unix second `d + 978307200`; so decoding what
the encoder stored for `s` gives `s` back. -/
theorem timestamp_conversion (env : TypeEnv) (reg : Registry) (tinfoOf : GoType → Res TypeInfo)
    (zero : GoType → Option GoValue) (recur : MarshalFn) (objs : List Obj) (addr : Bool)
    (tfuel : Nat) (val : GoValue) (c : Nat) (s d : Int) (nsec : Nat) (loc : TimeLoc)
    (hs : |s - 978307200| ≤ 2 ^ 53) (hd : |d| ≤ 2 ^ 53) :
    unixToCocoa = 978307200 ∧
    marshalKind env reg tinfoOf zero recur objs (.time s nsec loc) { addr := addr, ro := false } =
      ((addObject (addObject objs archiverDateClass.toObj).2
          (.dateRef (.num (s - 978307200) 0) (addObject objs archiverDateClass.toObj).1)).2,
        .ok (addObject (addObject objs archiverDateClass.toObj).2
          (.dateRef (.num (s - 978307200) 0) (addObject objs archiverDateClass.toObj).1)).1) ∧
    unmarshalDate (DictionaryUnmarshal env (tfuel + 1))
        [("NS.time", .float .float64 (.num d 0)), ("$class", .uid c)] val true false =
      (.time (d + 978307200) 0 .local, .ok ()) ∧
    unmarshalDate (DictionaryUnmarshal env (tfuel + 1))
        [("NS.time", .float .float64 (F64.ofInt64 (wrapInt64 (s - unixToCocoa)))),
          ("$class", .uid c)] val true false =
      (.time s 0 .local, .ok ()) := by
  have hc : unixToCocoa = 978307200 := by decide
  have hs' := abs_le.1 hs
  have hd' := abs_le.1 hd
  have hw : wrapInt64 (s - 978307200) = s - 978307200 := wrapInt64_id _ (by omega)
  have he : F64.ofInt64 (wrapInt64 (s - 978307200)) = .num (s - 978307200) 0 := by
    rw [hw]
    exact ofInt64_exact _ hs
  have hdec : ∀ x : Int, |x| ≤ 2 ^ 53 →
      unmarshalDate (DictionaryUnmarshal env (tfuel + 1))
        [("NS.time", .float .float64 (.num x 0)), ("$class", .uid c)] val true false =
      (.time (x + 978307200) 0 .local, .ok ()) := by
    intro x hx
    have hx' := abs_le.1 hx
    rw [unmarshalDate_decoded, toInt64_int x (by omega), hc, wrapInt64_id _ (by omega)]
  refine ⟨hc, ?_, hdec d hd, ?_⟩
  · simp only [marshalKind, hc, he, Bool.false_eq_true, if_false]
  · rw [hc, he, hdec _ hs]
    congr 2
    omega

theorem timestamp_conversion_witness :
    marshalKind (fun _ => []) [] (GetTypeInfo (fun _ => []) 0) (zeroValue (fun _ => []) 0)
        (marshal (fun _ => []) [] 0 0) [.string "$null"] (.time 978307200 0 .utc) Flags.root =
      ([.string "$null", archiverDateClass.toObj, .dateRef (.num 0 0) 1], .ok 2) ∧
    marshalKind (fun _ => []) [] (GetTypeInfo (fun _ => []) 0) (zeroValue (fun _ => []) 0)
        (marshal (fun _ => []) [] 0 0) [.string "$null"] (.time 978393600 0 .utc) Flags.root =
      ([.string "$null", archiverDateClass.toObj, .dateRef (.num 86400 0) 1], .ok 2) ∧
    unmarshalDate (DictionaryUnmarshal (fun _ => []) 1)
        [("NS.time", .float .float64 (F64.ofInt64 (wrapInt64 (978393600 - unixToCocoa)))),
          ("$class", .uid 1)] (.time 0 0 .utc) true false =
      (.time 978393600 0 .local, .ok ()) :=
  ⟨(timestamp_conversion (fun _ => []) [] (GetTypeInfo (fun _ => []) 0)
      (zeroValue (fun _ => []) 0) (marshal (fun _ => []) [] 0 0) [.string "$null"] false 0
      (.time 0 0 .utc) 1 978307200 0 0 .utc (by decide) (by decide)).2.1,
    (timestamp_conversion (fun _ => []) [] (GetTypeInfo (fun _ => []) 0)
      (zeroValue (fun _ => []) 0) (marshal (fun _ => []) [] 0 0) [.string "$null"] false 0
      (.time 0 0 .utc) 1 978393600 86400 0 .utc (by decide) (by decide)).2.1,
    (timestamp_conversion (fun _ => []) [] (GetTypeInfo (fun _ => []) 0)
      (zeroValue (fun _ => []) 0) (marshal (fun _ => []) [] 0 0) [.string "$null"] false 0
      (.time 0 0 .utc) 1 978393600 86400 0 .utc (by decide) (by decide)).2.2.2⟩

/-! ## Evaluations at the inputs on which the code departs from a claim -/

/-- Claim C4, evaluated. `R` has one field, a pointer tagged `omitempty`, and the
value holds nil there. With no class registered for `R`, `Marshal` succeeds and
the emitted object has no key and no value; with a class registered for `R`, the
same value fails with `errArchiverNilElem`, the first loop of `marshalStruct`
having no `omitempty` test; and without the tag (`Q`) it fails as well. -/
theorem omitempty_ignored_for_registered_class :
    Marshal omitEnv [] 3 3 emptyArchiver (.struct "R" [.ptr .string none]) =
      ({ Version := 100000,
         Objects := [.string "$null", archiverMutableDictionaryClass.toObj, .tableRef [] [] 1],
         ArchiverName := "NSKeyedArchiver", Top := some 2 }, .ok ()) ∧
    Marshal omitEnv omitRegistry 3 3 emptyArchiver (.struct "R" [.ptr .string none]) =
      ({ Version := 100000, Objects := [.string "$null"], ArchiverName := "NSKeyedArchiver",
         Top := none }, .err .nilElem) ∧
    Marshal omitEnv [] 3 3 emptyArchiver (.struct "Q" [.ptr .string none]) =
      ({ Version := 100000, Objects := [.string "$null"], ArchiverName := "NSKeyedArchiver",
         Top := none }, .err .nilElem) :=
  ⟨by rfl, by rfl, by rfl⟩

/-- Claim C5, evaluated. `Inner.P` is a nil pointer that is not tagged `omitempty`,
inside the field `Outer.In`, which is tagged and is not nil itself. `Marshal`
returns no error: the `errArchiverNilElem` of `P` is taken for `In` being nil, `In`
is dropped from the output, and the entry made for `Inner.A` stays in the table. -/
theorem nested_nil_swallowed :
    Marshal nestedEnv [] 3 3 emptyArchiver nestedValue =
      ({ Version := 100000,
         Objects := [.string "$null", .string "a", .string "A",
           archiverMutableDictionaryClass.toObj, .tableRef [] [] 3],
         ArchiverName := "NSKeyedArchiver", Top := some 4 }, .ok ()) ∧
    (marshal nestedEnv [] 3 3 [.string "$null"]
        (.struct "Inner" [.string "a", .ptr .string none]) Flags.root).2 = .err .nilElem :=
  ⟨by rfl, by rfl⟩

/-- Claim C10, evaluated. `Archiver.unmarshal` has no case for `int64`: the signed
integer -5 is refused with "type not assay" for an `int64` target, which is left as
it was, where `Dictionary.unmarshal` stores it; a `uint64` is stored by both. -/
theorem int64_refused :
    unmarshal (fun _ => []) 3 [] 3 (.int .int64 (-5)) (.int .int64 0) true false =
      (.int .int64 0, .err (.other "type not assay")) ∧
    dictUnmarshal (fun _ => []) 3 3 (.int .int64 (-5)) (.int .int64 0) true false =
      (.int .int64 (-5), .ok ()) ∧
    unmarshal (fun _ => []) 3 [] 3 (.uint .uint64 5) (.int .int64 0) true false =
      (.int .int64 5, .ok ()) :=
  ⟨by rfl, by rfl, by rfl⟩

/-! ## The table only grows, and what is in it is found again -/

theorem Grows.refl (T : List Obj) : Grows T T := ⟨[], by simp⟩

theorem Grows.trans {A B C : List Obj} (h1 : Grows A B) (h2 : Grows B C) : Grows A C := by
  obtain ⟨s, rfl⟩ := h1
  obtain ⟨t, rfl⟩ := h2
  exact ⟨s ++ t, by simp⟩

theorem Grows.getElem? {A B : List Obj} (h : Grows A B) (i : Nat) (x : Obj)
    (hx : A[i]? = some x) : B[i]? = some x := by
  obtain ⟨s, rfl⟩ := h
  have hi : i < A.length := by
    by_contra hc
    rw [List.getElem?_eq_none (by omega)] at hx
    exact Option.noConfusion hx
  rw [List.getElem?_append_left hi]
  exact hx

theorem Grows.length_le {A B : List Obj} (h : Grows A B) : A.length ≤ B.length := by
  obtain ⟨s, rfl⟩ := h
  simp

theorem cmpEqual_self (o : Obj) (h : o.hasNaN = false) : cmpEqual o o = true :=
  (cmpEqual_iff o o).2 ⟨rfl, h⟩

theorem cmpEqual_eq (a b : Obj) (h : cmpEqual a b = true) : a = b :=
  ((cmpEqual_iff a b).1 h).1

theorem findEqual_append_some (obj : Obj) : ∀ (T : List Obj) (s : List Obj) (k i : Nat),
    findEqual obj T k = some i → findEqual obj (T ++ s) k = some i
  | [], s, k, i, h => by simp [findEqual] at h
  | x :: T, s, k, i, h => by
    simp only [List.cons_append, findEqual] at h ⊢
    split
    · simpa [*] using h
    · rename_i hx
      simp only [hx] at h
      exact findEqual_append_some obj T s (k + 1) i h

theorem findEqual_append_none (obj : Obj) (hn : obj.hasNaN = false) :
    ∀ (T : List Obj) (s : List Obj) (k : Nat),
      findEqual obj T k = none → findEqual obj (T ++ obj :: s) k = some (k + T.length)
  | [], s, k, _ => by simp [findEqual, cmpEqual_self obj hn]
  | x :: T, s, k, h => by
    simp only [List.cons_append, findEqual] at h ⊢
    split
    · rename_i hx
      simp [hx] at h
    · rename_i hx
      rw [if_neg hx] at h
      have := findEqual_append_none obj hn T s (k + 1) h
      simp only [List.append_eq] at this ⊢
      rw [this]
      simp only [List.length_cons, Option.some.injEq]
      omega

/-- The table grows under `addObject`, and on any table grown from the result the
same object gets the same index and adds nothing. -/
theorem addObject_stable (T : List Obj) (o : Obj) (hn : o.hasNaN = false) :
    Grows T (addObject T o).2 ∧
      ∀ T2, Grows (addObject T o).2 T2 → addObject T2 o = ((addObject T o).1, T2) := by
  unfold addObject
  cases hf : findEqual o T 0 with
  | some i =>
    refine ⟨Grows.refl T, ?_⟩
    rintro T2 ⟨s, rfl⟩
    simp [findEqual_append_some o T s 0 i hf]
  | none =>
    refine ⟨⟨[o], rfl⟩, ?_⟩
    rintro T2 ⟨s, rfl⟩
    have := findEqual_append_none o hn T s 0 hf
    simp only [List.append_assoc, List.singleton_append, Nat.zero_add] at this ⊢
    simp [this]

/-! ## Encoding again what was encoded -/

theorem TStable.of_eq {α : Type} {g : List Obj → List Obj × Res α} {objs objs1 : List Obj}
    {r : Res α} (h : TStable g objs) (he : g objs = (objs1, r)) :
    Grows objs objs1 ∧ ∀ objs2, Grows objs1 objs2 → g objs2 = (objs2, r) := by
  unfold TStable at h
  rw [he] at h
  exact h

theorem tstable_const {α : Type} (r : Res α) (objs : List Obj) :
    TStable (fun o => (o, r)) objs :=
  ⟨Grows.refl _, fun _ _ => rfl⟩

theorem tstable_add {α : Type} (o : Obj) (hn : o.hasNaN = false)
    (k : Nat → List Obj → List Obj × Res α) (objs : List Obj)
    (hk : TStable (k (addObject objs o).1) (addObject objs o).2) :
    TStable (fun T => k (addObject T o).1 (addObject T o).2) objs := by
  obtain ⟨hg, hs⟩ := addObject_stable objs o hn
  obtain ⟨hkg, hks⟩ := hk
  refine ⟨hg.trans hkg, ?_⟩
  intro objs2 h2
  have h3 := hs objs2 (hkg.trans h2)
  simp only [h3]
  exact hks objs2 h2

theorem tstable_add_ok (o : Obj) (hn : o.hasNaN = false) (objs : List Obj) :
    TStable (fun T => ((addObject T o).2, Res.ok (addObject T o).1)) objs := by
  obtain ⟨hg, hs⟩ := addObject_stable objs o hn
  refine ⟨hg, ?_⟩
  intro objs2 h2
  simp only [hs objs2 h2]

theorem tstable_add2_ok (o1 : Obj) (o2 : Nat → Obj) (hn1 : o1.hasNaN = false)
    (hn2 : ∀ c, (o2 c).hasNaN = false) (objs : List Obj) :
    TStable (fun T => ((addObject (addObject T o1).2 (o2 (addObject T o1).1)).2,
      Res.ok (addObject (addObject T o1).2 (o2 (addObject T o1).1)).1)) objs :=
  tstable_add o1 hn1 (fun c T => ((addObject T (o2 c)).2, Res.ok (addObject T (o2 c)).1)) objs
    (tstable_add_ok _ (hn2 _) _)

theorem hasNaN_dictInsert_uid (k : String) (i : Nat) : ∀ m : List (String × Obj),
    Obj.hasNaNDict m = false → Obj.hasNaNDict (dictInsert k (.uid i) m) = false
  | [], _ => by simp [dictInsert, Obj.hasNaNDict, Obj.hasNaN]
  | (k', v') :: rest, h => by
    simp only [Obj.hasNaNDict, Bool.or_eq_false_iff] at h
    unfold dictInsert
    split
    · simp [Obj.hasNaNDict, Obj.hasNaN, h.1, h.2]
    · split
      · simp [Obj.hasNaNDict, Obj.hasNaN, h.2]
      · simp [Obj.hasNaNDict, h.1, hasNaN_dictInsert_uid k i rest h.2]

theorem ofInt64_ne_nan (n : Int) : F64.ofInt64 n ≠ .nan := by
  unfold F64.ofInt64
  split <;> exact fun h => F64.noConfusion h

theorem marshalElems_stable (recur : MarshalFn) (ro : Bool) (hrec : Stable recur) :
    ∀ (vs : List GoValue) (acc : List Nat) (objs : List Obj),
      GoValue.noNaNList vs = true → TStable (fun T => marshalElems recur ro vs T acc) objs
  | [], acc, objs, _ => tstable_const _ _
  | v :: vs, acc, objs, hn => by
    simp only [GoValue.noNaNList, Bool.and_eq_true] at hn
    cases hr : recur objs v { addr := true, ro := ro } with
    | mk o1 r1 =>
      obtain ⟨hg, hs⟩ := hrec objs v _ o1 r1 hn.1 hr
      cases r1 with
      | ok i =>
        obtain ⟨hg2, hs2⟩ := marshalElems_stable recur ro hrec vs (acc ++ [i]) o1 hn.2
        have he : marshalElems recur ro (v :: vs) objs acc = marshalElems recur ro vs o1 (acc ++ [i]) := by
          simp only [marshalElems, hr]
        refine ⟨?_, ?_⟩
        · simp only [he]
          exact hg.trans hg2
        · intro objs2 h2
          simp only [he] at h2 ⊢
          have h3 := hs objs2 (hg2.trans h2)
          simp only [marshalElems, h3]
          exact hs2 objs2 h2
      | err e =>
        have he : marshalElems recur ro (v :: vs) objs acc = (o1, .err e) := by
          simp only [marshalElems, hr]
        refine ⟨?_, ?_⟩
        · simp only [he]; exact hg
        · intro objs2 h2
          simp only [he] at h2 ⊢
          simp only [marshalElems, hs objs2 h2]
      | panic m =>
        have he : marshalElems recur ro (v :: vs) objs acc = (o1, .panic m) := by
          simp only [marshalElems, hr]
        refine ⟨?_, ?_⟩
        · simp only [he]; exact hg
        · intro objs2 h2
          simp only [he] at h2 ⊢
          simp only [marshalElems, hs objs2 h2]
      | fuel =>
        have he : marshalElems recur ro (v :: vs) objs acc = (o1, .fuel) := by
          simp only [marshalElems, hr]
        refine ⟨?_, ?_⟩
        · simp only [he]; exact hg
        · intro objs2 h2
          simp only [he] at h2 ⊢
          simp only [marshalElems, hs objs2 h2]

theorem tstable_seq {α β : Type} (g : List Obj → List Obj × Res α)
    (h : α → List Obj → List Obj × Res β) (e : GoError → List Obj → List Obj × Res β)
    (objs : List Obj) (hg : TStable g objs)
    (hh : ∀ a o1, g objs = (o1, .ok a) → TStable (h a) o1)
    (he : ∀ er o1, g objs = (o1, .err er) → TStable (e er) o1) :
    TStable (seqT g h e) objs := by
  cases hr : g objs with
  | mk o1 r1 =>
    obtain ⟨hg1, hs1⟩ := hg.of_eq hr
    cases r1 with
    | ok a =>
      obtain ⟨hg2, hs2⟩ := hh a o1 hr
      have e1 : seqT g h e objs = h a o1 := by simp only [seqT, hr]
      refine ⟨?_, ?_⟩
      · rw [e1]; exact hg1.trans hg2
      · intro objs2 h2
        rw [e1] at h2 ⊢
        have : seqT g h e objs2 = h a objs2 := by simp only [seqT, hs1 objs2 (hg2.trans h2)]
        rw [this]
        exact hs2 objs2 h2
    | err er =>
      obtain ⟨hg2, hs2⟩ := he er o1 hr
      have e1 : seqT g h e objs = e er o1 := by simp only [seqT, hr]
      refine ⟨?_, ?_⟩
      · rw [e1]; exact hg1.trans hg2
      · intro objs2 h2
        rw [e1] at h2 ⊢
        have : seqT g h e objs2 = e er objs2 := by simp only [seqT, hs1 objs2 (hg2.trans h2)]
        rw [this]
        exact hs2 objs2 h2
    | panic m =>
      have e1 : seqT g h e objs = (o1, .panic m) := by simp only [seqT, hr]
      refine ⟨?_, ?_⟩
      · rw [e1]; exact hg1
      · intro objs2 h2
        rw [e1] at h2 ⊢
        simp only [seqT, hs1 objs2 h2]
    | fuel =>
      have e1 : seqT g h e objs = (o1, .fuel) := by simp only [seqT, hr]
      refine ⟨?_, ?_⟩
      · rw [e1]; exact hg1
      · intro objs2 h2
        rw [e1] at h2 ⊢
        simp only [seqT, hs1 objs2 h2]

theorem tstable_congr {α : Type} {g k : List Obj → List Obj × Res α} (objs : List Obj)
    (h : ∀ T, g T = k T) (hs : TStable k objs) : TStable g objs := by
  have : g = k := funext h
  rw [this]
  exact hs

theorem stable_iff (f : MarshalFn) :
    Stable f ↔ ∀ (v : GoValue) (fl : Flags) (objs : List Obj), v.noNaN = true →
      TStable (fun T => f T v fl) objs := by
  constructor
  · intro h v fl objs hn
    exact h objs v fl _ _ hn rfl
  · intro h objs v fl objs1 r hn he
    exact (h v fl objs hn).of_eq he

theorem noNaNList_get (xs : List GoValue) (h : GoValue.noNaNList xs = true) (i : Nat)
    (x : GoValue) (hx : xs[i]? = some x) : x.noNaN = true := by
  induction xs generalizing i with
  | nil => simp at hx
  | cons y ys ih =>
    simp only [GoValue.noNaNList, Bool.and_eq_true] at h
    cases i with
    | zero =>
      simp only [List.getElem?_cons_zero, Option.some.injEq] at hx
      rw [← hx]
      exact h.1
    | succ i => exact ih h.2 i (by simpa using hx)

/-- What `FieldInfo.Value` returns for a value free of NaN is free of NaN, when the
zero values are. -/
theorem atPath_read_noNaN (env : TypeEnv) (zero : GoType → Option GoValue)
    (hz : ∀ t z, zero t = some z → z.noNaN = true) :
    ∀ (idx : List Nat) (first addr ro : Bool) (v fv : GoValue) (a r : Bool),
      v.noNaN = true →
      (atPath env zero (fun fv a r => (fv, Res.ok (fv, a, r))) idx first addr ro v).2 =
        .ok (fv, a, r) → fv.noNaN = true
  | [], first, addr, ro, v, fv, a, r, hn, h => by
    simp only [atPath, Res.ok.injEq, Prod.mk.injEq] at h
    rw [← h.1]
    exact hn
  | x :: rest, first, addr, ro, v, fv, a, r, hn, h => by
    have hon : ∀ (w : GoValue) (ad : Bool), w.noNaN = true →
        (onField env x w (fun fv ro' =>
          atPath env zero (fun fv a r => (fv, Res.ok (fv, a, r))) rest false ad ro' fv)).2 =
          .ok (fv, a, r) → fv.noNaN = true := by
      intro w ad hw hh
      unfold onField at hh
      cases w with
      | struct name fields =>
        simp only [List.get?_eq_getElem?] at hh
        cases h1 : fields[x]? with
        | none => simp [h1] at hh
        | some f1 =>
          cases h2 : (decl env name)[x]? with
          | none => simp [h1, h2] at hh
          | some sf =>
            simp only [h1, h2] at hh
            simp only [GoValue.noNaN] at hw
            exact atPath_read_noNaN env zero hz rest false ad _ f1 fv a r
              (noNaNList_get fields hw x f1 h1) hh
      | _ => simp at hh
    unfold atPath at h
    split at h
    · rename_i sname inner
      simp only [GoValue.noNaN] at hn
      exact hon inner true hn h
    · rename_i sname
      split at h
      · split at h
        · rename_i z hzz
          exact hon z true (hz _ z hzz) h
        · simp at h
      · simp at h
    · exact hon v addr hn h

theorem fieldValue_noNaN (env : TypeEnv) (zero : GoType → Option GoValue)
    (hz : ∀ t z, zero t = some z → z.noNaN = true) (val : GoValue) (hn : val.noNaN = true)
    (fl : Flags) (ti : FieldInfo) (fv : GoValue) (ffl : Flags)
    (h : fieldValue env zero val fl ti = .ok (fv, ffl)) : fv.noNaN = true := by
  have hz2 : ∀ t z, (if fl.ro then fun _ => none else zero) t = some z → z.noNaN = true := by
    intro t z hh
    by_cases hro : fl.ro = true
    · simp [hro] at hh
    · simp only [hro, Bool.false_eq_true, if_false] at hh
      exact hz t z hh
  unfold fieldValue at h
  split at h
  · rename_i fv1 a r hp
    simp only [Res.ok.injEq, Prod.mk.injEq] at h
    rw [← h.1]
    exact atPath_read_noNaN env _ hz2 ti.idx true fl.addr fl.ro val fv1 a r hn hp
  · cases h
  · cases h
  · split at h <;> cases h

theorem marshalField_stable (env : TypeEnv) (zero : GoType → Option GoValue)
    (hz : ∀ t z, zero t = some z → z.noNaN = true) (recur : MarshalFn) (hrec : Stable recur)
    (val : GoValue) (hn : val.noNaN = true) (fl : Flags) (ti : FieldInfo) (objs : List Obj) :
    TStable (fun T => marshalField env zero recur T val fl ti) objs := by
  cases hp : fieldValue env zero val fl ti with
  | ok p =>
    obtain ⟨fv, ffl⟩ := p
    have hfv := fieldValue_noNaN env zero hz val hn fl ti fv ffl hp
    apply tstable_congr objs (k := fun T => recur T fv ffl)
    · intro T
      simp only [marshalField, hp]
    · exact (stable_iff recur).1 hrec fv ffl objs hfv
  | err e =>
    apply tstable_congr objs (k := fun T => (T, .err e))
    · intro T
      simp only [marshalField, hp]
    · exact tstable_const _ _
  | panic m =>
    apply tstable_congr objs (k := fun T => (T, .panic m))
    · intro T
      simp only [marshalField, hp]
    · exact tstable_const _ _
  | fuel =>
    apply tstable_congr objs (k := fun T => (T, .fuel))
    · intro T
      simp only [marshalField, hp]
    · exact tstable_const _ _

theorem marshalElems_cons (recur : MarshalFn) (ro : Bool) (v : GoValue) (vs : List GoValue)
    (acc : List Nat) (T : List Obj) :
    marshalElems recur ro (v :: vs) T acc =
      seqT (fun T => recur T v { addr := true, ro := ro })
        (fun i T => marshalElems recur ro vs T (acc ++ [i]))
        (fun e T => (T, .err e)) T := by
  simp only [marshalElems, seqT]
  split <;> simp_all

theorem marshalFieldsNS_cons (env : TypeEnv) (zero : GoType → Option GoValue)
    (recur : MarshalFn) (val : GoValue) (fl : Flags) (ti : FieldInfo) (tis : List FieldInfo)
    (nsobj : List (String × Obj)) (T : List Obj) :
    marshalFieldsNS env zero recur val fl (ti :: tis) T nsobj =
      seqT (fun T => marshalField env zero recur T val fl ti)
        (fun i T => marshalFieldsNS env zero recur val fl tis T
          (dictInsert ti.Name (.uid i) nsobj))
        (fun e T => (T, .err e)) T := by
  simp only [marshalFieldsNS, seqT]
  split <;> simp_all

theorem marshalFieldsTable_cons (env : TypeEnv) (zero : GoType → Option GoValue)
    (recur : MarshalFn) (val : GoValue) (fl : Flags) (ti : FieldInfo) (tis : List FieldInfo)
    (keys objects : List Nat) (T : List Obj) :
    marshalFieldsTable env zero recur val fl (ti :: tis) T keys objects =
      seqT (fun T => marshalField env zero recur T val fl ti)
        (fun i T => marshalFieldsTable env zero recur val fl tis
          (addObject T (.string ti.Name)).2 (keys ++ [(addObject T (.string ti.Name)).1])
          (objects ++ [i]))
        (fun e T =>
          if e = .nilElem && ti.OmitEmpty then
            marshalFieldsTable env zero recur val fl tis T keys objects
          else (T, .err e)) T := by
  simp only [marshalFieldsTable, seqT]
  split <;> simp_all

theorem marshalFieldsNS_stable (env : TypeEnv) (zero : GoType → Option GoValue)
    (hz : ∀ t z, zero t = some z → z.noNaN = true) (recur : MarshalFn) (hrec : Stable recur)
    (val : GoValue) (hn : val.noNaN = true) (fl : Flags) :
    ∀ (tis : List FieldInfo) (nsobj : List (String × Obj)) (objs : List Obj),
      TStable (fun T => marshalFieldsNS env zero recur val fl tis T nsobj) objs
  | [], nsobj, objs => tstable_const _ _
  | ti :: tis, nsobj, objs => by
    apply tstable_congr objs (marshalFieldsNS_cons env zero recur val fl ti tis nsobj)
    apply tstable_seq
    · exact marshalField_stable env zero hz recur hrec val hn fl ti objs
    · intro i o1 _
      exact marshalFieldsNS_stable env zero hz recur hrec val hn fl tis _ o1
    · intro e o1 _
      exact tstable_const _ _

theorem marshalFieldsTable_stable (env : TypeEnv) (zero : GoType → Option GoValue)
    (hz : ∀ t z, zero t = some z → z.noNaN = true) (recur : MarshalFn) (hrec : Stable recur)
    (val : GoValue) (hn : val.noNaN = true) (fl : Flags) :
    ∀ (tis : List FieldInfo) (keys objects : List Nat) (objs : List Obj),
      TStable (fun T => marshalFieldsTable env zero recur val fl tis T keys objects) objs
  | [], keys, objects, objs => tstable_const _ _
  | ti :: tis, keys, objects, objs => by
    apply tstable_congr objs (marshalFieldsTable_cons env zero recur val fl ti tis keys objects)
    apply tstable_seq
    · exact marshalField_stable env zero hz recur hrec val hn fl ti objs
    · intro i o1 _
      exact tstable_add (.string ti.Name) rfl
        (fun k T => marshalFieldsTable env zero recur val fl tis T (keys ++ [k])
          (objects ++ [i])) o1
        (marshalFieldsTable_stable env zero hz recur hrec val hn fl tis _ _ _)
    · intro e o1 _
      by_cases hc : (e = .nilElem && ti.OmitEmpty) = true
      · simp only [hc, if_true]
        exact marshalFieldsTable_stable env zero hz recur hrec val hn fl tis _ _ o1
      · simp only [hc, if_false]
        exact tstable_const _ _

theorem hasNaNDict_nil : Obj.hasNaNDict [] = false := rfl

theorem marshalFieldsNS_noNaN (env : TypeEnv) (zero : GoType → Option GoValue)
    (recur : MarshalFn) (val : GoValue) (fl : Flags) :
    ∀ (tis : List FieldInfo) (nsobj : List (String × Obj)) (objs o1 : List Obj)
      (out : List (String × Obj)),
      Obj.hasNaNDict nsobj = false →
      marshalFieldsNS env zero recur val fl tis objs nsobj = (o1, .ok out) →
      Obj.hasNaNDict out = false
  | [], nsobj, objs, o1, out, hn, h => by
    simp only [marshalFieldsNS, Prod.mk.injEq, Res.ok.injEq] at h
    rw [← h.2]
    exact hn
  | ti :: tis, nsobj, objs, o1, out, hn, h => by
    simp only [marshalFieldsNS] at h
    split at h
    · exact marshalFieldsNS_noNaN env zero recur val fl tis _ _ o1 out
        (hasNaN_dictInsert_uid _ _ _ hn) h
    · simp at h
    · simp at h
    · simp at h

theorem marshalStruct_stable (env : TypeEnv) (reg : Registry) (tinfoOf : GoType → Res TypeInfo)
    (zero : GoType → Option GoValue) (hz : ∀ t z, zero t = some z → z.noNaN = true)
    (recur : MarshalFn) (hrec : Stable recur) (val : GoValue) (hn : val.noNaN = true)
    (fl : Flags) (objs : List Obj) :
    TStable (fun T => marshalStruct env reg tinfoOf zero recur T val fl) objs := by
  cases val with
  | struct name fields =>
    cases ht : tinfoOf (.struct name) with
    | ok tinfo =>
      cases hl : reg.lookup (.struct name) with
      | some cls =>
        apply tstable_congr objs (k := seqT
          (fun T => marshalFieldsNS env zero recur (.struct name fields) fl tinfo.Fields T [])
          (fun nsobj T =>
            ((addObject (addObject T cls.toObj).2
                (.dict (dictInsert "$class" (.uid (addObject T cls.toObj).1) nsobj))).2,
              Res.ok (addObject (addObject T cls.toObj).2
                (.dict (dictInsert "$class" (.uid (addObject T cls.toObj).1) nsobj))).1))
          (fun e T => (T, .err e)))
        · intro T
          simp only [marshalStruct, ht, hl, seqT]
          split <;> simp_all
        · apply tstable_seq
          · exact marshalFieldsNS_stable env zero hz recur hrec _ hn fl _ _ objs
          · intro nsobj o1 hns
            have hnn := marshalFieldsNS_noNaN env zero recur _ fl _ _ _ _ _ hasNaNDict_nil hns
            exact tstable_add2_ok cls.toObj
              (fun c => .dict (dictInsert "$class" (.uid c) nsobj)) rfl
              (fun c => by
                simp only [Obj.hasNaN]
                exact hasNaN_dictInsert_uid _ _ _ hnn) o1
          · intro e o1 _
            exact tstable_const _ _
      | none =>
        apply tstable_congr objs (k := seqT
          (fun T => marshalFieldsTable env zero recur (.struct name fields) fl tinfo.Fields T
            [] [])
          (fun (ko : List Nat × List Nat) T =>
            ((addObject (addObject T archiverMutableDictionaryClass.toObj).2
                (.tableRef ko.1 ko.2 (addObject T archiverMutableDictionaryClass.toObj).1)).2,
              Res.ok (addObject (addObject T archiverMutableDictionaryClass.toObj).2
                (.tableRef ko.1 ko.2 (addObject T archiverMutableDictionaryClass.toObj).1)).1))
          (fun e T => (T, .err e)))
        · intro T
          simp only [marshalStruct, ht, hl, seqT]
          split <;> simp_all
        · apply tstable_seq
          · exact marshalFieldsTable_stable env zero hz recur hrec _ hn fl _ _ _ objs
          · intro ko o1 _
            exact tstable_add2_ok archiverMutableDictionaryClass.toObj
              (fun c => .tableRef ko.1 ko.2 c) rfl (fun _ => rfl) o1
          · intro e o1 _
            exact tstable_const _ _
    | err e =>
      apply tstable_congr objs (k := fun T => (T, .err e))
      · intro T; simp only [marshalStruct, ht]
      · exact tstable_const _ _
    | panic m =>
      apply tstable_congr objs (k := fun T => (T, .panic m))
      · intro T; simp only [marshalStruct, ht]
      · exact tstable_const _ _
    | fuel =>
      apply tstable_congr objs (k := fun T => (T, .fuel))
      · intro T; simp only [marshalStruct, ht]
      · exact tstable_const _ _
  | _ => exact tstable_const _ _

theorem noNaNList_iff (xs : List GoValue) :
    GoValue.noNaNList xs = true ↔ ∀ x ∈ xs, x.noNaN = true := by
  induction xs with
  | nil => simp [GoValue.noNaNList]
  | cons x xs ih => simp [GoValue.noNaNList, ih]

theorem mapM_option_mem {α β : Type} (f : α → Option β) :
    ∀ (l : List α) (out : List β), l.mapM f = some out →
      ∀ y ∈ out, ∃ x ∈ l, f x = some y
  | [], out, h, y, hy => by
    rw [List.mapM_nil] at h
    cases h
    simp at hy
  | a :: l, out, h, y, hy => by
    rw [List.mapM_cons] at h
    cases hfa : f a with
    | none =>
      rw [hfa] at h
      cases h
    | some b =>
      cases hl : l.mapM f with
      | none =>
        rw [hfa, hl] at h
        cases h
      | some bs =>
        rw [hfa, hl] at h
        cases h
        rcases List.mem_cons.1 hy with rfl | hy
        · exact ⟨a, List.mem_cons_self _ _, hfa⟩
        · obtain ⟨x, hx, hfx⟩ := mapM_option_mem f l bs hl y hy
          exact ⟨x, List.mem_cons_of_mem _ hx, hfx⟩

theorem zeroBody_noNaN (env : TypeEnv) (recur : GoType → Option GoValue)
    (hrec : ∀ t z, recur t = some z → z.noNaN = true) (t : GoType) (z : GoValue)
    (h : zeroBody env recur t = some z) : z.noNaN = true := by
  cases t with
  | array name len e =>
    simp only [zeroBody, Option.map_eq_some'] at h
    obtain ⟨z0, hz0, rfl⟩ := h
    simp only [GoValue.noNaN, noNaNList_iff]
    intro x hx
    rw [List.eq_of_mem_replicate hx]
    exact hrec e z0 hz0
  | struct name =>
    simp only [zeroBody] at h
    split at h
    · cases h; rfl
    · simp only [Option.map_eq_some'] at h
      obtain ⟨fs, hfs, rfl⟩ := h
      simp only [GoValue.noNaN, noNaNList_iff]
      intro x hx
      obtain ⟨f, _, hf⟩ := mapM_option_mem _ _ _ hfs x hx
      exact hrec _ _ hf
  | float k =>
    simp only [zeroBody, Option.some.injEq] at h
    subst h
    rfl
  | _ =>
    simp only [zeroBody, Option.some.injEq] at h
    subst h
    rfl

theorem zeroValue_noNaN (env : TypeEnv) : ∀ (n : Nat) (t : GoType) (z : GoValue),
    zeroValue env n t = some z → z.noNaN = true
  | 0, t, z, h => zeroBody_noNaN env _ (fun _ _ h => Option.noConfusion h) t z h
  | n + 1, t, z, h => zeroBody_noNaN env _ (zeroValue_noNaN env n) t z h

theorem marshalSlice_stable (recur : MarshalFn) (hrec : Stable recur) (val : GoValue)
    (ro : Bool) (hn : val.noNaN = true) (objs : List Obj) :
    TStable (fun T => marshalSlice recur T val ro) objs := by
  cases val with
  | slice elem xs =>
    by_cases hk : elem.kind = .Uint8
    · apply tstable_congr objs (k := fun T =>
        ((addObject (addObject T archiverMutableDataClass.toObj).2
            (.dataRef (xs.map bytesOf) (addObject T archiverMutableDataClass.toObj).1)).2,
          Res.ok (addObject (addObject T archiverMutableDataClass.toObj).2
            (.dataRef (xs.map bytesOf) (addObject T archiverMutableDataClass.toObj).1)).1))
      · intro T
        simp only [marshalSlice, hk, if_true]
      · exact tstable_add2_ok archiverMutableDataClass.toObj
          (fun c => .dataRef (xs.map bytesOf) c) rfl (fun _ => rfl) objs
    · apply tstable_congr objs (k := seqT
        (fun T => marshalElems recur ro (xs.getD []) T [])
        (fun uids T =>
          ((addObject (addObject T archiverMutableArrayClass.toObj).2
              (.arrayRef uids (addObject T archiverMutableArrayClass.toObj).1)).2,
            Res.ok (addObject (addObject T archiverMutableArrayClass.toObj).2
              (.arrayRef uids (addObject T archiverMutableArrayClass.toObj).1)).1))
        (fun e T => (T, .err e)))
      · intro T
        simp only [marshalSlice, hk, if_false, seqT]
        split <;> simp_all
      · apply tstable_seq
        · apply marshalElems_stable recur ro hrec
          cases xs with
          | none => rfl
          | some l => simpa [GoValue.noNaN] using hn
        · intro uids o1 _
          exact tstable_add2_ok archiverMutableArrayClass.toObj
            (fun c => .arrayRef uids c) rfl (fun _ => rfl) o1
        · intro e o1 _
          exact tstable_const _ _
  | _ => exact tstable_const _ _

theorem marshalKind_stable (env : TypeEnv) (reg : Registry) (tinfoOf : GoType → Res TypeInfo)
    (zero : GoType → Option GoValue) (hz : ∀ t z, zero t = some z → z.noNaN = true)
    (recur : MarshalFn) (hrec : Stable recur) (val : GoValue) (hn : val.noNaN = true)
    (fl : Flags) (objs : List Obj) :
    TStable (fun T => marshalKind env reg tinfoOf zero recur T val fl) objs := by
  cases val with
  | int k n => exact tstable_add_ok (.int .int64 n) rfl objs
  | uint k n => exact tstable_add_ok (.uint .uint64 n) rfl objs
  | uid n => exact tstable_add_ok (.uint .uint64 n) rfl objs
  | float k f =>
    refine tstable_add_ok (.float .float64 f) ?_ objs
    simpa [GoValue.noNaN, Obj.hasNaN] using hn
  | bool b => exact tstable_add_ok (.bool b) rfl objs
  | string str =>
    by_cases hs : str = "$null"
    · apply tstable_congr objs (k := fun T => (T, .ok 0))
      · intro T; simp only [marshalKind, hs, if_true]
      · exact tstable_const _ _
    · apply tstable_congr objs (k := fun T =>
        ((addObject T (.string str)).2, Res.ok (addObject T (.string str)).1))
      · intro T; simp only [marshalKind, hs, if_false]
      · exact tstable_add_ok (.string str) rfl objs
  | slice elem xs => exact marshalSlice_stable recur hrec _ fl.ro hn objs
  | array name elem xs =>
    by_cases ha : GoType.array name xs.length elem = archiverUUIDType
    · by_cases hro : fl.ro = true
      · apply tstable_congr objs (k := fun T => (T, .panic
          "reflect.Value.Interface: cannot return value obtained from unexported field or method"))
        · intro T; simp only [marshalKind, ha, hro, if_true]
        · exact tstable_const _ _
      apply tstable_congr objs (k := fun T =>
        ((addObject (addObject T archiverUUIDClass.toObj).2
            (.uuidRef (some (bytesOf xs)) (addObject T archiverUUIDClass.toObj).1)).2,
          Res.ok (addObject (addObject T archiverUUIDClass.toObj).2
            (.uuidRef (some (bytesOf xs)) (addObject T archiverUUIDClass.toObj).1)).1))
      · intro T; simp only [marshalKind, ha, hro, if_true, Bool.false_eq_true, if_false]
      · exact tstable_add2_ok archiverUUIDClass.toObj
          (fun c => .uuidRef (some (bytesOf xs)) c) rfl (fun _ => rfl) objs
    · apply tstable_congr objs (k := fun T => (T, .err (.other "unknow array")))
      · intro T; simp only [marshalKind, ha, if_false]
      · exact tstable_const _ _
  | time sec nsec loc =>
    by_cases hro : fl.ro = true
    · apply tstable_congr objs (k := fun T => (T, .panic
        "reflect.Value.Interface: cannot return value obtained from unexported field or method"))
      · intro T; simp only [marshalKind, hro, if_true]
      · exact tstable_const _ _
    apply tstable_congr objs (k := fun T =>
      ((addObject (addObject T archiverDateClass.toObj).2
          (.dateRef (F64.ofInt64 (wrapInt64 (sec - unixToCocoa)))
            (addObject T archiverDateClass.toObj).1)).2,
        Res.ok (addObject (addObject T archiverDateClass.toObj).2
          (.dateRef (F64.ofInt64 (wrapInt64 (sec - unixToCocoa)))
            (addObject T archiverDateClass.toObj).1)).1))
    · intro T; simp only [marshalKind, hro, Bool.false_eq_true, if_false]
    refine tstable_add2_ok archiverDateClass.toObj
      (fun c => .dateRef (F64.ofInt64 (wrapInt64 (sec - unixToCocoa))) c) rfl (fun _ => ?_) objs
    simp only [Obj.hasNaN, beq_eq_false_iff_ne, ne_eq]
    exact ofInt64_ne_nan _
  | struct name fields => exact marshalStruct_stable env reg tinfoOf zero hz recur hrec _ hn fl objs
  | _ => exact tstable_const _ _

theorem marshalBody_stable (env : TypeEnv) (reg : Registry) (tinfoOf : GoType → Res TypeInfo)
    (zero : GoType → Option GoValue) (hz : ∀ t z, zero t = some z → z.noNaN = true)
    (recur : MarshalFn) (hrec : Stable recur) :
    Stable (marshalBody env reg tinfoOf zero recur) := by
  rw [stable_iff]
  intro v fl objs hn
  cases v with
  | ptr e p =>
    cases p with
    | none => exact tstable_const _ _
    | some w =>
      exact marshalKind_stable env reg tinfoOf zero hz recur hrec w
        (by simpa [GoValue.noNaN] using hn) _ objs
  | _ => exact marshalKind_stable env reg tinfoOf zero hz recur hrec _ hn fl objs

theorem stable_fuel : Stable (fun objs _ _ => (objs, Res.fuel)) := by
  rw [stable_iff]
  intro v addr objs _
  exact tstable_const _ _

theorem marshal_stable (env : TypeEnv) (reg : Registry) (tfuel : Nat) :
    ∀ fuel, Stable (marshal env reg tfuel fuel)
  | 0 => marshalBody_stable env reg _ _ (zeroValue_noNaN env tfuel) _ stable_fuel
  | fuel + 1 => marshalBody_stable env reg _ _ (zeroValue_noNaN env tfuel) _
      (marshal_stable env reg tfuel fuel)

/-! ## References and malformed graphs in the decoder -/

theorem ptrStep_of_kind (zero : GoType → Option GoValue) (val : GoValue) (addr ro : Bool)
    (k : GoValue → Bool → Bool → GoValue × Res Unit) (h : val.kind ≠ .Ptr) :
    ptrStep zero val addr ro k = k val addr ro := by
  cases val <;> first | rfl | exact absurd rfl h

theorem unmarshal_unfold (env : TypeEnv) (tfuel : Nat) (objects : List Obj) : ∀ fuel : Nat,
    unmarshal env tfuel objects fuel =
      unmarshalBody env (GetTypeInfo env tfuel) (DictionaryUnmarshal env tfuel)
        (zeroValue env tfuel)
        (match fuel with
          | 0 => fun _ val _ _ => (val, .fuel)
          | k + 1 => unmarshal env tfuel objects k) objects
  | 0 => rfl
  | _ + 1 => rfl

theorem unmarshal_of_kind (env : TypeEnv) (tfuel : Nat) (objects : List Obj) (fuel : Nat)
    (v : Obj) (val : GoValue) (addr ro : Bool) (h : val.kind ≠ .Ptr) :
    unmarshal env tfuel objects fuel v val addr ro =
      unmarshalKind env (GetTypeInfo env tfuel) (DictionaryUnmarshal env tfuel)
        (zeroValue env tfuel)
        (match fuel with
          | 0 => fun _ val _ _ => (val, .fuel)
          | k + 1 => unmarshal env tfuel objects k) objects v val addr ro := by
  rw [unmarshal_unfold]
  exact ptrStep_of_kind _ val addr ro _ h

theorem unmarshalKind_getClass_panic (env : TypeEnv) (tinfoOf : GoType → Res TypeInfo)
    (dictU : List (String × Obj) → GoValue → GoValue × Res Unit)
    (zero : GoType → Option GoValue) (recur : UnmarshalFn) (objects : List Obj)
    (dict : List (String × Obj)) (val : GoValue) (addr ro : Bool) (m : String)
    (h : getClass dictU objects dict = .panic m) :
    unmarshalKind env tinfoOf dictU zero recur objects (.dict dict) val addr ro =
      (val, .panic m) := by
  simp only [unmarshalKind, h]

theorem getClass_no_class (dictU : List (String × Obj) → GoValue → GoValue × Res Unit)
    (objects : List Obj) (dict : List (String × Obj)) (h : dict.lookup "$class" = none) :
    getClass dictU objects dict =
      .panic "interface conversion: interface {} is not plist.UID" := by
  simp only [getClass, h]

theorem getClass_not_uid (dictU : List (String × Obj) → GoValue → GoValue × Res Unit)
    (objects : List Obj) (dict : List (String × Obj)) (o : Obj)
    (h : dict.lookup "$class" = some o) (ho : ∀ i, o ≠ .uid i) :
    getClass dictU objects dict =
      .panic "interface conversion: interface {} is not plist.UID" := by
  unfold getClass
  rw [h]
  cases o <;> first | rfl | exact absurd rfl (ho _)

theorem getClass_out_of_range (dictU : List (String × Obj) → GoValue → GoValue × Res Unit)
    (objects : List Obj) (dict : List (String × Obj)) (i : Nat)
    (h : dict.lookup "$class" = some (.uid i)) (hi : objects.length ≤ i) :
    getClass dictU objects dict = .panic "index out of range" := by
  have hn : objects.get? i = none := by
    rw [List.get?_eq_none]
    exact hi
  simp only [getClass, h, hn]

theorem getClass_not_dict (dictU : List (String × Obj) → GoValue → GoValue × Res Unit)
    (objects : List Obj) (dict : List (String × Obj)) (i : Nat) (o : Obj)
    (h : dict.lookup "$class" = some (.uid i)) (hi : objects.get? i = some o)
    (ho : ∀ d, o ≠ .dict d) :
    getClass dictU objects dict =
      .panic "interface conversion: interface {} is not map[string]interface {}" := by
  unfold getClass
  rw [h]
  simp only [hi]

theorem tableEntries_key_out_of_range (objects : List Obj) (tabObjects : List GoValue)
    (k : Nat) (keys : List GoValue) (i : Nat) (kvs : List (String × Obj))
    (hk : objects.length ≤ k) :
    tableEntries objects tabObjects (.uid k :: keys) i kvs = .panic "index out of range" := by
  have hn : objects.get? k = none := by
    rw [List.get?_eq_none]
    exact hk
  simp only [tableEntries, hn]

theorem tableEntries_object_out_of_range (objects : List Obj) (tabObjects : List GoValue)
    (k : Nat) (keys : List GoValue) (i : Nat) (kvs : List (String × Obj)) (key : String)
    (u : Nat) (hk : objects.get? k = some (.string key))
    (hi : tabObjects.get? i = some (.iface (some (.uid u)))) (hu : objects.length ≤ u) :
    tableEntries objects tabObjects (.uid k :: keys) i kvs = .panic "index out of range" := by
  have hn : objects.get? u = none := by
    rw [List.get?_eq_none]
    exact hu
  simp only [tableEntries, hk, hi, hn]

theorem tableEntries_step (objects : List Obj) (tabObjects : List GoValue)
    (k : Nat) (keys : List GoValue) (i : Nat) (kvs : List (String × Obj)) (key : String)
    (u : Nat) (o : Obj) (hk : objects.get? k = some (.string key))
    (hi : tabObjects.get? i = some (.iface (some (.uid u)))) (hu : objects.get? u = some o) :
    tableEntries objects tabObjects (.uid k :: keys) i kvs =
      tableEntries objects tabObjects keys (i + 1) ((key, o) :: kvs) := by
  simp only [tableEntries, hk, hi, hu]

theorem tableEntries_short_objects (objects : List Obj) (tabObjects : List GoValue)
    (k : Nat) (keys : List GoValue) (i : Nat) (kvs : List (String × Obj)) (key : String)
    (hk : objects.get? k = some (.string key)) (hi : tabObjects.length ≤ i) :
    tableEntries objects tabObjects (.uid k :: keys) i kvs = .panic "index out of range" := by
  have hn : tabObjects.get? i = none := by
    rw [List.get?_eq_none]
    exact hi
  simp only [tableEntries, hk, hn]

theorem tableEntries_key_not_string (objects : List Obj) (tabObjects : List GoValue)
    (k : Nat) (keys : List GoValue) (i : Nat) (kvs : List (String × Obj)) (o : Obj)
    (hk : objects.get? k = some o) (ho : ∀ s, o ≠ .string s) :
    tableEntries objects tabObjects (.uid k :: keys) i kvs =
      .panic "interface conversion: interface {} is not string" := by
  unfold tableEntries
  simp only [hk]

theorem unmarshalArrayLoop_out_of_range (zero : GoType → Option GoValue) (recur : UnmarshalFn)
    (objects : List Obj) (elem : GoType) (addr ro : Bool) (u : Nat) (vs : List GoValue)
    (acc : Option (List GoValue)) (z : GoValue) (hz : zero elem = some z)
    (hu : objects.length ≤ u) :
    unmarshalArrayLoop zero recur objects elem addr ro (.iface (some (.uid u)) :: vs) acc =
      (acc, .panic "index out of range") := by
  have hn : objects.get? u = none := by
    rw [List.get?_eq_none]
    exact hu
  simp only [unmarshalArrayLoop, hz, hn]

theorem unmarshalArrayLoop_step (zero : GoType → Option GoValue) (recur : UnmarshalFn)
    (objects : List Obj) (elem : GoType) (u : Nat) (vs : List GoValue)
    (acc : Option (List GoValue)) (z item : GoValue) (o : Obj) (t : GoType)
    (hz : zero elem = some z) (hu : objects.get? u = some o)
    (hr : recur o (.ptr elem (some z)) false false = (.ptr t (some item), .ok ())) :
    unmarshalArrayLoop zero recur objects elem true false (.iface (some (.uid u)) :: vs) acc =
      unmarshalArrayLoop zero recur objects elem true false vs (some (acc.getD [] ++ [item])) := by
  simp only [unmarshalArrayLoop, hz, hu, hr]
  rfl

theorem Unmarshal_root (env : TypeEnv) (tfuel fuel : Nat) (a : Archiver) (v : GoValue)
    (root : Nat) (o : Obj) (ht : a.Top = some root) (ho : a.Objects.get? root = some o) :
    Unmarshal env tfuel fuel a v = unmarshal env tfuel a.Objects fuel o v false false := by
  simp only [Unmarshal, ht, ho]

theorem Unmarshal_root_out_of_range (env : TypeEnv) (tfuel fuel : Nat) (a : Archiver)
    (v : GoValue) (root : Nat) (ht : a.Top = some root) (hr : a.Objects.length ≤ root) :
    Unmarshal env tfuel fuel a v = (v, .panic "index out of range") := by
  have hn : a.Objects.get? root = none := by
    rw [List.get?_eq_none]
    exact hr
  simp only [Unmarshal, ht, hn]

theorem unmarshal_uid_int (env : TypeEnv) (tfuel : Nat) (objects : List Obj) (fuel : Nat)
    (n : Nat) (k : IntKind) (x : Int) :
    unmarshal env tfuel objects fuel (.uid n) (.int k x) true false =
      (.int k (wrapInt k.bits (wrapInt 64 n)), .ok ()) := by
  rw [unmarshal_unfold]
  rfl

theorem GetTypeInfo_archiverClass (env : TypeEnv) : ∀ fuel : Nat,
    GetTypeInfo env fuel (.struct "plist.archiverClass") =
      .ok { Fields := [ { idx := [0], Name := "$classname", OmitEmpty := false },
                        { idx := [1], Name := "$classes", OmitEmpty := false } ] }
  | 0 => rfl
  | _ + 1 => rfl

/-- Claim C11, counterexample. The root object of the table is the reference 2 and
entry 2 is the integer 42: `Unmarshal` into an `int64` stores the index 2, not 42;
and the reference that is the element of a plain array is stored as the integer 2
in a `[]int64`. -/
theorem reference_index_stored :
    Unmarshal plainEnv 3 3 (archiveOf [.string "$null", .uid 2, .uint .uint64 42] 1)
        (.ptr (.int .int64) (some (.int .int64 0))) =
      (.ptr (.int .int64) (some (.int .int64 2)), .ok ()) ∧
    Unmarshal plainEnv 3 3 (archiveOf [.string "$null", .array [.uid 2], .uint .uint64 42] 1)
        (.ptr (.slice (.int .int64)) (some (.slice (.int .int64) none))) =
      (.ptr (.slice (.int .int64)) (some (.slice (.int .int64) (some [.int .int64 2]))),
        .ok ()) :=
  ⟨by rfl, by rfl⟩

theorem unmarshal_uid_uint (env : TypeEnv) (tfuel : Nat) (objects : List Obj) (fuel : Nat)
    (n : Nat) (k : UintKind) (x : Nat) :
    unmarshal env tfuel objects fuel (.uid n) (.uint k x) true false =
      (.uint k (wrapUint k.bits (wrapUint 64 n)), .ok ()) := by
  rw [unmarshal_unfold]
  rfl

theorem unmarshal_uid_uid (env : TypeEnv) (tfuel : Nat) (objects : List Obj) (fuel : Nat)
    (n x : Nat) :
    unmarshal env tfuel objects fuel (.uid n) (.uid x) true false =
      (.uid (wrapUint 64 (wrapUint 64 n)), .ok ()) := by
  rw [unmarshal_unfold]
  rfl

theorem unmarshal_uid_other (env : TypeEnv) (tfuel : Nat) (objects : List Obj) (fuel : Nat)
    (n : Nat) (val : GoValue) (addr ro : Bool) (hp : val.kind ≠ .Ptr)
    (hs : storeInteger val n = none) :
    unmarshal env tfuel objects fuel (.uid n) val addr ro =
      (val, .err (.other "not UID/int field")) := by
  rw [unmarshal_of_kind env tfuel objects fuel _ val addr ro hp]
  simp only [unmarshalKind, hs]

theorem storeInteger_none (val : GoValue) (x : Int) (h1 : ∀ k y, val ≠ .int k y)
    (h2 : ∀ k y, val ≠ .uint k y) (h3 : ∀ y, val ≠ .uid y) : storeInteger val x = none := by
  cases val with
  | int k y => exact absurd rfl (h1 k y)
  | uint k y => exact absurd rfl (h2 k y)
  | uid y => exact absurd rfl (h3 y)
  | _ => rfl

theorem unmarshalNSFields_step (env : TypeEnv) (zero : GoType → Option GoValue)
    (recur : UnmarshalFn) (objects : List Obj) (pval : List (String × Obj)) (addr ro : Bool)
    (finfo : FieldInfo) (rest : List FieldInfo) (val : GoValue) (u : Nat) (ob : Obj)
    (hl : pval.lookup finfo.Name = some (.uid u)) (hu : objects.get? u = some ob) :
    ((atPath env zero (fun fv a r => recur ob fv a r) finfo.idx true addr ro val).2 = .ok () →
      unmarshalNSFields env zero recur objects pval addr ro (finfo :: rest) val =
        unmarshalNSFields env zero recur objects pval addr ro rest
          (atPath env zero (fun fv a r => recur ob fv a r) finfo.idx true addr ro val).1) ∧
    ((atPath env zero (fun fv a r => recur ob fv a r) finfo.idx true addr ro val).2 ≠ .ok () →
      unmarshalNSFields env zero recur objects pval addr ro (finfo :: rest) val =
        atPath env zero (fun fv a r => recur ob fv a r) finfo.idx true addr ro val) := by
  simp only [unmarshalNSFields, hl, hu]
  cases hw : atPath env zero (fun fv a r => recur ob fv a r) finfo.idx true addr ro val with
  | mk w r =>
    cases r with
    | ok x => exact ⟨fun _ => rfl, fun h => absurd rfl h⟩
    | err e => exact ⟨fun h => (by cases h), fun _ => rfl⟩
    | panic m => exact ⟨fun h => (by cases h), fun _ => rfl⟩
    | fuel => exact ⟨fun h => (by cases h), fun _ => rfl⟩

theorem Unmarshal_reference_root (env : TypeEnv) (tfuel fuel : Nat) (a : Archiver)
    (root n : Nat) (kind : IntKind) (x : Int) (ht : a.Top = some root)
    (ho : a.Objects.get? root = some (.uid n)) :
    Unmarshal env tfuel fuel a (.ptr (.int kind) (some (.int kind x))) =
      (.ptr (.int kind) (some (.int kind (wrapInt kind.bits (wrapInt 64 n)))), .ok ()) := by
  rw [Unmarshal_root env tfuel fuel a _ root _ ht ho, unmarshal_unfold]
  rfl

/-- Claim C11, amended. A reference is resolved once, by the caller of `unmarshal`:
`Unmarshal` hands `Objects[root]` to `unmarshal`; the first loop of `unmarshalStruct`
pairs the string `Objects[k]` with `Objects[u]` for the key reference `k` and the
object reference `u`; the loop of `unmarshalArray` decodes `Objects[u]` into a new
element and appends it; the loop of `unmarshalNSType` decodes `Objects[u]` into the
field whose name the mapping gives the reference `u`. `unmarshal` itself does not
resolve: given a reference it stores the index in a target that is a signed
integer, an unsigned integer or a `UID`, and returns the error "not UID/int field"
for any other target that is not a pointer; so when the root object is itself a
reference, `Unmarshal` into a pointer to an integer stores the index of that
reference, whatever the table holds there. -/
theorem reference_resolved_one_hop (env : TypeEnv) (tfuel fuel : Nat) (a : Archiver)
    (v : GoValue) (root k u : Nat) (o ob : Obj) (key : String) (tabObjects : List GoValue)
    (i : Nat) (ht : a.Top = some root) (ho : a.Objects.get? root = some o)
    (hk : a.Objects.get? k = some (.string key))
    (hi : tabObjects.get? i = some (.iface (some (.uid u))))
    (hu : a.Objects.get? u = some ob) :
    Unmarshal env tfuel fuel a v = unmarshal env tfuel a.Objects fuel o v false false ∧
    (∀ keys kvs, tableEntries a.Objects tabObjects (.uid k :: keys) i kvs =
      tableEntries a.Objects tabObjects keys (i + 1) ((key, ob) :: kvs)) ∧
    (∀ (zero : GoType → Option GoValue) (recur : UnmarshalFn) (elem t : GoType)
        (z item : GoValue) (vs : List GoValue) (acc : Option (List GoValue)),
      zero elem = some z →
      recur ob (.ptr elem (some z)) false false = (.ptr t (some item), .ok ()) →
      unmarshalArrayLoop zero recur a.Objects elem true false (.iface (some (.uid u)) :: vs) acc =
        unmarshalArrayLoop zero recur a.Objects elem true false vs
          (some (acc.getD [] ++ [item]))) ∧
    (∀ (zero : GoType → Option GoValue) (recur : UnmarshalFn) (pval : List (String × Obj))
        (addr ro : Bool) (finfo : FieldInfo) (rest : List FieldInfo) (val : GoValue),
      pval.lookup finfo.Name = some (.uid u) →
      ((atPath env zero (fun fv a r => recur ob fv a r) finfo.idx true addr ro val).2 = .ok () →
        unmarshalNSFields env zero recur a.Objects pval addr ro (finfo :: rest) val =
          unmarshalNSFields env zero recur a.Objects pval addr ro rest
            (atPath env zero (fun fv a r => recur ob fv a r) finfo.idx true addr ro val).1) ∧
      ((atPath env zero (fun fv a r => recur ob fv a r) finfo.idx true addr ro val).2 ≠ .ok () →
        unmarshalNSFields env zero recur a.Objects pval addr ro (finfo :: rest) val =
          atPath env zero (fun fv a r => recur ob fv a r) finfo.idx true addr ro val)) ∧
    (∀ (n : Nat) (kind : IntKind) (x : Int),
      unmarshal env tfuel a.Objects fuel (.uid n) (.int kind x) true false =
        (.int kind (wrapInt kind.bits (wrapInt 64 n)), .ok ())) ∧
    (∀ (n : Nat) (kind : UintKind) (x : Nat),
      unmarshal env tfuel a.Objects fuel (.uid n) (.uint kind x) true false =
        (.uint kind (wrapUint kind.bits (wrapUint 64 n)), .ok ())) ∧
    (∀ (n x : Nat),
      unmarshal env tfuel a.Objects fuel (.uid n) (.uid x) true false =
        (.uid (wrapUint 64 (wrapUint 64 n)), .ok ())) ∧
    (∀ (n : Nat) (val : GoValue) (addr ro : Bool), val.kind ≠ .Ptr →
      (∀ kind x, val ≠ .int kind x) → (∀ kind x, val ≠ .uint kind x) → (∀ x, val ≠ .uid x) →
      unmarshal env tfuel a.Objects fuel (.uid n) val addr ro =
        (val, .err (.other "not UID/int field"))) ∧
    (∀ (n : Nat) (kind : IntKind) (x : Int), o = .uid n →
      Unmarshal env tfuel fuel a (.ptr (.int kind) (some (.int kind x))) =
        (.ptr (.int kind) (some (.int kind (wrapInt kind.bits (wrapInt 64 n)))), .ok ())) :=
  ⟨Unmarshal_root env tfuel fuel a v root o ht ho,
    fun keys kvs => tableEntries_step a.Objects tabObjects k keys i kvs key u ob hk hi hu,
    fun zero recur elem t z item vs acc hz hr =>
      unmarshalArrayLoop_step zero recur a.Objects elem u vs acc z item ob t hz hu hr,
    fun zero recur pval addr ro finfo rest val hl =>
      unmarshalNSFields_step env zero recur a.Objects pval addr ro finfo rest val u ob hl hu,
    fun n kind x => unmarshal_uid_int env tfuel a.Objects fuel n kind x,
    fun n kind x => unmarshal_uid_uint env tfuel a.Objects fuel n kind x,
    fun n x => unmarshal_uid_uid env tfuel a.Objects fuel n x,
    fun n val addr ro hp h1 h2 h3 =>
      unmarshal_uid_other env tfuel a.Objects fuel n val addr ro hp
        (storeInteger_none val n h1 h2 h3),
    fun n kind x hn =>
      Unmarshal_reference_root env tfuel fuel a root n kind x ht (hn ▸ ho)⟩

/-- The amended claim C11 at the table `["$null", UID(2), 42]` with root 1: the root
resolves to the reference 2, whose index `Unmarshal` stores in the `int64`. -/
theorem reference_resolved_one_hop_witness :
    Unmarshal plainEnv 3 3 (archiveOf [.string "$null", .uid 2, .uint .uint64 42] 1)
        (.ptr (.int .int64) (some (.int .int64 0))) =
      (.ptr (.int .int64) (some (.int .int64 2)), .ok ()) :=
  (reference_resolved_one_hop plainEnv 3 3
    (archiveOf [.string "$null", .uid 2, .uint .uint64 42] 1)
    (.ptr (.int .int64) (some (.int .int64 0))) 1 0 2 (.uid 2) (.uint .uint64 42) "$null"
    [.iface (some (.uid 2))] 0 rfl rfl rfl rfl rfl).2.2.2.2.2.2.2.2 2 .int64 0 rfl

/-- Claim C12, counterexample. With a root reference, a key reference, an object
reference or a class reference that is not an index of the table, `Unmarshal` ends
in the runtime panic of the indexing and returns no error. -/
theorem invalid_reference_not_an_error :
    Unmarshal plainEnv 3 3 (archiveOf [.string "$null"] 7)
        (.ptr (.int .int64) (some (.int .int64 0))) =
      (.ptr (.int .int64) (some (.int .int64 0)), .panic "index out of range") ∧
    Unmarshal plainEnv 3 3
        (archiveOf [.string "$null",
          .dict [("NS.keys", .array [.uid 9]), ("NS.objects", .array [.uid 0]),
            ("$class", .uid 2)],
          classDict archiverMutableDictionaryClass] 1)
        (.ptr (.struct "S") (some (.struct "S" [.string ""]))) =
      (.ptr (.struct "S") (some (.struct "S" [.string ""])), .panic "index out of range") ∧
    Unmarshal plainEnv 3 3
        (archiveOf [.string "$null",
          .dict [("NS.keys", .array [.uid 3]), ("NS.objects", .array [.uid 9]),
            ("$class", .uid 2)],
          classDict archiverMutableDictionaryClass, .string "A"] 1)
        (.ptr (.struct "S") (some (.struct "S" [.string ""]))) =
      (.ptr (.struct "S") (some (.struct "S" [.string ""])), .panic "index out of range") ∧
    Unmarshal plainEnv 3 3
        (archiveOf [.string "$null",
          .dict [("NS.keys", .array [.uid 3]), ("NS.objects", .array [.uid 0]),
            ("$class", .uid 9)],
          classDict archiverMutableDictionaryClass, .string "A"] 1)
        (.ptr (.struct "S") (some (.struct "S" [.string ""]))) =
      (.ptr (.struct "S") (some (.struct "S" [.string ""])), .panic "index out of range") :=
  ⟨by rfl, by rfl, by rfl, by rfl⟩

/-- Claim C12, amended. The decoder indexes the table without a bounds check. For an
index `i` that is not below the length of the table: with `i` as root reference
`Unmarshal` panics; a mapping whose `$class` is the reference `i` makes `unmarshal`
panic; in the first loop of `unmarshalStruct` a key reference `i`, or an object
reference `i` next to a valid key, panics; in the loop of `unmarshalArray` an
object reference `i` panics. No error is returned and the target is left as it
was. -/
theorem invalid_reference_panics (env : TypeEnv) (tfuel fuel : Nat) (objects : List Obj)
    (i : Nat) (hi : objects.length ≤ i) :
    (∀ (a : Archiver) (v : GoValue), a.Objects = objects → a.Top = some i →
      Unmarshal env tfuel fuel a v = (v, .panic "index out of range")) ∧
    (∀ (dict : List (String × Obj)) (val : GoValue) (addr ro : Bool),
      dict.lookup "$class" = some (.uid i) → val.kind ≠ .Ptr →
      unmarshal env tfuel objects fuel (.dict dict) val addr ro =
        (val, .panic "index out of range")) ∧
    (∀ (tabObjects keys : List GoValue) (j : Nat) (kvs : List (String × Obj)),
      tableEntries objects tabObjects (.uid i :: keys) j kvs = .panic "index out of range") ∧
    (∀ (tabObjects keys : List GoValue) (j k : Nat) (key : String) (kvs : List (String × Obj)),
      objects.get? k = some (.string key) →
      tabObjects.get? j = some (.iface (some (.uid i))) →
      tableEntries objects tabObjects (.uid k :: keys) j kvs = .panic "index out of range") ∧
    (∀ (zero : GoType → Option GoValue) (recur : UnmarshalFn) (elem : GoType) (addr ro : Bool)
        (z : GoValue) (vs : List GoValue) (acc : Option (List GoValue)),
      zero elem = some z →
      unmarshalArrayLoop zero recur objects elem addr ro (.iface (some (.uid i)) :: vs) acc =
        (acc, .panic "index out of range")) := by
  refine ⟨?_, ?_, ?_, ?_, ?_⟩
  · intro a v ha ht
    exact Unmarshal_root_out_of_range env tfuel fuel a v i ht (ha ▸ hi)
  · intro dict val addr ro hc hv
    rw [unmarshal_of_kind env tfuel objects fuel _ val addr ro hv]
    exact unmarshalKind_getClass_panic _ _ _ _ _ _ _ _ _ _ _
      (getClass_out_of_range _ objects dict i hc hi)
  · intro tabObjects keys j kvs
    exact tableEntries_key_out_of_range objects tabObjects i keys j kvs hi
  · intro tabObjects keys j k key kvs hk hj
    exact tableEntries_object_out_of_range objects tabObjects k keys j kvs key i hk hj hi
  · intro zero recur elem addr ro z vs acc hz
    exact unmarshalArrayLoop_out_of_range zero recur objects elem addr ro i vs acc z hz hi

/-- The amended claim C12 at the table `["$null"]` and the root reference 7. -/
theorem invalid_reference_panics_witness :
    Unmarshal plainEnv 3 3 (archiveOf [.string "$null"] 7) (.int .int64 0) =
      (.int .int64 0, .panic "index out of range") :=
  (invalid_reference_panics plainEnv 3 3 [.string "$null"] 7 (by decide)).1
    (archiveOf [.string "$null"] 7) (.int .int64 0) rfl rfl

/-- Claim C13, counterexample. A mapping without `$class`, one whose `$class` is a
string, one whose `$class` refers to a string, a table with more keys than objects
and a table whose key refers to a mapping make `Unmarshal` panic; a mapping whose
`$class` refers to a mapping that is no class descriptor is decoded without
error. -/
theorem malformed_mapping_aborts :
    Unmarshal plainEnv 3 3 (archiveOf [.string "$null", .dict [("A", .string "x")]] 1)
        (.ptr (.struct "S") (some (.struct "S" [.string ""]))) =
      (.ptr (.struct "S") (some (.struct "S" [.string ""])),
        .panic "interface conversion: interface {} is not plist.UID") ∧
    Unmarshal plainEnv 3 3
        (archiveOf [.string "$null", .dict [("$class", .string "NSDictionary")]] 1)
        (.ptr (.struct "S") (some (.struct "S" [.string ""]))) =
      (.ptr (.struct "S") (some (.struct "S" [.string ""])),
        .panic "interface conversion: interface {} is not plist.UID") ∧
    Unmarshal plainEnv 3 3 (archiveOf [.string "$null", .dict [("$class", .uid 0)]] 1)
        (.ptr (.struct "S") (some (.struct "S" [.string ""]))) =
      (.ptr (.struct "S") (some (.struct "S" [.string ""])),
        .panic "interface conversion: interface {} is not map[string]interface {}") ∧
    Unmarshal plainEnv 3 3
        (archiveOf [.string "$null",
          .dict [("NS.keys", .array [.uid 3]), ("NS.objects", .array []), ("$class", .uid 2)],
          classDict archiverMutableDictionaryClass, .string "A", .string "hello"] 1)
        (.ptr (.struct "S") (some (.struct "S" [.string ""]))) =
      (.ptr (.struct "S") (some (.struct "S" [.string ""])), .panic "index out of range") ∧
    Unmarshal plainEnv 3 3
        (archiveOf [.string "$null",
          .dict [("NS.keys", .array [.uid 2]), ("NS.objects", .array [.uid 4]),
            ("$class", .uid 2)],
          classDict archiverMutableDictionaryClass, .string "A", .string "hello"] 1)
        (.ptr (.struct "S") (some (.struct "S" [.string ""]))) =
      (.ptr (.struct "S") (some (.struct "S" [.string ""])),
        .panic "interface conversion: interface {} is not string") ∧
    Unmarshal plainEnv 3 3
        (archiveOf [.string "$null", .dict [("$class", .uid 2)], .dict [("x", .string "y")]] 1)
        (.ptr (.struct "S") (some (.struct "S" [.string ""]))) =
      (.ptr (.struct "S") (some (.struct "S" [.string ""])), .ok ()) :=
  ⟨by rfl, by rfl, by rfl, by rfl, by rfl, by rfl⟩

theorem getClass_unmarshal_err (dictU : List (String × Obj) → GoValue → GoValue × Res Unit)
    (objects : List Obj) (dict d : List (String × Obj)) (i : Nat) (e : GoError)
    (h : dict.lookup "$class" = some (.uid i)) (hi : objects.get? i = some (.dict d))
    (he : (dictU d newArchiverClass).2 = .err e) :
    getClass dictU objects dict = .err e := by
  unfold getClass
  rw [h]
  simp only [hi]
  cases hd : dictU d newArchiverClass with
  | mk cls r =>
    rw [hd] at he
    simp only at he
    subst he
    rfl

theorem unmarshalKind_getClass_err (env : TypeEnv) (tinfoOf : GoType → Res TypeInfo)
    (dictU : List (String × Obj) → GoValue → GoValue × Res Unit)
    (zero : GoType → Option GoValue) (recur : UnmarshalFn) (objects : List Obj)
    (dict : List (String × Obj)) (val : GoValue) (addr ro : Bool) (e : GoError)
    (h : getClass dictU objects dict = .err e) :
    unmarshalKind env tinfoOf dictU zero recur objects (.dict dict) val addr ro =
      (val, .err e) := by
  simp only [unmarshalKind, h]

theorem DictionaryUnmarshal_no_class_keys (env : TypeEnv) (tfuel : Nat)
    (d : List (String × Obj)) (h1 : d.lookup "$classname" = none)
    (h2 : d.lookup "$classes" = none) :
    DictionaryUnmarshal env tfuel d newArchiverClass = (newArchiverClass, .ok ()) := by
  unfold DictionaryUnmarshal
  rw [dictUnmarshal_unfold]
  simp only [dictUnmarshalBody, newArchiverClass, ptrStep, dictUnmarshalKind,
    dictUnmarshalStruct, GoValue.typ, GetTypeInfo_archiverClass, unmarshalFields, h1, h2]

theorem getClass_no_class_keys (env : TypeEnv) (tfuel : Nat) (objects : List Obj)
    (dict d : List (String × Obj)) (i : Nat) (h : dict.lookup "$class" = some (.uid i))
    (hi : objects.get? i = some (.dict d)) (h1 : d.lookup "$classname" = none)
    (h2 : d.lookup "$classes" = none) :
    getClass (DictionaryUnmarshal env tfuel) objects dict =
      .ok { ClassName := "", Classes := none } := by
  unfold getClass
  rw [h]
  simp only [hi, DictionaryUnmarshal_no_class_keys env tfuel d h1 h2]
  rfl

theorem unmarshal_struct_no_class_keys (env : TypeEnv) (tfuel fuel : Nat) (objects : List Obj)
    (dict d : List (String × Obj)) (val : GoValue) (addr ro : Bool) (i : Nat)
    (hv : val.kind = .Struct) (h : dict.lookup "$class" = some (.uid i))
    (hi : objects.get? i = some (.dict d)) (h1 : d.lookup "$classname" = none)
    (h2 : d.lookup "$classes" = none) :
    unmarshal env tfuel objects (fuel + 1) (.dict dict) val addr ro =
      unmarshalNSType env (GetTypeInfo env tfuel) (zeroValue env tfuel)
        (unmarshal env tfuel objects fuel) objects dict val addr ro := by
  rw [unmarshal_of_kind env tfuel objects (fuel + 1) _ val addr ro (by rw [hv]; decide)]
  have hd : ArchiverClass.isDictionary { ClassName := "", Classes := none } = false := by decide
  have hdt : ArchiverClass.isDate { ClassName := "", Classes := none } = false := by decide
  have hu : ArchiverClass.isUUID { ClassName := "", Classes := none } = false := by decide
  simp only [unmarshalKind, getClass_no_class_keys env tfuel objects dict d i h hi h1 h2, hv,
    unmarshalStructCase, hd, hdt, hu, Bool.false_and, Bool.false_eq_true, if_false]

/-- Claim C13, amended. The type assertions and the indexing of the decoder are
unchecked. For a target that is not a pointer, `unmarshal` panics on a mapping that
has no `$class` entry, on one whose `$class` entry is not a reference, and on one
whose `$class` refers to an object that is not a mapping; the first loop of
`unmarshalStruct` panics when the objects run out before the keys and when a key
refers to an object that is not a string. In each case the target is left as it
was and no error is returned. When `$class` refers to a mapping, an error of
`Dictionary.Unmarshal` on that mapping is the error `unmarshal` returns; and when
that mapping has neither `$classname` nor `$classes`, the class has the empty name
and a struct target is decoded by `unmarshalNSType`. -/
theorem malformed_mapping_panics (env : TypeEnv) (tfuel fuel : Nat) (objects : List Obj)
    (dict : List (String × Obj)) (val : GoValue) (addr ro : Bool) (hv : val.kind ≠ .Ptr) :
    (dict.lookup "$class" = none →
      unmarshal env tfuel objects fuel (.dict dict) val addr ro =
        (val, .panic "interface conversion: interface {} is not plist.UID")) ∧
    (∀ o, dict.lookup "$class" = some o → (∀ i, o ≠ .uid i) →
      unmarshal env tfuel objects fuel (.dict dict) val addr ro =
        (val, .panic "interface conversion: interface {} is not plist.UID")) ∧
    (∀ i o, dict.lookup "$class" = some (.uid i) → objects.get? i = some o →
      (∀ d, o ≠ .dict d) →
      unmarshal env tfuel objects fuel (.dict dict) val addr ro =
        (val, .panic "interface conversion: interface {} is not map[string]interface {}")) ∧
    (∀ (tabObjects keys : List GoValue) (j k : Nat) (key : String) (kvs : List (String × Obj)),
      objects.get? k = some (.string key) → tabObjects.length ≤ j →
      tableEntries objects tabObjects (.uid k :: keys) j kvs = .panic "index out of range") ∧
    (∀ (tabObjects keys : List GoValue) (j k : Nat) (o : Obj) (kvs : List (String × Obj)),
      objects.get? k = some o → (∀ s, o ≠ .string s) →
      tableEntries objects tabObjects (.uid k :: keys) j kvs =
        .panic "interface conversion: interface {} is not string") ∧
    (∀ (i : Nat) (d : List (String × Obj)) (e : GoError),
      dict.lookup "$class" = some (.uid i) → objects.get? i = some (.dict d) →
      (DictionaryUnmarshal env tfuel d newArchiverClass).2 = .err e →
      unmarshal env tfuel objects fuel (.dict dict) val addr ro = (val, .err e)) ∧
    (∀ (i : Nat) (d : List (String × Obj)),
      dict.lookup "$class" = some (.uid i) → objects.get? i = some (.dict d) →
      d.lookup "$classname" = none → d.lookup "$classes" = none →
      getClass (DictionaryUnmarshal env tfuel) objects dict =
        .ok { ClassName := "", Classes := none } ∧
      (val.kind = .Struct →
        unmarshal env tfuel objects (fuel + 1) (.dict dict) val addr ro =
          unmarshalNSType env (GetTypeInfo env tfuel) (zeroValue env tfuel)
            (unmarshal env tfuel objects fuel) objects dict val addr ro)) := by
  refine ⟨?_, ?_, ?_, ?_, ?_, ?_, ?_⟩
  · intro h
    rw [unmarshal_of_kind env tfuel objects fuel _ val addr ro hv]
    exact unmarshalKind_getClass_panic _ _ _ _ _ _ _ _ _ _ _ (getClass_no_class _ objects dict h)
  · intro o h ho
    rw [unmarshal_of_kind env tfuel objects fuel _ val addr ro hv]
    exact unmarshalKind_getClass_panic _ _ _ _ _ _ _ _ _ _ _
      (getClass_not_uid _ objects dict o h ho)
  · intro i o h hi ho
    rw [unmarshal_of_kind env tfuel objects fuel _ val addr ro hv]
    exact unmarshalKind_getClass_panic _ _ _ _ _ _ _ _ _ _ _
      (getClass_not_dict _ objects dict i o h hi ho)
  · intro tabObjects keys j k key kvs hk hj
    exact tableEntries_short_objects objects tabObjects k keys j kvs key hk hj
  · intro tabObjects keys j k o kvs hk ho
    exact tableEntries_key_not_string objects tabObjects k keys j kvs o hk ho
  · intro i d e h hi he
    rw [unmarshal_of_kind env tfuel objects fuel _ val addr ro hv]
    exact unmarshalKind_getClass_err _ _ _ _ _ _ _ _ _ _ _
      (getClass_unmarshal_err _ objects dict d i e h hi he)
  · intro i d h hi h1 h2
    exact ⟨getClass_no_class_keys env tfuel objects dict d i h hi h1 h2,
      fun hs => unmarshal_struct_no_class_keys env tfuel fuel objects dict d val addr ro i hs h
        hi h1 h2⟩

/-- The amended claim C13 at a mapping whose `$class` refers to the mapping
`{"$classname": 5}` and a struct target: the error of `Dictionary.Unmarshal` is
returned. -/
theorem malformed_mapping_panics_witness :
    unmarshal plainEnv 3
        [.string "$null", .dict [("$class", .uid 2)], .dict [("$classname", .uint .uint64 5)]]
        3 (.dict [("$class", .uid 2)]) (.struct "S" [.string ""]) true false =
      (.struct "S" [.string ""], .err (.other "not integer field")) :=
  (malformed_mapping_panics plainEnv 3 3
    [.string "$null", .dict [("$class", .uid 2)], .dict [("$classname", .uint .uint64 5)]]
    [("$class", .uid 2)] (.struct "S" [.string ""]) true false (by decide)).2.2.2.2.2.1 2
    [("$classname", .uint .uint64 5)] (.other "not integer field") rfl rfl (by rfl)

/-- Claim C14, evaluated. The archived dictionary `{"a": "x"}` is decoded into an
empty `map[string]interface{}`: `unmarshalMap` copies the entries of the wrapper
itself, so the map gets the keys `NS.keys`, `NS.objects` and `$class` with their
undecoded values and no entry for `"a"`; a nil map of that type panics, and so
does a `map[string]string`. -/
theorem map_gets_raw_wrapper :
    Unmarshal plainEnv 3 3
        (archiveOf [.string "$null",
          .dict [("NS.keys", .array [.uid 3]), ("NS.objects", .array [.uid 4]),
            ("$class", .uid 2)],
          classDict archiverMutableDictionaryClass, .string "a", .string "x"] 1)
        (.ptr (.map .string .iface) (some (.map .string .iface (some [])))) =
      (.ptr (.map .string .iface) (some (.map .string .iface (some
        [(.string "NS.keys", .iface (some (.slice .iface (some [.iface (some (.uid 3))])))),
         (.string "NS.objects", .iface (some (.slice .iface (some [.iface (some (.uid 4))])))),
         (.string "$class", .iface (some (.uid 2)))]))), .ok ()) ∧
    Unmarshal plainEnv 3 3
        (archiveOf [.string "$null",
          .dict [("NS.keys", .array [.uid 3]), ("NS.objects", .array [.uid 4]),
            ("$class", .uid 2)],
          classDict archiverMutableDictionaryClass, .string "a", .string "x"] 1)
        (.ptr (.map .string .iface) (some (.map .string .iface none))) =
      (.ptr (.map .string .iface) (some (.map .string .iface none)),
        .panic "assignment to entry in nil map") ∧
    Unmarshal plainEnv 3 3
        (archiveOf [.string "$null",
          .dict [("NS.keys", .array [.uid 3]), ("NS.objects", .array [.uid 4]),
            ("$class", .uid 2)],
          classDict archiverMutableDictionaryClass, .string "a", .string "x"] 1)
        (.ptr (.map .string .string) (some (.map .string .string (some [])))) =
      (.ptr (.map .string .string) (some (.map .string .string (some []))),
        .panic "reflect: value is not assignable") :=
  ⟨by rfl, by rfl, by rfl⟩

/-- Claim C16, evaluated. The archived array `["x"]` is decoded into a `[]string`
that holds `"old"`: `unmarshalArray` appends, and the target ends with two
elements; into a nil `[]string` it ends with the one element. -/
theorem array_appended_to_target :
    Unmarshal plainEnv 3 3
        (archiveOf [.string "$null",
          .dict [("NS.objects", .array [.uid 3]), ("$class", .uid 2)],
          classDict archiverMutableArrayClass, .string "x"] 1)
        (.ptr (.slice .string) (some (.slice .string (some [.string "old"])))) =
      (.ptr (.slice .string) (some (.slice .string (some [.string "old", .string "x"]))),
        .ok ()) ∧
    Unmarshal plainEnv 3 3
        (archiveOf [.string "$null",
          .dict [("NS.objects", .array [.uid 3]), ("$class", .uid 2)],
          classDict archiverMutableArrayClass, .string "x"] 1)
        (.ptr (.slice .string) (some (.slice .string none))) =
      (.ptr (.slice .string) (some (.slice .string (some [.string "x"]))), .ok ()) :=
  ⟨by rfl, by rfl⟩

/-- Claim C17, counterexample. A mapping of class `NSDate`, one of class `NSArray`
and one of class `NSMutableData` are decoded into a `*S`, with `S` an ordinary
struct, without error; the target keeps its value. -/
theorem class_mismatch_accepted_for_struct :
    Unmarshal plainEnv 3 3
        (archiveOf [.string "$null",
          .dict [("NS.time", .float .float64 (.num 0 0)), ("$class", .uid 2)],
          classDict archiverDateClass] 1)
        (.ptr (.struct "S") (some (.struct "S" [.string "old"]))) =
      (.ptr (.struct "S") (some (.struct "S" [.string "old"])), .ok ()) ∧
    Unmarshal plainEnv 3 3
        (archiveOf [.string "$null",
          .dict [("NS.objects", .array [.uid 0]), ("$class", .uid 2)],
          classDict archiverArrayClass] 1)
        (.ptr (.struct "S") (some (.struct "S" [.string "old"]))) =
      (.ptr (.struct "S") (some (.struct "S" [.string "old"])), .ok ()) ∧
    Unmarshal plainEnv 3 3
        (archiveOf [.string "$null",
          .dict [("NS.data", .bytes (some [1, 2])), ("$class", .uid 2)],
          classDict archiverMutableDataClass] 1)
        (.ptr (.struct "S") (some (.struct "S" [.string "old"]))) =
      (.ptr (.struct "S") (some (.struct "S" [.string "old"])), .ok ()) :=
  ⟨by rfl, by rfl, by rfl⟩

theorem kind_slice_iff (val : GoValue) (h : val.kind = .Slice) :
    ∃ elem xs, val = .slice elem xs := by
  cases val with
  | slice elem xs => exact ⟨elem, xs, rfl⟩
  | int k n => cases k <;> cases h
  | uint k n => cases k <;> cases h
  | float k f => cases k <;> cases h
  | _ => cases h

/-- Claim C17, amended. For a mapping whose class descriptor is `cls` and a target
that is not a pointer: a map target with a class that is no dictionary gives "not
map field"; an array target that is not a `uuid.UUID` with class `NSUUID` gives
"not uid type"; a slice target gives "not data type" unless the class is an array
or it is data and the elements are bytes; a target that is no map, array, slice or
struct gives "unknow dict type". A struct target never fails on the class: when
the class is no dictionary and the target is not a `time.Time` of class `NSDate`,
the mapping is decoded field by field by `unmarshalNSType`. -/
theorem class_shape_dispatch (env : TypeEnv) (tfuel fuel : Nat) (objects : List Obj)
    (pval : List (String × Obj)) (val : GoValue) (addr ro : Bool) (cls : ArchiverClass)
    (hv : val.kind ≠ .Ptr)
    (hc : getClass (DictionaryUnmarshal env tfuel) objects pval = .ok cls) :
    (val.kind = .Map → cls.isDictionary = false →
      unmarshal env tfuel objects fuel (.dict pval) val addr ro =
        (val, .err (.other "not map field"))) ∧
    (val.kind = .Array → (cls.isUUID && decide (val.typ = some archiverUUIDType)) = false →
      unmarshal env tfuel objects fuel (.dict pval) val addr ro =
        (val, .err (.other "not uid type"))) ∧
    (∀ elem xs, val = .slice elem xs → (cls.isData && decide (elem.kind = .Uint8)) = false →
      cls.isArray = false →
      unmarshal env tfuel objects fuel (.dict pval) val addr ro =
        (val, .err (.other "not data type"))) ∧
    (val.kind ≠ .Map → val.kind ≠ .Array → val.kind ≠ .Slice → val.kind ≠ .Struct →
      unmarshal env tfuel objects fuel (.dict pval) val addr ro =
        (val, .err (.other "unknow dict type"))) ∧
    (val.kind = .Struct → cls.isDictionary = false →
      (cls.isDate && decide (val.typ = some archiverDateType)) = false →
      unmarshal env tfuel objects fuel (.dict pval) val addr ro =
        unmarshalNSType env (GetTypeInfo env tfuel) (zeroValue env tfuel)
          (match fuel with
            | 0 => fun _ val _ _ => (val, .fuel)
            | k + 1 => unmarshal env tfuel objects k) objects pval val addr ro) := by
  rw [unmarshal_of_kind env tfuel objects fuel _ val addr ro hv]
  refine ⟨?_, ?_, ?_, ?_, ?_⟩
  · intro hk hd
    simp only [unmarshalKind, hc, hk, hd, Bool.not_false, if_true]
  · intro hk hu
    simp only [unmarshalKind, hc, hk, hu]
    rfl
  · intro elem xs hval hd ha
    subst hval
    have hk : (GoValue.slice elem xs).kind = .Slice := rfl
    simp only [unmarshalKind, hc, hk, hd, ha]
    rfl
  · intro h1 h2 h3 h4
    simp only [unmarshalKind, hc]
  · intro hk hd ht
    have hu : (cls.isUUID && decide (val.typ = some archiverUUIDType)) = false := by
      cases hty : val.typ with
      | none => simp
      | some t =>
        have : t ≠ archiverUUIDType := by
          intro ht2
          subst ht2
          simp only [GoValue.kind, hty] at hk
          cases hk
        simp [this]
    simp only [unmarshalKind, hc, hk, unmarshalStructCase, hd, ht, hu]
    rfl

/-- The amended claim C17 at a mapping of class `NSDate` and a string target, which
is neither map, array, slice nor struct. -/
theorem class_shape_dispatch_witness :
    unmarshal plainEnv 3
        [.string "$null",
          .dict [("NS.time", .float .float64 (.num 0 0)), ("$class", .uid 2)],
          classDict archiverDateClass] 3
        (.dict [("NS.time", .float .float64 (.num 0 0)), ("$class", .uid 2)])
        (.string "") true false =
      (.string "", .err (.other "unknow dict type")) :=
  (class_shape_dispatch plainEnv 3 3
    [.string "$null",
      .dict [("NS.time", .float .float64 (.num 0 0)), ("$class", .uid 2)],
      classDict archiverDateClass]
    [("NS.time", .float .float64 (.num 0 0)), ("$class", .uid 2)]
    (.string "") true false archiverDateClass (by decide) (by rfl)).2.2.2.1
    (by decide) (by decide) (by decide) (by decide)

/-! ## Decoding the wrappers with `Dictionary.Unmarshal` -/

theorem zeroValue_uid (env : TypeEnv) : ∀ n : Nat, zeroValue env n .uid = some (.uid 0)
  | 0 => rfl
  | _ + 1 => rfl

theorem zeroValue_iface (env : TypeEnv) : ∀ n : Nat, zeroValue env n .iface = some (.iface none)
  | 0 => rfl
  | _ + 1 => rfl

theorem wrapUint_id (n : Nat) (h : n < 2 ^ 64) : wrapUint 64 (wrapUint 64 n) = n := by
  have h1 : wrapUint 64 (n : Int) = n := by
    unfold wrapUint
    rw [Int.emod_eq_of_lt (by omega) (by exact_mod_cast h)]
    simp
  rw [h1, h1]

theorem dictUnmarshal_uid_uid (env : TypeEnv) (tfuel f k x : Nat) :
    dictUnmarshal env tfuel f (.uid k) (.uid x) true false =
      (.uid (wrapUint 64 (wrapUint 64 k)), .ok ()) := by
  rw [dictUnmarshal_unfold]
  rfl

theorem dictUnmarshal_uid_iface (env : TypeEnv) (tfuel f k : Nat) :
    dictUnmarshal env tfuel f (.uid k) (.iface none) true false =
      (.iface (some (.uid k)), .ok ()) := by
  rw [dictUnmarshal_unfold]
  rfl

theorem dictUnmarshalElems_map {α : Type} (recur : UnmarshalFn) (g : α → Obj) (h : α → GoValue)
    (z : GoValue) (hr : ∀ a, recur (g a) z true false = (h a, .ok ())) :
    ∀ l : List α, dictUnmarshalElems recur false (l.map g) (List.replicate l.length z) =
      (l.map h, .ok ())
  | [] => rfl
  | a :: l => by
    simp only [List.map_cons, List.length_cons, List.replicate_succ, dictUnmarshalElems, hr,
      dictUnmarshalElems_map recur g h z hr l]

theorem dictUnmarshal_uid_slice (env : TypeEnv) (tfuel f : Nat) (ks : List Nat)
    (xs : Option (List GoValue)) (hk : ∀ k ∈ ks, k < 2 ^ 64) :
    dictUnmarshal env tfuel (f + 1) (.array (ks.map Obj.uid)) (.slice .uid xs) true false =
      (.slice .uid (some (ks.map GoValue.uid)), .ok ()) := by
  rw [dictUnmarshal_unfold]
  simp only [dictUnmarshalBody, ptrStep, dictUnmarshalKind, dictUnmarshalSlice, zeroValue_uid,
    List.length_map, Bool.not_false, Bool.and_self, if_true]
  rw [dictUnmarshalElems_map (dictUnmarshal env tfuel f) Obj.uid
    (fun k => GoValue.uid (wrapUint 64 (wrapUint 64 k))) (.uid 0)
    (fun k => dictUnmarshal_uid_uid env tfuel f k 0) ks]
  congr 3
  apply List.map_congr_left
  intro k hk'
  rw [wrapUint_id k (hk k hk')]

theorem dictUnmarshal_iface_slice (env : TypeEnv) (tfuel f : Nat) (os : List Nat)
    (xs : Option (List GoValue)) :
    dictUnmarshal env tfuel (f + 1) (.array (os.map Obj.uid)) (.slice .iface xs) true false =
      (.slice .iface (some (os.map (fun u => GoValue.iface (some (.uid u))))), .ok ()) := by
  rw [dictUnmarshal_unfold]
  simp only [dictUnmarshalBody, ptrStep, dictUnmarshalKind, dictUnmarshalSlice, zeroValue_iface,
    List.length_map, Bool.not_false, Bool.and_self, if_true]
  rw [dictUnmarshalElems_map (dictUnmarshal env tfuel f) Obj.uid
    (fun u => GoValue.iface (some (.uid u))) (.iface none)
    (fun k => dictUnmarshal_uid_iface env tfuel f k) os]

theorem GetTypeInfo_archiverTable (env : TypeEnv) : ∀ fuel : Nat,
    GetTypeInfo env fuel (.struct "plist.archiverTable") =
      .ok { Fields := [ { idx := [0], Name := "NS.keys", OmitEmpty := false },
                        { idx := [1], Name := "NS.objects", OmitEmpty := false },
                        { idx := [2], Name := "$class", OmitEmpty := false } ] }
  | 0 => rfl
  | _ + 1 => rfl

theorem GetTypeInfo_archiverArray (env : TypeEnv) : ∀ fuel : Nat,
    GetTypeInfo env fuel (.struct "plist.archiverArray") =
      .ok { Fields := [ { idx := [0], Name := "NS.objects", OmitEmpty := false },
                        { idx := [1], Name := "$class", OmitEmpty := false } ] }
  | 0 => rfl
  | _ + 1 => rfl

/-- What `Dictionary.Unmarshal` makes of the mapping of a table: the keys, the
objects and the class reference, as they are. -/
theorem DictionaryUnmarshal_table (env : TypeEnv) (tfuel : Nat) (dict : List (String × Obj))
    (ks os : List Nat) (c : Nat) (hks : dict.lookup "NS.keys" = some (.array (ks.map Obj.uid)))
    (hos : dict.lookup "NS.objects" = some (.array (os.map Obj.uid)))
    (hc : dict.lookup "$class" = some (.uid c))
    (hk : ∀ k ∈ ks, k < 2 ^ 64) (hc64 : c < 2 ^ 64) :
    DictionaryUnmarshal env (tfuel + 2) dict newArchiverTable =
      (.ptr (.struct "plist.archiverTable") (some (.struct "plist.archiverTable"
        [.slice .uid (some (ks.map GoValue.uid)),
         .slice .iface (some (os.map (fun u => GoValue.iface (some (.uid u))))),
         .uid c])), .ok ()) := by
  unfold DictionaryUnmarshal
  rw [dictUnmarshal_unfold]
  simp only [dictUnmarshalBody, newArchiverTable, ptrStep, dictUnmarshalKind,
    dictUnmarshalStruct, GoValue.typ, GetTypeInfo_archiverTable, unmarshalFields, hks, hos, hc,
    atPath_cons_struct]
  have hd : decl env "plist.archiverTable" =
      [ { Name := "Keys", PkgPath := "", Typ := .slice .uid, Tag := "NS.keys",
          Anonymous := false },
        { Name := "Objects", PkgPath := "", Typ := .slice .iface, Tag := "NS.objects",
          Anonymous := false },
        { Name := "Class", PkgPath := "", Typ := .uid, Tag := "$class", Anonymous := false } ] :=
    rfl
  have hne : ("" != "") = false := by decide
  simp only [onField, hd, atPath, List.get?, hne,
    dictUnmarshal_uid_slice env (tfuel + 2) tfuel ks _ hk,
    dictUnmarshal_iface_slice env (tfuel + 2) tfuel os, List.set, dictUnmarshal_uid_uid,
    wrapUint_id c hc64]

/-! ## Decoding a table into a struct -/

theorem tableEntries_zip (objects : List Obj) :
    ∀ (ks : List Nat) (names : List String),
      List.Forall₂ (fun k n => objects.get? k = some (.string n)) ks names →
      ∀ (os : List Nat) (vals : List Obj),
        List.Forall₂ (fun u o => objects.get? u = some o) os vals →
        ks.length = os.length →
        ∀ (pre : List Nat) (kvs : List (String × Obj)),
          tableEntries objects ((pre ++ os).map (fun u => GoValue.iface (some (.uid u))))
              (ks.map GoValue.uid) pre.length kvs =
            .ok ((names.zip vals).reverse ++ kvs) := by
  intro ks names h1
  induction h1 with
  | nil =>
    intro os vals _ _ pre kvs
    simp [tableEntries]
  | @cons k n ks names hk _ ih =>
    intro os vals h2 hlen pre kvs
    cases h2 with
    | nil => simp at hlen
    | @cons u o os vals hu h2 =>
      have hget : ((pre ++ u :: os).map (fun u => GoValue.iface (some (.uid u)))).get? pre.length =
          some (.iface (some (.uid u))) := by
        rw [List.get?_eq_getElem?, List.map_append, List.map_cons,
          List.getElem?_append_right (by simp)]
        simp
      rw [List.map_cons, tableEntries_step objects _ k _ pre.length kvs n u o hk hget hu]
      have := ih os vals h2 (by simpa using hlen) (pre ++ [u]) ((n, o) :: kvs)
      simp only [List.append_assoc, List.singleton_append, List.length_append, List.length_singleton]
        at this
      rw [this]
      simp

theorem unmarshalFields_filter (env : TypeEnv) (zero : GoType → Option GoValue)
    (recur : UnmarshalFn) (kvs : List (String × Obj)) (addr ro : Bool) :
    ∀ (fis : List FieldInfo) (val : GoValue),
      unmarshalFields env zero recur kvs addr ro fis val =
        unmarshalFields env zero recur kvs addr ro
          (fis.filter (fun f => (kvs.lookup f.Name).isSome)) val
  | [], val => rfl
  | f :: fis, val => by
    cases hl : kvs.lookup f.Name with
    | none =>
      rw [List.filter_cons_of_neg (by simp [hl])]
      simp only [unmarshalFields, hl]
      exact unmarshalFields_filter env zero recur kvs addr ro fis val
    | some dval =>
      rw [List.filter_cons_of_pos (by simp [hl])]
      simp only [unmarshalFields, hl]
      cases hr : atPath env zero (fun fv a r => recur dval fv a r) f.idx true addr ro val with
      | mk val' r =>
        cases r with
        | ok u => exact unmarshalFields_filter env zero recur kvs addr ro fis val'
        | err e => rfl
        | panic m => rfl
        | fuel => rfl

theorem lookup_mem {α : Type} (a : String) (b : α) :
    ∀ l : List (String × α), l.lookup a = some b → (a, b) ∈ l
  | [], h => by simp at h
  | (a', b') :: l, h => by
    by_cases ha : a = a'
    · subst ha
      simp only [List.lookup_cons, beq_self_eq_true, Option.some.injEq] at h
      subst h
      exact List.mem_cons_self _ _
    · have hne : (a == a') = false := by simpa using ha
      simp only [List.lookup_cons, hne] at h
      exact List.mem_cons_of_mem _ (lookup_mem a b l h)

theorem mem_zip_get {α β : Type} (a : α) (b : β) :
    ∀ (l : List α) (m : List β), (a, b) ∈ l.zip m →
      ∃ j : Nat, l[j]? = some a ∧ m[j]? = some b
  | [], _, h => by simp at h
  | _ :: _, [], h => by simp at h
  | x :: l, y :: m, h => by
    simp only [List.zip_cons_cons, List.mem_cons, Prod.mk.injEq] at h
    rcases h with ⟨rfl, rfl⟩ | h
    · exact ⟨0, by simp, by simp⟩
    · obtain ⟨j, h1, h2⟩ := mem_zip_get a b l m h
      exact ⟨j + 1, by simpa using h1, by simpa using h2⟩

/-- What `unmarshalStruct` does with the mapping of a table whose keys resolve to
the strings `names` and whose objects resolve to `vals`: the loop over the fields
of the descriptor, on the pairs of `names` and `vals`, the last pair of a name in
force. -/
theorem unmarshalStruct_table (env : TypeEnv) (tfuel : Nat) (recur : UnmarshalFn)
    (objects : List Obj) (dict : List (String × Obj)) (val : GoValue) (addr ro : Bool)
    (typ : GoType) (tinfo : TypeInfo) (ks os : List Nat) (c : Nat) (names : List String)
    (vals : List Obj) (hty : val.typ = some typ)
    (hti : GetTypeInfo env (tfuel + 2) typ = .ok tinfo)
    (hks : dict.lookup "NS.keys" = some (.array (ks.map Obj.uid)))
    (hos : dict.lookup "NS.objects" = some (.array (os.map Obj.uid)))
    (hc : dict.lookup "$class" = some (.uid c))
    (hk : ∀ k ∈ ks, k < 2 ^ 64) (hc64 : c < 2 ^ 64) (hlen : ks.length = os.length)
    (hnames : List.Forall₂ (fun k n => objects.get? k = some (.string n)) ks names)
    (hvals : List.Forall₂ (fun u o => objects.get? u = some o) os vals) :
    unmarshalStruct env (GetTypeInfo env (tfuel + 2)) (DictionaryUnmarshal env (tfuel + 2))
        (zeroValue env (tfuel + 2)) recur objects dict val addr ro =
      unmarshalFields env (zeroValue env (tfuel + 2)) recur (names.zip vals).reverse addr ro
        tinfo.Fields val := by
  have ht := tableEntries_zip objects ks names hnames os vals hvals hlen [] []
  simp only [List.nil_append, List.length_nil, List.append_nil] at ht
  simp only [unmarshalStruct, hty, hti,
    DictionaryUnmarshal_table env tfuel dict ks os c hks hos hc hk hc64, pointee, sliceField,
    List.get?, ht]

theorem unmarshalFields_congr (env : TypeEnv) (zero : GoType → Option GoValue)
    (recur : UnmarshalFn) (kvs kvs' : List (String × Obj)) (addr ro : Bool) :
    ∀ (fis : List FieldInfo) (val : GoValue),
      (∀ f ∈ fis, kvs.lookup f.Name = kvs'.lookup f.Name) →
      unmarshalFields env zero recur kvs addr ro fis val =
        unmarshalFields env zero recur kvs' addr ro fis val
  | [], _, _ => rfl
  | f :: fis, val, h => by
    have hf := h f (List.mem_cons_self _ _)
    have ht : ∀ g ∈ fis, kvs.lookup g.Name = kvs'.lookup g.Name :=
      fun g hg => h g (List.mem_cons_of_mem _ hg)
    simp only [unmarshalFields, ← hf]
    cases hl : kvs.lookup f.Name with
    | none => exact unmarshalFields_congr env zero recur kvs kvs' addr ro fis val ht
    | some dval =>
      simp only
      cases hr : atPath env zero (fun fv a r => recur dval fv a r) f.idx true addr ro val with
      | mk val' r =>
        cases r with
        | ok u => exact unmarshalFields_congr env zero recur kvs kvs' addr ro fis val' ht
        | err e => rfl
        | panic m => rfl
        | fuel => rfl

theorem lookup_filter_key {α : Type} (p : String → Bool) (n : String) (hp : p n = true) :
    ∀ l : List (String × α), (l.filter (fun q => p q.1)).lookup n = l.lookup n
  | [] => rfl
  | (a, b) :: l => by
    by_cases hpa : p a = true
    · rw [List.filter_cons_of_pos (by simpa using hpa)]
      simp only [List.lookup_cons, lookup_filter_key p n hp l]
    · rw [List.filter_cons_of_neg (by simpa using hpa)]
      have hne : (n == a) = false := by
        rw [beq_eq_false_iff_ne]
        intro h
        subst h
        exact hpa hp
      simp only [List.lookup_cons, hne, lookup_filter_key p n hp l]

/-- The pairs whose key names no field of the list play no part in the loop over
the fields. -/
theorem unmarshalFields_ignores_keys (env : TypeEnv) (zero : GoType → Option GoValue)
    (recur : UnmarshalFn) (kvs : List (String × Obj)) (addr ro : Bool) (fis : List FieldInfo)
    (val : GoValue) :
    unmarshalFields env zero recur kvs addr ro fis val =
      unmarshalFields env zero recur
        (kvs.filter (fun q => fis.any (fun f => f.Name == q.1))) addr ro fis val := by
  apply unmarshalFields_congr
  intro f hf
  rw [lookup_filter_key (fun n => fis.any (fun f => f.Name == n)) f.Name]
  simp only [List.any_eq_true]
  exact ⟨f, hf, by simp⟩

/-! ## Reading a field back after the decoding loop -/

theorem onField_struct {α : Type} (env : TypeEnv) (x : Nat) (name : String)
    (fields : List GoValue) (fv : GoValue) (f : StructField)
    (cont : GoValue → Bool → GoValue × Res α) (h1 : fields.get? x = some fv)
    (h2 : (decl env name).get? x = some f) :
    onField env x (.struct name fields) cont =
      (.struct name (fields.set x (cont fv (f.PkgPath != "")).1),
        (cont fv (f.PkgPath != "")).2) := by
  simp only [onField, h1, h2]

/-- Either `v.Field(x)` is a field of a struct, or the call panics whatever is
done next. -/
theorem onField_cases (env : TypeEnv) (x : Nat) (w : GoValue) :
    (∃ name fields fv f, w = .struct name fields ∧ fields.get? x = some fv ∧
      (decl env name).get? x = some f) ∨
    (∃ m : String, ∀ (α : Type) (cont : GoValue → Bool → GoValue × Res α),
      onField env x w cont = (w, .panic m)) := by
  cases w with
  | struct name fields =>
    cases h1 : fields.get? x with
    | none =>
      exact Or.inr ⟨"reflect: Field index out of range", fun α cont => by
        simp only [onField, h1]⟩
    | some fv =>
      cases h2 : (decl env name).get? x with
      | none =>
        exact Or.inr ⟨"reflect: Field index out of range", fun α cont => by
          simp only [onField, h1, h2]⟩
      | some f => exact Or.inl ⟨name, fields, fv, f, rfl, h1, h2⟩
  | _ => exact Or.inr ⟨_, fun α cont => rfl⟩

theorem get?_set_self {α : Type} (l : List α) (x : Nat) (a b : α) (h : l.get? x = some a) :
    (l.set x b).get? x = some b := by
  rw [List.get?_eq_getElem?] at h ⊢
  have hlt : x < l.length := by
    by_contra hc
    rw [List.getElem?_eq_none (by omega)] at h
    cases h
  rw [List.getElem?_set_self hlt]

/-- The first step of the walk of `FieldInfo.Value`: the struct whose field is taken
next, or the failure of the step. -/
theorem atPath_entry (env : TypeEnv) (zero : GoType → Option GoValue) (first addr ro : Bool)
    (v : GoValue) :
    (∃ (inner : GoValue) (addr1 : Bool) (wrap : GoValue → GoValue),
      (∀ (x : Nat) (rest : List Nat) (α : Type) (k : GoValue → Bool → Bool → GoValue × Res α),
        atPath env zero k (x :: rest) first addr ro v =
          (wrap (onField env x inner
              (fun fv r => atPath env zero k rest false addr1 r fv)).1,
            (onField env x inner (fun fv r => atPath env zero k rest false addr1 r fv)).2)) ∧
      (∀ (y : Nat) (β : Type) (cont : GoValue → Bool → GoValue × Res β)
          (x : Nat) (rest : List Nat) (α : Type) (k : GoValue → Bool → Bool → GoValue × Res α),
        atPath env zero k (x :: rest) first addr ro (wrap (onField env y inner cont).1) =
          (wrap (onField env x (onField env y inner cont).1
              (fun fv r => atPath env zero k rest false addr1 r fv)).1,
            (onField env x (onField env y inner cont).1
              (fun fv r => atPath env zero k rest false addr1 r fv)).2))) ∨
    (∃ m : Option String,
      ∀ (x : Nat) (rest : List Nat) (α : Type) (k : GoValue → Bool → Bool → GoValue × Res α),
        atPath env zero k (x :: rest) first addr ro v = (v, walkFailure m)) := by
  have hstruct : ∀ (y : Nat) (β : Type) (cont : GoValue → Bool → GoValue × Res β) (w : GoValue),
      (∀ s p, w ≠ .ptr (.struct s) p) →
      ∀ s p, (onField env y w cont).1 ≠ .ptr (.struct s) p := by
    intro y β cont w hw s p
    rcases onField_cases env y w with ⟨name, fields, fv, f, rfl, h1, h2⟩ | ⟨m, hm⟩
    · rw [onField_struct env y name fields fv f cont h1 h2]
      intro h
      cases h
    · rw [hm β cont]
      exact hw s p
  by_cases hp : first = false ∧ ∃ s p, v = .ptr (.struct s) p
  · obtain ⟨hf, s, p, rfl⟩ := hp
    subst hf
    cases p with
    | some inner =>
      refine Or.inl ⟨inner, true, fun w => .ptr (.struct s) (some w), ?_, ?_⟩
      · intro x rest α k
        simp only [atPath]
      · intro y β cont x rest α k
        simp only [atPath]
    | none =>
      by_cases hs : (addr && !ro) = true
      · cases hz : zero (.struct s) with
        | none =>
          refine Or.inr ⟨none, ?_⟩
          intro x rest α k
          simp only [atPath, hs, hz, if_true, walkFailure]
        | some z =>
          refine Or.inl ⟨z, true, fun w => .ptr (.struct s) (some w), ?_, ?_⟩
          · intro x rest α k
            simp only [atPath, hs, hz, if_true]
          · intro y β cont x rest α k
            simp only [atPath]
      · refine Or.inr ⟨some "reflect: reflect.Value.Set using a value that cannot be set", ?_⟩
        intro x rest α k
        simp only [atPath, hs, Bool.false_eq_true, if_false, walkFailure]
  · have hv : first = true ∨ ∀ s p, v ≠ .ptr (.struct s) p := by
      by_cases hf : first = true
      · exact Or.inl hf
      · refine Or.inr (fun s p h => hp ⟨by simpa using hf, s, p, h⟩)
    have key : ∀ (w : GoValue), (first = true ∨ ∀ s p, w ≠ .ptr (.struct s) p) →
        ∀ (x : Nat) (rest : List Nat) (α : Type) (k : GoValue → Bool → Bool → GoValue × Res α),
        atPath env zero k (x :: rest) first addr ro w =
          onField env x w (fun fv r => atPath env zero k rest false addr r fv) := by
      intro w hw x rest α k
      rcases hw with hf | hw
      · subst hf
        simp only [atPath]
      · cases first with
        | true => simp only [atPath]
        | false =>
          cases w with
          | ptr e p =>
            cases e with
            | struct s => exact absurd rfl (hw s p)
            | _ => simp only [atPath]
          | _ => simp only [atPath]
    refine Or.inl ⟨v, addr, id, ?_, ?_⟩
    · intro x rest α k
      rw [key v hv x rest α k]
      rfl
    · intro y β cont x rest α k
      have hw : first = true ∨ ∀ s p, (onField env y v cont).1 ≠ .ptr (.struct s) p := by
        rcases hv with hf | hv
        · exact Or.inl hf
        · exact Or.inr (hstruct y β cont v hv)
      simp only [id]
      rw [key _ hw x rest α k]

theorem readAt_nil (env : TypeEnv) (zero : GoType → Option GoValue) (first addr ro : Bool)
    (v : GoValue) : readAt env zero [] first addr ro v = .ok (v, addr, ro) := by
  simp only [readAt, atPath]

/-- The walk with `k` at its end: either the field is reached, `k` is run on it and
the field holds afterwards what `k` left there, or the walk fails. -/
theorem atPath_spec {α : Type} (env : TypeEnv) (zero : GoType → Option GoValue)
    (k : GoValue → Bool → Bool → GoValue × Res α) :
    ∀ (idx : List Nat) (first addr ro : Bool) (v : GoValue),
      (∃ fv a r, readAt env zero idx first addr ro v = .ok (fv, a, r) ∧
        (atPath env zero k idx first addr ro v).2 = (k fv a r).2 ∧
        readAt env zero idx first addr ro (atPath env zero k idx first addr ro v).1 =
          .ok ((k fv a r).1, a, r)) ∨
      (∀ u, (atPath env zero k idx first addr ro v).2 ≠ .ok u)
  | [], first, addr, ro, v => by
    refine Or.inl ⟨v, addr, ro, readAt_nil env zero first addr ro v, ?_, ?_⟩
    · simp only [atPath]
    · simp only [atPath, readAt_nil]
  | x :: rest, first, addr, ro, v => by
    rcases atPath_entry env zero first addr ro v with ⟨inner, addr1, wrap, h1, h2⟩ | ⟨m, hm⟩
    · rcases onField_cases env x inner with ⟨name, fields, fv0, f, rfl, hg, hd⟩ | ⟨m, hm⟩
      · rcases atPath_spec env zero k rest false addr1 (f.PkgPath != "") fv0 with
          ⟨fv, a, r, hr, hw, hrr⟩ | hfail
        · refine Or.inl ⟨fv, a, r, ?_, ?_, ?_⟩
          · simp only [readAt] at hr ⊢
            rw [h1 x rest, onField_struct env x name fields fv0 f _ hg hd]
            exact hr
          · rw [h1 x rest, onField_struct env x name fields fv0 f _ hg hd]
            exact hw
          · simp only [readAt] at hrr ⊢
            rw [h1 x rest α k]
            simp only []
            rw [h2 x _ (fun fv r => atPath env zero k rest false addr1 r fv) x rest]
            rw [onField_struct env x name fields fv0 f _ hg hd]
            simp only []
            rw [onField_struct env x name _ _ f _ (get?_set_self fields x fv0 _ hg) hd]
            exact hrr
        · refine Or.inr (fun u => ?_)
          rw [h1 x rest, onField_struct env x name fields fv0 f _ hg hd]
          exact hfail u
      · refine Or.inr (fun u => ?_)
        rw [h1 x rest, hm]
        intro h
        cases h
    · refine Or.inr (fun u => ?_)
      rw [hm x rest]
      cases m <;> (intro h; cases h)

/-- A walk leaves alone what another walk reads, when the two paths part ways. -/
theorem atPath_frame {α : Type} (env : TypeEnv) (zero : GoType → Option GoValue)
    (k : GoValue → Bool → Bool → GoValue × Res α) (i j : Nat) (p1 q1 : List Nat)
    (hne : i ≠ j) :
    ∀ (c : List Nat) (first addr ro : Bool) (v : GoValue),
      readAt env zero (c ++ j :: q1) first addr ro
          (atPath env zero k (c ++ i :: p1) first addr ro v).1 =
        readAt env zero (c ++ j :: q1) first addr ro v
  | [], first, addr, ro, v => by
    simp only [List.nil_append, readAt]
    rcases atPath_entry env zero first addr ro v with ⟨inner, addr1, wrap, h1, h2⟩ | ⟨m, hm⟩
    · rw [h1 i p1 α k]
      simp only []
      rw [h2 i _ _ j q1, h1 j q1]
      simp only []
      rcases onField_cases env i inner with ⟨name, fields, fv0, f, rfl, hg, hd⟩ | ⟨m, hm⟩
      · rw [onField_struct env i name fields fv0 f _ hg hd]
        simp only []
        rw [onField_set_ne env j i (Ne.symm hne)]
      · rw [hm]
    · rw [hm i p1 α k]
  | x :: c, first, addr, ro, v => by
    simp only [List.cons_append, readAt]
    rcases atPath_entry env zero first addr ro v with ⟨inner, addr1, wrap, h1, h2⟩ | ⟨m, hm⟩
    · rw [h1 x (c ++ i :: p1) α k]
      simp only []
      rw [h2 x _ _ x (c ++ j :: q1), h1 x (c ++ j :: q1)]
      simp only []
      rcases onField_cases env x inner with ⟨name, fields, fv0, f, rfl, hg, hd⟩ | ⟨m, hm⟩
      · have ih := atPath_frame env zero k i j p1 q1 hne c false addr1 (f.PkgPath != "") fv0
        simp only [readAt] at ih
        rw [onField_struct env x name fields fv0 f
          (fun fv r => atPath env zero k (c ++ i :: p1) false addr1 r fv) hg hd]
        simp only []
        rw [onField_struct env x name _ _ f _ (get?_set_self fields x fv0 _ hg) hd]
        rw [onField_struct env x name fields fv0 f _ hg hd]
        exact ih
      · rw [hm]
    · rw [hm x (c ++ i :: p1) α k]

theorem atPath_frame_diverge {α : Type} (env : TypeEnv) (zero : GoType → Option GoValue)
    (k : GoValue → Bool → Bool → GoValue × Res α) (p q : List Nat) (h : Diverge p q)
    (first addr ro : Bool) (v : GoValue) :
    readAt env zero q first addr ro (atPath env zero k p first addr ro v).1 =
      readAt env zero q first addr ro v := by
  obtain ⟨c, i, j, p1, q1, rfl, rfl, hne⟩ := h
  exact atPath_frame env zero k i j p1 q1 hne c first addr ro v


theorem Diverge.symm {p q : List Nat} (h : Diverge p q) : Diverge q p := by
  obtain ⟨c, i, j, p1, q1, hp, hq, hne⟩ := h
  exact ⟨c, j, i, q1, p1, hq, hp, Ne.symm hne⟩

theorem Diverge.cons {p q : List Nat} (x : Nat) (h : Diverge p q) :
    Diverge (x :: p) (x :: q) := by
  obtain ⟨c, i, j, p1, q1, hp, hq, hne⟩ := h
  exact ⟨x :: c, i, j, p1, q1, by rw [hp]; rfl, by rw [hq]; rfl, hne⟩

theorem unmarshalFields_frame (env : TypeEnv) (zero : GoType → Option GoValue)
    (recur : UnmarshalFn) (kvs : List (String × Obj)) (addr ro : Bool) (q : List Nat) :
    ∀ (F : List FieldInfo) (val : GoValue), (∀ f ∈ F, Diverge f.idx q) →
      readAt env zero q true addr ro (unmarshalFields env zero recur kvs addr ro F val).1 =
        readAt env zero q true addr ro val
  | [], val, _ => rfl
  | f :: F, val, h => by
    have ht : ∀ g ∈ F, Diverge g.idx q := fun g hg => h g (List.mem_cons_of_mem _ hg)
    simp only [unmarshalFields]
    cases hl : kvs.lookup f.Name with
    | none => exact unmarshalFields_frame env zero recur kvs addr ro q F val ht
    | some dval =>
      simp only
      have hfr := atPath_frame_diverge env zero (fun fv a r => recur dval fv a r) f.idx q
        (h f (List.mem_cons_self _ _)) true addr ro val
      cases hw : atPath env zero (fun fv a r => recur dval fv a r) f.idx true addr ro val with
      | mk w r =>
        rw [hw] at hfr
        cases r with
        | ok u =>
          simp only
          rw [unmarshalFields_frame env zero recur kvs addr ro q F w ht]
          exact hfr
        | err e => exact hfr
        | panic m => exact hfr
        | fuel => exact hfr

/-- After a loop of `unmarshalStruct` that returned no error, every field of the
list whose name is a key holds what `recur` left in it, decoding the object in
force for the key into what the field held before. -/
theorem unmarshalFields_holds (env : TypeEnv) (zero : GoType → Option GoValue)
    (recur : UnmarshalFn) (kvs : List (String × Obj)) (addr ro : Bool) :
    ∀ (F : List FieldInfo) (val : GoValue),
      F.Pairwise (fun f g => Diverge f.idx g.idx) →
      (unmarshalFields env zero recur kvs addr ro F val).2 = .ok () →
      ∀ f ∈ F, ∀ o, kvs.lookup f.Name = some o →
        ∃ fv a r, readAt env zero f.idx true addr ro val = .ok (fv, a, r) ∧
          (recur o fv a r).2 = .ok () ∧
          readAt env zero f.idx true addr ro
            (unmarshalFields env zero recur kvs addr ro F val).1 = .ok ((recur o fv a r).1, a, r)
  | [], val, _, _, f, hf, _, _ => by simp at hf
  | g :: F, val, hp, hok, f, hf, o, ho => by
    rw [List.pairwise_cons] at hp
    obtain ⟨hg, hF⟩ := hp
    simp only [unmarshalFields] at hok ⊢
    cases hl : kvs.lookup g.Name with
    | none =>
      rw [hl] at hok
      simp only at hok ⊢
      rcases List.mem_cons.1 hf with rfl | hfF
      · rw [hl] at ho
        cases ho
      · exact unmarshalFields_holds env zero recur kvs addr ro F val hF hok f hfF o ho
    | some dval =>
      rw [hl] at hok
      simp only at hok ⊢
      have hspec := atPath_spec env zero (fun fv a r => recur dval fv a r) g.idx true addr ro val
      cases hw : atPath env zero (fun fv a r => recur dval fv a r) g.idx true addr ro val with
      | mk w r =>
        rw [hw] at hok hspec
        cases r with
        | ok u =>
          simp only at hok ⊢
          rcases List.mem_cons.1 hf with rfl | hfF
          · rw [hl] at ho
            cases ho
            rcases hspec with ⟨fv, a, r, hr, hk, hrr⟩ | hfail
            · refine ⟨fv, a, r, hr, hk.symm, ?_⟩
              rw [unmarshalFields_frame env zero recur kvs addr ro f.idx F w
                (fun g hgF => (hg g hgF).symm)]
              exact hrr
            · exact absurd rfl (hfail u)
          · obtain ⟨fv, a, r, hr, hk, hrr⟩ :=
              unmarshalFields_holds env zero recur kvs addr ro F w hF hok f hfF o ho
            refine ⟨fv, a, r, ?_, hk, hrr⟩
            have hfr := atPath_frame_diverge env zero (fun fv a r => recur dval fv a r) g.idx
              f.idx (hg f hfF) true addr ro val
            rw [hw] at hfr
            rw [← hfr]
            exact hr
        | err e => simp at hok
        | panic m => simp at hok
        | fuel => simp at hok

theorem mem_candidatesBody (env : TypeEnv) (crecur : GoType → List FieldInfo)
    (name : String) (c : FieldInfo) (hc : c ∈ candidatesBody env crecur (.struct name)) :
    ∃ (j : Nat) (sf : StructField), (decl env name)[j]? = some sf ∧ sf.skipped = false ∧
      ((sf.embedded = none ∧ c = fieldInfoOf j sf) ∨
        (∃ t c1, sf.embedded = some t ∧ c1 ∈ crecur t ∧ c = FieldInfo.under j c1)) := by
  simp only [candidatesBody, List.mem_flatten, List.mem_map] at hc
  obtain ⟨l, ⟨p, hp, rfl⟩, hcl⟩ := hc
  have hget : (decl env name)[p.1]? = some p.2 := List.mem_enum_iff_getElem?.1 hp
  by_cases hs : p.2.skipped = true
  · simp [hs] at hcl
  · rw [if_neg hs] at hcl
    refine ⟨p.1, p.2, hget, by simpa using hs, ?_⟩
    cases he : p.2.embedded with
    | none =>
      simp only [he, List.mem_singleton] at hcl
      exact Or.inl ⟨rfl, hcl⟩
    | some t =>
      simp only [he, List.mem_map] at hcl
      obtain ⟨c1, hc1, rfl⟩ := hcl
      exact Or.inr ⟨t, c1, rfl, hc1, rfl⟩

theorem candidates_diverge (env : TypeEnv) : ∀ (fuel : Nat) (t : GoType) (c1 c2 : FieldInfo),
    c1 ∈ candidates env fuel t → c2 ∈ candidates env fuel t → c1.Name ≠ c2.Name →
    Diverge c1.idx c2.idx := by
  have key : ∀ (crecur : GoType → List FieldInfo),
      (∀ t c1 c2, c1 ∈ crecur t → c2 ∈ crecur t → c1.Name ≠ c2.Name → Diverge c1.idx c2.idx) →
      ∀ t c1 c2, c1 ∈ candidatesBody env crecur t → c2 ∈ candidatesBody env crecur t →
        c1.Name ≠ c2.Name → Diverge c1.idx c2.idx := by
    intro crecur hrec t c1 c2 h1 h2 hne
    cases t with
    | struct name =>
      obtain ⟨j1, sf1, hj1, _, hc1⟩ := mem_candidatesBody env crecur name c1 h1
      obtain ⟨j2, sf2, hj2, _, hc2⟩ := mem_candidatesBody env crecur name c2 h2
      have hidx1 : ∃ r1, c1.idx = j1 :: r1 := by
        rcases hc1 with ⟨_, rfl⟩ | ⟨t, c, _, _, rfl⟩
        · exact ⟨[], rfl⟩
        · exact ⟨c.idx, rfl⟩
      have hidx2 : ∃ r2, c2.idx = j2 :: r2 := by
        rcases hc2 with ⟨_, rfl⟩ | ⟨t, c, _, _, rfl⟩
        · exact ⟨[], rfl⟩
        · exact ⟨c.idx, rfl⟩
      obtain ⟨r1, hr1⟩ := hidx1
      obtain ⟨r2, hr2⟩ := hidx2
      by_cases hj : j1 = j2
      · subst hj
        rw [hj1] at hj2
        cases hj2
        rcases hc1 with ⟨he1, rfl⟩ | ⟨t1, d1, he1, hd1, rfl⟩
        · rcases hc2 with ⟨he2, rfl⟩ | ⟨t2, d2, he2, hd2, rfl⟩
          · exact absurd rfl hne
          · rw [he1] at he2
            cases he2
        · rcases hc2 with ⟨he2, rfl⟩ | ⟨t2, d2, he2, hd2, rfl⟩
          · rw [he1] at he2
            cases he2
          · rw [he1] at he2
            cases he2
            exact (hrec t1 d1 d2 hd1 hd2 hne).cons j1
      · exact ⟨[], j1, j2, r1, r2, hr1, hr2, hj⟩
    | _ => simp [candidatesBody] at h1
  intro fuel
  induction fuel with
  | zero => exact key _ (fun t c1 c2 h => by simp at h)
  | succ fuel ih => exact key _ ih

theorem GetTypeInfo_mem_candidates (env : TypeEnv) (fuel : Nat) (t : GoType) (tinfo : TypeInfo)
    (h : GetTypeInfo env fuel t = .ok tinfo) (f : FieldInfo) (hf : f ∈ tinfo.Fields) :
    f ∈ candidates env fuel t := by
  have hr := GetTypeInfo_resolves env fuel t tinfo h
  obtain ⟨pre, post, hc, _, _⟩ := winner_spec f.Name _ f (resolves_mem _ _ hr f hf)
  rw [hc]
  simp

/-- The access paths of a descriptor part ways two by two. -/
theorem GetTypeInfo_paths_diverge (env : TypeEnv) (fuel : Nat) (t : GoType) (tinfo : TypeInfo)
    (h : GetTypeInfo env fuel t = .ok tinfo) :
    tinfo.Fields.Pairwise (fun f g => Diverge f.idx g.idx) := by
  have hnd : (tinfo.Fields.map (fun f => f.Name)).Nodup :=
    resolves_nodup _ _ (GetTypeInfo_resolves env fuel _ tinfo h)
  rw [List.Nodup, List.pairwise_map] at hnd
  exact hnd.imp_of_mem (fun {f g} hf hg hne =>
    candidates_diverge env fuel t f g (GetTypeInfo_mem_candidates env fuel t tinfo h f hf)
      (GetTypeInfo_mem_candidates env fuel t tinfo h g hg) hne)

/-- Claim C15. For the mapping of a table whose key references resolve to the strings
`names` and whose object references resolve to `vals`, in parallel, and a target
whose descriptor is `tinfo`: `unmarshalStruct` runs the decoding loop over exactly
the fields whose name is among the keys, in descriptor order, each with an object
paired with its name; when no field name is among the keys it returns no error and
leaves the target as it is, tagged `omitempty` or not; and a field of a struct
target that no decoded field is reached through keeps its value. Keys that name no
field play no part. When `unmarshalStruct` returns no error, every field of the
descriptor whose name is a key holds what `recur` made of the object in force for
that key and of what the field held before; and, error or not, `finfo.Value` reads
from the target what it read before for every field whose name is not a key. -/
theorem unmarshalStruct_decodes_by_key (env : TypeEnv) (tfuel : Nat) (recur : UnmarshalFn)
    (objects : List Obj) (dict : List (String × Obj)) (val : GoValue) (addr ro : Bool)
    (typ : GoType) (tinfo : TypeInfo) (ks os : List Nat) (c : Nat) (names : List String)
    (vals : List Obj) (hty : val.typ = some typ)
    (hti : GetTypeInfo env (tfuel + 2) typ = .ok tinfo)
    (hks : dict.lookup "NS.keys" = some (.array (ks.map Obj.uid)))
    (hos : dict.lookup "NS.objects" = some (.array (os.map Obj.uid)))
    (hc : dict.lookup "$class" = some (.uid c))
    (hk : ∀ k ∈ ks, k < 2 ^ 64) (hc64 : c < 2 ^ 64) (hlen : ks.length = os.length)
    (hnames : List.Forall₂ (fun k n => objects.get? k = some (.string n)) ks names)
    (hvals : List.Forall₂ (fun u o => objects.get? u = some o) os vals) :
    unmarshalStruct env (GetTypeInfo env (tfuel + 2)) (DictionaryUnmarshal env (tfuel + 2))
        (zeroValue env (tfuel + 2)) recur objects dict val addr ro =
      unmarshalFields env (zeroValue env (tfuel + 2)) recur (names.zip vals).reverse addr ro
        (tinfo.Fields.filter (fun f => ((names.zip vals).reverse.lookup f.Name).isSome)) val ∧
    unmarshalStruct env (GetTypeInfo env (tfuel + 2)) (DictionaryUnmarshal env (tfuel + 2))
        (zeroValue env (tfuel + 2)) recur objects dict val addr ro =
      unmarshalFields env (zeroValue env (tfuel + 2)) recur
        ((names.zip vals).reverse.filter (fun q => tinfo.Fields.any (fun f => f.Name == q.1)))
        addr ro tinfo.Fields val ∧
    (∀ f ∈ tinfo.Fields.filter (fun f => ((names.zip vals).reverse.lookup f.Name).isSome),
      ∃ (o : Obj) (j : Nat), (names.zip vals).reverse.lookup f.Name = some o ∧
        names[j]? = some f.Name ∧ vals[j]? = some o) ∧
    (tinfo.Fields.filter (fun f => ((names.zip vals).reverse.lookup f.Name).isSome) = [] →
      unmarshalStruct env (GetTypeInfo env (tfuel + 2)) (DictionaryUnmarshal env (tfuel + 2))
        (zeroValue env (tfuel + 2)) recur objects dict val addr ro = (val, .ok ())) ∧
    (∀ (name : String) (fields : List GoValue) (i : Nat), val = .struct name fields →
      (∀ f ∈ tinfo.Fields.filter (fun f => ((names.zip vals).reverse.lookup f.Name).isSome),
        ∃ x rest, f.idx = x :: rest ∧ x ≠ i) →
      ∃ fields',
        (unmarshalStruct env (GetTypeInfo env (tfuel + 2)) (DictionaryUnmarshal env (tfuel + 2))
          (zeroValue env (tfuel + 2)) recur objects dict val addr ro).1 = .struct name fields' ∧
        fields'[i]? = fields[i]?) ∧
    ((unmarshalStruct env (GetTypeInfo env (tfuel + 2)) (DictionaryUnmarshal env (tfuel + 2))
        (zeroValue env (tfuel + 2)) recur objects dict val addr ro).2 = .ok () →
      ∀ f ∈ tinfo.Fields, ∀ o, (names.zip vals).reverse.lookup f.Name = some o →
        ∃ fv a r, readAt env (zeroValue env (tfuel + 2)) f.idx true addr ro val = .ok (fv, a, r) ∧
          (recur o fv a r).2 = .ok () ∧
          readAt env (zeroValue env (tfuel + 2)) f.idx true addr ro
            (unmarshalStruct env (GetTypeInfo env (tfuel + 2))
              (DictionaryUnmarshal env (tfuel + 2)) (zeroValue env (tfuel + 2)) recur objects
              dict val addr ro).1 = .ok ((recur o fv a r).1, a, r)) ∧
    (∀ f ∈ tinfo.Fields, (names.zip vals).reverse.lookup f.Name = none →
      readAt env (zeroValue env (tfuel + 2)) f.idx true addr ro
          (unmarshalStruct env (GetTypeInfo env (tfuel + 2))
            (DictionaryUnmarshal env (tfuel + 2)) (zeroValue env (tfuel + 2)) recur objects
            dict val addr ro).1 =
        readAt env (zeroValue env (tfuel + 2)) f.idx true addr ro val) := by
  have heq := unmarshalStruct_table env tfuel recur objects dict val addr ro typ tinfo ks os c
    names vals hty hti hks hos hc hk hc64 hlen hnames hvals
  have hall := heq
  have hig := heq
  have hdiv := GetTypeInfo_paths_diverge env (tfuel + 2) typ tinfo hti
  rw [unmarshalFields_ignores_keys] at hig
  rw [unmarshalFields_filter] at heq
  refine ⟨heq, hig, ?_, ?_, ?_, ?_, ?_⟩
  · intro f hf
    have hs := (List.mem_filter.1 hf).2
    cases hl : (names.zip vals).reverse.lookup f.Name with
    | none => simp [hl] at hs
    | some o =>
      have hm := lookup_mem f.Name o _ hl
      rw [List.mem_reverse] at hm
      obtain ⟨j, h1, h2⟩ := mem_zip_get f.Name o names vals hm
      exact ⟨o, j, rfl, h1, h2⟩
  · intro hnil
    rw [heq, hnil]
    rfl
  · intro name fields i hv hfr
    subst hv
    rw [heq]
    exact unmarshalFields_keeps env _ recur _ addr ro name i _ fields hfr
  · intro hok f hf o ho
    rw [hall] at hok ⊢
    exact unmarshalFields_holds env _ recur _ addr ro tinfo.Fields val hdiv hok f hf o ho
  · intro f hf hnone
    rw [heq]
    apply unmarshalFields_frame
    intro g hg
    obtain ⟨hgF, hgs⟩ := List.mem_filter.1 hg
    have hne : g.Name ≠ f.Name := by
      intro he
      rw [he, hnone] at hgs
      simp at hgs
    exact candidates_diverge env (tfuel + 2) typ g f
      (GetTypeInfo_mem_candidates env (tfuel + 2) typ tinfo hti g hgF)
      (GetTypeInfo_mem_candidates env (tfuel + 2) typ tinfo hti f hf) hne

/-- Claim C15 at the table `{"X": 7, "Y": "hello", "Q": "$null"}` and a zero `Outer` of
the declarations `shadowing`, whose descriptor lists `X` and `Y`: the field `Y`
holds `"hello"` afterwards. -/
theorem unmarshalStruct_decodes_by_key_witness :
    readAt shadowing (zeroValue shadowing 2) [2] true true false
        (unmarshalStruct shadowing (GetTypeInfo shadowing 2) (DictionaryUnmarshal shadowing 2)
          (zeroValue shadowing 2) (unmarshal shadowing 2 shadowObjects 2) shadowObjects
          shadowDict shadowTarget true false).1 =
      .ok (.string "hello", true, false) := by
  obtain ⟨fv, a, r, h1, _, h3⟩ :=
    (unmarshalStruct_decodes_by_key shadowing 0 (unmarshal shadowing 2 shadowObjects 2)
      shadowObjects shadowDict shadowTarget true false (.struct "Outer")
      { Fields := [ { idx := [0], Name := "X", OmitEmpty := false },
                    { idx := [2], Name := "Y", OmitEmpty := true } ] }
      [3, 5, 7] [4, 6, 0] 2 ["X", "Y", "Q"] [.uint .uint64 7, .string "hello", .string "$null"]
      rfl rfl rfl rfl rfl (by decide) (by decide) rfl
      (.cons rfl (.cons rfl (.cons rfl .nil)))
      (.cons rfl (.cons rfl (.cons rfl .nil)))).2.2.2.2.2.1 (by rfl)
      { idx := [2], Name := "Y", OmitEmpty := true } (by simp) (.string "hello") (by rfl)
  have h0 : readAt shadowing (zeroValue shadowing 2) [2] true true false shadowTarget =
      .ok (.string "", true, false) := by rfl
  rw [h0] at h1
  cases h1
  exact h3

/-! ## The encoder only appends -/

theorem addObject_grows (T : List Obj) (o : Obj) : Grows T (addObject T o).2 := by
  unfold addObject
  cases findEqual o T 0 with
  | some i => exact Grows.refl T
  | none => exact ⟨[o], rfl⟩

theorem addObject_lt (T : List Obj) (o : Obj) :
    (addObject T o).1 < (addObject T o).2.length := by
  unfold addObject
  cases hf : findEqual o T 0 with
  | some i =>
    obtain ⟨_, ⟨x, hx, _⟩, _⟩ := findEqual_some o T 0 i hf
    simp only [Nat.sub_zero] at hx
    by_contra hc
    rw [List.getElem?_eq_none (by simpa using hc)] at hx
    cases hx
  | none => simp

theorem addObject_get (T : List Obj) (o : Obj) :
    (addObject T o).2[(addObject T o).1]? = some o := by
  unfold addObject
  cases hf : findEqual o T 0 with
  | some i =>
    obtain ⟨_, ⟨x, hx, hxe⟩, _⟩ := findEqual_some o T 0 i hf
    simp only [Nat.sub_zero] at hx
    rw [cmpEqual_eq x o hxe] at hx
    exact hx
  | none => simp

theorem seqT_grows {α β : Type} (g : List Obj → List Obj × Res α)
    (h : α → List Obj → List Obj × Res β) (e : GoError → List Obj → List Obj × Res β)
    (hg : ∀ T, Grows T (g T).1) (hh : ∀ a T, Grows T (h a T).1)
    (he : ∀ er T, Grows T (e er T).1) (T : List Obj) : Grows T (seqT g h e T).1 := by
  have h0 := hg T
  unfold seqT
  cases hr : g T with
  | mk o r =>
    rw [hr] at h0
    cases r with
    | ok a => exact h0.trans (hh a o)
    | err er => exact h0.trans (he er o)
    | panic m => exact h0
    | fuel => exact h0

theorem marshalSlice_bytes (recur : MarshalFn) (T : List Obj) (elem : GoType)
    (xs : Option (List GoValue)) (ro : Bool) (hk : elem.kind = .Uint8) :
    marshalSlice recur T (.slice elem xs) ro =
      ((addObject (addObject T archiverMutableDataClass.toObj).2
          (.dataRef (xs.map bytesOf) (addObject T archiverMutableDataClass.toObj).1)).2,
        .ok (addObject (addObject T archiverMutableDataClass.toObj).2
          (.dataRef (xs.map bytesOf) (addObject T archiverMutableDataClass.toObj).1)).1) := by
  simp only [marshalSlice, hk, if_true]

theorem marshalSlice_elems (recur : MarshalFn) (T : List Obj) (elem : GoType)
    (xs : Option (List GoValue)) (ro : Bool) (hk : elem.kind ≠ .Uint8) :
    marshalSlice recur T (.slice elem xs) ro =
      seqT (fun T => marshalElems recur ro (xs.getD []) T [])
        (fun uids T =>
          ((addObject (addObject T archiverMutableArrayClass.toObj).2
              (.arrayRef uids (addObject T archiverMutableArrayClass.toObj).1)).2,
            Res.ok (addObject (addObject T archiverMutableArrayClass.toObj).2
              (.arrayRef uids (addObject T archiverMutableArrayClass.toObj).1)).1))
        (fun e T => (T, .err e)) T := by
  simp only [marshalSlice, hk, if_false, seqT]
  split <;> simp_all

theorem marshalStruct_registered (env : TypeEnv) (reg : Registry)
    (tinfoOf : GoType → Res TypeInfo) (zero : GoType → Option GoValue) (recur : MarshalFn)
    (T : List Obj) (name : String) (fields : List GoValue) (fl : Flags) (tinfo : TypeInfo)
    (cls : ArchiverClass) (ht : tinfoOf (.struct name) = .ok tinfo)
    (hl : reg.lookup (.struct name) = some cls) :
    marshalStruct env reg tinfoOf zero recur T (.struct name fields) fl =
      seqT (fun T => marshalFieldsNS env zero recur (.struct name fields) fl tinfo.Fields T [])
        (fun nsobj T =>
          ((addObject (addObject T cls.toObj).2
              (.dict (dictInsert "$class" (.uid (addObject T cls.toObj).1) nsobj))).2,
            Res.ok (addObject (addObject T cls.toObj).2
              (.dict (dictInsert "$class" (.uid (addObject T cls.toObj).1) nsobj))).1))
        (fun e T => (T, .err e)) T := by
  simp only [marshalStruct, ht, hl, seqT]
  split <;> simp_all

theorem marshalStruct_table (env : TypeEnv) (reg : Registry)
    (tinfoOf : GoType → Res TypeInfo) (zero : GoType → Option GoValue) (recur : MarshalFn)
    (T : List Obj) (name : String) (fields : List GoValue) (fl : Flags) (tinfo : TypeInfo)
    (ht : tinfoOf (.struct name) = .ok tinfo) (hl : reg.lookup (.struct name) = none) :
    marshalStruct env reg tinfoOf zero recur T (.struct name fields) fl =
      seqT (fun T => marshalFieldsTable env zero recur (.struct name fields) fl tinfo.Fields T
          [] [])
        (fun (ko : List Nat × List Nat) T =>
          ((addObject (addObject T archiverMutableDictionaryClass.toObj).2
              (.tableRef ko.1 ko.2 (addObject T archiverMutableDictionaryClass.toObj).1)).2,
            Res.ok (addObject (addObject T archiverMutableDictionaryClass.toObj).2
              (.tableRef ko.1 ko.2 (addObject T archiverMutableDictionaryClass.toObj).1)).1))
        (fun e T => (T, .err e)) T := by
  simp only [marshalStruct, ht, hl, seqT]
  split <;> simp_all

theorem marshalStruct_no_tinfo (env : TypeEnv) (reg : Registry)
    (tinfoOf : GoType → Res TypeInfo) (zero : GoType → Option GoValue) (recur : MarshalFn)
    (T : List Obj) (name : String) (fields : List GoValue) (fl : Flags)
    (ht : ∀ tinfo, tinfoOf (.struct name) ≠ .ok tinfo) :
    (marshalStruct env reg tinfoOf zero recur T (.struct name fields) fl).1 = T ∧
      ∀ i, (marshalStruct env reg tinfoOf zero recur T (.struct name fields) fl).2 ≠ .ok i := by
  cases h : tinfoOf (.struct name) with
  | ok tinfo => exact absurd h (ht tinfo)
  | err e =>
    simp [marshalStruct, h]
  | panic m =>
    simp [marshalStruct, h]
  | fuel =>
    simp [marshalStruct, h]

theorem marshalField_grows (env : TypeEnv) (zero : GoType → Option GoValue) (recur : MarshalFn)
    (hrec : GrowsFn recur) (val : GoValue) (fl : Flags) (ti : FieldInfo) (T : List Obj) :
    Grows T (marshalField env zero recur T val fl ti).1 := by
  unfold marshalField
  split
  · exact hrec _ _ _
  · exact Grows.refl T
  · exact Grows.refl T
  · exact Grows.refl T

theorem marshalElems_grows (recur : MarshalFn) (ro : Bool) (hrec : GrowsFn recur) :
    ∀ (vs : List GoValue) (acc : List Nat) (T : List Obj),
      Grows T (marshalElems recur ro vs T acc).1
  | [], _, T => Grows.refl T
  | v :: vs, acc, T => by
    rw [marshalElems_cons]
    exact seqT_grows _ _ _ (fun T => hrec T v _)
      (fun i T => marshalElems_grows recur ro hrec vs (acc ++ [i]) T) (fun _ T => Grows.refl T) T

theorem marshalFieldsNS_grows (env : TypeEnv) (zero : GoType → Option GoValue)
    (recur : MarshalFn) (hrec : GrowsFn recur) (val : GoValue) (fl : Flags) :
    ∀ (tis : List FieldInfo) (nsobj : List (String × Obj)) (T : List Obj),
      Grows T (marshalFieldsNS env zero recur val fl tis T nsobj).1
  | [], _, T => Grows.refl T
  | ti :: tis, nsobj, T => by
    rw [marshalFieldsNS_cons]
    exact seqT_grows _ _ _ (fun T => marshalField_grows env zero recur hrec val fl ti T)
      (fun i T => marshalFieldsNS_grows env zero recur hrec val fl tis _ T)
      (fun _ T => Grows.refl T) T

theorem marshalFieldsTable_grows (env : TypeEnv) (zero : GoType → Option GoValue)
    (recur : MarshalFn) (hrec : GrowsFn recur) (val : GoValue) (fl : Flags) :
    ∀ (tis : List FieldInfo) (keys objects : List Nat) (T : List Obj),
      Grows T (marshalFieldsTable env zero recur val fl tis T keys objects).1
  | [], _, _, T => Grows.refl T
  | ti :: tis, keys, objects, T => by
    rw [marshalFieldsTable_cons]
    refine seqT_grows _ _ _ (fun T => marshalField_grows env zero recur hrec val fl ti T)
      (fun i T => (addObject_grows T _).trans
        (marshalFieldsTable_grows env zero recur hrec val fl tis _ _ _)) (fun e T => ?_) T
    split
    · exact marshalFieldsTable_grows env zero recur hrec val fl tis _ _ _
    · exact Grows.refl T

theorem add2_grows (T : List Obj) (o1 : Obj) (o2 : Nat → Obj) :
    Grows T (addObject (addObject T o1).2 (o2 (addObject T o1).1)).2 :=
  (addObject_grows T o1).trans (addObject_grows _ _)

theorem marshalSlice_grows (recur : MarshalFn) (hrec : GrowsFn recur) (val : GoValue)
    (ro : Bool) (T : List Obj) : Grows T (marshalSlice recur T val ro).1 := by
  cases val with
  | slice elem xs =>
    by_cases hk : elem.kind = .Uint8
    · rw [marshalSlice_bytes recur T elem xs ro hk]
      exact add2_grows T _ (fun c => .dataRef (xs.map bytesOf) c)
    · rw [marshalSlice_elems recur T elem xs ro hk]
      exact seqT_grows _ _ _ (fun T => marshalElems_grows recur ro hrec _ _ T)
        (fun uids T => add2_grows T _ (fun c => .arrayRef uids c)) (fun _ T => Grows.refl T) T
  | _ => exact Grows.refl T

theorem marshalStruct_grows (env : TypeEnv) (reg : Registry) (tinfoOf : GoType → Res TypeInfo)
    (zero : GoType → Option GoValue) (recur : MarshalFn) (hrec : GrowsFn recur)
    (val : GoValue) (fl : Flags) (T : List Obj) :
    Grows T (marshalStruct env reg tinfoOf zero recur T val fl).1 := by
  cases val with
  | struct name fields =>
    cases ht : tinfoOf (.struct name) with
    | ok tinfo =>
      cases hl : reg.lookup (.struct name) with
      | some cls =>
        rw [marshalStruct_registered env reg tinfoOf zero recur T name fields fl tinfo cls ht hl]
        exact seqT_grows _ _ _
          (fun T => marshalFieldsNS_grows env zero recur hrec _ fl _ _ T)
          (fun nsobj T => add2_grows T _ (fun c => .dict (dictInsert "$class" (.uid c) nsobj)))
          (fun _ T => Grows.refl T) T
      | none =>
        rw [marshalStruct_table env reg tinfoOf zero recur T name fields fl tinfo ht hl]
        exact seqT_grows _ _ _
          (fun T => marshalFieldsTable_grows env zero recur hrec _ fl _ _ _ T)
          (fun ko T => add2_grows T _ (fun c => .tableRef ko.1 ko.2 c))
          (fun _ T => Grows.refl T) T
    | err e => simp only [marshalStruct, ht]; exact Grows.refl T
    | panic m => simp only [marshalStruct, ht]; exact Grows.refl T
    | fuel => simp only [marshalStruct, ht]; exact Grows.refl T
  | _ => exact Grows.refl T

theorem marshalKind_grows (env : TypeEnv) (reg : Registry) (tinfoOf : GoType → Res TypeInfo)
    (zero : GoType → Option GoValue) (recur : MarshalFn) (hrec : GrowsFn recur)
    (val : GoValue) (fl : Flags) (T : List Obj) :
    Grows T (marshalKind env reg tinfoOf zero recur T val fl).1 := by
  cases val with
  | int k n => exact addObject_grows T _
  | uint k n => exact addObject_grows T _
  | uid n => exact addObject_grows T _
  | float k f => exact addObject_grows T _
  | bool b => exact addObject_grows T _
  | string str =>
    simp only [marshalKind]
    split
    · exact Grows.refl T
    · exact addObject_grows T _
  | slice elem xs => exact marshalSlice_grows recur hrec _ fl.ro T
  | array name elem xs =>
    simp only [marshalKind]
    split
    · split
      · exact Grows.refl T
      · exact add2_grows T _ (fun c => .uuidRef (some (bytesOf xs)) c)
    · exact Grows.refl T
  | time sec nsec loc =>
    simp only [marshalKind]
    split
    · exact Grows.refl T
    · exact add2_grows T _ (fun c => .dateRef (F64.ofInt64 (wrapInt64 (sec - unixToCocoa))) c)
  | struct name fields => exact marshalStruct_grows env reg tinfoOf zero recur hrec _ fl T
  | _ => exact Grows.refl T

theorem marshalBody_grows (env : TypeEnv) (reg : Registry) (tinfoOf : GoType → Res TypeInfo)
    (zero : GoType → Option GoValue) (recur : MarshalFn) (hrec : GrowsFn recur) :
    GrowsFn (marshalBody env reg tinfoOf zero recur) := by
  intro T v fl
  cases v with
  | ptr e p =>
    cases p with
    | none => exact Grows.refl T
    | some w => exact marshalKind_grows env reg tinfoOf zero recur hrec w _ T
  | _ => exact marshalKind_grows env reg tinfoOf zero recur hrec _ fl T

theorem marshal_grows (env : TypeEnv) (reg : Registry) (tfuel : Nat) :
    ∀ fuel, GrowsFn (marshal env reg tfuel fuel)
  | 0 => marshalBody_grows env reg _ _ _ (fun T _ _ => Grows.refl T)
  | fuel + 1 => marshalBody_grows env reg _ _ _ (marshal_grows env reg tfuel fuel)

theorem Marshal_objects (env : TypeEnv) (reg : Registry) (tfuel fuel : Nat) (a : Archiver)
    (v : GoValue) :
    (Marshal env reg tfuel fuel a v).1.Objects =
      (marshal env reg tfuel fuel [.string "$null"] v Flags.root).1 := by
  unfold Marshal
  have h0 : (addObject [] (.string "$null")).2 = [.string "$null"] := rfl
  simp only [h0]
  cases hr : marshal env reg tfuel fuel [.string "$null"] v Flags.root with
  | mk o r => cases r <;> rfl

theorem marshal_string (env : TypeEnv) (reg : Registry) (tfuel : Nat) (s : String)
    (T : List Obj) (fl : Flags) : ∀ fuel : Nat,
    marshal env reg tfuel fuel T (.string s) fl =
      if s = "$null" then (T, .ok 0)
      else ((addObject T (.string s)).2, .ok (addObject T (.string s)).1)
  | 0 => rfl
  | _ + 1 => rfl

/-- Claim C19. Whatever the archiver held, and however the call ends, the table
`Marshal` leaves starts with the string `"$null"`; `marshal` of the string `"$null"`
returns the reference 0 and leaves the table as it is; `marshal` of any other
string `s` returns a reference whose entry is `s`, on a table that has only
grown. -/
theorem null_sentinel (env : TypeEnv) (reg : Registry) (tfuel fuel : Nat) :
    (∀ (a : Archiver) (v : GoValue),
      (Marshal env reg tfuel fuel a v).1.Objects[0]? = some (.string "$null")) ∧
    (∀ (T : List Obj) (fl : Flags),
      marshal env reg tfuel fuel T (.string "$null") fl = (T, .ok 0)) ∧
    (∀ (s : String) (T : List Obj) (fl : Flags), s ≠ "$null" →
      ∃ (T1 : List Obj) (i : Nat),
        marshal env reg tfuel fuel T (.string s) fl = (T1, .ok i) ∧
          T1[i]? = some (.string s) ∧ Grows T T1) := by
  refine ⟨?_, ?_, ?_⟩
  · intro a v
    rw [Marshal_objects]
    exact (marshal_grows env reg tfuel fuel [.string "$null"] v Flags.root).getElem? 0 _ rfl
  · intro T fl
    rw [marshal_string]
    rfl
  · intro s T fl hs
    refine ⟨(addObject T (.string s)).2, (addObject T (.string s)).1, ?_, ?_, ?_⟩
    · rw [marshal_string, if_neg hs]
    · exact addObject_get T _
    · exact addObject_grows T _

/-! ## References point backwards -/

theorem acyclic_append (T : List Obj) (o : Obj) (h : Acyclic T)
    (ho : ∀ r ∈ o.refs, r < T.length) : Acyclic (T ++ [o]) := by
  intro i x hx r hr
  by_cases hi : i < T.length
  · rw [List.getElem?_append_left hi] at hx
    exact h i x hx r hr
  · have hlen : i < (T ++ [o]).length := by
      by_contra hc
      rw [List.getElem?_eq_none (by omega)] at hx
      cases hx
    simp only [List.length_append, List.length_singleton] at hlen
    have hie : i = T.length := by omega
    subst hie
    simp only [List.getElem?_concat_length, Option.some.injEq] at hx
    subst hx
    exact ho r hr

theorem addObject_good (T : List Obj) (o : Obj) (h : Good T)
    (ho : ∀ r ∈ o.refs, r < T.length) : Good (addObject T o).2 := by
  unfold addObject
  cases findEqual o T 0 with
  | some i => exact h
  | none =>
    refine ⟨?_, acyclic_append T o h.2 ho⟩
    simp

theorem tkeeps_const {α : Type} (post : α → List Obj → Prop) (r : Res α) (T : List Obj)
    (h : Good T) (hp : ∀ a, r = .ok a → post a T) : TKeeps post (fun T0 => (T0, r)) T :=
  ⟨h, hp⟩

theorem tkeeps_fail {α : Type} (post : α → List Obj → Prop) (r : Res α) (T : List Obj)
    (h : Good T) (hr : ∀ a, r ≠ .ok a) : TKeeps post (fun T0 => (T0, r)) T :=
  ⟨h, fun a ha => absurd ha (hr a)⟩

theorem tkeeps_add_ok (o : Obj) (T : List Obj) (h : Good T)
    (ho : ∀ r ∈ o.refs, r < T.length) :
    TKeeps (fun i T1 => i < T1.length)
      (fun T0 => ((addObject T0 o).2, Res.ok (addObject T0 o).1)) T := by
  refine ⟨addObject_good T o h ho, ?_⟩
  intro a ha
  simp only [Res.ok.injEq] at ha
  subst ha
  exact addObject_lt T o

theorem tkeeps_add2_ok (o1 : Obj) (o2 : Nat → Obj) (T : List Obj) (h : Good T)
    (h1 : ∀ r ∈ o1.refs, r < T.length)
    (h2 : ∀ (c : Nat) (T1 : List Obj), Grows T T1 → c < T1.length →
      ∀ r ∈ (o2 c).refs, r < T1.length) :
    TKeeps (fun i T1 => i < T1.length)
      (fun T0 => ((addObject (addObject T0 o1).2 (o2 (addObject T0 o1).1)).2,
        Res.ok (addObject (addObject T0 o1).2 (o2 (addObject T0 o1).1)).1)) T :=
  tkeeps_add_ok _ _ (addObject_good T o1 h h1)
    (h2 _ _ (addObject_grows T o1) (addObject_lt T o1))

theorem tkeeps_seq {α β : Type} (p : α → List Obj → Prop) (q : β → List Obj → Prop)
    (g : List Obj → List Obj × Res α) (h : α → List Obj → List Obj × Res β)
    (e : GoError → List Obj → List Obj × Res β) (T : List Obj) (hg : TKeeps p g T)
    (hh : ∀ a T1, g T = (T1, .ok a) → Good T1 → p a T1 → TKeeps q (h a) T1)
    (he : ∀ er T1, g T = (T1, .err er) → Good T1 → TKeeps q (e er) T1) :
    TKeeps q (seqT g h e) T := by
  unfold TKeeps at hg ⊢
  unfold seqT
  cases hr : g T with
  | mk o r =>
    rw [hr] at hg
    cases r with
    | ok a => exact hh a o hr hg.1 (hg.2 a rfl)
    | err er => exact he er o hr hg.1
    | panic m => exact ⟨hg.1, fun a ha => by cases ha⟩
    | fuel => exact ⟨hg.1, fun a ha => by cases ha⟩

theorem marshalField_keeps (env : TypeEnv) (zero : GoType → Option GoValue) (recur : MarshalFn)
    (hrec : Keeps recur) (val : GoValue) (fl : Flags) (ti : FieldInfo) (T : List Obj)
    (h : Good T) :
    TKeeps (fun i T1 => i < T1.length) (fun T0 => marshalField env zero recur T0 val fl ti)
      T := by
  unfold marshalField
  cases hp : fieldValue env zero val fl ti with
  | ok p => exact hrec T p.1 p.2 h
  | err e => exact tkeeps_fail _ _ T h (fun a ha => by cases ha)
  | panic m => exact tkeeps_fail _ _ T h (fun a ha => by cases ha)
  | fuel => exact tkeeps_fail _ _ T h (fun a ha => by cases ha)

theorem grows_of_eq {α : Type} {x : List Obj × Res α} {T T1 : List Obj} {r : Res α}
    (hg : Grows T x.1) (he : x = (T1, r)) : Grows T T1 := by
  rw [he] at hg
  exact hg

theorem marshalElems_keeps (recur : MarshalFn) (ro : Bool) (hgr : GrowsFn recur)
    (hrec : Keeps recur) :
    ∀ (vs : List GoValue) (acc : List Nat) (T : List Obj), Good T →
      (∀ u ∈ acc, u < T.length) →
      TKeeps (fun (uids : List Nat) T1 => ∀ u ∈ uids, u < T1.length)
        (fun T0 => marshalElems recur ro vs T0 acc) T
  | [], acc, T, h, hacc => tkeeps_const _ _ T h (fun a ha => by cases ha; exact hacc)
  | v :: vs, acc, T, h, hacc => by
    have he : (fun T0 => marshalElems recur ro (v :: vs) T0 acc) = _ :=
      funext (marshalElems_cons recur ro v vs acc)
    rw [he]
    refine tkeeps_seq (fun i T1 => i < T1.length) _ _ _ _ T (hrec T v _ h) ?_ ?_
    · intro i T1 heq h1 hi
      refine marshalElems_keeps recur ro hgr hrec vs (acc ++ [i]) T1 h1 ?_
      intro u hu
      rcases List.mem_append.1 hu with hu | hu
      · exact Nat.lt_of_lt_of_le (hacc u hu) (grows_of_eq (hgr T v _) heq).length_le
      · simp only [List.mem_singleton] at hu
        subst hu
        exact hi
    · intro er T1 _ h1
      exact tkeeps_fail _ _ T1 h1 (fun a ha => by cases ha)

theorem refsDict_dictInsert (k : String) (v : Obj) : ∀ (m : List (String × Obj)) (r : Nat),
    r ∈ Obj.refsDict (dictInsert k v m) → r ∈ v.refs ∨ r ∈ Obj.refsDict m
  | [], r, h => by
    simp only [dictInsert, Obj.refsDict, List.append_nil] at h
    exact Or.inl h
  | (k1, v1) :: rest, r, h => by
    unfold dictInsert at h
    split at h
    · simp only [Obj.refsDict, List.mem_append] at h ⊢
      tauto
    · split at h
      · simp only [Obj.refsDict, List.mem_append] at h ⊢
        tauto
      · simp only [Obj.refsDict, List.mem_append] at h ⊢
        rcases h with h | h
        · exact Or.inr (Or.inl h)
        · rcases refsDict_dictInsert k v rest r h with h | h
          · exact Or.inl h
          · exact Or.inr (Or.inr h)

theorem marshalFieldsNS_keeps (env : TypeEnv) (zero : GoType → Option GoValue)
    (recur : MarshalFn) (hgr : GrowsFn recur) (hrec : Keeps recur) (val : GoValue)
    (fl : Flags) :
    ∀ (tis : List FieldInfo) (nsobj : List (String × Obj)) (T : List Obj), Good T →
      (∀ u ∈ Obj.refsDict nsobj, u < T.length) →
      TKeeps (fun (out : List (String × Obj)) T1 => ∀ u ∈ Obj.refsDict out, u < T1.length)
        (fun T0 => marshalFieldsNS env zero recur val fl tis T0 nsobj) T
  | [], nsobj, T, h, hacc => tkeeps_const _ _ T h (fun a ha => by cases ha; exact hacc)
  | ti :: tis, nsobj, T, h, hacc => by
    have he : (fun T0 => marshalFieldsNS env zero recur val fl (ti :: tis) T0 nsobj) = _ :=
      funext (marshalFieldsNS_cons env zero recur val fl ti tis nsobj)
    rw [he]
    refine tkeeps_seq (fun i T1 => i < T1.length) _ _ _ _ T
      (marshalField_keeps env zero recur hrec val fl ti T h) ?_ ?_
    · intro i T1 heq h1 hi
      refine marshalFieldsNS_keeps env zero recur hgr hrec val fl tis _ T1 h1 ?_
      intro u hu
      rcases refsDict_dictInsert _ _ _ _ hu with hu | hu
      · simp only [Obj.refs, List.mem_singleton] at hu
        subst hu
        exact hi
      · exact Nat.lt_of_lt_of_le (hacc u hu)
          (grows_of_eq (marshalField_grows env zero recur hgr val fl ti T) heq).length_le
    · intro er T1 _ h1
      exact tkeeps_fail _ _ T1 h1 (fun a ha => by cases ha)

theorem marshalFieldsTable_keeps (env : TypeEnv) (zero : GoType → Option GoValue)
    (recur : MarshalFn) (hgr : GrowsFn recur) (hrec : Keeps recur) (val : GoValue)
    (fl : Flags) :
    ∀ (tis : List FieldInfo) (keys objects : List Nat) (T : List Obj), Good T →
      (∀ u ∈ keys, u < T.length) → (∀ u ∈ objects, u < T.length) →
      TKeeps (fun (ko : List Nat × List Nat) T1 =>
          (∀ u ∈ ko.1, u < T1.length) ∧ ∀ u ∈ ko.2, u < T1.length)
        (fun T0 => marshalFieldsTable env zero recur val fl tis T0 keys objects) T
  | [], keys, objects, T, h, hk, ho =>
    tkeeps_const _ _ T h (fun a ha => by cases ha; exact ⟨hk, ho⟩)
  | ti :: tis, keys, objects, T, h, hk, ho => by
    have he : (fun T0 => marshalFieldsTable env zero recur val fl (ti :: tis) T0 keys objects)
        = _ := funext (marshalFieldsTable_cons env zero recur val fl ti tis keys objects)
    rw [he]
    refine tkeeps_seq (fun i T1 => i < T1.length) _ _ _ _ T
      (marshalField_keeps env zero recur hrec val fl ti T h) ?_ ?_
    · intro i T1 heq h1 hi
      have hg1 := (grows_of_eq (marshalField_grows env zero recur hgr val fl ti T) heq).length_le
      have hg2 := (addObject_grows T1 (.string ti.Name)).length_le
      refine marshalFieldsTable_keeps env zero recur hgr hrec val fl tis _ _ _
        (addObject_good T1 _ h1 (fun r hr => by simp [Obj.refs] at hr)) ?_ ?_
      · intro u hu
        rcases List.mem_append.1 hu with hu | hu
        · exact Nat.lt_of_lt_of_le (hk u hu) (Nat.le_trans hg1 hg2)
        · simp only [List.mem_singleton] at hu
          subst hu
          exact addObject_lt T1 _
      · intro u hu
        rcases List.mem_append.1 hu with hu | hu
        · exact Nat.lt_of_lt_of_le (ho u hu) (Nat.le_trans hg1 hg2)
        · simp only [List.mem_singleton] at hu
          subst hu
          exact Nat.lt_of_lt_of_le hi hg2
    · intro er T1 heq h1
      have hg1 := (grows_of_eq (marshalField_grows env zero recur hgr val fl ti T) heq).length_le
      split
      · exact marshalFieldsTable_keeps env zero recur hgr hrec val fl tis _ _ T1 h1
          (fun u hu => Nat.lt_of_lt_of_le (hk u hu) hg1)
          (fun u hu => Nat.lt_of_lt_of_le (ho u hu) hg1)
      · exact tkeeps_fail _ _ T1 h1 (fun a ha => by cases ha)

theorem classRef_refs (cls : ArchiverClass) (r : Nat) (h : r ∈ cls.toObj.refs) : False := by
  simp [ArchiverClass.toObj, Obj.refs] at h

theorem marshalSlice_keeps (recur : MarshalFn) (hgr : GrowsFn recur) (hrec : Keeps recur)
    (val : GoValue) (ro : Bool) (T : List Obj) (h : Good T) :
    TKeeps (fun i T1 => i < T1.length) (fun T0 => marshalSlice recur T0 val ro) T := by
  cases val with
  | slice elem xs =>
    by_cases hk : elem.kind = .Uint8
    · have he : (fun T0 => marshalSlice recur T0 (.slice elem xs) ro) = _ :=
        funext (fun T0 => marshalSlice_bytes recur T0 elem xs ro hk)
      rw [he]
      refine tkeeps_add2_ok _ (fun c => .dataRef (xs.map bytesOf) c) T h
        (fun r hr => (classRef_refs _ r hr).elim) ?_
      intro c T1 _ hc r hr
      simp only [Obj.refs, List.mem_singleton] at hr
      subst hr
      exact hc
    · have he : (fun T0 => marshalSlice recur T0 (.slice elem xs) ro) = _ :=
        funext (fun T0 => marshalSlice_elems recur T0 elem xs ro hk)
      rw [he]
      refine tkeeps_seq (fun (uids : List Nat) T1 => ∀ u ∈ uids, u < T1.length) _ _ _ _ T
        (marshalElems_keeps recur ro hgr hrec _ [] T h (fun u hu => by simp at hu)) ?_ ?_
      · intro uids T1 _ h1 hu
        refine tkeeps_add2_ok _ (fun c => .arrayRef uids c) T1 h1
          (fun r hr => (classRef_refs _ r hr).elim) ?_
        intro c T2 hg hc r hr
        simp only [Obj.refs, List.mem_append, List.mem_singleton] at hr
        rcases hr with hr | hr
        · exact Nat.lt_of_lt_of_le (hu r hr) hg.length_le
        · subst hr
          exact hc
      · intro er T1 _ h1
        exact tkeeps_fail _ _ T1 h1 (fun a ha => by cases ha)
  | _ => exact tkeeps_fail _ _ T h (fun a ha => by cases ha)

theorem marshalStruct_keeps (env : TypeEnv) (reg : Registry) (tinfoOf : GoType → Res TypeInfo)
    (zero : GoType → Option GoValue) (recur : MarshalFn) (hgr : GrowsFn recur)
    (hrec : Keeps recur) (val : GoValue) (fl : Flags) (T : List Obj) (h : Good T) :
    TKeeps (fun i T1 => i < T1.length)
      (fun T0 => marshalStruct env reg tinfoOf zero recur T0 val fl) T := by
  cases val with
  | struct name fields =>
    cases ht : tinfoOf (.struct name) with
    | ok tinfo =>
      cases hl : reg.lookup (.struct name) with
      | some cls =>
        have he : (fun T0 => marshalStruct env reg tinfoOf zero recur T0 (.struct name fields)
            fl) = _ :=
          funext (fun T0 => marshalStruct_registered env reg tinfoOf zero recur T0 name fields
            fl tinfo cls ht hl)
        rw [he]
        refine tkeeps_seq
          (fun (out : List (String × Obj)) T1 => ∀ u ∈ Obj.refsDict out, u < T1.length) _ _ _ _ T
          (marshalFieldsNS_keeps env zero recur hgr hrec _ fl _ [] T h
            (fun u hu => by simp [Obj.refsDict] at hu)) ?_ ?_
        · intro nsobj T1 _ h1 hu
          refine tkeeps_add2_ok _ (fun c => .dict (dictInsert "$class" (.uid c) nsobj)) T1 h1
            (fun r hr => (classRef_refs _ r hr).elim) ?_
          intro c T2 hg hc r hr
          simp only [Obj.refs] at hr
          rcases refsDict_dictInsert _ _ _ _ hr with hr | hr
          · simp only [Obj.refs, List.mem_singleton] at hr
            subst hr
            exact hc
          · exact Nat.lt_of_lt_of_le (hu r hr) hg.length_le
        · intro er T1 _ h1
          exact tkeeps_fail _ _ T1 h1 (fun a ha => by cases ha)
      | none =>
        have he : (fun T0 => marshalStruct env reg tinfoOf zero recur T0 (.struct name fields)
            fl) = _ :=
          funext (fun T0 => marshalStruct_table env reg tinfoOf zero recur T0 name fields
            fl tinfo ht hl)
        rw [he]
        refine tkeeps_seq
          (fun (ko : List Nat × List Nat) T1 =>
            (∀ u ∈ ko.1, u < T1.length) ∧ ∀ u ∈ ko.2, u < T1.length) _ _ _ _ T
          (marshalFieldsTable_keeps env zero recur hgr hrec _ fl _ [] [] T h
            (fun u hu => by simp at hu) (fun u hu => by simp at hu)) ?_ ?_
        · intro ko T1 _ h1 hu
          refine tkeeps_add2_ok _ (fun c => .tableRef ko.1 ko.2 c) T1 h1
            (fun r hr => (classRef_refs _ r hr).elim) ?_
          intro c T2 hg hc r hr
          simp only [Obj.refs, List.mem_append, List.mem_singleton] at hr
          rcases hr with hr | hr | hr
          · exact Nat.lt_of_lt_of_le (hu.1 r hr) hg.length_le
          · exact Nat.lt_of_lt_of_le (hu.2 r hr) hg.length_le
          · subst hr
            exact hc
        · intro er T1 _ h1
          exact tkeeps_fail _ _ T1 h1 (fun a ha => by cases ha)
    | err e =>
      simp only [marshalStruct, ht]
      exact tkeeps_fail _ _ T h (fun a ha => by cases ha)
    | panic m =>
      simp only [marshalStruct, ht]
      exact tkeeps_fail _ _ T h (fun a ha => by cases ha)
    | fuel =>
      simp only [marshalStruct, ht]
      exact tkeeps_fail _ _ T h (fun a ha => by cases ha)
  | _ => exact tkeeps_fail _ _ T h (fun a ha => by cases ha)

theorem marshalKind_keeps (env : TypeEnv) (reg : Registry) (tinfoOf : GoType → Res TypeInfo)
    (zero : GoType → Option GoValue) (recur : MarshalFn) (hgr : GrowsFn recur)
    (hrec : Keeps recur) (val : GoValue) (fl : Flags) (T : List Obj) (h : Good T) :
    TKeeps (fun i T1 => i < T1.length)
      (fun T0 => marshalKind env reg tinfoOf zero recur T0 val fl) T := by
  cases val with
  | int k n => exact tkeeps_add_ok _ T h (fun r hr => by simp [Obj.refs] at hr)
  | uint k n => exact tkeeps_add_ok _ T h (fun r hr => by simp [Obj.refs] at hr)
  | uid n => exact tkeeps_add_ok _ T h (fun r hr => by simp [Obj.refs] at hr)
  | float k f => exact tkeeps_add_ok _ T h (fun r hr => by simp [Obj.refs] at hr)
  | bool b => exact tkeeps_add_ok _ T h (fun r hr => by simp [Obj.refs] at hr)
  | string str =>
    by_cases hs : str = "$null"
    · have he : (fun T0 => marshalKind env reg tinfoOf zero recur T0 (.string str) fl) =
          fun T0 => (T0, .ok 0) := by
        funext T0
        simp only [marshalKind, hs, if_true]
      rw [he]
      exact tkeeps_const _ _ T h (fun a ha => by cases ha; exact h.1)
    · have he : (fun T0 => marshalKind env reg tinfoOf zero recur T0 (.string str) fl) =
          fun T0 => ((addObject T0 (.string str)).2, .ok (addObject T0 (.string str)).1) := by
        funext T0
        simp only [marshalKind, hs, if_false]
      rw [he]
      exact tkeeps_add_ok _ T h (fun r hr => by simp [Obj.refs] at hr)
  | slice elem xs => exact marshalSlice_keeps recur hgr hrec _ fl.ro T h
  | array name elem xs =>
    by_cases ha : GoType.array name xs.length elem = archiverUUIDType
    · by_cases hro : fl.ro = true
      · have he : (fun T0 => marshalKind env reg tinfoOf zero recur T0 (.array name elem xs)
            fl) = fun T0 => (T0, .panic
              "reflect.Value.Interface: cannot return value obtained from unexported field or method") := by
          funext T0
          simp only [marshalKind, ha, hro, if_true]
        rw [he]
        exact tkeeps_fail _ _ T h (fun a ha => by cases ha)
      have he : (fun T0 => marshalKind env reg tinfoOf zero recur T0 (.array name elem xs) fl) =
          fun T0 => ((addObject (addObject T0 archiverUUIDClass.toObj).2
              (.uuidRef (some (bytesOf xs)) (addObject T0 archiverUUIDClass.toObj).1)).2,
            .ok (addObject (addObject T0 archiverUUIDClass.toObj).2
              (.uuidRef (some (bytesOf xs)) (addObject T0 archiverUUIDClass.toObj).1)).1) := by
        funext T0
        simp only [marshalKind, ha, hro, if_true, Bool.false_eq_true, if_false]
      rw [he]
      refine tkeeps_add2_ok _ (fun c => .uuidRef (some (bytesOf xs)) c) T h
        (fun r hr => (classRef_refs _ r hr).elim) ?_
      intro c T1 _ hc r hr
      simp only [Obj.refs, List.mem_singleton] at hr
      subst hr
      exact hc
    · have he : (fun T0 => marshalKind env reg tinfoOf zero recur T0 (.array name elem xs) fl) =
          fun T0 => (T0, .err (.other "unknow array")) := by
        funext T0
        simp only [marshalKind, ha, if_false]
      rw [he]
      exact tkeeps_fail _ _ T h (fun a ha => by cases ha)
  | time sec nsec loc =>
    by_cases hro : fl.ro = true
    · have he : (fun T0 => marshalKind env reg tinfoOf zero recur T0 (.time sec nsec loc) fl) =
          fun T0 => (T0, .panic
            "reflect.Value.Interface: cannot return value obtained from unexported field or method") := by
        funext T0
        simp only [marshalKind, hro, if_true]
      rw [he]
      exact tkeeps_fail _ _ T h (fun a ha => by cases ha)
    have he : (fun T0 => marshalKind env reg tinfoOf zero recur T0 (.time sec nsec loc) fl) =
        fun T0 => ((addObject (addObject T0 archiverDateClass.toObj).2
            (.dateRef (F64.ofInt64 (wrapInt64 (sec - unixToCocoa)))
              (addObject T0 archiverDateClass.toObj).1)).2,
          .ok (addObject (addObject T0 archiverDateClass.toObj).2
            (.dateRef (F64.ofInt64 (wrapInt64 (sec - unixToCocoa)))
              (addObject T0 archiverDateClass.toObj).1)).1) := by
      funext T0
      simp only [marshalKind, hro, Bool.false_eq_true, if_false]
    rw [he]
    refine tkeeps_add2_ok _
      (fun c => .dateRef (F64.ofInt64 (wrapInt64 (sec - unixToCocoa))) c) T h
      (fun r hr => (classRef_refs _ r hr).elim) ?_
    intro c T1 _ hc r hr
    simp only [Obj.refs, List.mem_singleton] at hr
    subst hr
    exact hc
  | struct name fields =>
    exact marshalStruct_keeps env reg tinfoOf zero recur hgr hrec _ fl T h
  | _ => exact tkeeps_fail _ _ T h (fun a ha => by cases ha)

theorem marshalBody_keeps (env : TypeEnv) (reg : Registry) (tinfoOf : GoType → Res TypeInfo)
    (zero : GoType → Option GoValue) (recur : MarshalFn) (hgr : GrowsFn recur)
    (hrec : Keeps recur) : Keeps (marshalBody env reg tinfoOf zero recur) := by
  intro T v fl h
  cases v with
  | ptr e p =>
    cases p with
    | none => exact tkeeps_fail _ _ T h (fun a ha => by cases ha)
    | some w => exact marshalKind_keeps env reg tinfoOf zero recur hgr hrec w _ T h
  | _ => exact marshalKind_keeps env reg tinfoOf zero recur hgr hrec _ fl T h

theorem marshal_keeps (env : TypeEnv) (reg : Registry) (tfuel : Nat) :
    ∀ fuel, Keeps (marshal env reg tfuel fuel)
  | 0 => marshalBody_keeps env reg _ _ _ (fun T _ _ => Grows.refl T)
      (fun T _ _ h => tkeeps_fail _ _ T h (fun a ha => by cases ha))
  | fuel + 1 => marshalBody_keeps env reg _ _ _ (marshal_grows env reg tfuel fuel)
      (marshal_keeps env reg tfuel fuel)

theorem good_initial : Good [.string "$null"] := by
  refine ⟨by simp, ?_⟩
  intro i o ho r hr
  cases i with
  | zero =>
    simp only [List.getElem?_cons_zero, Option.some.injEq] at ho
    subst ho
    simp [Obj.refs] at hr
  | succ j => simp at ho

theorem Marshal_ok (env : TypeEnv) (reg : Registry) (tfuel fuel : Nat) (a a1 : Archiver)
    (v : GoValue) (h : Marshal env reg tfuel fuel a v = (a1, .ok ())) :
    ∃ root, marshal env reg tfuel fuel [.string "$null"] v Flags.root = (a1.Objects, .ok root) ∧
      a1.Top = some root := by
  unfold Marshal at h
  have h0 : (addObject [] (.string "$null")).2 = [.string "$null"] := rfl
  simp only [h0] at h
  cases hr : marshal env reg tfuel fuel [.string "$null"] v Flags.root with
  | mk o r =>
    rw [hr] at h
    cases r with
    | ok root =>
      simp only [Prod.mk.injEq] at h
      obtain ⟨h1, _⟩ := h
      subst h1
      exact ⟨root, rfl, rfl⟩
    | err e => simp at h
    | panic m => simp at h
    | fuel => simp at h

/-- Claim C18. After a successful `Marshal` the root reference is an index of the
table, and every reference stored inside the entry at index `i` (its class
reference, its keys and objects, the field references of a custom class) is
smaller than `i`: each is an index of the table and no entry reaches itself. -/
theorem Marshal_acyclic (env : TypeEnv) (reg : Registry) (tfuel fuel : Nat) (a a1 : Archiver)
    (v : GoValue) (h : Marshal env reg tfuel fuel a v = (a1, .ok ())) :
    ∃ root, a1.Top = some root ∧ root < a1.Objects.length ∧
      ∀ (i : Nat) (o : Obj), a1.Objects[i]? = some o → ∀ r ∈ o.refs, r < i := by
  obtain ⟨root, hm, ht⟩ := Marshal_ok env reg tfuel fuel a a1 v h
  have hk := marshal_keeps env reg tfuel fuel [.string "$null"] v Flags.root good_initial
  unfold TKeeps at hk
  simp only [hm] at hk
  exact ⟨root, ht, hk.2 root rfl, hk.1.2⟩

/-- Claim C18 at the value `TT{A, B}` of two instants: the table has seven entries,
the root is entry 6, and the references of the table wrapper are all below 6. -/
theorem Marshal_acyclic_witness :
    ∃ root,
      (archiveOf [.string "$null", archiverDateClass.toObj, .dateRef (.num 0 0) 1,
        .string "A", .string "B", archiverMutableDictionaryClass.toObj,
        .tableRef [3, 4] [2, 2] 5] 6).Top = some root ∧
      root < (archiveOf [.string "$null", archiverDateClass.toObj, .dateRef (.num 0 0) 1,
        .string "A", .string "B", archiverMutableDictionaryClass.toObj,
        .tableRef [3, 4] [2, 2] 5] 6).Objects.length ∧
      ∀ (i : Nat) (o : Obj),
        (archiveOf [.string "$null", archiverDateClass.toObj, .dateRef (.num 0 0) 1,
          .string "A", .string "B", archiverMutableDictionaryClass.toObj,
          .tableRef [3, 4] [2, 2] 5] 6).Objects[i]? = some o → ∀ r ∈ o.refs, r < i :=
  Marshal_acyclic twoTimesEnv [] 3 3 emptyArchiver _
    (.struct "TT" [.time 978307200 0 .utc, .time 978307200 5 .utc]) (by rfl)

/-! ## The wrapper of a struct without a registered class -/

theorem FieldMark.mono (env : TypeEnv) (zero : GoType → Option GoValue) (recur : MarshalFn)
    (val : GoValue) (fl : Flags) (T Ta T1 : List Obj) (f : FieldInfo)
    (m : Option (Nat × Nat)) (hg : Grows T Ta) (h : FieldMark env zero recur val fl Ta T1 f m) :
    FieldMark env zero recur val fl T T1 f m := by
  cases m with
  | none =>
    obtain ⟨ho, A, B, h1, h2, h3⟩ := h
    exact ⟨ho, A, B, hg.trans h1, h2, h3⟩
  | some p =>
    obtain ⟨k, o⟩ := p
    obtain ⟨hs, A, B, h1, h2, h3⟩ := h
    exact ⟨hs, A, B, hg.trans h1, h2, h3⟩

theorem marshalFieldsTable_marks (env : TypeEnv) (zero : GoType → Option GoValue)
    (recur : MarshalFn) (hgr : GrowsFn recur) (val : GoValue) (fl : Flags) :
    ∀ (tis : List FieldInfo) (keys objects : List Nat) (T T1 : List Obj)
      (keys1 objects1 : List Nat),
      marshalFieldsTable env zero recur val fl tis T keys objects =
        (T1, .ok (keys1, objects1)) →
      ∃ marks : List (Option (Nat × Nat)),
        keys1 = keys ++ marks.filterMap (fun m => m.map Prod.fst) ∧
        objects1 = objects ++ marks.filterMap (fun m => m.map Prod.snd) ∧
        List.Forall₂ (FieldMark env zero recur val fl T T1) tis marks
  | [], keys, objects, T, T1, keys1, objects1, h => by
    simp only [marshalFieldsTable, Prod.mk.injEq, Res.ok.injEq] at h
    obtain ⟨_, hk, ho⟩ := h
    exact ⟨[], by simp [hk], by simp [ho], .nil⟩
  | ti :: tis, keys, objects, T, T1, keys1, objects1, h => by
    have hfg := marshalField_grows env zero recur hgr val fl ti T
    have hend := marshalFieldsTable_grows env zero recur hgr val fl tis
    simp only [marshalFieldsTable] at h
    cases hr : marshalField env zero recur T val fl ti with
    | mk Tb r =>
      rw [hr] at h hfg
      cases r with
      | ok i =>
        simp only at h
        obtain ⟨marks, hk, ho, hall⟩ := marshalFieldsTable_marks env zero recur hgr val fl tis
          _ _ _ T1 keys1 objects1 h
        have hg2 : Grows (addObject Tb (.string ti.Name)).2 T1 := by
          have := hend (keys ++ [(addObject Tb (.string ti.Name)).1]) (objects ++ [i])
            (addObject Tb (.string ti.Name)).2
          rw [h] at this
          exact this
        have hgb : Grows Tb T1 := (addObject_grows Tb _).trans hg2
        refine ⟨some ((addObject Tb (.string ti.Name)).1, i) :: marks, ?_, ?_, ?_⟩
        · simp [hk]
        · simp [ho]
        · refine .cons ?_ ?_
          · exact ⟨hg2.getElem? _ _ (addObject_get Tb _), T, Tb, Grows.refl T, hgb, hr⟩
          · exact List.Forall₂.imp
              (fun f m hm => FieldMark.mono env zero recur val fl T _ T1 f m
                (hfg.trans (addObject_grows Tb _)) hm) hall
      | err e =>
        simp only at h
        by_cases hc : (decide (e = GoError.nilElem) && ti.OmitEmpty) = true
        · rw [if_pos hc] at h
          obtain ⟨marks, hk, ho, hall⟩ := marshalFieldsTable_marks env zero recur hgr val fl
            tis _ _ _ T1 keys1 objects1 h
          have hgb : Grows Tb T1 := by
            have := hend keys objects Tb
            rw [h] at this
            exact this
          simp only [Bool.and_eq_true, decide_eq_true_eq] at hc
          obtain ⟨he, hom⟩ := hc
          subst he
          refine ⟨none :: marks, ?_, ?_, ?_⟩
          · simp [hk]
          · simp [ho]
          · refine .cons ?_ ?_
            · exact ⟨hom, T, Tb, Grows.refl T, hgb, hr⟩
            · exact List.Forall₂.imp
                (fun f m hm => FieldMark.mono env zero recur val fl T _ T1 f m hfg hm) hall
        · rw [if_neg hc] at h
          simp at h
      | panic m => simp at h
      | fuel => simp at h

theorem seqT_ok {α β : Type} (g : List Obj → List Obj × Res α)
    (h : α → List Obj → List Obj × Res β) (e : GoError → List Obj → List Obj × Res β)
    (he : ∀ er T b T1, e er T ≠ (T1, .ok b)) (T T1 : List Obj) (b : β)
    (hs : seqT g h e T = (T1, .ok b)) :
    ∃ a Ta, g T = (Ta, .ok a) ∧ h a Ta = (T1, .ok b) := by
  unfold seqT at hs
  cases hr : g T with
  | mk o r =>
    rw [hr] at hs
    cases r with
    | ok a => exact ⟨a, o, rfl, hs⟩
    | err er => exact absurd hs (he er o b T1)
    | panic m => simp at hs
    | fuel => simp at hs

/-- Claim C20. A successful `marshalStruct` of a struct whose type has no registered
class returns the reference of a table wrapper: its keys and its objects are read
off one list of marks that runs along the fields of the descriptor, so they have
the same length and keep the descriptor order; a field that was not left out has
a key that refers to the string of its name and an object that is the reference
`marshal` returned for its value; a field is left out only when it is tagged
`omitempty` and `marshal` returned the nil-item error for it; and the class
reference refers to the descriptor `NSMutableDictionary` with the ancestry
`NSMutableDictionary`, `NSDictionary`, `NSObject`. -/
theorem marshalStruct_unregistered (env : TypeEnv) (reg : Registry) (tfuel fuel : Nat)
    (T T1 : List Obj) (name : String) (fields : List GoValue) (fl : Flags) (r : Nat)
    (hreg : reg.lookup (.struct name) = none)
    (h : marshalStruct env reg (GetTypeInfo env tfuel) (zeroValue env tfuel)
      (marshal env reg tfuel fuel) T (.struct name fields) fl = (T1, .ok r)) :
    ∃ (tinfo : TypeInfo) (marks : List (Option (Nat × Nat))) (c : Nat),
      GetTypeInfo env tfuel (.struct name) = .ok tinfo ∧
      T1[r]? = some (.tableRef (marks.filterMap (fun m => m.map Prod.fst))
        (marks.filterMap (fun m => m.map Prod.snd)) c) ∧
      (marks.filterMap (fun m => m.map Prod.fst)).length =
        (marks.filterMap (fun m => m.map Prod.snd)).length ∧
      T1[c]? = some (.classRef "NSMutableDictionary"
        (some ["NSMutableDictionary", "NSDictionary", "NSObject"])) ∧
      List.Forall₂
        (FieldMark env (zeroValue env tfuel) (marshal env reg tfuel fuel)
          (.struct name fields) fl T T1)
        tinfo.Fields marks := by
  cases ht : GetTypeInfo env tfuel (.struct name) with
  | ok tinfo =>
    rw [marshalStruct_table env reg _ _ _ T name fields fl tinfo ht hreg] at h
    obtain ⟨ko, Ta, hf, hadd⟩ := seqT_ok _ _ _ (fun er T b T1 hc => by simp at hc) T T1 r h
    obtain ⟨keys1, objects1⟩ := ko
    obtain ⟨marks, hk, ho, hall⟩ := marshalFieldsTable_marks env (zeroValue env tfuel)
      (marshal env reg tfuel fuel) (marshal_grows env reg tfuel fuel) (.struct name fields) fl
      tinfo.Fields [] [] T Ta keys1 objects1 hf
    simp only [List.nil_append] at hk ho
    simp only [Prod.mk.injEq, Res.ok.injEq] at hadd
    obtain ⟨hT1, hr⟩ := hadd
    have hgrow : Grows Ta T1 := by
      rw [← hT1]
      exact add2_grows Ta _ (fun c => .tableRef keys1 objects1 c)
    refine ⟨tinfo, marks, (addObject Ta archiverMutableDictionaryClass.toObj).1, rfl, ?_, ?_, ?_,
      ?_⟩
    · rw [← hT1, ← hr, ← hk, ← ho]
      exact addObject_get _ _
    · clear hall hk ho
      induction marks with
      | nil => rfl
      | cons m ms ih => cases m <;> simp [List.filterMap_cons, ih]
    · rw [← hT1]
      exact (addObject_grows _ _).getElem? _ _ (addObject_get Ta _)
    · exact List.Forall₂.imp
        (fun f m hm => by
          cases m with
          | none =>
            obtain ⟨h1, A, B, h2, h3, h4⟩ := hm
            exact ⟨h1, A, B, h2, h3.trans hgrow, h4⟩
          | some p =>
            obtain ⟨k, o⟩ := p
            obtain ⟨h1, A, B, h2, h3, h4⟩ := hm
            exact ⟨hgrow.getElem? _ _ h1, A, B, h2, h3.trans hgrow, h4⟩) hall
  | err e => simp [marshalStruct, ht] at h
  | panic m => simp [marshalStruct, ht] at h
  | fuel => simp [marshalStruct, ht] at h

/-- Claim C20 at the value `TT{A, B}` of two instants, encoded on the initial table:
the wrapper is entry 6 of the table and its class reference is entry 5. -/
theorem marshalStruct_unregistered_witness :
    ∃ (marks : List (Option (Nat × Nat))) (c : Nat),
      [Obj.string "$null", archiverDateClass.toObj, .dateRef (.num 0 0) 1, .string "A",
        .string "B", archiverMutableDictionaryClass.toObj, .tableRef [3, 4] [2, 2] 5][6]? =
        some (.tableRef (marks.filterMap (fun m => m.map Prod.fst))
          (marks.filterMap (fun m => m.map Prod.snd)) c) :=
  match marshalStruct_unregistered twoTimesEnv [] 3 3 [.string "$null"]
    [.string "$null", archiverDateClass.toObj, .dateRef (.num 0 0) 1, .string "A",
      .string "B", archiverMutableDictionaryClass.toObj, .tableRef [3, 4] [2, 2] 5]
    "TT" [.time 978307200 0 .utc, .time 978307200 5 .utc] Flags.root 6 rfl (by rfl) with
  | ⟨_, marks, c, _, h2, _⟩ => ⟨marks, c, h2⟩

/-- Claim C23, evaluated. `Marshal` of a function, of a channel and of a map with
integer keys returns the error "unknow type"; `Marshal(nil)` does not return: the
value is the zero `reflect.Value`, no case of the switch takes it, and building the
same error calls `val.Type()` on it, which panics. -/
theorem marshal_nil_panics :
    Marshal plainEnv [] 3 3 emptyArchiver .invalid =
      ({ Version := 100000, Objects := [.string "$null"], ArchiverName := "NSKeyedArchiver",
         Top := none }, .panic "reflect: call of reflect.Value.Type on zero Value") ∧
    (Marshal plainEnv [] 3 3 emptyArchiver (.func false)).2 = .err (.other "unknow type") ∧
    (Marshal plainEnv [] 3 3 emptyArchiver (.chan (.int .int))).2 =
      .err (.other "unknow type") ∧
    (Marshal plainEnv [] 3 3 emptyArchiver
      (.map (.int .int) .string (some [(.int .int 1, .string "hi")]))).2 =
      .err (.other "unknow type") :=
  ⟨by rfl, by rfl, by rfl, by rfl⟩

/-- Claim C24. Each of the five predicates tests the class name against its fixed
names and nothing else; no two of them hold for the same descriptor; and a
descriptor with the same name classifies the same way whatever its ancestry. -/
theorem classification_by_name (c : ArchiverClass) :
    (c.isDictionary = true ↔
      c.ClassName = "NSMutableDictionary" ∨ c.ClassName = "NSDictionary") ∧
    (c.isArray = true ↔ c.ClassName = "NSMutableArray" ∨ c.ClassName = "NSArray") ∧
    (c.isData = true ↔ c.ClassName = "NSMutableData" ∨ c.ClassName = "NSData") ∧
    (c.isUUID = true ↔ c.ClassName = "NSUUID") ∧
    (c.isDate = true ↔ c.ClassName = "NSDate") ∧
    ([c.isDictionary, c.isArray, c.isData, c.isUUID, c.isDate].count true ≤ 1) ∧
    (∀ d : ArchiverClass, d.ClassName = c.ClassName →
      d.isDictionary = c.isDictionary ∧ d.isArray = c.isArray ∧ d.isData = c.isData ∧
        d.isUUID = c.isUUID ∧ d.isDate = c.isDate) := by
  refine ⟨?_, ?_, ?_, ?_, ?_, ?_, ?_⟩
  · simp [ArchiverClass.isDictionary]
  · simp [ArchiverClass.isArray]
  · simp [ArchiverClass.isData]
  · simp [ArchiverClass.isUUID]
  · simp [ArchiverClass.isDate]
  · unfold ArchiverClass.isDictionary ArchiverClass.isArray ArchiverClass.isData
      ArchiverClass.isUUID ArchiverClass.isDate
    by_cases h1 : c.ClassName = "NSMutableDictionary"
    · rw [h1]; decide
    by_cases h2 : c.ClassName = "NSDictionary"
    · rw [h2]; decide
    by_cases h3 : c.ClassName = "NSMutableArray"
    · rw [h3]; decide
    by_cases h4 : c.ClassName = "NSArray"
    · rw [h4]; decide
    by_cases h5 : c.ClassName = "NSMutableData"
    · rw [h5]; decide
    by_cases h6 : c.ClassName = "NSData"
    · rw [h6]; decide
    by_cases h7 : c.ClassName = "NSUUID"
    · rw [h7]; decide
    by_cases h8 : c.ClassName = "NSDate"
    · rw [h8]; decide
    simp [h1, h2, h3, h4, h5, h6, h7, h8]
  · intro d hd
    simp [ArchiverClass.isDictionary, ArchiverClass.isArray, ArchiverClass.isData,
      ArchiverClass.isUUID, ArchiverClass.isDate, hd]

/-- Claim C26, evaluated. The bare sequence `["x", 7]` is decoded into a `[]int64`:
the first element fails with "not string field", `unmarshalSlice` drops that error
and returns nil with the slice `[0, 7]`; `Dictionary.unmarshal` returns the error
for the same input. -/
theorem element_error_dropped :
    Unmarshal plainEnv 3 3
        (archiveOf [.string "$null", .array [.string "x", .uint .uint64 7]] 1)
        (.ptr (.slice (.int .int64)) (some (.slice (.int .int64) none))) =
      (.ptr (.slice (.int .int64))
        (some (.slice (.int .int64) (some [.int .int64 0, .int .int64 7]))), .ok ()) ∧
    (unmarshal plainEnv 3 [] 3 (.string "x") (.int .int64 0) true false).2 =
      .err (.other "not string field") ∧
    (dictUnmarshal plainEnv 3 3 (.array [.string "x", .uint .uint64 7])
      (.slice (.int .int64) none) true false).2 = .err (.other "not string field") :=
  ⟨by rfl, by rfl, by rfl⟩

/-- Claim C27, evaluated. `Marshal` of `Outer{In: Inner{A: "a", P: nil}}` succeeds
with root 4 and a table of five entries; the wrapper at 4 holds the class
reference 3 and nothing else, so the entries 1 and 2, made for `Inner.A` before the
nil pointer in `Inner.P` was met, are referred to by no entry. -/
theorem unused_entries_left :
    Marshal nestedEnv [] 3 3 emptyArchiver nestedValue =
      ({ Version := 100000,
         Objects := [.string "$null", .string "a", .string "A",
           archiverMutableDictionaryClass.toObj, .tableRef [] [] 3],
         ArchiverName := "NSKeyedArchiver", Top := some 4 }, .ok ()) ∧
    ([Obj.string "$null", .string "a", .string "A", archiverMutableDictionaryClass.toObj,
        .tableRef [] [] 3].all
      (fun o => !o.refs.contains 1 && !o.refs.contains 2)) = true :=
  ⟨by rfl, by rfl⟩

/-- Claim C28, evaluated. The descriptor holds a field named `A` with access path
`[0]` and the new field is named `A` with access path `[1]`, of the same depth:
`addFieldInfo` drops the old field and appends the new one, where its doc comment
has the list unchanged; so `GetTypeInfo` lists `D{X, Y}`, both tagged `A`, with
`Y` only. -/
theorem equal_depth_replaces :
    addFieldInfo { Fields := [ { idx := [0], Name := "A", OmitEmpty := false } ] }
        { idx := [1], Name := "A", OmitEmpty := false } =
      .ok { Fields := [ { idx := [1], Name := "A", OmitEmpty := false } ] } ∧
    GetTypeInfo sameNameEnv 1 (.struct "D") =
      .ok { Fields := [ { idx := [1], Name := "A", OmitEmpty := false } ] } :=
  ⟨by rfl, by rfl⟩

/-! ## Termination of `GetTypeInfo` -/

theorem foldlM_fieldStep_mono (recur recur1 : GoType → Res TypeInfo)
    (hm : ∀ t x, recur t = .ok x → recur1 t = .ok x) :
    ∀ (l : List (Nat × StructField)) (tinfo out : TypeInfo),
      l.foldlM (fieldStep recur) tinfo = .ok out → l.foldlM (fieldStep recur1) tinfo = .ok out
  | [], tinfo, out, h => h
  | p :: l, tinfo, out, h => by
    simp only [List.foldlM_cons, bind] at h ⊢
    unfold fieldStep at h ⊢
    by_cases hs : p.2.skipped = true
    · simp only [hs, if_true, Res.bind] at h ⊢
      exact foldlM_fieldStep_mono recur recur1 hm l tinfo out h
    · simp only [hs, if_false] at h ⊢
      cases he : p.2.embedded with
      | none =>
        simp only [he, Res.bind] at h ⊢
        exact foldlM_fieldStep_mono recur recur1 hm l _ out h
      | some t =>
        simp only [he] at h ⊢
        cases hr : recur t with
        | ok inner =>
          rw [hr] at h
          rw [hm t inner hr]
          simp only [Res.bind] at h ⊢
          exact foldlM_fieldStep_mono recur recur1 hm l _ out h
        | err e => rw [hr] at h; simp [Res.bind] at h
        | panic m => rw [hr] at h; simp [Res.bind] at h
        | fuel => rw [hr] at h; simp [Res.bind] at h

theorem getTypeInfoBody_mono (env : TypeEnv) (recur recur1 : GoType → Res TypeInfo)
    (hm : ∀ t x, recur t = .ok x → recur1 t = .ok x) (typ : GoType) (out : TypeInfo)
    (h : getTypeInfoBody env recur typ = .ok out) : getTypeInfoBody env recur1 typ = .ok out := by
  by_cases hk : typ.kind = .Struct
  · obtain ⟨name, rfl⟩ := kind_struct typ hk
    rw [getTypeInfoBody_struct] at h ⊢
    exact foldlM_fieldStep_mono recur recur1 hm _ _ out h
  · rw [getTypeInfoBody_other env _ typ hk] at h ⊢
    exact h

theorem GetTypeInfo_succ (env : TypeEnv) : ∀ (fuel : Nat) (typ : GoType) (out : TypeInfo),
    GetTypeInfo env fuel typ = .ok out → GetTypeInfo env (fuel + 1) typ = .ok out
  | 0, typ, out, h =>
    getTypeInfoBody_mono env _ _ (fun _ _ hx => by cases hx) typ out h
  | fuel + 1, typ, out, h =>
    getTypeInfoBody_mono env _ _ (GetTypeInfo_succ env fuel) typ out h

theorem GetTypeInfo_le (env : TypeEnv) (typ : GoType) (out : TypeInfo) (d : Nat)
    (h : GetTypeInfo env d typ = .ok out) : ∀ fuel, d ≤ fuel → GetTypeInfo env fuel typ = .ok out := by
  intro fuel hle
  induction fuel with
  | zero =>
    have : d = 0 := by omega
    subst this
    exact h
  | succ k ih =>
    by_cases hd : d = k + 1
    · subst hd
      exact h
    · exact GetTypeInfo_succ env k typ out (ih (by omega))

theorem GetTypeInfo_mutualEmbedding : ∀ fuel : Nat,
    GetTypeInfo mutualEmbedding fuel (.struct "A") = .fuel ∧
      GetTypeInfo mutualEmbedding fuel (.struct "B") = .fuel
  | 0 => ⟨by decide, by decide⟩
  | fuel + 1 => by
    obtain ⟨ha, hb⟩ := GetTypeInfo_mutualEmbedding fuel
    constructor
    · show getTypeInfoBody mutualEmbedding (GetTypeInfo mutualEmbedding fuel) (.struct "A") = .fuel
      rw [getTypeInfoBody_struct]
      have hd : decl mutualEmbedding "A" =
          [ { Name := "B", PkgPath := "", Typ := .struct "B", Tag := "", Anonymous := true } ] := by
        decide
      rw [hd]
      have h1 : StructField.skipped
          { Name := "B", PkgPath := "", Typ := .struct "B", Tag := "", Anonymous := true } =
          false := by decide
      have h2 : StructField.embedded
          { Name := "B", PkgPath := "", Typ := .struct "B", Tag := "", Anonymous := true } =
          some (.struct "B") := by decide
      simp only [List.enum, List.enumFrom, List.foldlM_cons, List.foldlM_nil, bind, fieldStep, h1,
        h2, hb, Res.bind]
      rfl
    · show getTypeInfoBody mutualEmbedding (GetTypeInfo mutualEmbedding fuel) (.struct "B") = .fuel
      rw [getTypeInfoBody_struct]
      have hd : decl mutualEmbedding "B" =
          [ { Name := "A", PkgPath := "", Typ := .ptr (.struct "A"), Tag := "",
              Anonymous := true } ] := by
        decide
      rw [hd]
      have h1 : StructField.skipped
          { Name := "A", PkgPath := "", Typ := .ptr (.struct "A"), Tag := "", Anonymous := true } =
          false := by decide
      have h2 : StructField.embedded
          { Name := "A", PkgPath := "", Typ := .ptr (.struct "A"), Tag := "", Anonymous := true } =
          some (.struct "A") := by decide
      simp only [List.enum, List.enumFrom, List.foldlM_cons, List.foldlM_nil, bind, fieldStep, h1,
        h2, ha, Res.bind]
      rfl

/-- Claim C29, counterexample. For `type A struct { B }` and `type B struct { *A }`,
whose anonymous fields lead back to `A`, no depth of recursion lets `GetTypeInfo`
end: with every budget the call on `A` exhausts it. -/
theorem GetTypeInfo_cycle_never_ends :
    ¬ ∃ fuel : Nat, GetTypeInfo mutualEmbedding fuel (.struct "A") ≠ .fuel := by
  rintro ⟨fuel, h⟩
  exact h (GetTypeInfo_mutualEmbedding fuel).1

/-- Claim C29, amended. For a type under which structs are embedded at most `d`
levels deep, `GetTypeInfo` ends and returns a descriptor, the same one whatever
depth of recursion beyond `d` it is allowed. -/
theorem GetTypeInfo_terminates (env : TypeEnv) (d : Nat) (typ : GoType)
    (h : embedsWithin env d typ = true) :
    ∃ tinfo, ∀ fuel, d ≤ fuel → GetTypeInfo env fuel typ = .ok tinfo := by
  obtain ⟨tinfo, ht⟩ := GetTypeInfo_ok_of_embedsWithin env d d typ h (Nat.le_refl d)
  exact ⟨tinfo, GetTypeInfo_le env typ tinfo d ht⟩

/-- The amended claim C29 at `Outer`, which embeds `Inner` one level deep. -/
theorem GetTypeInfo_terminates_witness :
    ∃ tinfo, ∀ fuel, 1 ≤ fuel → GetTypeInfo shadowing fuel (.struct "Outer") = .ok tinfo :=
  GetTypeInfo_terminates shadowing 1 (.struct "Outer") (by decide)

/-! ## What the encoder accepts and what it rejects -/

theorem marshal_unfold (env : TypeEnv) (reg : Registry) (tfuel : Nat) : ∀ fuel : Nat,
    marshal env reg tfuel fuel =
      marshalBody env reg (GetTypeInfo env tfuel) (zeroValue env tfuel)
        (match fuel with
          | 0 => fun objs _ _ => (objs, .fuel)
          | k + 1 => marshal env reg tfuel k)
  | 0 => rfl
  | _ + 1 => rfl

theorem marshal_nonptr (env : TypeEnv) (reg : Registry) (tfuel n : Nat) (T : List Obj)
    (v : GoValue) (fl : Flags) (h : v.kind ≠ .Ptr) :
    marshal env reg tfuel n T v fl =
      marshalKind env reg (GetTypeInfo env tfuel) (zeroValue env tfuel)
        (match n with
          | 0 => fun objs _ _ => (objs, .fuel)
          | k + 1 => marshal env reg tfuel k) T v fl := by
  rw [marshal_unfold]
  cases v <;> first | rfl | exact absurd rfl h

theorem marshal_ptr_some (env : TypeEnv) (reg : Registry) (tfuel n : Nat) (T : List Obj)
    (e : GoType) (w : GoValue) (fl : Flags) (h : w.kind ≠ .Ptr) :
    marshal env reg tfuel n T (.ptr e (some w)) fl =
      marshal env reg tfuel n T w { addr := true, ro := fl.ro } := by
  rw [marshal_nonptr env reg tfuel n T w _ h, marshal_unfold]
  rfl

theorem marshal_ptr_nil (env : TypeEnv) (reg : Registry) (tfuel n : Nat) (T : List Obj)
    (e : GoType) (fl : Flags) :
    marshal env reg tfuel n T (.ptr e none) fl = (T, .err .nilElem) := by
  rw [marshal_unfold]
  rfl

theorem marshalElems_accepts (recur : MarshalFn) (ro : Bool) :
    ∀ (xs : List GoValue) (acc : List Nat) (T : List Obj),
      (∀ x ∈ xs, ∀ T addr, ∃ T1 i, recur T x { addr := addr, ro := ro } = (T1, .ok i)) →
      ∃ T1 uids, marshalElems recur ro xs T acc = (T1, .ok uids)
  | [], acc, T, _ => ⟨T, acc, rfl⟩
  | x :: xs, acc, T, h => by
    obtain ⟨T1, i, hi⟩ := h x (List.mem_cons_self _ _) T true
    simp only [marshalElems, hi]
    exact marshalElems_accepts recur ro xs _ T1 (fun y hy => h y (List.mem_cons_of_mem _ hy))

theorem marshalField_read (env : TypeEnv) (zero : GoType → Option GoValue) (recur : MarshalFn)
    (T : List Obj) (val : GoValue) (fl : Flags) (ti : FieldInfo) (fv : GoValue) (ffl : Flags)
    (h : fieldValue env zero val fl ti = .ok (fv, ffl)) :
    marshalField env zero recur T val fl ti = recur T fv ffl := by
  simp only [marshalField, h]

theorem marshalFieldsNS_accepts (env : TypeEnv) (zero : GoType → Option GoValue)
    (recur : MarshalFn) (val : GoValue) (fl : Flags) :
    ∀ (tis : List FieldInfo) (nsobj : List (String × Obj)) (T : List Obj),
      (∀ ti ∈ tis, ∃ fv ffl, fieldValue env zero val fl ti = .ok (fv, ffl) ∧
        ∀ T, ∃ T1 i, recur T fv ffl = (T1, .ok i)) →
      ∃ T1 out, marshalFieldsNS env zero recur val fl tis T nsobj = (T1, .ok out)
  | [], nsobj, T, _ => ⟨T, nsobj, rfl⟩
  | ti :: tis, nsobj, T, h => by
    obtain ⟨fv, ffl, hr, hok⟩ := h ti (List.mem_cons_self _ _)
    obtain ⟨T1, i, hi⟩ := hok T
    simp only [marshalFieldsNS, marshalField_read env zero recur T val fl ti fv ffl hr, hi]
    exact marshalFieldsNS_accepts env zero recur val fl tis _ T1
      (fun t ht => h t (List.mem_cons_of_mem _ ht))

theorem marshalFieldsTable_accepts (env : TypeEnv) (zero : GoType → Option GoValue)
    (recur : MarshalFn) (val : GoValue) (fl : Flags) :
    ∀ (tis : List FieldInfo) (keys objects : List Nat) (T : List Obj),
      (∀ ti ∈ tis, ∃ fv ffl, fieldValue env zero val fl ti = .ok (fv, ffl) ∧
        ((∀ T, ∃ T1 i, recur T fv ffl = (T1, .ok i)) ∨
          (ti.OmitEmpty = true ∧ ∀ T, recur T fv ffl = (T, .err .nilElem)))) →
      ∃ T1 out, marshalFieldsTable env zero recur val fl tis T keys objects = (T1, .ok out)
  | [], keys, objects, T, _ => ⟨T, (keys, objects), rfl⟩
  | ti :: tis, keys, objects, T, h => by
    obtain ⟨fv, ffl, hr, hok⟩ := h ti (List.mem_cons_self _ _)
    have ht := fun t ht => h t (List.mem_cons_of_mem _ ht)
    rcases hok with hok | ⟨hom, hnil⟩
    · obtain ⟨T1, i, hi⟩ := hok T
      simp only [marshalFieldsTable, marshalField_read env zero recur T val fl ti fv ffl hr, hi]
      exact marshalFieldsTable_accepts env zero recur val fl tis _ _ _ ht
    · simp only [marshalFieldsTable, marshalField_read env zero recur T val fl ti fv ffl hr,
        hnil T, hom, decide_True, Bool.and_self, if_true]
      exact marshalFieldsTable_accepts env zero recur val fl tis _ _ T ht

theorem fieldValue_ro (env : TypeEnv) (zero : GoType → Option GoValue) (val : GoValue)
    (fl : Flags) (ti : FieldInfo) (fv : GoValue) (ffl : Flags)
    (h : fieldValue env zero val fl ti = .ok (fv, ffl)) (hro : fl.ro = true) :
    ffl.ro = true := by
  unfold fieldValue at h
  split at h
  · simp only [Res.ok.injEq, Prod.mk.injEq] at h
    rw [← h.2]
    simp [hro]
  · cases h
  · cases h
  · split at h <;> cases h

theorem marshal_accepts (env : TypeEnv) (reg : Registry) (tfuel : Nat) (n : Nat) (ro : Bool)
    (v : GoValue) (h : Encodable env reg tfuel n ro v) :
    ∀ (T : List Obj) (addr : Bool),
      ∃ T1 i, marshal env reg tfuel n T v { addr := addr, ro := ro } = (T1, .ok i) := by
  induction h with
  | bool n ro b => intro T addr; rw [marshal_unfold]; exact ⟨_, _, rfl⟩
  | int n ro k x => intro T addr; rw [marshal_unfold]; exact ⟨_, _, rfl⟩
  | uint n ro k x => intro T addr; rw [marshal_unfold]; exact ⟨_, _, rfl⟩
  | uid n ro x => intro T addr; rw [marshal_unfold]; exact ⟨_, _, rfl⟩
  | float n ro k f => intro T addr; rw [marshal_unfold]; exact ⟨_, _, rfl⟩
  | string n ro s =>
    intro T addr
    rw [marshal_string]
    split
    · exact ⟨_, _, rfl⟩
    · exact ⟨_, _, rfl⟩
  | time n s ns loc => intro T addr; rw [marshal_unfold]; exact ⟨_, _, rfl⟩
  | bytes n ro elem xs hk =>
    intro T addr
    rw [marshal_nonptr _ _ _ _ _ _ _ (by intro hc; cases hc)]
    simp only [marshalKind]
    rw [marshalSlice_bytes _ _ _ _ _ hk]
    exact ⟨_, _, rfl⟩
  | uuid n name elem xs ht =>
    intro T addr
    rw [marshal_nonptr _ _ _ _ _ _ _ (by intro hc; cases hc)]
    simp only [marshalKind, ht, if_true, Bool.false_eq_true, if_false]
    exact ⟨_, _, rfl⟩
  | slice n ro elem xs hk _ ih =>
    intro T addr
    rw [marshal_nonptr _ _ _ _ _ _ _ (by intro hc; cases hc)]
    simp only [marshalKind]
    rw [marshalSlice_elems _ _ _ _ _ hk]
    obtain ⟨T1, uids, hu⟩ :=
      marshalElems_accepts (marshal env reg tfuel n) ro (xs.getD []) [] T ih
    simp only [seqT, hu]
    exact ⟨_, _, rfl⟩
  | ptr n ro e w hk _ ih =>
    intro T addr
    rw [marshal_ptr_some _ _ _ _ _ _ _ _ hk]
    exact ih T true
  | struct n ro name fields tinfo hti hread hnil _ ih =>
    intro T addr
    rw [marshal_nonptr _ _ _ _ _ _ _ (by intro hc; cases hc)]
    simp only [marshalKind]
    cases hl : reg.lookup (.struct name) with
    | some cls =>
      rw [marshalStruct_registered env reg _ _ _ T name fields _ tinfo cls hti hl]
      obtain ⟨T1, out, ho⟩ := marshalFieldsNS_accepts env (zeroValue env tfuel)
        (marshal env reg tfuel n) (.struct name fields) { addr := addr, ro := ro }
        tinfo.Fields [] T (by
          intro ti hti1
          obtain ⟨fv, ffl, hr⟩ := hread addr ti hti1
          refine ⟨fv, ffl, hr, fun T => ih addr ti hti1 fv ffl hr ?_ T ffl.addr⟩
          intro e he
          subst he
          have := (hnil addr ti hti1 e ffl hr).2
          rw [hl] at this
          cases this)
      simp only [seqT, ho]
      exact ⟨_, _, rfl⟩
    | none =>
      rw [marshalStruct_table env reg _ _ _ T name fields _ tinfo hti hl]
      obtain ⟨T1, out, ho⟩ := marshalFieldsTable_accepts env (zeroValue env tfuel)
        (marshal env reg tfuel n) (.struct name fields) { addr := addr, ro := ro }
        tinfo.Fields [] [] T (by
          intro ti hti1
          obtain ⟨fv, ffl, hr⟩ := hread addr ti hti1
          refine ⟨fv, ffl, hr, ?_⟩
          by_cases hp : ∃ e, fv = .ptr e none
          · obtain ⟨e, he⟩ := hp
            subst he
            exact Or.inr ⟨(hnil addr ti hti1 e ffl hr).1,
              fun T => marshal_ptr_nil env reg tfuel n T e ffl⟩
          · exact Or.inl
              (fun T => ih addr ti hti1 fv ffl hr (fun e he => hp ⟨e, he⟩) T ffl.addr))
      simp only [seqT, ho]
      exact ⟨_, _, rfl⟩

theorem GetTypeInfo_loopEnv : ∀ fuel : Nat,
    GetTypeInfo loopEnv fuel (.struct "A") = .fuel ∧
      GetTypeInfo loopEnv fuel (.struct "B") = .fuel
  | 0 => ⟨by decide, by decide⟩
  | fuel + 1 => by
    obtain ⟨ha, hb⟩ := GetTypeInfo_loopEnv fuel
    constructor
    · show getTypeInfoBody loopEnv (GetTypeInfo loopEnv fuel) (.struct "A") = .fuel
      rw [getTypeInfoBody_struct]
      have hd : decl loopEnv "A" =
          [ { Name := "B", PkgPath := "", Typ := .struct "B", Tag := "", Anonymous := true } ] := by
        decide
      rw [hd]
      have h1 : StructField.skipped
          { Name := "B", PkgPath := "", Typ := .struct "B", Tag := "", Anonymous := true } =
          false := by decide
      have h2 : StructField.embedded
          { Name := "B", PkgPath := "", Typ := .struct "B", Tag := "", Anonymous := true } =
          some (.struct "B") := by decide
      simp only [List.enum, List.enumFrom, List.foldlM_cons, List.foldlM_nil, bind, fieldStep, h1,
        h2, hb, Res.bind]
      rfl
    · show getTypeInfoBody loopEnv (GetTypeInfo loopEnv fuel) (.struct "B") = .fuel
      rw [getTypeInfoBody_struct]
      have hd : decl loopEnv "B" =
          [ { Name := "A", PkgPath := "", Typ := .ptr (.struct "A"), Tag := ",omitempty",
              Anonymous := true } ] := by
        decide
      rw [hd]
      have h1 : StructField.skipped
          { Name := "A", PkgPath := "", Typ := .ptr (.struct "A"), Tag := ",omitempty",
            Anonymous := true } = false := by decide
      have h2 : StructField.embedded
          { Name := "A", PkgPath := "", Typ := .ptr (.struct "A"), Tag := ",omitempty",
            Anonymous := true } = some (.struct "A") := by decide
      simp only [List.enum, List.enumFrom, List.foldlM_cons, List.foldlM_nil, bind, fieldStep, h1,
        h2, ha, Res.bind]
      rfl

theorem Marshal_loopEnv (tfuel fuel : Nat) :
    (Marshal loopEnv [] tfuel fuel emptyArchiver
      (.struct "A" [.struct "B" [.ptr (.struct "A") none]])).2 = .fuel := by
  have h := (GetTypeInfo_loopEnv tfuel).1
  simp only [Marshal]
  rw [marshal_nonptr _ _ _ _ _ _ _ (by intro hc; cases hc)]
  simp only [marshalKind, marshalStruct, h]

/-- Claim C22, counterexample. `Marshal` of a `map[string]interface{}`, of a `[2]int`,
of a `[]interface{}` holding a string and of a pointer to a pointer to an `int`
returns an error; `Marshal` of an `O{u}` with `type u = uuid.UUID` panics in
`val.Interface()`; `Marshal` of an `Out{}` passed by value, whose embedded `*In`
is nil and tagged `omitempty`, panics in `FieldInfo.Value`, which cannot set the
pointer; and `Marshal` of an `A{}` with `type A struct { B }` and
`type B struct { *A }`, the pointer tagged `omitempty`, does not return, whatever
the depth of recursion, because `GetTypeInfo` does not. None of these values holds
a function, a channel or a nil pointer in a field not tagged `omitempty`. -/
theorem supported_kinds_rejected :
    (Marshal plainEnv [] 3 3 emptyArchiver
      (.map .string .iface (some [(.string "a", .iface (some (.string "x")))]))).2 =
      .err (.other "unknow type") ∧
    (Marshal plainEnv [] 3 3 emptyArchiver
      (.array "" (.int .int) [.int .int 1, .int .int 2])).2 = .err (.other "unknow array") ∧
    (Marshal plainEnv [] 3 3 emptyArchiver
      (.slice .iface (some [.iface (some (.string "x"))]))).2 = .err (.other "unknow type") ∧
    (Marshal plainEnv [] 3 3 emptyArchiver
      (.ptr (.ptr (.int .int)) (some (.ptr (.int .int) (some (.int .int 1)))))).2 =
      .err (.other "unknow type") ∧
    (Marshal aliasEnv [] 3 3 emptyArchiver
      (.struct "O" [.array "uuid.UUID" (.uint .uint8)
        (List.replicate 16 (.uint .uint8 0))])).2 = .panic interfacePanic ∧
    (∃ m, (Marshal nilEmbedEnv [] 3 3 emptyArchiver
        (.struct "Out" [.ptr (.struct "In") none])).2 = .panic m) ∧
    (∀ tfuel fuel : Nat,
      (Marshal loopEnv [] tfuel fuel emptyArchiver
        (.struct "A" [.struct "B" [.ptr (.struct "A") none]])).2 = .fuel) :=
  ⟨by rfl, by rfl, by rfl, by rfl, by rfl, ⟨_, by rfl⟩, Marshal_loopEnv⟩

/-- Claim C22, amended. `marshal` returns a reference for every value built from
bools, integers, floats, strings, `UID`s, byte slices, and instants and `uuid.UUID`
values that do not carry `flagRO`, by slices, pointers that are not nil, and
structs for which `GetTypeInfo` returns a descriptor and `FieldInfo.Value` returns
every listed field (`Encodable`, at the `flagRO` of the value), a nil pointer being
allowed in a field tagged `omitempty` of a struct without registered class; it
rejects with an error a map, an interface value, a pointer to a pointer and an
array that is not a `uuid.UUID`, as it does a function and a channel; and on an
instant or a `uuid.UUID` that carries `flagRO` it panics in `val.Interface()`, the
table untouched. -/
theorem marshal_accepts_encodable (env : TypeEnv) (reg : Registry) (tfuel n : Nat)
    (T : List Obj) (fl : Flags) :
    (∀ v, Encodable env reg tfuel n fl.ro v →
      ∃ T1 i, marshal env reg tfuel n T v fl = (T1, .ok i)) ∧
    (∀ k e es, marshal env reg tfuel n T (.map k e es) fl =
      (T, .err (.other "unknow type"))) ∧
    (∀ x, marshal env reg tfuel n T (.iface x) fl = (T, .err (.other "unknow type"))) ∧
    (∀ e p, marshal env reg tfuel n T (.ptr (.ptr e) (some (.ptr e p))) fl =
      (T, .err (.other "unknow type"))) ∧
    (∀ name elem xs, GoType.array name xs.length elem ≠ archiverUUIDType →
      marshal env reg tfuel n T (.array name elem xs) fl =
        (T, .err (.other "unknow array"))) ∧
    (∀ b, marshal env reg tfuel n T (.func b) fl = (T, .err (.other "unknow type"))) ∧
    (∀ e, marshal env reg tfuel n T (.chan e) fl = (T, .err (.other "unknow type"))) ∧
    (∀ s ns loc, fl.ro = true →
      marshal env reg tfuel n T (.time s ns loc) fl = (T, .panic interfacePanic)) ∧
    (∀ name elem xs, fl.ro = true → GoType.array name xs.length elem = archiverUUIDType →
      marshal env reg tfuel n T (.array name elem xs) fl = (T, .panic interfacePanic)) := by
  refine ⟨fun v hv => marshal_accepts env reg tfuel n fl.ro v hv T fl.addr, ?_, ?_, ?_, ?_, ?_,
    ?_, ?_, ?_⟩
  · intro k e es
    rw [marshal_unfold]
    rfl
  · intro x
    rw [marshal_unfold]
    rfl
  · intro e p
    rw [marshal_unfold]
    rfl
  · intro name elem xs hne
    rw [marshal_nonptr _ _ _ _ _ _ _ (by intro hc; cases hc)]
    simp only [marshalKind, hne, if_false]
  · intro b
    rw [marshal_unfold]
    rfl
  · intro e
    rw [marshal_unfold]
    rfl
  · intro s ns loc hro
    rw [marshal_nonptr _ _ _ _ _ _ _ (by intro hc; cases hc)]
    simp only [marshalKind, hro, if_true, interfacePanic]
  · intro name elem xs hro ht
    rw [marshal_nonptr _ _ _ _ _ _ _ (by intro hc; cases hc)]
    simp only [marshalKind, hro, ht, if_true, interfacePanic]

/-! ## Mappings with sorted keys -/

theorem ltChars_irrefl : ∀ a : List Char, ltChars a a = false
  | [] => rfl
  | c :: cs => by simp [ltChars, ltChars_irrefl cs]

theorem char_toNat_inj (a b : Char) (h : a.toNat = b.toNat) : a = b := by
  rw [← Char.ofNat_toNat a, ← Char.ofNat_toNat b, h]

theorem ltChars_trans : ∀ a b c : List Char, ltChars a b = true → ltChars b c = true →
    ltChars a c = true
  | [], [], _, h, _ => by simp [ltChars] at h
  | [], _ :: _, [], _, h => by simp [ltChars] at h
  | [], _ :: _, _ :: _, _, _ => rfl
  | _ :: _, [], _, h, _ => by simp [ltChars] at h
  | _ :: _, _ :: _, [], _, h => by simp [ltChars] at h
  | x :: xs, y :: ys, z :: zs, h1, h2 => by
    simp only [ltChars] at h1 h2 ⊢
    by_cases hxy : x.toNat < y.toNat
    · by_cases hyz : y.toNat < z.toNat
      · simp [show x.toNat < z.toNat by omega]
      · simp only [hyz, if_false] at h2
        by_cases hyz2 : y.toNat = z.toNat
        · simp [show x.toNat < z.toNat by omega]
        · simp [hyz2] at h2
    · simp only [hxy, if_false] at h1
      by_cases hxy2 : x.toNat = y.toNat
      · simp only [hxy2, if_true] at h1
        by_cases hyz : y.toNat < z.toNat
        · simp [show x.toNat < z.toNat by omega]
        · simp only [hyz, if_false] at h2
          by_cases hyz2 : y.toNat = z.toNat
          · simp only [hyz2, if_true] at h2
            have hxz : ¬ x.toNat < z.toNat := by omega
            have hxz2 : x.toNat = z.toNat := by omega
            rw [if_neg hxz, if_pos hxz2]
            exact ltChars_trans xs ys zs h1 h2
          · simp [hyz2] at h2
      · simp [hxy2] at h1

theorem ltChars_total : ∀ a b : List Char, ltChars a b = false → a ≠ b → ltChars b a = true
  | [], [], _, h => absurd rfl h
  | [], _ :: _, h, _ => by simp [ltChars] at h
  | _ :: _, [], _, _ => rfl
  | x :: xs, y :: ys, h, hne => by
    simp only [ltChars] at h ⊢
    by_cases hxy : x.toNat < y.toNat
    · simp [hxy] at h
    · simp only [hxy, if_false] at h
      by_cases hxy2 : x.toNat = y.toNat
      · simp only [hxy2, if_true] at h
        have hc : x = y := char_toNat_inj x y hxy2
        subst hc
        simp only [Nat.lt_irrefl, if_false, if_true]
        exact ltChars_total xs ys h (fun he => hne (by rw [he]))
      · simp [show y.toNat < x.toNat by omega]

theorem string_data_ne (a b : String) (h : a ≠ b) : a.data ≠ b.data :=
  fun he => h (String.ext he)

theorem lookup_dictInsert (k : String) (v : Obj) (x : String) :
    ∀ m : List (String × Obj),
      (dictInsert k v m).lookup x = if x = k then some v else m.lookup x
  | [] => by
    by_cases hx : x = k
    · simp [dictInsert, hx]
    · have hxk : (x == k) = false := by simpa using hx
      simp [dictInsert, hx, List.lookup, hxk]
  | (k1, v1) :: rest => by
    unfold dictInsert
    by_cases hx : x = k
    · subst hx
      split
      · simp
      · split
        · simp
        · rename_i h1 h2
          have : (x == k1) = false := by simpa using h2
          simp only [List.lookup_cons, this, lookup_dictInsert x v x rest, if_true]
    · have hxk : (x == k) = false := by simpa using hx
      split
      · simp [List.lookup_cons, hxk, hx]
      · split
        · rename_i h1 h2
          subst h2
          simp [List.lookup_cons, hxk, hx]
        · simp only [List.lookup_cons, lookup_dictInsert k v x rest, hx, if_false]

theorem keys_dictInsert (k : String) (v : Obj) : ∀ (m : List (String × Obj)) (p : String × Obj),
    p ∈ dictInsert k v m → p = (k, v) ∨ p ∈ m
  | [], p, h => by
    simp only [dictInsert, List.mem_singleton] at h
    exact Or.inl h
  | (k1, v1) :: rest, p, h => by
    unfold dictInsert at h
    split at h
    · simp only [List.mem_cons] at h ⊢
      tauto
    · split at h
      · simp only [List.mem_cons] at h ⊢
        tauto
      · simp only [List.mem_cons] at h ⊢
        rcases h with h | h
        · exact Or.inr (Or.inl h)
        · rcases keys_dictInsert k v rest p h with h | h
          · exact Or.inl h
          · exact Or.inr (Or.inr h)

theorem sortedKeys_dictInsert (k : String) (v : Obj) : ∀ m : List (String × Obj),
    SortedKeys m → SortedKeys (dictInsert k v m)
  | [], _ => by simp [dictInsert, SortedKeys]
  | (k1, v1) :: rest, h => by
    unfold SortedKeys at h ⊢
    rw [List.pairwise_cons] at h
    unfold dictInsert
    split
    · rename_i hlt
      rw [List.pairwise_cons, List.pairwise_cons]
      refine ⟨?_, h.1, h.2⟩
      intro q hq
      rcases List.mem_cons.1 hq with rfl | hq
      · exact hlt
      · exact ltChars_trans _ _ _ hlt (h.1 q hq)
    · split
      · rename_i hlt heq
        subst heq
        rw [List.pairwise_cons]
        exact ⟨h.1, h.2⟩
      · rename_i hlt hne
        rw [List.pairwise_cons]
        refine ⟨?_, sortedKeys_dictInsert k v rest h.2⟩
        intro q hq
        rcases keys_dictInsert k v rest q hq with rfl | hq
        · exact ltChars_total _ _ (by simpa using hlt) (string_data_ne _ _ hne)
        · exact h.1 q hq

theorem sortedKeys_nodup (m : List (String × Obj)) (h : SortedKeys m) :
    (m.map Prod.fst).Nodup := by
  unfold SortedKeys at h
  rw [List.Nodup, List.pairwise_map]
  refine h.imp ?_
  intro p q hlt heq
  rw [heq, ltChars_irrefl] at hlt
  cases hlt

theorem sortedKeys_lookup_none (k : String) : ∀ m : List (String × Obj),
    (∀ q ∈ m, ltChars k.data q.1.data = true) → m.lookup k = none
  | [], _ => rfl
  | (k1, v1) :: rest, h => by
    have h1 := h (k1, v1) (List.mem_cons_self _ _)
    have hne : (k == k1) = false := by
      rw [beq_eq_false_iff_ne]
      intro he
      subst he
      rw [ltChars_irrefl] at h1
      cases h1
    simp only [List.lookup_cons, hne]
    exact sortedKeys_lookup_none k rest (fun q hq => h q (List.mem_cons_of_mem _ hq))

theorem length_dictInsert (k : String) (v : Obj) : ∀ m : List (String × Obj),
    SortedKeys m → m.lookup k = none → (dictInsert k v m).length = m.length + 1
  | [], _, _ => rfl
  | (k1, v1) :: rest, h, hl => by
    unfold SortedKeys at h
    rw [List.pairwise_cons] at h
    have hne : k ≠ k1 := by
      intro he
      subst he
      simp at hl
    have hne2 : (k == k1) = false := by simpa using hne
    simp only [List.lookup_cons, hne2] at hl
    unfold dictInsert
    split
    · simp
    · simp only [List.length_cons, length_dictInsert k v rest h.2 hl]

theorem lookup_isSome_mem (k : String) : ∀ m : List (String × Obj),
    (m.lookup k).isSome = true → ∃ v, (k, v) ∈ m
  | [], h => by simp at h
  | (k1, v1) :: rest, h => by
    by_cases he : k = k1
    · subst he
      exact ⟨v1, List.mem_cons_self _ _⟩
    · have hne : (k == k1) = false := by simpa using he
      simp only [List.lookup_cons, hne] at h
      obtain ⟨v, hv⟩ := lookup_isSome_mem k rest h
      exact ⟨v, List.mem_cons_of_mem _ hv⟩

/-! ## The mapping of a struct with a registered class -/

theorem marshalFieldsNS_entries (env : TypeEnv) (zero : GoType → Option GoValue)
    (recur : MarshalFn) (hgr : GrowsFn recur) (val : GoValue) (fl : Flags) :
    ∀ (tis : List FieldInfo) (nsobj : List (String × Obj)) (T T1 : List Obj)
      (out : List (String × Obj)),
      (tis.map (fun f => f.Name)).Nodup →
      marshalFieldsNS env zero recur val fl tis T nsobj = (T1, .ok out) →
      (∀ ti ∈ tis, ∃ i, out.lookup ti.Name = some (.uid i) ∧
        ∃ Ta Tb, Grows T Ta ∧ Grows Tb T1 ∧
          marshalField env zero recur Ta val fl ti = (Tb, .ok i)) ∧
      (∀ key, key ∉ tis.map (fun f => f.Name) → out.lookup key = nsobj.lookup key) ∧
      (SortedKeys nsobj → SortedKeys out) ∧
      (SortedKeys nsobj → (∀ ti ∈ tis, nsobj.lookup ti.Name = none) →
        out.length = nsobj.length + tis.length)
  | [], nsobj, T, T1, out, _, h => by
    simp only [marshalFieldsNS, Prod.mk.injEq, Res.ok.injEq] at h
    obtain ⟨_, rfl⟩ := h
    exact ⟨fun ti hti => by simp at hti, fun _ _ => rfl, fun hs => hs, fun _ _ => rfl⟩
  | ti :: tis, nsobj, T, T1, out, hnd, h => by
    rw [List.map_cons, List.nodup_cons] at hnd
    have hfg := marshalField_grows env zero recur hgr val fl ti T
    simp only [marshalFieldsNS] at h
    cases hr : marshalField env zero recur T val fl ti with
    | mk Tb r =>
      rw [hr] at h hfg
      cases r with
      | ok i =>
        simp only at h
        obtain ⟨h1, h2, h3, h4⟩ := marshalFieldsNS_entries env zero recur hgr val fl tis _ Tb T1
          out hnd.2 h
        have hgb : Grows Tb T1 := by
          have := marshalFieldsNS_grows env zero recur hgr val fl tis
            (dictInsert ti.Name (.uid i) nsobj) Tb
          rw [h] at this
          exact this
        refine ⟨?_, ?_, ?_, ?_⟩
        · intro t ht
          rcases List.mem_cons.1 ht with rfl | ht
          · refine ⟨i, ?_, T, Tb, Grows.refl T, hgb, hr⟩
            rw [h2 _ hnd.1, lookup_dictInsert, if_pos rfl]
          · obtain ⟨j, hj, Ta, Tc, ha, hc, hm⟩ := h1 t ht
            exact ⟨j, hj, Ta, Tc, hfg.trans ha, hc, hm⟩
        · intro key hk
          simp only [List.map_cons, List.mem_cons, not_or] at hk
          rw [h2 key hk.2, lookup_dictInsert, if_neg hk.1]
        · intro hs
          exact h3 (sortedKeys_dictInsert _ _ _ hs)
        · intro hs hnone
          have hn1 := hnone ti (List.mem_cons_self _ _)
          rw [h4 (sortedKeys_dictInsert _ _ _ hs) (by
            intro t ht
            rw [lookup_dictInsert, if_neg]
            · exact hnone t (List.mem_cons_of_mem _ ht)
            · intro he
              exact hnd.1 (List.mem_map.2 ⟨t, ht, he⟩)),
            length_dictInsert _ _ _ hs hn1]
          simp only [List.length_cons]
          omega
      | err e => simp at h
      | panic m => simp at h
      | fuel => simp at h

theorem lookup_addFoundation (reg : Registry) (typ : GoType) (name : String)
    (classes : Option (List String)) :
    (ArchiverAddFoundation reg typ name classes).lookup typ =
      some { ClassName := name, Classes := classes } := by
  simp [ArchiverAddFoundation, List.lookup]

theorem lookup_addFoundation_ne (reg : Registry) (typ other : GoType) (name : String)
    (classes : Option (List String)) (h : other ≠ typ) :
    (ArchiverAddFoundation reg typ name classes).lookup other = reg.lookup other := by
  have : (other == typ) = false := by simpa using h
  simp [ArchiverAddFoundation, List.lookup, this]

/-- Claim C21, counterexample. `C` has the one field `K`, tagged `plist:"$class"`.
With a class registered for `C`, the mapping `Marshal` emits for `C{K: "k"}` has the
one entry `$class`, which refers to the class descriptor: the entry of the field is
overwritten and the string `"k"` at index 1 is referred to by nothing. -/
theorem class_key_overwrites_field :
    Marshal classKeyEnv classKeyRegistry 3 3 emptyArchiver (.struct "C" [.string "k"]) =
      ({ Version := 100000,
         Objects := [.string "$null", .string "k", .classRef "C" (some ["C", "NSObject"]),
           .dict [("$class", .uid 2)]],
         ArchiverName := "NSKeyedArchiver", Top := some 3 }, .ok ()) ∧
    GetTypeInfo classKeyEnv 3 (.struct "C") =
      .ok { Fields := [ { idx := [0], Name := "$class", OmitEmpty := false } ] } :=
  ⟨by rfl, by rfl⟩

/-- Claim C21, amended. After `ArchiverAddFoundation(T, name, classes...)` the class in
force for `T` is `{name, classes}`, whatever was registered for `T` before, and the
class of every other type is as it was. A successful `marshalStruct` of a value of
type `T` returns the reference of a mapping (no table wrapper) whose keys are
distinct, whose `$class` entry refers to the descriptor `{name, classes}`, whose
every other key is the name of a field of the descriptor, and which maps the name
of every field not named `$class` to the reference `marshal` returned for the
value of that field; when no field is named `$class` the mapping has exactly one
entry per field and the `$class` entry. -/
theorem custom_class_mapping (env : TypeEnv) (reg : Registry) (tfuel fuel : Nat)
    (T T1 : List Obj) (sname : String) (fields : List GoValue) (fl : Flags) (r : Nat)
    (cname : String) (classes : Option (List String))
    (h : marshalStruct env (ArchiverAddFoundation reg (.struct sname) cname classes)
      (GetTypeInfo env tfuel) (zeroValue env tfuel)
      (marshal env (ArchiverAddFoundation reg (.struct sname) cname classes) tfuel fuel)
      T (.struct sname fields) fl = (T1, .ok r)) :
    (ArchiverAddFoundation reg (.struct sname) cname classes).lookup (.struct sname) =
      some { ClassName := cname, Classes := classes } ∧
    (∀ other, other ≠ .struct sname →
      (ArchiverAddFoundation reg (.struct sname) cname classes).lookup other =
        reg.lookup other) ∧
    ∃ (tinfo : TypeInfo) (dict : List (String × Obj)) (c : Nat),
      GetTypeInfo env tfuel (.struct sname) = .ok tinfo ∧
      T1[r]? = some (.dict dict) ∧
      T1[c]? = some (.classRef cname classes) ∧
      dict.lookup "$class" = some (.uid c) ∧
      (dict.map Prod.fst).Nodup ∧
      (∀ key, (dict.lookup key).isSome = true →
        key = "$class" ∨ ∃ ti ∈ tinfo.Fields, ti.Name = key) ∧
      (∀ ti ∈ tinfo.Fields, ti.Name ≠ "$class" →
        ∃ i, dict.lookup ti.Name = some (.uid i) ∧
          ∃ Ta Tb, Grows T Ta ∧ Grows Tb T1 ∧
            marshalField env (zeroValue env tfuel)
              (marshal env (ArchiverAddFoundation reg (.struct sname) cname classes) tfuel fuel)
              Ta (.struct sname fields) fl ti = (Tb, .ok i)) ∧
      ((∀ ti ∈ tinfo.Fields, ti.Name ≠ "$class") →
        dict.length = tinfo.Fields.length + 1) := by
  have hl := lookup_addFoundation reg (.struct sname) cname classes
  refine ⟨hl, fun other ho => lookup_addFoundation_ne reg _ other cname classes ho, ?_⟩
  cases ht : GetTypeInfo env tfuel (.struct sname) with
  | ok tinfo =>
    rw [marshalStruct_registered env _ _ _ _ T sname fields fl tinfo _ ht hl] at h
    obtain ⟨nsobj, Ta, hf, hadd⟩ := seqT_ok _ _ _ (fun er T b T1 hc => by simp at hc) T T1 r h
    have hnd : (tinfo.Fields.map (fun f => f.Name)).Nodup :=
      resolves_nodup _ _ (GetTypeInfo_resolves env tfuel _ tinfo ht)
    obtain ⟨h1, h2, h3, h4⟩ := marshalFieldsNS_entries env (zeroValue env tfuel) _
      (marshal_grows env _ tfuel fuel) (.struct sname fields) fl tinfo.Fields [] T Ta nsobj
      hnd hf
    have hs0 : SortedKeys [] := List.Pairwise.nil
    simp only [Prod.mk.injEq, Res.ok.injEq] at hadd
    obtain ⟨hT1, hr⟩ := hadd
    have hgrow : Grows Ta T1 := by
      rw [← hT1]
      exact add2_grows Ta _ (fun c => .dict (dictInsert "$class" (.uid c) nsobj))
    refine ⟨tinfo, dictInsert "$class"
      (.uid (addObject Ta (ArchiverClass.toObj ⟨cname, classes⟩)).1) nsobj,
      (addObject Ta (ArchiverClass.toObj ⟨cname, classes⟩)).1, rfl, ?_, ?_, ?_, ?_, ?_, ?_, ?_⟩
    · rw [← hT1, ← hr]
      exact addObject_get _ _
    · rw [← hT1]
      exact (addObject_grows _ _).getElem? _ _ (addObject_get Ta _)
    · rw [lookup_dictInsert, if_pos rfl]
    · exact sortedKeys_nodup _ (sortedKeys_dictInsert _ _ _ (h3 hs0))
    · intro key hk
      by_cases hc : key = "$class"
      · exact Or.inl hc
      · right
        rw [lookup_dictInsert, if_neg hc] at hk
        by_contra hno
        have : key ∉ tinfo.Fields.map (fun f => f.Name) := by
          intro hm
          obtain ⟨ti, hti, hn⟩ := List.mem_map.1 hm
          exact hno ⟨ti, hti, hn⟩
        rw [h2 key this] at hk
        simp at hk
    · intro ti hti hne
      obtain ⟨i, hi, A, B, ha, hb, hm⟩ := h1 ti hti
      refine ⟨i, ?_, A, B, ha, hb.trans hgrow, hm⟩
      rw [lookup_dictInsert, if_neg hne, hi]
    · intro hall
      have hlen := h4 hs0 (fun ti _ => rfl)
      rw [length_dictInsert _ _ _ (h3 hs0), hlen]
      · simp
      · have : "$class" ∉ tinfo.Fields.map (fun f => f.Name) := by
          intro hm
          obtain ⟨ti, hti, hn⟩ := List.mem_map.1 hm
          exact hall ti hti hn
        rw [h2 _ this]
        rfl
  | err e => simp [marshalStruct, ht] at h
  | panic m => simp [marshalStruct, ht] at h
  | fuel => simp [marshalStruct, ht] at h

/-- The amended claim C21 at `P{A: "a", B: 5}` with the class `P` registered: the
class in force for `P` is `{P, [P, NSObject]}`. -/
theorem custom_class_mapping_witness :
    (ArchiverAddFoundation (ArchiverAddFoundation [] (.struct "C") "C" (some ["C", "NSObject"]))
      (.struct "P") "P" (some ["P", "NSObject"])).lookup (.struct "P") =
      some { ClassName := "P", Classes := some ["P", "NSObject"] } :=
  (custom_class_mapping classKeyEnv
    (ArchiverAddFoundation [] (.struct "C") "C" (some ["C", "NSObject"])) 3 3
    [.string "$null"]
    [.string "$null", .string "a", .int .int64 5, .classRef "P" (some ["P", "NSObject"]),
      .dict [("$class", .uid 3), ("A", .uid 1), ("B", .uid 2)]]
    "P" [.string "a", .int .int 5] Flags.root 4 "P" (some ["P", "NSObject"]) (by rfl)).1

/-! ## The descriptor when no two candidates share a name -/

theorem addFieldSpec_fresh (acc : List FieldInfo) (c : FieldInfo)
    (h : ∀ f ∈ acc, f.Name ≠ c.Name) : addFieldSpec acc c = acc ++ [c] := by
  unfold addFieldSpec
  rw [if_pos]
  simp only [List.all_eq_true, bne_iff_ne, ne_eq]
  intro f hf he
  exact h f hf he.symm

theorem foldl_addFieldSpec_fresh : ∀ (new acc : List FieldInfo),
    ((acc ++ new).map (fun f => f.Name)).Nodup → new.foldl addFieldSpec acc = acc ++ new
  | [], acc, _ => by simp
  | c :: new, acc, h => by
    have hc : ∀ f ∈ acc, f.Name ≠ c.Name := by
      intro f hf he
      rw [List.map_append, List.nodup_append] at h
      exact h.2.2 (List.mem_map.2 ⟨f, hf, rfl⟩) (List.mem_map.2 ⟨c, List.mem_cons_self _ _, he.symm⟩)
    rw [List.foldl_cons, addFieldSpec_fresh acc c hc,
      foldl_addFieldSpec_fresh new (acc ++ [c]) (by simpa using h)]
    simp

theorem map_name_under (i : Nat) (cs : List FieldInfo) :
    (cs.map (FieldInfo.under i)).map (fun f => f.Name) = cs.map (fun f => f.Name) := by
  rw [List.map_map]
  rfl

theorem foldlM_fieldStep_candidates (recur : GoType → Res TypeInfo)
    (crecur : GoType → List FieldInfo)
    (hrec : ∀ t inner, recur t = .ok inner → ((crecur t).map (fun f => f.Name)).Nodup →
      inner.Fields = crecur t) :
    ∀ (l : List (Nat × StructField)) (acc out : TypeInfo),
      l.foldlM (fieldStep recur) acc = .ok out →
      ((acc.Fields ++ (l.map (fun (p : Nat × StructField) =>
          if p.2.skipped then []
          else
            match p.2.embedded with
            | some t => (crecur t).map (FieldInfo.under p.1)
            | none => [fieldInfoOf p.1 p.2])).flatten).map (fun f => f.Name)).Nodup →
      out.Fields = acc.Fields ++ (l.map (fun (p : Nat × StructField) =>
          if p.2.skipped then []
          else
            match p.2.embedded with
            | some t => (crecur t).map (FieldInfo.under p.1)
            | none => [fieldInfoOf p.1 p.2])).flatten
  | [], acc, out, h, _ => by
    simp only [List.foldlM_nil, pure, Res.ok.injEq] at h
    subst h
    simp
  | p :: l, acc, out, h, hn => by
    simp only [List.foldlM_cons, bind] at h
    simp only [List.map_cons, List.flatten_cons] at hn ⊢
    unfold fieldStep at h
    by_cases hs : p.2.skipped = true
    · simp only [hs, if_true, Res.bind] at h
      simp only [hs, if_true, List.nil_append] at hn ⊢
      exact foldlM_fieldStep_candidates recur crecur hrec l acc out h hn
    · simp only [hs, if_false] at h
      simp only [hs] at hn ⊢
      cases he : p.2.embedded with
      | none =>
        simp only [he, Res.bind] at h
        simp only [he, Bool.false_eq_true, if_false] at hn ⊢
        have hfresh : addFieldSpec acc.Fields (fieldInfoOf p.1 p.2) =
            acc.Fields ++ [fieldInfoOf p.1 p.2] := by
          apply addFieldSpec_fresh
          intro f hf hne
          rw [List.map_append, List.nodup_append] at hn
          exact hn.2.2 (List.mem_map.2 ⟨f, hf, rfl⟩)
            (List.mem_map.2 ⟨fieldInfoOf p.1 p.2, by simp, hne.symm⟩)
        rw [hfresh] at h
        have := foldlM_fieldStep_candidates recur crecur hrec l _ out h (by simpa using hn)
        rw [this]
        simp
      | some t =>
        simp only [he] at h
        simp only [he, Bool.false_eq_true, if_false] at hn ⊢
        cases hr : recur t with
        | ok inner =>
          simp only [hr, Res.bind] at h
          have hin : inner.Fields = crecur t := by
            apply hrec t inner hr
            rw [List.map_append, List.map_append, List.nodup_append] at hn
            have h2 := hn.2.1
            rw [List.nodup_append] at h2
            rw [← map_name_under p.1]
            exact h2.1
          rw [hin, foldl_addFieldSpec_fresh] at h
          · have := foldlM_fieldStep_candidates recur crecur hrec l _ out h
              (by simpa [List.append_assoc] using hn)
            rw [this]
            simp
          · rw [← List.append_assoc, List.map_append, List.nodup_append] at hn
            exact hn.1
        | err e => simp [hr, Res.bind] at h
        | panic m => simp [hr, Res.bind] at h
        | fuel => simp [hr, Res.bind] at h

theorem getTypeInfoBody_candidates (env : TypeEnv) (recur : GoType → Res TypeInfo)
    (crecur : GoType → List FieldInfo)
    (hrec : ∀ t inner, recur t = .ok inner → ((crecur t).map (fun f => f.Name)).Nodup →
      inner.Fields = crecur t)
    (typ : GoType) (tinfo : TypeInfo) (h : getTypeInfoBody env recur typ = .ok tinfo)
    (hn : ((candidatesBody env crecur typ).map (fun f => f.Name)).Nodup) :
    tinfo.Fields = candidatesBody env crecur typ := by
  by_cases hk : typ.kind = .Struct
  · obtain ⟨name, rfl⟩ := kind_struct typ hk
    rw [getTypeInfoBody_struct] at h
    have := foldlM_fieldStep_candidates recur crecur hrec _ { Fields := [] } tinfo h
      (by simpa [candidatesBody] using hn)
    simpa [candidatesBody] using this
  · rw [getTypeInfoBody_other env recur typ hk] at h
    simp only [Res.ok.injEq] at h
    subst h
    cases typ <;> first | rfl | exact absurd rfl hk

theorem GetTypeInfo_fields (env : TypeEnv) : ∀ (fuel : Nat) (typ : GoType) (tinfo : TypeInfo),
    GetTypeInfo env fuel typ = .ok tinfo →
    ((candidates env fuel typ).map (fun f => f.Name)).Nodup →
    tinfo.Fields = candidates env fuel typ
  | 0, typ, tinfo, h, hn =>
    getTypeInfoBody_candidates env _ _ (fun t inner ht => by simp at ht) typ tinfo h hn
  | fuel + 1, typ, tinfo, h, hn =>
    getTypeInfoBody_candidates env _ _
      (fun t inner ht hc => GetTypeInfo_fields env fuel t inner ht hc) typ tinfo h hn

/-- Claim C30, counterexample. In `type E struct { myInt; Base; A string; b bool }`
the embedded field `myInt` is not exported and no two candidates share a name.
`GetTypeInfo` lists it all the same, under its Go name and with the access path
`[0]`; the list the claim describes holds the exported fields only. -/
theorem unexported_embedded_field_listed :
    GetTypeInfo embedEnv 1 (.struct "E") =
      .ok { Fields := [ { idx := [0], Name := "myInt", OmitEmpty := false },
                        { idx := [1, 0], Name := "id", OmitEmpty := true },
                        { idx := [2], Name := "A", OmitEmpty := false } ] } ∧
    described embedEnv 1 (.struct "E") =
      [ { idx := [1, 0], Name := "id", OmitEmpty := true },
        { idx := [2], Name := "A", OmitEmpty := false } ] ∧
    ((candidates embedEnv 1 (.struct "E")).map (fun f => f.Name)).Nodup := by
  refine ⟨by rfl, by rfl, by decide⟩

/-- Claim C30, amended. When the embedding of structs under `typ` is at most `fuel`
levels deep and no two candidate fields share a name, `GetTypeInfo` returns the
candidates in declaration order: every field that is not tagged `-` and is exported
or anonymous; a field that is not an anonymous struct (or pointer to struct)
gives the entry `fieldInfoOf i f` (name from the tag before the first comma or the
Go name, `OmitEmpty` from the options, path `[i]`), an anonymous struct field is
replaced in place by the candidates of the embedded type with `i` in front of each
access path. -/
theorem GetTypeInfo_lists_candidates (env : TypeEnv) (fuel : Nat) (typ : GoType)
    (hd : embedsWithin env fuel typ = true)
    (hn : ((candidates env fuel typ).map (fun f => f.Name)).Nodup) :
    GetTypeInfo env fuel typ = .ok { Fields := candidates env fuel typ } := by
  obtain ⟨tinfo, ht⟩ := GetTypeInfo_ok_of_embedsWithin env fuel fuel typ hd (Nat.le_refl _)
  rw [ht, ← GetTypeInfo_fields env fuel typ tinfo ht hn]

/-- The amended claim C30 at `E`, whose embedded `Base` is one level deep. -/
theorem GetTypeInfo_lists_candidates_witness :
    GetTypeInfo embedEnv 1 (.struct "E") =
      .ok { Fields := candidates embedEnv 1 (.struct "E") } :=
  GetTypeInfo_lists_candidates embedEnv 1 (.struct "E") (by decide) (by decide)

/-! ## The printer -/

theorem printObject_succ (env : TypeEnv) (tfuel fuel : Nat) (fmt : Fmt) (objects : List Obj) :
    printObject env tfuel fmt objects (fuel + 1) =
      printBody fmt (DictionaryUnmarshal env tfuel) objects
        (printObject env tfuel fmt objects fuel) := rfl

theorem Print_root (env : TypeEnv) (tfuel fuel : Nat) (fmt : Fmt) (a : Archiver) (root : Nat)
    (o : Obj) (ht : a.Top = some root) (ho : a.Objects.get? root = some o) :
    Print env tfuel fuel fmt a = printObject env tfuel fmt a.Objects fuel o := by
  simp only [Print, ht, ho]

theorem getClass_no_uid (dictU : List (String × Obj) → GoValue → GoValue × Res Unit)
    (objects : List Obj) (d : List (String × Obj))
    (h : ∀ i, d.lookup "$class" ≠ some (.uid i)) :
    getClass dictU objects d = .panic "interface conversion: interface {} is not plist.UID" := by
  cases hl : d.lookup "$class" with
  | none => exact getClass_no_class dictU objects d hl
  | some o => exact getClass_not_uid dictU objects d o hl (fun i hi => h i (by rw [hl, hi]))

theorem printBody_dict (fmt : Fmt) (dictU : List (String × Obj) → GoValue → GoValue × Res Unit)
    (objects : List Obj) (recur : PrintFn) (pval : List (String × Obj)) :
    printBody fmt dictU objects recur (.dict pval) =
      match getClass dictU objects pval with
      | .ok cls =>
        if cls.isDate then printDate fmt dictU pval
        else if cls.isData then printData fmt dictU pval
        else if cls.isArray then printArray fmt dictU recur pval
        else if cls.isUUID then printUUID fmt dictU pval
        else if cls.isDictionary then printStruct fmt dictU objects recur pval
        else printNSType fmt recur pval
      | .err e => .panic e.Error
      | .panic m => .panic m
      | .fuel => .fuel := rfl

/-- Claim C25, counterexample. The root of `classlessArchiver` is a mapping with no
`$class` entry: whatever the renderings and however deep the recursion may go,
`Print` returns no string, and with any depth left it panics in the type
assertion of `getClass`. The root of `badDateArchiver` is an `NSDate` whose
`NS.time` is a string: `printDate` panics with the error of
`Dictionary.Unmarshal`. -/
theorem Print_aborts :
    (¬ ∃ (env : TypeEnv) (tfuel fuel : Nat) (fmt : Fmt) (s : String),
      Print env tfuel fuel fmt classlessArchiver = .ok s) ∧
    (∀ (env : TypeEnv) (tfuel fuel : Nat) (fmt : Fmt),
      Print env tfuel (fuel + 1) fmt classlessArchiver =
        .panic "interface conversion: interface {} is not plist.UID") ∧
    (∀ (fuel : Nat) (fmt : Fmt),
      Print (fun _ => []) 3 (fuel + 1) fmt badDateArchiver = .panic "not string field") := by
  have key : ∀ (env : TypeEnv) (tfuel fuel : Nat) (fmt : Fmt),
      Print env tfuel (fuel + 1) fmt classlessArchiver =
        .panic "interface conversion: interface {} is not plist.UID" := by
    intro env tfuel fuel fmt
    rw [Print_root env tfuel _ fmt classlessArchiver 1 _ rfl rfl, printObject_succ]
    rw [printBody_dict, getClass_no_class _ _ _ (by rfl)]
  refine ⟨?_, key, ?_⟩
  · rintro ⟨env, tfuel, fuel, fmt, s, h⟩
    cases fuel with
    | zero => simp [Print, classlessArchiver, printObject] at h
    | succ fuel => rw [key] at h; cases h
  · intro fuel fmt
    rfl

/-- Claim C25, amended. With `Top` set and the root inside the table, `Print`
returns the rendering of the root when the root is a string, an `int64`, a
`uint64`, a `float32`, a `float64`, a bool or a byte slice, and the leaf
`unknow : …` when the root has a type outside the type switch of `printObject`.
When the root is a mapping, `Print` panics if the mapping has no `$class`
reference or `getClass` returns an error, and it panics with the error of
`Dictionary.Unmarshal` if the class is `NSDate` and the payload does not decode
into an `archiverDate`. -/
theorem Print_root_outcomes (env : TypeEnv) (tfuel fuel : Nat) (fmt : Fmt) (a : Archiver)
    (root : Nat) (o : Obj) (ht : a.Top = some root) (ho : a.Objects.get? root = some o) :
    (∀ s, o = .string s → Print env tfuel (fuel + 1) fmt a = .ok (fmt.leaf "string(%v)" o)) ∧
    (∀ n, o = .int .int64 n → Print env tfuel (fuel + 1) fmt a = .ok (fmt.leaf "int64(%v)" o)) ∧
    (∀ n, o = .uint .uint64 n →
      Print env tfuel (fuel + 1) fmt a = .ok (fmt.leaf "uint64(%v)" o)) ∧
    (∀ f, o = .float .float32 f →
      Print env tfuel (fuel + 1) fmt a = .ok (fmt.leaf "float32(%v)" o)) ∧
    (∀ f, o = .float .float64 f →
      Print env tfuel (fuel + 1) fmt a = .ok (fmt.leaf "float64(%v)" o)) ∧
    (∀ b, o = .bool b → Print env tfuel (fuel + 1) fmt a = .ok (fmt.leaf "bool(%v)" o)) ∧
    (∀ b, o = .bytes b → Print env tfuel (fuel + 1) fmt a = .ok (fmt.leaf "[]byte(%x)" o)) ∧
    ((∀ s, o ≠ .string s) → (∀ n, o ≠ .int .int64 n) → (∀ n, o ≠ .uint .uint64 n) →
      (∀ k f, o ≠ .float k f) → (∀ b, o ≠ .bool b) → (∀ b, o ≠ .bytes b) →
      (∀ i, o ≠ .uid i) → (∀ xs, o ≠ .array xs) → (∀ d, o ≠ .dict d) →
      Print env tfuel (fuel + 1) fmt a = .ok (fmt.leaf "unknow : %v" o)) ∧
    (∀ d, o = .dict d → (∀ i, d.lookup "$class" ≠ some (.uid i)) →
      Print env tfuel (fuel + 1) fmt a =
        .panic "interface conversion: interface {} is not plist.UID") ∧
    (∀ d e, o = .dict d → getClass (DictionaryUnmarshal env tfuel) a.Objects d = .err e →
      Print env tfuel (fuel + 1) fmt a = .panic e.Error) ∧
    (∀ d cls x e, o = .dict d →
      getClass (DictionaryUnmarshal env tfuel) a.Objects d = .ok cls → cls.isDate = true →
      DictionaryUnmarshal env tfuel d newArchiverDate = (x, .err e) →
      Print env tfuel (fuel + 1) fmt a = .panic e.Error) := by
  rw [Print_root env tfuel _ fmt a root o ht ho, printObject_succ]
  refine ⟨?_, ?_, ?_, ?_, ?_, ?_, ?_, ?_, ?_, ?_, ?_⟩
  · rintro s rfl; rfl
  · rintro n rfl; rfl
  · rintro n rfl; rfl
  · rintro f rfl; rfl
  · rintro f rfl; rfl
  · rintro b rfl; rfl
  · rintro b rfl; rfl
  · intro h1 h2 h3 h4 h5 h6 h7 h8 h9
    cases o with
    | string s => exact absurd rfl (h1 s)
    | int k n => cases k <;> first | rfl | exact absurd rfl (h2 n)
    | uint k n => cases k <;> first | rfl | exact absurd rfl (h3 n)
    | float k f => exact absurd rfl (h4 k f)
    | bool b => exact absurd rfl (h5 b)
    | bytes b => exact absurd rfl (h6 b)
    | uid i => exact absurd rfl (h7 i)
    | array xs => exact absurd rfl (h8 xs)
    | dict d => exact absurd rfl (h9 d)
    | _ => rfl
  · rintro d rfl hd
    rw [printBody_dict, getClass_no_uid _ _ _ hd]
  · rintro d e rfl hg
    rw [printBody_dict, hg]
  · rintro d cls x e rfl hg hc hu
    rw [printBody_dict, hg]
    simp only [hc, if_true, printDate, hu, panicErr]

/-- The amended claim C25 at `helloArchiver`, whose root is the string `hello`. -/
theorem Print_root_outcomes_witness :
    (fun (fmt : Fmt) => Print (fun _ => []) 3 1 fmt helloArchiver) =
      fun fmt => .ok (fmt.leaf "string(%v)" (.string "hello")) :=
  funext (fun fmt =>
    (Print_root_outcomes (fun _ => []) 3 0 fmt helloArchiver 1 (.string "hello") rfl rfl).1
      "hello" rfl)

theorem encodable_plain (s : String) :
    Encodable plainEnv [] 3 1 false (.struct "S" [.string s]) := by
  have hf : ∀ (addr : Bool) (ti : FieldInfo),
      ti ∈ [({ idx := [0], Name := "A", OmitEmpty := false } : FieldInfo)] →
      fieldValue plainEnv (zeroValue plainEnv 3) (.struct "S" [.string s])
        { addr := addr, ro := false } ti = .ok (.string s, { addr := addr, ro := false }) := by
    intro addr ti hti
    rw [List.mem_singleton] at hti
    subst hti
    cases addr <;> rfl
  refine Encodable.struct 0 false "S" [.string s]
    { Fields := [ { idx := [0], Name := "A", OmitEmpty := false } ] } rfl ?_ ?_ ?_
  · intro addr ti hti
    exact ⟨_, _, hf addr ti hti⟩
  · intro addr ti hti e ffl h
    rw [hf addr ti hti] at h
    cases h
  · intro addr ti hti fv ffl h _
    rw [hf addr ti hti] at h
    cases h
    exact Encodable.string 0 false s

/-- The amended claim C22 at `[]S{{A: "a"}, {A: "b"}}`, a slice of structs. -/
theorem marshal_accepts_encodable_witness :
    ∃ T1 i, marshal plainEnv [] 3 2 [.string "$null"]
      (.slice (.struct "S") (some [.struct "S" [.string "a"], .struct "S" [.string "b"]]))
      Flags.root = (T1, .ok i) :=
  (marshal_accepts_encodable plainEnv [] 3 2 [.string "$null"] Flags.root).1 _
    (Encodable.slice 1 false (.struct "S") _ (by decide) (by
      intro x hx
      simp only [Option.getD, List.mem_cons, List.mem_singleton, List.not_mem_nil, or_false] at hx
      rcases hx with rfl | rfl
      · exact encodable_plain "a"
      · exact encodable_plain "b"))

/-! ## Round trip: the leaves -/

theorem zeroValue_leaf (env : TypeEnv) (t : GoType) (z0 : GoValue)
    (h : ∀ recur, zeroBody env recur t = some z0) : ∀ (m : Nat) (z : GoValue),
    zeroValue env m t = some z → z = z0
  | 0, z, hz => by
    rw [zeroValue, h] at hz
    exact (Option.some.inj hz).symm
  | _ + 1, z, hz => by
    rw [zeroValue, h] at hz
    exact (Option.some.inj hz).symm

theorem map_get_grows (f : Obj → Obj) (T1 T2 : List Obj) (i : Nat) (o : Obj) (hg : Grows T1 T2)
    (h : T1[i]? = some o) : (T2.map f).get? i = some (f o) := by
  rw [List.get?_eq_getElem?, List.getElem?_map, hg.getElem? i o h]
  rfl

theorem wrapInt_id (bits : Nat) (x : Int) (hb : 0 < bits) (h0 : 0 ≤ x)
    (hx : x < 2 ^ (bits - 1)) : wrapInt bits x = x := by
  unfold wrapInt
  have hp : (2 : Int) ^ bits = 2 * 2 ^ (bits - 1) := by
    have : bits = (bits - 1) + 1 := by omega
    conv_lhs => rw [this]
    rw [pow_succ]
    ring
  have hpos : (0 : Int) < 2 ^ (bits - 1) := by positivity
  rw [Int.emod_eq_of_lt (by omega) (by omega)]
  ring

theorem wrapUint_lt (bits : Nat) (x : Nat) (hx : x < 2 ^ bits) : wrapUint bits (x : Int) = x := by
  unfold wrapUint
  rw [Int.emod_eq_of_lt (by omega) (by exact_mod_cast hx)]
  simp

theorem intKind_bits_pos (k : IntKind) : 0 < k.bits := by
  cases k <;> decide

theorem intKind_bits_le (k : IntKind) : k.bits ≤ 64 := by
  cases k <;> decide

theorem uintKind_bits_le (k : UintKind) : k.bits ≤ 64 := by
  cases k <;> decide

theorem roundTrips_bool (env : TypeEnv) (reg : Registry) (tfuel : Nat) (signed : Int → Obj)
    (n : Nat) (b : Bool) : RoundTrips env reg tfuel signed n (.bool b) := by
  intro T addr _
  refine ⟨(addObject T (.bool b)).2, (addObject T (.bool b)).1, .bool b, ?_, addObject_grows T _,
    addObject_get T _, ?_⟩
  · rw [marshal_unfold]
    rfl
  · intro T2 _ _ t z m ht hz
    cases ht
    rw [zeroValue_leaf env .bool (.bool false) (fun _ => rfl) m z hz, unmarshal_unfold]
    rfl

theorem roundTrips_string (env : TypeEnv) (reg : Registry) (tfuel : Nat) (signed : Int → Obj)
    (n : Nat) (s : String) : RoundTrips env reg tfuel signed n (.string s) := by
  intro T addr h0
  by_cases hs : s = "$null"
  · refine ⟨T, 0, .string "$null", ?_, Grows.refl T, h0, ?_⟩
    · rw [marshal_string, if_pos hs]
    · intro T2 _ _ t z m ht hz
      cases ht
      rw [zeroValue_leaf env .string (.string "") (fun _ => rfl) m z hz, unmarshal_unfold, hs]
      rfl
  · refine ⟨(addObject T (.string s)).2, (addObject T (.string s)).1, .string s, ?_,
      addObject_grows T _, addObject_get T _, ?_⟩
    · rw [marshal_string, if_neg hs]
    · intro T2 _ _ t z m ht hz
      cases ht
      rw [zeroValue_leaf env .string (.string "") (fun _ => rfl) m z hz, unmarshal_unfold]
      rfl

theorem roundTrips_uint (env : TypeEnv) (reg : Registry) (tfuel : Nat) (signed : Int → Obj)
    (n : Nat) (k : UintKind) (x : Nat) (hx : x < 2 ^ k.bits) :
    RoundTrips env reg tfuel signed n (.uint k x) := by
  intro T addr _
  refine ⟨(addObject T (.uint .uint64 x)).2, (addObject T (.uint .uint64 x)).1, .uint .uint64 x,
    ?_, addObject_grows T _, addObject_get T _, ?_⟩
  · rw [marshal_unfold]
    rfl
  · intro T2 _ _ t z m ht hz
    cases ht
    rw [zeroValue_leaf env (.uint k) (.uint k 0) (fun _ => rfl) m z hz, unmarshal_unfold]
    have h64 : x < 2 ^ 64 :=
      Nat.lt_of_lt_of_le hx (Nat.pow_le_pow_right (by decide) (uintKind_bits_le k))
    have hw : wrapUint k.bits (wrapUint 64 (x : Int)) = x := by
      rw [wrapUint_lt 64 x h64, wrapUint_lt k.bits x hx]
    show (GoValue.uint k (wrapUint k.bits (wrapUint 64 (x : Int))), Res.ok ()) = _
    rw [hw]

theorem wrapInt_wrapUint (k : IntKind) (x : Int) (hlo : -(2 ^ (k.bits - 1)) ≤ x)
    (hx : x < 2 ^ (k.bits - 1)) :
    wrapInt k.bits (wrapInt 64 ((wrapUint 64 x : Nat) : Int)) = x := by
  have hnn : (0 : Int) ≤ x % 2 ^ 64 := Int.emod_nonneg _ (by norm_num)
  have hc : ((wrapUint 64 x : Nat) : Int) = x % 2 ^ 64 := by
    unfold wrapUint
    exact Int.toNat_of_nonneg hnn
  rw [hc]
  cases k <;> simp only [wrapInt, IntKind.bits] at hlo hx ⊢ <;> norm_num at hlo hx ⊢ <;> omega

theorem roundTrips_int (env : TypeEnv) (reg : Registry) (tfuel : Nat) (signed : Int → Obj)
    (n : Nat) (k : IntKind) (x : Int) (hs : signed x = .uint .uint64 (wrapUint 64 x))
    (hlo : -(2 ^ (k.bits - 1)) ≤ x) (hx : x < 2 ^ (k.bits - 1)) :
    RoundTrips env reg tfuel signed n (.int k x) := by
  intro T addr _
  refine ⟨(addObject T (.int .int64 x)).2, (addObject T (.int .int64 x)).1, .int .int64 x,
    ?_, addObject_grows T _, addObject_get T _, ?_⟩
  · rw [marshal_unfold]
    rfl
  · intro T2 _ _ t z m ht hz
    cases ht
    rw [zeroValue_leaf env (.int k) (.int k 0) (fun _ => rfl) m z hz, unmarshal_unfold]
    have hdec : decodedForm signed (.int .int64 x) = .uint .uint64 (wrapUint 64 x) := hs
    rw [hdec]
    show (GoValue.int k (wrapInt k.bits (wrapInt 64 ((wrapUint 64 x : Nat) : Int))),
      Res.ok ()) = _
    rw [wrapInt_wrapUint k x hlo hx]

theorem roundTrips_float64 (env : TypeEnv) (reg : Registry) (tfuel : Nat) (signed : Int → Obj)
    (n : Nat) (f : F64) : RoundTrips env reg tfuel signed n (.float .float64 f) := by
  intro T addr _
  refine ⟨(addObject T (.float .float64 f)).2, (addObject T (.float .float64 f)).1,
    .float .float64 f, ?_, addObject_grows T _, addObject_get T _, ?_⟩
  · rw [marshal_unfold]
    rfl
  · intro T2 _ _ t z m ht hz
    cases ht
    rw [zeroValue_leaf env (.float .float64) (.float .float64 (.num 0 0)) (fun _ => rfl) m z hz,
      unmarshal_unfold]
    rfl

theorem roundTrips_float32 (env : TypeEnv) (reg : Registry) (tfuel : Nat) (signed : Int → Obj)
    (n : Nat) (f : F64) (h32 : f.toFloat32 = f) :
    RoundTrips env reg tfuel signed n (.float .float32 f) := by
  intro T addr _
  refine ⟨(addObject T (.float .float64 f)).2, (addObject T (.float .float64 f)).1,
    .float .float64 f, ?_, addObject_grows T _, addObject_get T _, ?_⟩
  · rw [marshal_unfold]
    rfl
  · intro T2 _ _ t z m ht hz
    cases ht
    rw [zeroValue_leaf env (.float .float32) (.float .float32 (.num 0 0)) (fun _ => rfl) m z hz,
      unmarshal_unfold]
    show (GoValue.float .float32 f.toFloat32, Res.ok ()) = _
    rw [h32]

/-! ## Round trip: decoding the class descriptor and the wrappers -/

theorem zeroValue_string (env : TypeEnv) : ∀ n : Nat, zeroValue env n .string = some (.string "")
  | 0 => rfl
  | _ + 1 => rfl

theorem dictUnmarshal_string_string (env : TypeEnv) (tfuel f : Nat) (s x : String) :
    dictUnmarshal env tfuel f (.string s) (.string x) true false = (.string s, .ok ()) := by
  rw [dictUnmarshal_unfold]
  rfl

theorem dictUnmarshal_string_slice (env : TypeEnv) (tfuel f : Nat) (cs : List String)
    (xs : Option (List GoValue)) :
    dictUnmarshal env tfuel (f + 1) (.array (cs.map Obj.string)) (.slice .string xs) true false =
      (.slice .string (some (cs.map GoValue.string)), .ok ()) := by
  rw [dictUnmarshal_unfold]
  simp only [dictUnmarshalBody, ptrStep, dictUnmarshalKind, dictUnmarshalSlice, zeroValue_string,
    List.length_map, Bool.not_false, Bool.and_self, if_true]
  rw [dictUnmarshalElems_map (dictUnmarshal env tfuel f) Obj.string GoValue.string (.string "")
    (fun s => dictUnmarshal_string_string env tfuel f s "") cs]

theorem GetTypeInfo_archiverData (env : TypeEnv) : ∀ fuel : Nat,
    GetTypeInfo env fuel (.struct "plist.archiverData") =
      .ok { Fields := [ { idx := [0], Name := "NS.data", OmitEmpty := false },
                        { idx := [1], Name := "$class", OmitEmpty := false } ] }
  | 0 => rfl
  | _ + 1 => rfl

theorem DictionaryUnmarshal_class (env : TypeEnv) (tfuel : Nat) (n : String) (cs : List String) :
    DictionaryUnmarshal env (tfuel + 2)
        [("$classname", .string n), ("$classes", .array (cs.map Obj.string))] newArchiverClass =
      (.ptr (.struct "plist.archiverClass") (some (.struct "plist.archiverClass"
        [.string n, .slice .string (some (cs.map GoValue.string))])), .ok ()) := by
  unfold DictionaryUnmarshal
  rw [dictUnmarshal_unfold]
  have h1 : List.lookup "$classname"
      [("$classname", Obj.string n), ("$classes", Obj.array (cs.map Obj.string))] =
      some (.string n) := rfl
  have h2 : List.lookup "$classes"
      [("$classname", Obj.string n), ("$classes", Obj.array (cs.map Obj.string))] =
      some (.array (cs.map Obj.string)) := rfl
  simp only [dictUnmarshalBody, newArchiverClass, ptrStep, dictUnmarshalKind,
    dictUnmarshalStruct, GoValue.typ, GetTypeInfo_archiverClass, unmarshalFields, h1, h2,
    atPath_cons_struct]
  have hd : decl env "plist.archiverClass" =
      [ { Name := "ClassName", PkgPath := "", Typ := .string, Tag := "$classname",
          Anonymous := false },
        { Name := "Classes", PkgPath := "", Typ := .slice .string, Tag := "$classes",
          Anonymous := false } ] := rfl
  have hne : ("" != "") = false := by decide
  simp only [onField, hd, atPath, List.get?, hne, dictUnmarshal_string_string,
    dictUnmarshal_string_slice env (tfuel + 2) tfuel cs, List.set]

theorem getClass_decoded (env : TypeEnv) (tfuel : Nat) (signed : Int → Obj) (T : List Obj)
    (pval : List (String × Obj)) (c : Nat) (n : String) (cs : List String)
    (hc : pval.lookup "$class" = some (.uid c))
    (hT : T[c]? = some (.classRef n (some cs))) :
    getClass (DictionaryUnmarshal env (tfuel + 2)) (T.map (decodedForm signed)) pval =
      .ok { ClassName := n, Classes := some cs } := by
  have hget : (T.map (decodedForm signed)).get? c =
      some (.dict [("$classname", .string n), ("$classes", .array (cs.map Obj.string))]) := by
    rw [List.get?_eq_getElem?, List.getElem?_map, hT]
    rfl
  simp only [getClass, hc, hget, DictionaryUnmarshal_class, pointee, stringField, List.get?]
  congr 2
  rw [List.map_map]
  conv_rhs => rw [← List.map_id cs]
  rfl

theorem DictionaryUnmarshal_data (env : TypeEnv) (tfuel : Nat) (b : Option (List Nat)) (c : Nat) :
    DictionaryUnmarshal env (tfuel + 2) [("NS.data", .bytes b), ("$class", .uid c)]
        newArchiverData =
      (.ptr (.struct "plist.archiverData") (some (.struct "plist.archiverData"
        [bytesValue (.uint .uint8) b, .uid (wrapUint 64 (wrapUint 64 c))])), .ok ()) := by
  unfold DictionaryUnmarshal
  rw [dictUnmarshal_unfold]
  have h1 : List.lookup "NS.data" [("NS.data", Obj.bytes b), ("$class", Obj.uid c)] =
      some (.bytes b) := rfl
  have h2 : List.lookup "$class" [("NS.data", Obj.bytes b), ("$class", Obj.uid c)] =
      some (.uid c) := rfl
  simp only [dictUnmarshalBody, newArchiverData, ptrStep, dictUnmarshalKind,
    dictUnmarshalStruct, GoValue.typ, GetTypeInfo_archiverData, unmarshalFields, h1, h2,
    atPath_cons_struct]
  have hd : decl env "plist.archiverData" =
      [ { Name := "Data", PkgPath := "", Typ := .slice (.uint .uint8), Tag := "NS.data",
          Anonymous := false },
        { Name := "Class", PkgPath := "", Typ := .uid, Tag := "$class", Anonymous := false } ] :=
    rfl
  have hne : ("" != "") = false := by decide
  have hb : dictUnmarshal env (tfuel + 2) (tfuel + 1) (.bytes b) (.slice (.uint .uint8) none)
      true false = (bytesValue (.uint .uint8) b, .ok ()) := by
    rw [dictUnmarshal_unfold]
    rfl
  simp only [onField, hd, atPath, List.get?, hne, hb, dictUnmarshal_uid_uid, List.set]

theorem bytesOf_bytes (l : List Nat) :
    bytesOf (l.map (fun n => GoValue.uint .uint8 n)) = l := by
  unfold bytesOf
  rw [List.map_map]
  conv_rhs => rw [← List.map_id l]
  rfl

theorem bytesField_data (b : Option (List Nat)) (c : GoValue) :
    bytesField [bytesValue (.uint .uint8) b, c] 0 = b := by
  cases b with
  | none => rfl
  | some l =>
    simp only [bytesField, bytesValue, List.get?, Option.map_some']
    rw [bytesOf_bytes]

/-! ## Round trip: byte slices, instants, identifiers -/

theorem add2_class_get (T : List Obj) (cls : ArchiverClass) (o2 : Nat → Obj) :
    (addObject (addObject T cls.toObj).2 (o2 (addObject T cls.toObj).1)).2[(addObject T
      cls.toObj).1]? = some cls.toObj :=
  (addObject_grows _ _).getElem? _ _ (addObject_get T _)

theorem roundTrips_bytes (env : TypeEnv) (reg : Registry) (tfuel : Nat) (signed : Int → Obj)
    (n : Nat) (b : Option (List Nat)) :
    RoundTrips env reg (tfuel + 2) signed n (bytesValue (.uint .uint8) b) := by
  intro T addr _
  have hxs : (b.map (fun bs => bs.map (fun n => GoValue.uint .uint8 n))).map bytesOf = b := by
    cases b with
    | none => rfl
    | some l => simp only [Option.map_some', bytesOf_bytes]
  refine ⟨_, _, .dataRef b (addObject T archiverMutableDataClass.toObj).1, ?_,
    add2_grows T archiverMutableDataClass.toObj (fun c => .dataRef b c), addObject_get _ _, ?_⟩
  · rw [marshal_nonptr _ _ _ _ _ _ _ (by intro h; cases h)]
    simp only [marshalKind, bytesValue]
    rw [marshalSlice_bytes _ _ (.uint .uint8) _ _ rfl, hxs]
  · intro T2 hg _ t z m ht hz
    cases ht
    rw [zeroValue_leaf env (.slice (.uint .uint8)) (.slice (.uint .uint8) none) (fun _ => rfl)
      m z hz, unmarshal_of_kind _ _ _ _ _ _ _ _ (by decide)]
    have hcls := getClass_decoded env tfuel signed T2
      [("NS.data", .bytes b), ("$class", .uid (addObject T archiverMutableDataClass.toObj).1)]
      (addObject T archiverMutableDataClass.toObj).1 "NSMutableData"
      ["NSMutableData", "NSData", "NSObject"] rfl
      (hg.getElem? _ _ (add2_class_get T archiverMutableDataClass (fun c => .dataRef b c)))
    have hk : (GoValue.slice (.uint .uint8) none).kind = .Slice := rfl
    simp only [decodedForm, unmarshalKind, hcls, hk, unmarshalData, DictionaryUnmarshal_data,
      pointee, bytesField_data]
    rfl

theorem time_seconds (s : Int) (hs : |s - unixToCocoa| ≤ 2 ^ 53) :
    wrapInt64 (F64.toInt64 (F64.ofInt64 (wrapInt64 (s - unixToCocoa))) + unixToCocoa) = s := by
  have hc : unixToCocoa = 978307200 := by decide
  have h1 := abs_le.1 hs
  rw [hc] at h1 ⊢
  rw [wrapInt64_id (s - 978307200) (by omega),
    ofInt64_exact (s - 978307200) (by rw [abs_le]; omega),
    toInt64_int (s - 978307200) (by omega),
    wrapInt64_id (s - 978307200 + 978307200) (by omega)]
  omega

theorem roundTrips_time (env : TypeEnv) (reg : Registry) (tfuel : Nat) (signed : Int → Obj)
    (n : Nat) (s : Int) (hs : |s - unixToCocoa| ≤ 2 ^ 53) :
    RoundTrips env reg (tfuel + 2) signed n (.time s 0 .local) := by
  intro T addr _
  refine ⟨_, _, .dateRef (F64.ofInt64 (wrapInt64 (s - unixToCocoa)))
      (addObject T archiverDateClass.toObj).1, ?_,
    add2_grows T archiverDateClass.toObj
      (fun c => .dateRef (F64.ofInt64 (wrapInt64 (s - unixToCocoa))) c), addObject_get _ _, ?_⟩
  · rw [marshal_nonptr _ _ _ _ _ _ _ (by intro h; cases h)]
    rfl
  · intro T2 hg _ t z m ht hz
    cases ht
    rw [zeroValue_leaf env (.struct "time.Time") (.time (-62135596800) 0 .utc) (fun _ => rfl)
      m z hz, unmarshal_of_kind _ _ _ _ _ _ _ _ (by decide)]
    have hcls := getClass_decoded env tfuel signed T2
      [("NS.time", .float .float64 (F64.ofInt64 (wrapInt64 (s - unixToCocoa)))),
        ("$class", .uid (addObject T archiverDateClass.toObj).1)]
      (addObject T archiverDateClass.toObj).1 "NSDate" ["NSDate", "NSObject"] rfl
      (hg.getElem? _ _ (add2_class_get T archiverDateClass
        (fun c => .dateRef (F64.ofInt64 (wrapInt64 (s - unixToCocoa))) c)))
    have hk : (GoValue.time (-62135596800) 0 .utc).kind = .Struct := rfl
    have hd : ArchiverClass.isDictionary { ClassName := "NSDate", Classes := some ["NSDate", "NSObject"] }
        = false := by decide
    have hdt : (ArchiverClass.isDate { ClassName := "NSDate", Classes := some ["NSDate", "NSObject"] }
        && decide ((GoValue.time (-62135596800) 0 .utc).typ = some archiverDateType)) = true := by
      decide
    simp only [decodedForm, unmarshalKind, hcls, hk, unmarshalStructCase, hd, hdt, if_true,
      Bool.false_eq_true, if_false, unmarshalDate_decoded env (tfuel + 1), time_seconds s hs]

theorem roundTrips_uuid (env : TypeEnv) (reg : Registry) (tfuel : Nat) (signed : Int → Obj)
    (n : Nat) (b : List Nat) (hb : b.length = 16) :
    RoundTrips env reg (tfuel + 2) signed n
      (.array "uuid.UUID" (.uint .uint8) (b.map (fun x => GoValue.uint .uint8 x))) := by
  intro T addr _
  have hty : GoType.array "uuid.UUID" (b.map (fun x => GoValue.uint .uint8 x)).length
      (.uint .uint8) = archiverUUIDType := by
    rw [List.length_map, hb]
    rfl
  refine ⟨_, _, .uuidRef (some b) (addObject T archiverUUIDClass.toObj).1, ?_,
    add2_grows T archiverUUIDClass.toObj (fun c => .uuidRef (some b) c), addObject_get _ _, ?_⟩
  · rw [marshal_nonptr _ _ _ _ _ _ _ (by intro h; cases h)]
    simp only [marshalKind, hty, if_true, bytesOf_bytes, Bool.false_eq_true, if_false]
  · intro T2 hg _ t z m ht hz
    simp only [GoValue.typ, Option.some.injEq] at ht
    subst ht
    have hzt : z.typ = some archiverUUIDType ∧ z.kind = .Array := by
      cases m with
      | zero => simp [zeroValue, zeroBody] at hz
      | succ m =>
        simp only [zeroValue, zeroBody, Option.map_eq_some'] at hz
        obtain ⟨z0, _, rfl⟩ := hz
        constructor
        · simp only [GoValue.typ, List.length_replicate, List.length_map, hb]
          rfl
        · rfl
    rw [unmarshal_of_kind _ _ _ _ _ _ _ _ (by rw [hzt.2]; decide)]
    have hcls := getClass_decoded env tfuel signed T2
      [("NS.uuidbytes", .bytes (some b)), ("$class", .uid (addObject T archiverUUIDClass.toObj).1)]
      (addObject T archiverUUIDClass.toObj).1 "NSUUID" ["NSUUID", "NSObject"] rfl
      (hg.getElem? _ _ (add2_class_get T archiverUUIDClass (fun c => .uuidRef (some b) c)))
    have hu : (ArchiverClass.isUUID { ClassName := "NSUUID", Classes := some ["NSUUID", "NSObject"] }
        && decide (z.typ = some archiverUUIDType)) = true := by
      rw [hzt.1]
      decide
    have hl : List.lookup "NS.uuidbytes"
        [("NS.uuidbytes", Obj.bytes (some b)),
          ("$class", Obj.uid (addObject T archiverUUIDClass.toObj).1)] =
        some (.bytes (some b)) := rfl
    simp only [decodedForm, unmarshalKind, hcls, hzt.2, hu, if_true, hl, Option.getD_some, hb,
      setVal]
    rfl

/-! ## Round trip: slices -/

theorem roundTrips_decodes (env : TypeEnv) (reg : Registry) (tfuel : Nat) (signed : Int → Obj)
    (n : Nat) (v : GoValue) (h : RoundTrips env reg tfuel signed n v) (T : List Obj)
    (addr : Bool) (h0 : T[0]? = some (.string "$null")) :
    ∃ T1 i, marshal env reg tfuel n T v { addr := addr, ro := false } = (T1, .ok i) ∧
      Grows T T1 ∧ Decodes env tfuel signed n T1 i v := by
  obtain ⟨T1, i, o, h1, h2, h3, h4⟩ := h T addr h0
  exact ⟨T1, i, h1, h2, o, h3, h4⟩

theorem Decodes.grow {env : TypeEnv} {tfuel : Nat} {signed : Int → Obj} {n : Nat}
    {T1 T1' : List Obj} {i : Nat} {v : GoValue} (h : Decodes env tfuel signed n T1 i v)
    (hg : Grows T1 T1') : Decodes env tfuel signed n T1' i v := by
  obtain ⟨o, ho, hd⟩ := h
  exact ⟨o, hg.getElem? i o ho, fun T2 h2 hl => hd T2 (hg.trans h2) hl⟩

theorem zeroValue_typ (env : TypeEnv) (m : Nat) (t : GoType) (z : GoValue)
    (h : zeroValue env m t = some z) : z.typ = some t := by
  have key : ∀ recur : GoType → Option GoValue, zeroBody env recur t = some z →
      z.typ = some t := by
    intro recur hz
    cases t with
    | array name len e =>
      simp only [zeroBody, Option.map_eq_some'] at hz
      obtain ⟨z0, _, rfl⟩ := hz
      simp [GoValue.typ]
    | struct name =>
      simp only [zeroBody] at hz
      split at hz
      · rename_i hn
        cases hz
        rw [hn]
        rfl
      · simp only [Option.map_eq_some'] at hz
        obtain ⟨fs, _, rfl⟩ := hz
        rfl
    | _ =>
      simp only [zeroBody, Option.some.injEq] at hz
      subst hz
      rfl
  cases m with
  | zero => exact key _ h
  | succ m => exact key _ h

theorem kind_of_typ (v : GoValue) (t : GoType) (h : v.typ = some t) : v.kind = t.kind := by
  simp only [GoValue.kind, h]

theorem unmarshal_ptr_target (env : TypeEnv) (tfuel : Nat) (objects : List Obj) (n : Nat)
    (o : Obj) (e : GoType) (z : GoValue) (addr ro : Bool) (hk : z.kind ≠ .Ptr) :
    unmarshal env tfuel objects n o (.ptr e (some z)) addr ro =
      (.ptr e (some (unmarshal env tfuel objects n o z true ro).1),
        (unmarshal env tfuel objects n o z true ro).2) := by
  rw [unmarshal_of_kind env tfuel objects n o z true ro hk, unmarshal_unfold]
  rfl

theorem DictionaryUnmarshal_array (env : TypeEnv) (tfuel : Nat) (os : List Nat) (c : Nat) :
    DictionaryUnmarshal env (tfuel + 2) [("NS.objects", .array (os.map Obj.uid)), ("$class", .uid c)]
        newArchiverArray =
      (.ptr (.struct "plist.archiverArray") (some (.struct "plist.archiverArray"
        [.slice .iface (some (os.map (fun u => GoValue.iface (some (.uid u))))),
         .uid (wrapUint 64 (wrapUint 64 c))])), .ok ()) := by
  unfold DictionaryUnmarshal
  rw [dictUnmarshal_unfold]
  have h1 : List.lookup "NS.objects"
      [("NS.objects", Obj.array (os.map Obj.uid)), ("$class", Obj.uid c)] =
      some (.array (os.map Obj.uid)) := rfl
  have h2 : List.lookup "$class"
      [("NS.objects", Obj.array (os.map Obj.uid)), ("$class", Obj.uid c)] =
      some (.uid c) := rfl
  simp only [dictUnmarshalBody, newArchiverArray, ptrStep, dictUnmarshalKind,
    dictUnmarshalStruct, GoValue.typ, GetTypeInfo_archiverArray, unmarshalFields, h1, h2,
    atPath_cons_struct]
  have hd : decl env "plist.archiverArray" =
      [ { Name := "Objects", PkgPath := "", Typ := .slice .iface, Tag := "NS.objects",
          Anonymous := false },
        { Name := "Class", PkgPath := "", Typ := .uid, Tag := "$class", Anonymous := false } ] :=
    rfl
  have hne : ("" != "") = false := by decide
  simp only [onField, hd, atPath, List.get?, hne, dictUnmarshal_iface_slice env (tfuel + 2) tfuel,
    dictUnmarshal_uid_uid, List.set]

theorem marshalElems_decodes (env : TypeEnv) (tfuel : Nat) (signed : Int → Obj) (n : Nat)
    (recur : MarshalFn) (Q : GoValue → Prop) :
    ∀ (xs : List GoValue),
      (∀ x ∈ xs, Q x ∧ ∀ T, T[0]? = some (.string "$null") →
        ∃ T1 i, recur T x { addr := true, ro := false } = (T1, .ok i) ∧ Grows T T1 ∧
          Decodes env tfuel signed n T1 i x) →
      ∀ (T : List Obj) (acc : List Nat), T[0]? = some (.string "$null") →
        ∃ T1 uids, marshalElems recur false xs T acc = (T1, .ok (acc ++ uids)) ∧ Grows T T1 ∧
          List.Forall₂ (fun u x => Q x ∧ Decodes env tfuel signed n T1 u x) uids xs
  | [], _, T, acc, _ => ⟨T, [], by simp [marshalElems], Grows.refl T, List.Forall₂.nil⟩
  | x :: xs, h, T, acc, h0 => by
    obtain ⟨hq, hx⟩ := h x (List.mem_cons_self _ _)
    obtain ⟨Ta, i, hr, hg, hd⟩ := hx T h0
    obtain ⟨T1, uids, hm, hg1, hf⟩ := marshalElems_decodes env tfuel signed n recur Q xs
      (fun y hy => h y (List.mem_cons_of_mem _ hy)) Ta (acc ++ [i])
      (hg.getElem? 0 _ h0)
    refine ⟨T1, i :: uids, ?_, hg.trans hg1, List.Forall₂.cons ⟨hq, hd.grow hg1⟩ hf⟩
    simp only [marshalElems, hr, hm, List.append_assoc, List.singleton_append]

theorem unmarshalArrayLoop_items (zero : GoType → Option GoValue) (recur : UnmarshalFn)
    (objects : List Obj) (elem : GoType) (z : GoValue) (hz : zero elem = some z) :
    ∀ (uids : List Nat) (xs : List GoValue),
      List.Forall₂ (fun u x => ∃ o, objects.get? u = some o ∧
        recur o (.ptr elem (some z)) false false = (.ptr elem (some x), .ok ())) uids xs →
      ∀ acc : Option (List GoValue),
        unmarshalArrayLoop zero recur objects elem true false
            (uids.map (fun u => GoValue.iface (some (.uid u)))) acc =
          (if xs.isEmpty then acc else some (acc.getD [] ++ xs), .ok ()) := by
  intro uids xs h
  induction h with
  | nil => intro acc; simp [unmarshalArrayLoop]
  | @cons u x uids xs hux _ ih =>
    intro acc
    obtain ⟨o, ho, hr⟩ := hux
    rw [List.map_cons, unmarshalArrayLoop_step zero recur objects elem u _ acc z x o elem hz ho hr,
      ih]
    cases xs <;> simp

theorem roundTrips_slice (env : TypeEnv) (reg : Registry) (tfuel : Nat) (signed : Int → Obj)
    (n : Nat) (elem : GoType) (xs : List GoValue) (ze : GoValue)
    (hk : elem.kind ≠ .Uint8) (hkp : elem.kind ≠ .Ptr) (hne : xs ≠ [])
    (hz : zeroValue env (tfuel + 2) elem = some ze)
    (ht : ∀ x ∈ xs, x.typ = some elem)
    (hx : ∀ x ∈ xs, RoundTrips env reg (tfuel + 2) signed n x) :
    RoundTrips env reg (tfuel + 2) signed (n + 1) (.slice elem (some xs)) := by
  intro T addr h0
  obtain ⟨T1, uids, hm, hg1, hf⟩ := marshalElems_decodes env (tfuel + 2) signed n
    (marshal env reg (tfuel + 2) n) (fun x => x.typ = some elem) xs
    (fun x hxm => ⟨ht x hxm, fun T h0 =>
      roundTrips_decodes env reg (tfuel + 2) signed n x (hx x hxm) T true h0⟩) T [] h0
  rw [List.nil_append] at hm
  have hga := add2_grows T1 archiverMutableArrayClass.toObj (fun c => .arrayRef uids c)
  refine ⟨_, _, .arrayRef uids (addObject T1 archiverMutableArrayClass.toObj).1, ?_,
    hg1.trans hga, addObject_get _ _, ?_⟩
  · rw [marshal_nonptr _ _ _ _ _ _ _ (by intro h; cases h)]
    simp only [marshalKind]
    rw [marshalSlice_elems _ _ _ _ _ hk]
    simp only [seqT, Option.getD_some, hm]
  · intro T2 hg hl t z m hty hzz
    cases hty
    rw [zeroValue_leaf env (.slice elem) (.slice elem none) (fun _ => rfl) m z hzz,
      unmarshal_of_kind _ _ _ _ _ _ _ _ (by intro h; cases h)]
    have hcls := getClass_decoded env tfuel signed T2
      [("NS.objects", .array (uids.map Obj.uid)),
        ("$class", .uid (addObject T1 archiverMutableArrayClass.toObj).1)]
      (addObject T1 archiverMutableArrayClass.toObj).1 "NSMutableArray"
      ["NSMutableArray", "NSArray", "NSObject"] rfl
      (hg.getElem? _ _ (add2_class_get T1 archiverMutableArrayClass (fun c => .arrayRef uids c)))
    have hkk : (GoValue.slice elem none).kind = .Slice := rfl
    have hd : ArchiverClass.isData
        { ClassName := "NSMutableArray",
          Classes := some ["NSMutableArray", "NSArray", "NSObject"] } = false := by decide
    have ha : ArchiverClass.isArray
        { ClassName := "NSMutableArray",
          Classes := some ["NSMutableArray", "NSArray", "NSObject"] } = true := by decide
    have hzk : ze.kind ≠ .Ptr := by
      rw [kind_of_typ ze elem (zeroValue_typ env _ elem ze hz)]
      exact hkp
    have hloop := unmarshalArrayLoop_items (zeroValue env (tfuel + 2))
      (unmarshal env (tfuel + 2) (T2.map (decodedForm signed)) n)
      (T2.map (decodedForm signed)) elem ze hz uids xs
      (hf.imp (fun u x hux => by
        obtain ⟨hxt, o, ho, hdec⟩ := hux
        refine ⟨decodedForm signed o, map_get_grows _ T1 T2 u o (hga.trans hg) ho, ?_⟩
        rw [unmarshal_ptr_target _ _ _ _ _ _ _ _ _ hzk,
          hdec T2 (hga.trans hg) hl elem ze (tfuel + 2) hxt hz])) none
    have hemp : xs.isEmpty = false := by
      cases xs with
      | nil => exact absurd rfl hne
      | cons _ _ => rfl
    simp only [decodedForm, unmarshalKind, hcls, hkk, hd, ha, Bool.false_and, Bool.false_eq_true,
      if_false, if_true, unmarshalArray, DictionaryUnmarshal_array, pointee, sliceField,
      List.get?, hloop, hemp, Option.getD_none, List.nil_append]

theorem roundTrips_nilSlice (env : TypeEnv) (reg : Registry) (tfuel : Nat) (signed : Int → Obj)
    (n : Nat) (elem : GoType) (hk : elem.kind ≠ .Uint8) :
    RoundTrips env reg (tfuel + 2) signed n (.slice elem none) := by
  intro T addr h0
  have hga := add2_grows T archiverMutableArrayClass.toObj (fun c => .arrayRef [] c)
  refine ⟨_, _, .arrayRef [] (addObject T archiverMutableArrayClass.toObj).1, ?_,
    hga, addObject_get _ _, ?_⟩
  · rw [marshal_nonptr _ _ _ _ _ _ _ (by intro h; cases h)]
    simp only [marshalKind]
    rw [marshalSlice_elems _ _ _ _ _ hk]
    simp only [seqT, Option.getD_none, marshalElems]
  · intro T2 hg hl t z m hty hzz
    cases hty
    rw [zeroValue_leaf env (.slice elem) (.slice elem none) (fun _ => rfl) m z hzz,
      unmarshal_of_kind _ _ _ _ _ _ _ _ (by intro h; cases h)]
    have hcls := getClass_decoded env tfuel signed T2
      [("NS.objects", .array (([] : List Nat).map Obj.uid)),
        ("$class", .uid (addObject T archiverMutableArrayClass.toObj).1)]
      (addObject T archiverMutableArrayClass.toObj).1 "NSMutableArray"
      ["NSMutableArray", "NSArray", "NSObject"] rfl
      (hg.getElem? _ _ (add2_class_get T archiverMutableArrayClass (fun c => .arrayRef [] c)))
    have hkk : (GoValue.slice elem none).kind = .Slice := rfl
    have hd : ArchiverClass.isData
        { ClassName := "NSMutableArray",
          Classes := some ["NSMutableArray", "NSArray", "NSObject"] } = false := by decide
    have ha : ArchiverClass.isArray
        { ClassName := "NSMutableArray",
          Classes := some ["NSMutableArray", "NSArray", "NSObject"] } = true := by decide
    have hdu := DictionaryUnmarshal_array env tfuel [] (addObject T archiverMutableArrayClass.toObj).1
    simp only [List.map_nil] at hcls hdu
    simp only [decodedForm, List.map_nil, unmarshalKind, hcls, hkk, hd, ha, Bool.false_and,
      Bool.false_eq_true, if_false, if_true, unmarshalArray, hdu, pointee, sliceField,
      List.get?, unmarshalArrayLoop]

/-! ## Round trip: the walk through structs held by value -/

theorem atPath_struct {α : Type} (env : TypeEnv) (zero : GoType → Option GoValue)
    (k : GoValue → Bool → Bool → GoValue × Res α) (x : Nat) (rest : List Nat)
    (first addr ro : Bool) (name : String) (fields : List GoValue) :
    atPath env zero k (x :: rest) first addr ro (.struct name fields) =
      onField env x (.struct name fields)
        (fun fv r => atPath env zero k rest false addr r fv) := by
  cases first <;> simp [atPath]

theorem atPath_struct_flags {α : Type} (env : TypeEnv) (zero : GoType → Option GoValue)
    (k : GoValue → Bool → Bool → GoValue × Res α) (x : Nat) (rest : List Nat)
    (first first1 addr ro ro1 : Bool) (name : String) (fields : List GoValue) :
    atPath env zero k (x :: rest) first addr ro (.struct name fields) =
      atPath env zero k (x :: rest) first1 addr ro1 (.struct name fields) := by
  rw [atPath_struct, atPath_struct]

theorem onField_is_struct {α : Type} (env : TypeEnv) (x : Nat) (name : String)
    (fields : List GoValue) (cont : GoValue → Bool → GoValue × Res α) :
    ∃ fields1, (onField env x (.struct name fields) cont).1 = .struct name fields1 := by
  rcases onField_cases env x (.struct name fields) with ⟨n, fs, fv, f, h, h1, h2⟩ | ⟨m, hm⟩
  · cases h
    rw [onField_struct env x _ _ fv f cont h1 h2]
    exact ⟨_, rfl⟩
  · rw [hm]
    exact ⟨_, rfl⟩

theorem pathLoop_append (env : TypeEnv) (zero : GoType → Option GoValue)
    (g : FieldInfo → GoValue → Bool → Bool → GoValue × Res Unit) (addr ro : Bool) :
    ∀ (l1 l2 : List FieldInfo) (v w : GoValue),
      pathLoop env zero g addr ro l1 v = (w, .ok ()) →
      pathLoop env zero g addr ro (l1 ++ l2) v = pathLoop env zero g addr ro l2 w
  | [], l2, v, w, h => by
    simp only [pathLoop, Prod.mk.injEq, and_true] at h
    subst h
    rfl
  | c :: l1, l2, v, w, h => by
    simp only [List.cons_append, pathLoop] at h ⊢
    cases hw : atPath env zero (g c) c.idx true addr ro v with
    | mk v1 r =>
      rw [hw] at h
      cases r with
      | ok u => exact pathLoop_append env zero g addr ro l1 l2 v1 w h
      | err e => simp at h
      | panic m => simp at h
      | fuel => simp at h

theorem set_get_self {α : Type} (l : List α) (j : Nat) (a : α) (h : l.get? j = some a) :
    l.set j a = l := by
  rw [List.get?_eq_getElem?] at h
  apply List.ext_getElem?
  intro i
  by_cases hi : j = i
  · subst hi
    have hlt : j < l.length := by
      by_contra hc
      rw [List.getElem?_eq_none (by omega)] at h
      cases h
    rw [List.getElem?_set_self hlt, h]
  · rw [List.getElem?_set_ne hi]

/-- The loop over the fields of an embedded struct, seen from the embedder. -/
theorem pathLoop_under (env : TypeEnv) (zero : GoType → Option GoValue)
    (g : FieldInfo → GoValue → Bool → Bool → GoValue × Res Unit) (addr ro : Bool)
    (name : String) (j : Nat) (sf : StructField) (hd : (decl env name).get? j = some sf) :
    ∀ (cs : List FieldInfo) (fields : List GoValue) (s : String) (fs : List GoValue),
      (∀ c ∈ cs, ∃ x rest, c.idx = x :: rest) →
      fields.get? j = some (.struct s fs) →
      pathLoop env zero g addr ro (cs.map (FieldInfo.under j)) (.struct name fields) =
        (.struct name (fields.set j
            (pathLoop env zero (fun c => g (FieldInfo.under j c)) addr ro cs (.struct s fs)).1),
          (pathLoop env zero (fun c => g (FieldInfo.under j c)) addr ro cs (.struct s fs)).2)
  | [], fields, s, fs, _, hg => by
    simp only [List.map_nil, pathLoop]
    rw [set_get_self fields j _ hg]
  | c :: cs, fields, s, fs, hidx, hg => by
    obtain ⟨x, rest, hc⟩ := hidx c (List.mem_cons_self _ _)
    have hcs : ∀ c ∈ cs, ∃ x rest, c.idx = x :: rest :=
      fun c1 h1 => hidx c1 (List.mem_cons_of_mem _ h1)
    have hu : (FieldInfo.under j c).idx = j :: c.idx := rfl
    simp only [List.map_cons, pathLoop, hu]
    rw [atPath_struct, onField_struct env j name fields _ sf _ hg hd, hc,
      atPath_struct_flags env zero (g (FieldInfo.under j c)) x rest false true addr
        (sf.PkgPath != "") ro s fs]
    obtain ⟨fs1, hfs1⟩ : ∃ fs1, (atPath env zero (g (FieldInfo.under j c)) (x :: rest) true addr
        ro (.struct s fs)).1 = .struct s fs1 := by
      rw [atPath_struct]
      exact onField_is_struct env x s fs _
    cases hw : atPath env zero (g (FieldInfo.under j c)) (x :: rest) true addr ro (.struct s fs)
      with
    | mk w r =>
      rw [hw] at hfs1
      simp only at hfs1
      subst hfs1
      cases r with
      | ok u =>
        simp only
        rw [pathLoop_under env zero g addr ro name j sf hd cs _ s fs1 hcs
          (get?_set_self fields j _ _ hg)]
        simp only [List.set_set]
      | err e => rfl
      | panic m => rfl
      | fuel => rfl

/-- The loop over the candidates of a struct, block by block: each block leaves the
field it belongs to with its final value. -/
theorem blocks_loop (env : TypeEnv) (zero : GoType → Option GoValue)
    (g : FieldInfo → GoValue → Bool → Bool → GoValue × Res Unit) (addr ro : Bool)
    (name : String) (blockOf : Nat × StructField → List FieldInfo) :
    ∀ (drest : List StructField) (zrest frest fpre : List GoValue) (j : Nat),
      fpre.length = j → zrest.length = drest.length → frest.length = drest.length →
      (∀ i sf z x, drest[i]? = some sf → zrest[i]? = some z → frest[i]? = some x →
        ∀ pre post : List GoValue, pre.length = j + i →
          pathLoop env zero g addr ro (blockOf (j + i, sf)) (.struct name (pre ++ z :: post)) =
            (.struct name (pre ++ x :: post), .ok ())) →
      pathLoop env zero g addr ro ((drest.enumFrom j).map blockOf).flatten
          (.struct name (fpre ++ zrest)) =
        (.struct name (fpre ++ frest), .ok ())
  | [], [], [], fpre, j, _, _, _, _ => by simp [pathLoop]
  | [], _ :: _, _, _, _, _, h, _, _ => by simp at h
  | [], [], _ :: _, _, _, _, _, h, _ => by simp at h
  | _ :: _, [], _, _, _, _, h, _, _ => by simp at h
  | _ :: _, _ :: _, [], _, _, _, _, h, _ => by simp at h
  | sf :: drest, z :: zrest, x :: frest, fpre, j, hj, hz, hf, hB => by
    have h0 := hB 0 sf z x (by simp) (by simp) (by simp) fpre zrest (by simpa using hj)
    rw [Nat.add_zero] at h0
    simp only [List.enumFrom_cons, List.map_cons, List.flatten_cons]
    rw [pathLoop_append env zero g addr ro _ _ _ _ h0]
    have ih := blocks_loop env zero g addr ro name blockOf drest zrest frest (fpre ++ [x]) (j + 1)
      (by simp [hj]) (by simpa using hz) (by simpa using hf)
      (fun i sf1 z1 x1 h1 h2 h3 pre post hpre => by
        have := hB (i + 1) sf1 z1 x1 (by simpa using h1) (by simpa using h2) (by simpa using h3)
          pre post (by omega)
        rw [show j + 1 + i = j + (i + 1) by omega]
        exact this)
    simpa using ih

theorem forall₂_getElem? {α β : Type} {R : α → β → Prop} {l1 : List α} {l2 : List β}
    (h : List.Forall₂ R l1 l2) :
    ∀ (i : Nat) (a : α) (b : β), l1[i]? = some a → l2[i]? = some b → R a b := by
  induction h with
  | nil => intro i a b h1; simp at h1
  | @cons x y l1 l2 hxy _ ih =>
    intro i a b h1 h2
    cases i with
    | zero =>
      simp only [List.getElem?_cons_zero, Option.some.injEq] at h1 h2
      subst h1
      subst h2
      exact hxy
    | succ i =>
      simp only [List.getElem?_cons_succ] at h1 h2
      exact ih i a b h1 h2

theorem mapM_option_forall₂ {α β : Type} (f : α → Option β) :
    ∀ (l : List α) (out : List β), l.mapM f = some out →
      List.Forall₂ (fun a b => f a = some b) l out
  | [], out, h => by
    rw [List.mapM_nil] at h
    cases h
    exact List.Forall₂.nil
  | a :: l, out, h => by
    rw [List.mapM_cons] at h
    cases hfa : f a with
    | none =>
      rw [hfa] at h
      cases h
    | some b =>
      cases hl : l.mapM f with
      | none =>
        rw [hfa, hl] at h
        cases h
      | some bs =>
        rw [hfa, hl] at h
        cases h
        exact List.Forall₂.cons hfa (mapM_option_forall₂ f l bs hl)

theorem zeroValue_struct (env : TypeEnv) (m : Nat) (name : String) (z : GoValue)
    (hnt : name ≠ "time.Time") (h : zeroValue env m (.struct name) = some z) :
    ∃ zs, z = .struct name zs ∧
      List.Forall₂ (fun f z' => ∃ m', zeroValue env m' f.Typ = some z') (decl env name) zs := by
  cases m with
  | zero =>
    simp only [zeroValue, zeroBody, hnt, if_false, Option.map_eq_some'] at h
    obtain ⟨zs, hm, rfl⟩ := h
    refine ⟨zs, rfl, (mapM_option_forall₂ _ _ _ hm).imp (fun f z' hf => ?_)⟩
    cases hf
  | succ m =>
    simp only [zeroValue, zeroBody, hnt, if_false, Option.map_eq_some'] at h
    obtain ⟨zs, hm, rfl⟩ := h
    exact ⟨zs, rfl, (mapM_option_forall₂ _ _ _ hm).imp (fun f z' hf => ⟨m, hf⟩)⟩

/-! ## Round trip: plain structs -/

/-- What `Plain` asks of a declared field and the value held for it, `prec` telling
whether an embedded struct is plain. -/
theorem plainBody_struct (env : TypeEnv) (prec : GoValue → Prop) (name : String)
    (fields : List GoValue) :
    plainBody env prec (.struct name fields) =
      List.Forall₂ (fun (f : StructField) (fv : GoValue) =>
        f.Tag ≠ "-" ∧ fv.typ = some f.Typ ∧
          ((f.embedded = none ∧ f.PkgPath = "") ∨ (f.embedded = some f.Typ ∧ prec fv)))
        (decl env name) fields := rfl

theorem plainBody_is_struct (env : TypeEnv) (prec : GoValue → Prop) (v : GoValue)
    (h : plainBody env prec v) : ∃ name fields, v = .struct name fields := by
  cases v with
  | struct name fields => exact ⟨name, fields, rfl⟩
  | _ => exact absurd h (by simp [plainBody])

theorem plainBody_not_time (env : TypeEnv) (prec : GoValue → Prop) (name : String)
    (fields : List GoValue) (h : plainBody env prec (.struct name fields)) :
    name ≠ "time.Time" := by
  rintro rfl
  rw [plainBody_struct] at h
  have hd : decl env "time.Time" =
      [ { Name := "wall", PkgPath := "time", Typ := .uint .uint64, Tag := "", Anonymous := false },
        { Name := "ext", PkgPath := "time", Typ := .int .int64, Tag := "", Anonymous := false },
        { Name := "loc", PkgPath := "time", Typ := .ptr (.struct "time.Location"), Tag := "",
          Anonymous := false } ] := by
    unfold decl
    rw [if_pos rfl]
  rw [hd] at h
  cases h with
  | cons hc _ =>
    obtain ⟨_, _, hl | he⟩ := hc
    · exact absurd hl.2 (by decide)
    · have h1 := he.1
      simp [StructField.embedded] at h1

theorem plain_is_struct (env : TypeEnv) : ∀ (d : Nat) (v : GoValue), Plain env d v →
    ∃ name fields, v = .struct name fields ∧ name ≠ "time.Time"
  | 0, v, h => by
    obtain ⟨name, fields, rfl⟩ := plainBody_is_struct env _ v h
    exact ⟨name, fields, rfl, plainBody_not_time env _ name fields h⟩
  | d + 1, v, h => by
    obtain ⟨name, fields, rfl⟩ := plainBody_is_struct env _ v h
    exact ⟨name, fields, rfl, plainBody_not_time env _ name fields h⟩

theorem mem_candidatesBody_of (env : TypeEnv) (crec : GoType → List FieldInfo) (name : String)
    (j : Nat) (sf : StructField) (c : FieldInfo) (hj : (decl env name)[j]? = some sf)
    (hc : c ∈ (if sf.skipped then []
      else match sf.embedded with
        | some t => (crec t).map (FieldInfo.under j)
        | none => [fieldInfoOf j sf])) :
    c ∈ candidatesBody env crec (.struct name) := by
  simp only [candidatesBody, List.mem_flatten, List.mem_map]
  exact ⟨_, ⟨(j, sf), List.mem_enum_iff_getElem?.2 hj, rfl⟩, hc⟩

theorem skipped_of_leaf (sf : StructField) (ht : sf.Tag ≠ "-") (he : sf.embedded = none)
    (hp : sf.PkgPath = "") : sf.skipped = false := by
  simp [StructField.skipped, ht, hp]

theorem embedded_some (sf : StructField) (t : GoType) (h : sf.embedded = some t) :
    sf.Anonymous = true ∧ t.kind = .Struct := by
  simp only [StructField.embedded] at h
  split at h
  · rename_i hc
    simp only [Option.some.injEq] at h
    subst h
    simpa using hc
  · cases h

theorem skipped_of_embedded (sf : StructField) (t : GoType) (ht : sf.Tag ≠ "-")
    (he : sf.embedded = some t) : sf.skipped = false := by
  have ha := (embedded_some sf t he).1
  simp [StructField.skipped, ht, ha]

theorem embedded_struct (sf : StructField) (h : sf.embedded = some sf.Typ) :
    ∃ s, sf.Typ = .struct s :=
  kind_struct _ (embedded_some sf _ h).2

theorem typ_struct (v : GoValue) (s : String) (h : v.typ = some (.struct s))
    (hs : ∃ n fs, v = .struct n fs) : ∃ fs, v = .struct s fs := by
  obtain ⟨n, fs, rfl⟩ := hs
  simp only [GoValue.typ, Option.some.injEq, GoType.struct.injEq] at h
  subst h
  exact ⟨fs, rfl⟩

theorem getAt_cons (j : Nat) (rest : List Nat) (name : String) (fields : List GoValue)
    (fv : GoValue) (h : fields[j]? = some fv) :
    getAt (j :: rest) (.struct name fields) = getAt rest fv := by
  simp only [getAt, h]

/-- The decoding loop over the candidates of a plain struct, started on the zero
value of its type, ends with the struct, when the decoding of each candidate
turns a zero value of its type into the field. -/
theorem pathLoop_plainBody (env : TypeEnv) (zero : GoType → Option GoValue)
    (prec : GoValue → Prop) (crec : GoType → List FieldInfo)
    (hprec : ∀ v, prec v → ∃ s fs, v = .struct s fs ∧ s ≠ "time.Time")
    (hidx : ∀ t c, c ∈ crec t → ∃ x rest, c.idx = x :: rest)
    (hrec : ∀ (s : String) (fs : List GoValue) (Z : GoValue) (m : Nat)
      (g : FieldInfo → GoValue → Bool → Bool → GoValue × Res Unit) (addr ro : Bool),
      prec (.struct s fs) → zeroValue env m (.struct s) = some Z →
      (∀ c ∈ crec (.struct s), ∀ x, getAt c.idx (.struct s fs) = some x →
        ∀ t z m1, x.typ = some t → zeroValue env m1 t = some z →
          g c z addr false = (x, .ok ())) →
      pathLoop env zero g addr ro (crec (.struct s)) Z = (.struct s fs, .ok ()))
    (name : String) (fields : List GoValue) (Z : GoValue) (m : Nat)
    (g : FieldInfo → GoValue → Bool → Bool → GoValue × Res Unit) (addr ro : Bool)
    (hp : plainBody env prec (.struct name fields))
    (hz : zeroValue env m (.struct name) = some Z)
    (H : ∀ c ∈ candidatesBody env crec (.struct name), ∀ x,
      getAt c.idx (.struct name fields) = some x →
        ∀ t z m1, x.typ = some t → zeroValue env m1 t = some z →
          g c z addr false = (x, .ok ())) :
    pathLoop env zero g addr ro (candidatesBody env crec (.struct name)) Z =
      (.struct name fields, .ok ()) := by
  obtain ⟨zs, rfl, hzs⟩ := zeroValue_struct env m name Z (plainBody_not_time env prec name fields hp)
    hz
  rw [plainBody_struct] at hp
  have hb := blocks_loop env zero g addr ro name
    (fun (p : Nat × StructField) =>
      if p.2.skipped then []
      else match p.2.embedded with
        | some t => (crec t).map (FieldInfo.under p.1)
        | none => [fieldInfoOf p.1 p.2])
    (decl env name) zs fields [] 0 rfl hzs.length_eq.symm hp.length_eq.symm
    (fun i sf z x hsf hzi hxi pre post hpre => by
      rw [Nat.zero_add] at hpre ⊢
      obtain ⟨htag, htyp, hcase⟩ := forall₂_getElem? hp i sf x hsf hxi
      obtain ⟨m1, hz1⟩ := forall₂_getElem? hzs i sf z hsf hzi
      have hget : (pre ++ z :: post).get? i = some z := by
        rw [List.get?_eq_getElem?, List.getElem?_append_right (by omega)]
        simp [hpre]
      have hdg : (decl env name).get? i = some sf := by
        rw [List.get?_eq_getElem?]
        exact hsf
      have hset : ∀ w, (pre ++ z :: post).set i w = pre ++ w :: post := by
        intro w
        rw [List.set_append_right _ _ (by omega)]
        simp [hpre]
      rcases hcase with ⟨he, hpk⟩ | ⟨he, hpv⟩
      · have hsk := skipped_of_leaf sf htag he hpk
        have hmem : fieldInfoOf i sf ∈ candidatesBody env crec (.struct name) :=
          mem_candidatesBody_of env crec name i sf _ hsf (by simp [hsk, he])
        have hg := H _ hmem x (by
          have : (fieldInfoOf i sf).idx = [i] := rfl
          rw [this, getAt_cons i [] name fields x hxi]
          rfl) sf.Typ z m1 htyp hz1
        have hne : (sf.PkgPath != "") = false := by
          rw [hpk]
          decide
        have hidx1 : (fieldInfoOf i sf).idx = [i] := rfl
        simp only [hsk, he, Bool.false_eq_true, if_false, pathLoop, hidx1, atPath_struct,
          onField_struct env i name _ z sf _ hget hdg, atPath, hne, hg, hset]
      · have hsk := skipped_of_embedded sf _ htag he
        obtain ⟨s, fs, rfl, hst⟩ := hprec x hpv
        have hts : sf.Typ = .struct s := by
          simp only [GoValue.typ, Option.some.injEq] at htyp
          exact htyp.symm
        rw [hts] at hz1 he
        obtain ⟨zs1, rfl, _⟩ := zeroValue_struct env m1 s z hst hz1
        have hin := hrec s fs (.struct s zs1) m1 (fun c => g (FieldInfo.under i c)) addr ro hpv hz1
          (fun c hc x1 hx1 t z1 m2 ht1 hz2 =>
            H (FieldInfo.under i c)
              (mem_candidatesBody_of env crec name i sf _ hsf (by
                simp only [hsk, he, Bool.false_eq_true, if_false]
                exact List.mem_map_of_mem _ hc))
              x1 (by
                have : (FieldInfo.under i c).idx = i :: c.idx := rfl
                rw [this, getAt_cons i c.idx name fields _ hxi]
                exact hx1) t z1 m2 ht1 hz2)
        simp only [hsk, he, Bool.false_eq_true, if_false]
        rw [pathLoop_under env zero g addr ro name i sf hdg (crec (.struct s)) _ s zs1
          (hidx (.struct s)) hget, hin, hset])
  simp only [List.nil_append] at hb
  exact hb

theorem candidates_idx (env : TypeEnv) : ∀ (d : Nat) (t : GoType) (c : FieldInfo),
    c ∈ candidates env d t → ∃ x rest, c.idx = x :: rest := by
  intro d t c hc
  cases t with
  | struct name =>
    cases d with
    | zero =>
      obtain ⟨j, rest, _, h, _⟩ := mem_candidatesBody_head env _ name c hc
      exact ⟨j, rest, h⟩
    | succ d =>
      obtain ⟨j, rest, _, h, _⟩ := mem_candidatesBody_head env _ name c hc
      exact ⟨j, rest, h⟩
  | _ => cases d <;> simp [candidates, candidatesBody] at hc

theorem pathLoop_plain (env : TypeEnv) (zero : GoType → Option GoValue) :
    ∀ (d : Nat) (name : String) (fields : List GoValue) (Z : GoValue) (m : Nat)
      (g : FieldInfo → GoValue → Bool → Bool → GoValue × Res Unit) (addr ro : Bool),
      Plain env d (.struct name fields) → zeroValue env m (.struct name) = some Z →
      (∀ c ∈ candidates env d (.struct name), ∀ x, getAt c.idx (.struct name fields) = some x →
        ∀ t z m1, x.typ = some t → zeroValue env m1 t = some z →
          g c z addr false = (x, .ok ())) →
      pathLoop env zero g addr ro (candidates env d (.struct name)) Z =
        (.struct name fields, .ok ())
  | 0, name, fields, Z, m, g, addr, ro, hp, hz, H =>
    pathLoop_plainBody env zero (fun _ => False) (fun _ => []) (fun v h => h.elim)
      (fun t c h => by simp at h) (fun s fs Z m g addr ro h => h.elim) name fields Z m g addr ro
      hp hz H
  | d + 1, name, fields, Z, m, g, addr, ro, hp, hz, H =>
    pathLoop_plainBody env zero (Plain env d) (candidates env d) (plain_is_struct env d)
      (candidates_idx env d)
      (fun s fs Z m g addr ro h1 h2 h3 => pathLoop_plain env zero d s fs Z m g addr ro h1 h2 h3)
      name fields Z m g addr ro hp hz H


/-! ## Round trip: the descriptor and the fields of a plain struct -/

theorem readAt_plainBody (env : TypeEnv) (zero : GoType → Option GoValue)
    (prec : GoValue → Prop) (crec : GoType → List FieldInfo)
    (hprec : ∀ v, prec v → ∃ s fs, v = .struct s fs ∧ s ≠ "time.Time")
    (hrec : ∀ (s : String) (fs : List GoValue), prec (.struct s fs) →
      ∀ c ∈ crec (.struct s), ∃ x, getAt c.idx (.struct s fs) = some x ∧
        ∀ first addr ro, readAt env zero c.idx first addr ro (.struct s fs) = .ok (x, addr, false))
    (name : String) (fields : List GoValue) (hp : plainBody env prec (.struct name fields)) :
    ∀ c ∈ candidatesBody env crec (.struct name), ∃ x, getAt c.idx (.struct name fields) = some x ∧
      ∀ first addr ro, readAt env zero c.idx first addr ro (.struct name fields) =
        .ok (x, addr, false) := by
  intro c hc
  rw [plainBody_struct] at hp
  obtain ⟨j, sf, hj, hsk, hcase⟩ := mem_candidatesBody env crec name c hc
  have hlt : j < fields.length := by
    rw [← hp.length_eq]
    by_contra hcon
    rw [List.getElem?_eq_none (by omega)] at hj
    cases hj
  obtain ⟨fv, hfv⟩ : ∃ fv, fields[j]? = some fv := ⟨_, List.getElem?_eq_getElem hlt⟩
  obtain ⟨htag, htyp, hcond⟩ := forall₂_getElem? hp j sf fv hj hfv
  have hget : fields.get? j = some fv := by rw [List.get?_eq_getElem?]; exact hfv
  have hdg : (decl env name).get? j = some sf := by rw [List.get?_eq_getElem?]; exact hj
  rcases hcase with ⟨he, rfl⟩ | ⟨t, c1, he, hc1, rfl⟩
  · rcases hcond with ⟨_, hpk⟩ | ⟨he2, _⟩
    · have hne : (sf.PkgPath != "") = false := by
        rw [hpk]
        decide
      have hidx : (fieldInfoOf j sf).idx = [j] := rfl
      refine ⟨fv, by rw [hidx, getAt_cons j [] name fields fv hfv]; rfl, ?_⟩
      intro first addr ro
      simp only [readAt, hidx, atPath_struct, onField_struct env j name fields fv sf _ hget hdg,
        atPath, hne]
    · rw [he] at he2
      cases he2
  · rcases hcond with ⟨he2, _⟩ | ⟨he2, hpv⟩
    · rw [he] at he2
      cases he2
    · rw [he] at he2
      simp only [Option.some.injEq] at he2
      subst he2
      obtain ⟨s, fs, rfl, _⟩ := hprec fv hpv
      have hts : sf.Typ = .struct s := by
        simp only [GoValue.typ, Option.some.injEq] at htyp
        exact htyp.symm
      rw [hts] at hc1
      obtain ⟨x, hx, hr⟩ := hrec s fs hpv c1 hc1
      have hidx : (FieldInfo.under j c1).idx = j :: c1.idx := rfl
      refine ⟨x, by rw [hidx, getAt_cons j c1.idx name fields _ hfv]; exact hx, ?_⟩
      intro first addr ro
      have := hr false addr (sf.PkgPath != "")
      simp only [readAt] at this ⊢
      rw [hidx, atPath_struct, onField_struct env j name fields _ sf _ hget hdg]
      exact this

theorem readAt_plain (env : TypeEnv) (zero : GoType → Option GoValue) :
    ∀ (d : Nat) (name : String) (fields : List GoValue), Plain env d (.struct name fields) →
      ∀ c ∈ candidates env d (.struct name), ∃ x, getAt c.idx (.struct name fields) = some x ∧
        ∀ first addr ro, readAt env zero c.idx first addr ro (.struct name fields) =
          .ok (x, addr, false)
  | 0, name, fields, hp =>
    readAt_plainBody env zero (fun _ => False) (fun _ => []) (fun v h => h.elim)
      (fun s fs h => h.elim) name fields hp
  | d + 1, name, fields, hp =>
    readAt_plainBody env zero (Plain env d) (candidates env d) (plain_is_struct env d)
      (fun s fs h => readAt_plain env zero d s fs h) name fields hp

theorem fieldValue_of_readAt (env : TypeEnv) (zero : GoType → Option GoValue) (val : GoValue)
    (addr : Bool) (c : FieldInfo) (x : GoValue) (a r : Bool)
    (h : readAt env zero c.idx true addr false val = .ok (x, a, r)) :
    fieldValue env zero val { addr := addr, ro := false } c = .ok (x, { addr := a, ro := r }) := by
  simp only [readAt] at h
  simp only [fieldValue, Bool.false_eq_true, if_false, h, Bool.false_or]

theorem embedsWithinBody_plain (env : TypeEnv) (prec : GoValue → Prop) (erec : GoType → Bool)
    (hrec : ∀ v t, prec v → v.typ = some t → erec t = true)
    (name : String) (fields : List GoValue) (hp : plainBody env prec (.struct name fields)) :
    embedsWithinBody env erec (.struct name) = true := by
  rw [plainBody_struct] at hp
  simp only [embedsWithinBody, List.all_eq_true]
  intro f hf
  obtain ⟨j, hj⟩ := List.mem_iff_getElem?.1 hf
  have hlt : j < fields.length := by
    rw [← hp.length_eq]
    by_contra hcon
    rw [List.getElem?_eq_none (by omega)] at hj
    cases hj
  obtain ⟨fv, hfv⟩ : ∃ fv, fields[j]? = some fv := ⟨_, List.getElem?_eq_getElem hlt⟩
  obtain ⟨htag, htyp, hcond⟩ := forall₂_getElem? hp j f fv hj hfv
  rcases hcond with ⟨he, _⟩ | ⟨he, hpv⟩
  · simp [he]
  · simp [he, hrec fv f.Typ hpv htyp]

theorem embedsWithin_plain (env : TypeEnv) : ∀ (d : Nat) (v : GoValue) (t : GoType),
    Plain env d v → v.typ = some t → embedsWithin env d t = true
  | 0, v, t, hp, ht => by
    obtain ⟨name, fields, rfl⟩ := plainBody_is_struct env _ v hp
    cases ht
    exact embedsWithinBody_plain env (fun _ => False) _ (fun v t h => h.elim) name fields hp
  | d + 1, v, t, hp, ht => by
    obtain ⟨name, fields, rfl⟩ := plainBody_is_struct env _ v hp
    cases ht
    exact embedsWithinBody_plain env (Plain env d) _ (embedsWithin_plain env d) name fields hp

theorem GetTypeInfo_plain (env : TypeEnv) (d : Nat) (name : String) (fields : List GoValue)
    (hp : Plain env d (.struct name fields))
    (hnames : ((candidates env d (.struct name)).map (fun c => c.Name)).Nodup) :
    GetTypeInfo env d (.struct name) = .ok { Fields := candidates env d (.struct name) } := by
  obtain ⟨tinfo, ht⟩ := GetTypeInfo_ok_of_embedsWithin env d d (.struct name)
    (embedsWithin_plain env d _ _ hp rfl) (Nat.le_refl _)
  have hf := GetTypeInfo_fields env d (.struct name) tinfo ht hnames
  rw [ht, ← hf]

theorem unmarshalFields_pathLoop (env : TypeEnv) (zero : GoType → Option GoValue)
    (recur : UnmarshalFn) (kvs : List (String × Obj)) (addr ro : Bool) (dv : FieldInfo → Obj) :
    ∀ (F : List FieldInfo) (val : GoValue),
      (∀ c ∈ F, kvs.lookup c.Name = some (dv c)) →
      unmarshalFields env zero recur kvs addr ro F val =
        pathLoop env zero (fun c fv a r => recur (dv c) fv a r) addr ro F val
  | [], val, _ => rfl
  | c :: F, val, h => by
    have hc := h c (List.mem_cons_self _ _)
    have hF : ∀ c1 ∈ F, kvs.lookup c1.Name = some (dv c1) :=
      fun c1 h1 => h c1 (List.mem_cons_of_mem _ h1)
    simp only [unmarshalFields, pathLoop, hc]
    cases hw : atPath env zero (fun fv a r => recur (dv c) fv a r) c.idx true addr ro val with
    | mk w r =>
      cases r with
      | ok u => exact unmarshalFields_pathLoop env zero recur kvs addr ro dv F w hF
      | err e => rfl
      | panic m => rfl
      | fuel => rfl

theorem unmarshalNSFields_pathLoop (env : TypeEnv) (zero : GoType → Option GoValue)
    (recur : UnmarshalFn) (objects : List Obj) (pval : List (String × Obj)) (addr ro : Bool)
    (dv : FieldInfo → Obj) :
    ∀ (F : List FieldInfo) (val : GoValue),
      (∀ c ∈ F, ∃ u, pval.lookup c.Name = some (.uid u) ∧ objects.get? u = some (dv c)) →
      unmarshalNSFields env zero recur objects pval addr ro F val =
        pathLoop env zero (fun c fv a r => recur (dv c) fv a r) addr ro F val
  | [], val, _ => rfl
  | c :: F, val, h => by
    obtain ⟨u, hl, hu⟩ := h c (List.mem_cons_self _ _)
    have hF : ∀ c1 ∈ F, ∃ u, pval.lookup c1.Name = some (.uid u) ∧
        objects.get? u = some (dv c1) := fun c1 h1 => h c1 (List.mem_cons_of_mem _ h1)
    simp only [unmarshalNSFields, pathLoop, hl, hu]
    cases hw : atPath env zero (fun fv a r => recur (dv c) fv a r) c.idx true addr ro val with
    | mk w r =>
      cases r with
      | ok u => exact unmarshalNSFields_pathLoop env zero recur objects pval addr ro dv F w hF
      | err e => rfl
      | panic m => rfl
      | fuel => rfl

/-! ## Round trip: structs -/

theorem forall₂_split {α β γ : Type} {P : α → γ → Prop} {Q : γ → β → Prop} {l1 : List α}
    {l2 : List β} (h : List.Forall₂ (fun a b => ∃ c, P a c ∧ Q c b) l1 l2) :
    ∃ l3, List.Forall₂ P l1 l3 ∧ List.Forall₂ Q l3 l2 := by
  induction h with
  | nil => exact ⟨[], List.Forall₂.nil, List.Forall₂.nil⟩
  | @cons x y l1 l2 hxy _ ih =>
    obtain ⟨c, hp, hq⟩ := hxy
    obtain ⟨l3, h1, h2⟩ := ih
    exact ⟨c :: l3, List.Forall₂.cons hp h1, List.Forall₂.cons hq h2⟩

theorem lookup_of_mem_nodup {β : Type} (a : String) (b : β) :
    ∀ l : List (String × β), (l.map Prod.fst).Nodup → (a, b) ∈ l → l.lookup a = some b
  | [], _, h => by simp at h
  | (a', b') :: l, hn, h => by
    rw [List.map_cons, List.nodup_cons] at hn
    rcases List.mem_cons.1 h with heq | hmem
    · cases heq
      simp [List.lookup]
    · have hne : a ≠ a' := by
        intro he
        subst he
        exact hn.1 (List.mem_map.2 ⟨(a, b), hmem, rfl⟩)
      have hb : (a == a') = false := by simpa using hne
      simp only [List.lookup, hb]
      exact lookup_of_mem_nodup a b l hn.2 hmem

theorem lookup_zip_reverse {β : Type} (names : List String) (vals : List β)
    (hn : names.Nodup) (hlen : names.length = vals.length) (i : Nat) (nm : String) (v : β)
    (h1 : names[i]? = some nm) (h2 : vals[i]? = some v) :
    ((names.zip vals).reverse).lookup nm = some v := by
  apply lookup_of_mem_nodup
  · rw [List.map_reverse, List.nodup_reverse, List.map_fst_zip _ _ (by omega)]
    exact hn
  · rw [List.mem_reverse, List.mem_iff_getElem?]
    exact ⟨i, List.getElem?_zip_eq_some.2 ⟨h1, h2⟩⟩

theorem marshalFieldsTable_decodes (env : TypeEnv) (tfuel : Nat) (signed : Int → Obj) (n : Nat)
    (zero : GoType → Option GoValue) (recur : MarshalFn) (val : GoValue) (fl : Flags)
    (Q : GoValue → Prop) :
    ∀ (tis : List FieldInfo) (fvs : List GoValue),
      List.Forall₂ (fun ti fv => Q fv ∧ ∀ T, T[0]? = some (.string "$null") →
        ∃ T1 i, marshalField env zero recur T val fl ti = (T1, .ok i) ∧ Grows T T1 ∧
          Decodes env tfuel signed n T1 i fv) tis fvs →
      ∀ (T : List Obj) (keys objects : List Nat), T[0]? = some (.string "$null") →
        ∃ T1 ks os, marshalFieldsTable env zero recur val fl tis T keys objects =
            (T1, .ok (keys ++ ks, objects ++ os)) ∧ Grows T T1 ∧
          List.Forall₂ (fun k ti => T1[k]? = some (.string ti.Name)) ks tis ∧
          List.Forall₂ (fun u fv => Q fv ∧ Decodes env tfuel signed n T1 u fv) os fvs := by
  intro tis fvs h
  induction h with
  | nil =>
    intro T keys objects _
    exact ⟨T, [], [], by simp [marshalFieldsTable], Grows.refl T, List.Forall₂.nil,
      List.Forall₂.nil⟩
  | @cons ti fv tis fvs hhead _ ih =>
    intro T keys objects h0
    obtain ⟨hq, hx⟩ := hhead
    obtain ⟨Ta, i, hr, hg, hd⟩ := hx T h0
    have hgk := addObject_grows Ta (.string ti.Name)
    obtain ⟨T1, ks, os, hm, hg1, hks, hos⟩ := ih (addObject Ta (.string ti.Name)).2
      (keys ++ [(addObject Ta (.string ti.Name)).1]) (objects ++ [i])
      (hgk.getElem? 0 _ (hg.getElem? 0 _ h0))
    refine ⟨T1, (addObject Ta (.string ti.Name)).1 :: ks, i :: os, ?_, hg.trans (hgk.trans hg1),
      List.Forall₂.cons (hg1.getElem? _ _ (addObject_get Ta _)) hks,
      List.Forall₂.cons ⟨hq, hd.grow (hgk.trans hg1)⟩ hos⟩
    simp only [marshalFieldsTable, hr, hm, List.append_assoc, List.singleton_append]


theorem forall₂_of_forall_mem {α β : Type} (R : α → β → Prop) :
    ∀ l : List α, (∀ a ∈ l, ∃ b, R a b) → ∃ l2, List.Forall₂ R l l2
  | [], _ => ⟨[], List.Forall₂.nil⟩
  | a :: l, h => by
    obtain ⟨b, hb⟩ := h a (List.mem_cons_self _ _)
    obtain ⟨l2, h2⟩ := forall₂_of_forall_mem R l (fun x hx => h x (List.mem_cons_of_mem _ hx))
    exact ⟨b :: l2, List.Forall₂.cons hb h2⟩

theorem getAt_unique (idx : List Nat) (v x y : GoValue) (h1 : getAt idx v = some x)
    (h2 : getAt idx v = some y) : x = y := by
  rw [h1] at h2
  exact Option.some.inj h2

theorem getClass_decoded_any (env : TypeEnv) (tfuel : Nat) (signed : Int → Obj) (T : List Obj)
    (pval : List (String × Obj)) (c : Nat) (cls : ArchiverClass)
    (hc : pval.lookup "$class" = some (.uid c)) (hT : T[c]? = some cls.toObj) :
    getClass (DictionaryUnmarshal env (tfuel + 2)) (T.map (decodedForm signed)) pval =
      .ok { ClassName := cls.ClassName, Classes := some (cls.Classes.getD []) } := by
  have hget : (T.map (decodedForm signed)).get? c =
      some (.dict [("$classname", .string cls.ClassName),
        ("$classes", .array ((cls.Classes.getD []).map Obj.string))]) := by
    rw [List.get?_eq_getElem?, List.getElem?_map, hT]
    rfl
  simp only [getClass, hc, hget, DictionaryUnmarshal_class, pointee, stringField, List.get?]
  congr 2
  rw [List.map_map]
  conv_rhs => rw [← List.map_id (cls.Classes.getD [])]
  rfl

/-- The first loop of `marshalStruct` on fields whose values round-trip: the mapping
it builds gives every field name the reference of an entry that decodes to the
value of the field. -/
theorem marshalFieldsNS_decodes (env : TypeEnv) (tfuel : Nat) (signed : Int → Obj) (n : Nat)
    (zero : GoType → Option GoValue) (recur : MarshalFn) (val : GoValue) (fl : Flags) :
    ∀ (tis : List FieldInfo) (fvs : List GoValue),
      List.Forall₂ (fun ti fv => ∀ T, T[0]? = some (.string "$null") →
        ∃ T1 i, marshalField env zero recur T val fl ti = (T1, .ok i) ∧ Grows T T1 ∧
          Decodes env tfuel signed n T1 i fv) tis fvs →
      (tis.map (fun ti => ti.Name)).Nodup →
      ∀ (T : List Obj) (nsobj : List (String × Obj)), T[0]? = some (.string "$null") →
        ∃ T1 out us, marshalFieldsNS env zero recur val fl tis T nsobj = (T1, .ok out) ∧
          Grows T T1 ∧
          List.Forall₂ (fun u fv => Decodes env tfuel signed n T1 u fv) us fvs ∧
          List.Forall₂ (fun ti u => out.lookup ti.Name = some (.uid u)) tis us ∧
          (∀ key, key ∉ tis.map (fun ti => ti.Name) → out.lookup key = nsobj.lookup key) := by
  intro tis fvs h
  induction h with
  | nil =>
    intro _ T nsobj _
    exact ⟨T, nsobj, [], by simp [marshalFieldsNS], Grows.refl T, List.Forall₂.nil,
      List.Forall₂.nil, fun _ _ => rfl⟩
  | @cons ti fv tis fvs hhead _ ih =>
    intro hnd T nsobj h0
    rw [List.map_cons, List.nodup_cons] at hnd
    obtain ⟨Ta, i, hr, hg, hd⟩ := hhead T h0
    obtain ⟨T1, out, us, hm, hg1, hus, hlk, hfr⟩ := ih hnd.2 Ta
      (dictInsert ti.Name (.uid i) nsobj) (hg.getElem? 0 _ h0)
    refine ⟨T1, out, i :: us, ?_, hg.trans hg1, List.Forall₂.cons (hd.grow hg1) hus,
      List.Forall₂.cons ?_ hlk, ?_⟩
    · simp only [marshalFieldsNS, hr, hm]
    · rw [hfr _ hnd.1, lookup_dictInsert, if_pos rfl]
    · intro key hk
      simp only [List.map_cons, List.mem_cons, not_or] at hk
      rw [hfr key hk.2, lookup_dictInsert, if_neg hk.1]

/-- The decoding loop over the candidates of a plain struct, each decoded from an
entry that decodes to the field, rebuilds the struct in a zero value. -/
theorem pathLoop_decodes (env : TypeEnv) (tfuel : Nat) (signed : Int → Obj) (n : Nat)
    (name : String) (fields : List GoValue) (T1 T2 : List Obj) (hg : Grows T1 T2)
    (hl : T2.length ≤ 2 ^ 64) (Z : GoValue) (m : Nat)
    (hplain : Plain env (tfuel + 2) (.struct name fields))
    (hz : zeroValue env m (.struct name) = some Z)
    (xs : List GoValue) (us : List Nat) (dv : FieldInfo → Obj)
    (hxs : List.Forall₂ (fun c x => getAt c.idx (.struct name fields) = some x)
      (candidates env (tfuel + 2) (.struct name)) xs)
    (hus : List.Forall₂ (fun u x => Decodes env (tfuel + 2) signed n T1 u x) us xs)
    (hdv : ∀ (i : Nat) (c : FieldInfo) (u : Nat) (o : Obj), (candidates env (tfuel + 2) (.struct name))[i]? = some c →
      us[i]? = some u → T1[u]? = some o → dv c = decodedForm signed o) :
    pathLoop env (zeroValue env (tfuel + 2))
        (fun c fv a r => unmarshal env (tfuel + 2) (T2.map (decodedForm signed)) n (dv c) fv a r)
        true false (candidates env (tfuel + 2) (.struct name)) Z =
      (.struct name fields, .ok ()) := by
  apply pathLoop_plain env _ (tfuel + 2) name fields Z m _ true false hplain hz
  intro c hc x hx t z m1 ht hz1
  obtain ⟨i, hi⟩ := List.mem_iff_getElem?.1 hc
  have hlt : i < xs.length := by
    rw [← hxs.length_eq]
    by_contra hcon
    rw [List.getElem?_eq_none (by omega)] at hi
    cases hi
  obtain ⟨x1, hx1⟩ : ∃ x1, xs[i]? = some x1 := ⟨_, List.getElem?_eq_getElem hlt⟩
  have hxe := getAt_unique c.idx _ x x1 hx (forall₂_getElem? hxs i c x1 hi hx1)
  subst hxe
  obtain ⟨u, hu⟩ : ∃ u, us[i]? = some u :=
    ⟨_, List.getElem?_eq_getElem (by rw [hus.length_eq]; exact hlt)⟩
  obtain ⟨o, ho, hdec⟩ := forall₂_getElem? hus i u x hu hx1
  show unmarshal env (tfuel + 2) (T2.map (decodedForm signed)) n (dv c) z true false = (x, .ok ())
  rw [hdv i c u o hi hu ho]
  exact hdec T2 hg hl t z m1 ht hz1


/-- The fields of a plain struct whose values round-trip: each candidate field is
read without a read-only flag and its value is encoded in an entry that decodes
to it. -/
theorem plain_fields_marshal (env : TypeEnv) (reg : Registry) (tfuel : Nat) (signed : Int → Obj)
    (n : Nat) (name : String) (fields : List GoValue) (addr : Bool)
    (hplain : Plain env (tfuel + 2) (.struct name fields))
    (hx : ∀ c ∈ candidates env (tfuel + 2) (.struct name), ∀ x,
      getAt c.idx (.struct name fields) = some x → RoundTrips env reg (tfuel + 2) signed n x) :
    ∃ xs, List.Forall₂ (fun c x => getAt c.idx (.struct name fields) = some x)
        (candidates env (tfuel + 2) (.struct name)) xs ∧
      List.Forall₂ (fun ti fv => ∀ T : List Obj, T[0]? = some (.string "$null") →
        ∃ T1 i, marshalField env (zeroValue env (tfuel + 2)) (marshal env reg (tfuel + 2) n) T
            (.struct name fields) { addr := addr, ro := false } ti = (T1, .ok i) ∧ Grows T T1 ∧
          Decodes env (tfuel + 2) signed n T1 i fv)
        (candidates env (tfuel + 2) (.struct name)) xs := by
  obtain ⟨xs, hxs⟩ := forall₂_of_forall_mem
    (fun (c : FieldInfo) (x : GoValue) => getAt c.idx (.struct name fields) = some x ∧
      ∀ T : List Obj, T[0]? = some (.string "$null") →
        ∃ T1 i, marshalField env (zeroValue env (tfuel + 2)) (marshal env reg (tfuel + 2) n) T
            (.struct name fields) { addr := addr, ro := false } c = (T1, .ok i) ∧ Grows T T1 ∧
          Decodes env (tfuel + 2) signed n T1 i x)
    (candidates env (tfuel + 2) (.struct name))
    (fun c hc => by
      obtain ⟨x, hg, hr⟩ := readAt_plain env (zeroValue env (tfuel + 2)) (tfuel + 2) name fields
        hplain c hc
      refine ⟨x, hg, fun T h0 => ?_⟩
      have hfv := fieldValue_of_readAt env (zeroValue env (tfuel + 2)) (.struct name fields) addr
        c x addr false (hr true addr false)
      simp only [marshalField, hfv]
      exact roundTrips_decodes env reg (tfuel + 2) signed n x (hx c hc x hg) T addr h0)
  exact ⟨xs, hxs.imp (fun _ _ h => h.1), hxs.imp (fun _ _ h => h.2)⟩

theorem plain_not_time (env : TypeEnv) (d : Nat) (name : String) (fields : List GoValue)
    (h : Plain env d (.struct name fields)) : name ≠ "time.Time" := by
  cases d with
  | zero => exact plainBody_not_time env _ name fields h
  | succ d => exact plainBody_not_time env _ name fields h

theorem getElem?_lt {α : Type} (l : List α) (i : Nat) (a : α) (h : l[i]? = some a) :
    i < l.length := by
  by_contra hc
  rw [List.getElem?_eq_none (by omega)] at h
  cases h

theorem roundTrips_struct_table (env : TypeEnv) (reg : Registry) (tfuel : Nat)
    (signed : Int → Obj) (n : Nat) (name : String) (fields : List GoValue)
    (hreg : reg.lookup (.struct name) = none)
    (hplain : Plain env (tfuel + 2) (.struct name fields))
    (hnames : ((candidates env (tfuel + 2) (.struct name)).map (fun c => c.Name)).Nodup)
    (hx : ∀ c ∈ candidates env (tfuel + 2) (.struct name), ∀ x,
      getAt c.idx (.struct name fields) = some x → RoundTrips env reg (tfuel + 2) signed n x) :
    RoundTrips env reg (tfuel + 2) signed (n + 1) (.struct name fields) := by
  intro T addr h0
  have hti := GetTypeInfo_plain env (tfuel + 2) name fields hplain hnames
  obtain ⟨xs, hxs, hP0⟩ := plain_fields_marshal env reg tfuel signed n name fields addr hplain hx
  have hP : List.Forall₂ (fun ti fv => True ∧ ∀ T : List Obj, T[0]? = some (.string "$null") →
      ∃ T1 i, marshalField env (zeroValue env (tfuel + 2)) (marshal env reg (tfuel + 2) n) T
          (.struct name fields) { addr := addr, ro := false } ti = (T1, .ok i) ∧ Grows T T1 ∧
        Decodes env (tfuel + 2) signed n T1 i fv)
      (candidates env (tfuel + 2) (.struct name)) xs := hP0.imp (fun _ _ h => ⟨trivial, h⟩)
  obtain ⟨T1, ks, os, hm, hg1, hks, hos⟩ := marshalFieldsTable_decodes env (tfuel + 2) signed n
    (zeroValue env (tfuel + 2)) (marshal env reg (tfuel + 2) n) (.struct name fields)
    { addr := addr, ro := false } (fun _ => True) _ _ hP T [] [] h0
  simp only [List.nil_append] at hm
  have hga := add2_grows T1 archiverMutableDictionaryClass.toObj (fun c => .tableRef ks os c)
  refine ⟨_, _, .tableRef ks os (addObject T1 archiverMutableDictionaryClass.toObj).1, ?_,
    hg1.trans hga, addObject_get _ _, ?_⟩
  · rw [marshal_nonptr _ _ _ _ _ _ _ (by intro h; cases h)]
    simp only [marshalKind]
    rw [marshalStruct_table env reg _ _ _ T name fields _ _ hti hreg]
    simp only [seqT, hm]
  · intro T2 hg hl t z m hty hzz
    cases hty
    have hgT := hga.trans hg
    have hos1 : List.Forall₂ (fun u fv => Decodes env (tfuel + 2) signed n T1 u fv) os xs :=
      hos.imp (fun u fv h => h.2)
    obtain ⟨objs, hobj, hdec⟩ := forall₂_split (hos1.imp (fun u fv h => h))
    have hbound : ∀ (i : Nat) (o : Obj), T2[i]? = some o → i < 2 ^ 64 := by
      intro i o hi
      have := getElem?_lt T2 i o hi
      omega
    have hclsget := hg.getElem? _ _ (add2_class_get T1 archiverMutableDictionaryClass
      (fun c => .tableRef ks os c))
    have hnt := plain_not_time env (tfuel + 2) name fields hplain
    obtain ⟨zs, rfl, _⟩ := zeroValue_struct env m name z hnt hzz
    rw [unmarshal_of_kind _ _ _ _ _ _ _ _ (by intro h; cases h)]
    have hcls := getClass_decoded env tfuel signed T2
      [("NS.keys", .array (ks.map Obj.uid)), ("NS.objects", .array (os.map Obj.uid)),
        ("$class", .uid (addObject T1 archiverMutableDictionaryClass.toObj).1)]
      (addObject T1 archiverMutableDictionaryClass.toObj).1 "NSMutableDictionary"
      ["NSMutableDictionary", "NSDictionary", "NSObject"] rfl hclsget
    have hkk : (GoValue.struct name zs).kind = .Struct := rfl
    have hd : ArchiverClass.isDictionary
        { ClassName := "NSMutableDictionary",
          Classes := some ["NSMutableDictionary", "NSDictionary", "NSObject"] } = true := by
      decide
    have hlen : xs.length = (candidates env (tfuel + 2) (.struct name)).length :=
      hxs.length_eq.symm
    simp only [decodedForm, unmarshalKind, hcls, hkk, unmarshalStructCase, hd, if_true]
    rw [unmarshalStruct_table env tfuel _ (T2.map (decodedForm signed))
      [("NS.keys", .array (ks.map Obj.uid)), ("NS.objects", .array (os.map Obj.uid)),
        ("$class", .uid (addObject T1 archiverMutableDictionaryClass.toObj).1)]
      (.struct name zs) true
      false (.struct name) _ ks os (addObject T1 archiverMutableDictionaryClass.toObj).1
      ((candidates env (tfuel + 2) (.struct name)).map (fun c => c.Name))
      (objs.map (decodedForm signed)) rfl hti rfl rfl rfl
      (fun k hk => by
        obtain ⟨j, hj⟩ := List.mem_iff_getElem?.1 hk
        have hlt := getElem?_lt ks j k hj
        have hlk := hks.length_eq
        obtain ⟨ti, hti1⟩ : ∃ ti, (candidates env (tfuel + 2) (.struct name))[j]? = some ti :=
          ⟨_, List.getElem?_eq_getElem (by omega)⟩
        exact hbound k _ (hgT.getElem? _ _ (forall₂_getElem? hks j k ti hj hti1)))
      (hbound _ _ hclsget)
      (by rw [hks.length_eq, hos.length_eq, hlen])
      (by
        rw [List.forall₂_map_right_iff]
        exact hks.imp (fun k ti hk => map_get_grows (decodedForm signed) T1 T2 k _ hgT hk))
      (by
        rw [List.forall₂_map_right_iff]
        exact hobj.imp (fun u o hu => map_get_grows (decodedForm signed) T1 T2 u o hgT hu))]
    have hol : objs.length = os.length := hobj.length_eq.symm
    have hosl : os.length = xs.length := hos.length_eq
    dsimp only
    rw [unmarshalFields_pathLoop env (zeroValue env (tfuel + 2)) _ _ true false
      (fun c => ((((candidates env (tfuel + 2) (.struct name)).map (fun c => c.Name)).zip
        (objs.map (decodedForm signed))).reverse.lookup c.Name).getD .null)
      _ _
      (fun c hc => by
        obtain ⟨i, hi⟩ := List.mem_iff_getElem?.1 hc
        have hlt := getElem?_lt _ i c hi
        obtain ⟨o, ho⟩ : ∃ o, objs[i]? = some o := ⟨_, List.getElem?_eq_getElem (by omega)⟩
        have hlk := lookup_zip_reverse
          ((candidates env (tfuel + 2) (.struct name)).map (fun c => c.Name))
          (objs.map (decodedForm signed)) hnames (by simp; omega) i c.Name
          (decodedForm signed o) (by rw [List.getElem?_map, hi]; rfl)
          (by rw [List.getElem?_map, ho]; rfl)
        beta_reduce
        rw [hlk]
        rfl)]
    exact pathLoop_decodes env tfuel signed n name fields T1 T2 hgT hl _ m hplain hzz xs os _
      hxs hos1
      (fun i c u o hi hu ho => by
        have hlt := getElem?_lt _ i c hi
        obtain ⟨o1, ho1⟩ : ∃ o1, objs[i]? = some o1 := ⟨_, List.getElem?_eq_getElem (by omega)⟩
        have hu1 := forall₂_getElem? hobj i u o1 hu ho1
        rw [ho] at hu1
        cases hu1
        have hlk := lookup_zip_reverse
          ((candidates env (tfuel + 2) (.struct name)).map (fun c => c.Name))
          (objs.map (decodedForm signed)) hnames (by simp; omega) i c.Name
          (decodedForm signed o) (by rw [List.getElem?_map, hi]; rfl)
          (by rw [List.getElem?_map, ho1]; rfl)
        rw [hlk]
        rfl)

theorem roundTrips_struct_registered (env : TypeEnv) (reg : Registry) (tfuel : Nat)
    (signed : Int → Obj) (n : Nat) (name : String) (fields : List GoValue) (cls : ArchiverClass)
    (hreg : reg.lookup (.struct name) = some cls) (hnd : cls.isDictionary = false)
    (hcn : ∀ c ∈ candidates env (tfuel + 2) (.struct name), c.Name ≠ "$class")
    (hplain : Plain env (tfuel + 2) (.struct name fields))
    (hnames : ((candidates env (tfuel + 2) (.struct name)).map (fun c => c.Name)).Nodup)
    (hx : ∀ c ∈ candidates env (tfuel + 2) (.struct name), ∀ x,
      getAt c.idx (.struct name fields) = some x → RoundTrips env reg (tfuel + 2) signed n x) :
    RoundTrips env reg (tfuel + 2) signed (n + 1) (.struct name fields) := by
  intro T addr h0
  have hti := GetTypeInfo_plain env (tfuel + 2) name fields hplain hnames
  obtain ⟨xs, hxs, hP⟩ := plain_fields_marshal env reg tfuel signed n name fields addr hplain hx
  obtain ⟨T1, out, us, hm, hg1, hus, hlk, hfr⟩ := marshalFieldsNS_decodes env (tfuel + 2) signed
    n (zeroValue env (tfuel + 2)) (marshal env reg (tfuel + 2) n) (.struct name fields)
    { addr := addr, ro := false } _ _ hP hnames T [] h0
  have hga := add2_grows T1 cls.toObj (fun c => .dict (dictInsert "$class" (.uid c) out))
  refine ⟨_, _, .dict (dictInsert "$class" (.uid (addObject T1 cls.toObj).1) out), ?_,
    hg1.trans hga, addObject_get _ _, ?_⟩
  · rw [marshal_nonptr _ _ _ _ _ _ _ (by intro h; cases h)]
    simp only [marshalKind]
    rw [marshalStruct_registered env reg _ _ _ T name fields _ _ cls hti hreg]
    simp only [seqT, hm]
  · intro T2 hg hl t z m hty hzz
    cases hty
    have hgT := hga.trans hg
    have hclsget := hg.getElem? _ _ (add2_class_get T1 cls
      (fun c => .dict (dictInsert "$class" (.uid c) out)))
    have hnt := plain_not_time env (tfuel + 2) name fields hplain
    obtain ⟨zs, rfl, _⟩ := zeroValue_struct env m name z hnt hzz
    rw [unmarshal_of_kind _ _ _ _ _ _ _ _ (by intro h; cases h)]
    have hcls := getClass_decoded_any env tfuel signed T2
      (dictInsert "$class" (.uid (addObject T1 cls.toObj).1) out)
      (addObject T1 cls.toObj).1 cls (by rw [lookup_dictInsert, if_pos rfl]) hclsget
    have hkk : (GoValue.struct name zs).kind = .Struct := rfl
    have hd : ArchiverClass.isDictionary
        { ClassName := cls.ClassName, Classes := some (cls.Classes.getD []) } = false := hnd
    have hty1 : (GoValue.struct name zs).typ = some (.struct name) := rfl
    have hdate : ((GoType.struct name) = archiverDateType) = False := by
      apply eq_false
      intro h
      injection h with h1
      exact hnt h1
    have huuid : ((GoType.struct name) = archiverUUIDType) = False := by
      apply eq_false
      intro h
      cases h
    simp only [decodedForm, unmarshalKind, hcls, hkk, unmarshalStructCase, hd, hty1,
      Option.some.injEq, hdate, huuid, decide_False, Bool.and_false, Bool.false_eq_true,
      if_false, unmarshalNSType, hti]
    rw [unmarshalNSFields_pathLoop env (zeroValue env (tfuel + 2)) _ _ _ true false
      (fun c => match (dictInsert "$class" (.uid (addObject T1 cls.toObj).1) out).lookup c.Name
        with
        | some (.uid u) => ((T2.map (decodedForm signed)).get? u).getD .null
        | _ => .null)
      _ _
      (fun c hc => by
        obtain ⟨i, hi⟩ := List.mem_iff_getElem?.1 hc
        have hlt := getElem?_lt _ i c hi
        obtain ⟨u, hu⟩ : ∃ u, us[i]? = some u :=
          ⟨_, List.getElem?_eq_getElem (by rw [← hlk.length_eq]; exact hlt)⟩
        obtain ⟨x, hxi⟩ : ∃ x, xs[i]? = some x :=
          ⟨_, List.getElem?_eq_getElem (by rw [← hxs.length_eq]; exact hlt)⟩
        obtain ⟨o, ho, _⟩ := forall₂_getElem? hus i u x hu hxi
        have hl1 : (dictInsert "$class" (.uid (addObject T1 cls.toObj).1) out).lookup c.Name =
            some (.uid u) := by
          rw [lookup_dictInsert, if_neg (hcn c hc)]
          exact forall₂_getElem? hlk i c u hi hu
        have hget := map_get_grows (decodedForm signed) T1 T2 u o hgT ho
        refine ⟨u, hl1, ?_⟩
        simp only [hl1, hget, Option.getD_some])]
    exact pathLoop_decodes env tfuel signed n name fields T1 T2 hgT hl _ m hplain hzz xs us _
      hxs hus
      (fun i c u o hi hu ho => by
        have hc := List.mem_iff_getElem?.2 ⟨i, hi⟩
        have hl1 : (dictInsert "$class" (.uid (addObject T1 cls.toObj).1) out).lookup c.Name =
            some (.uid u) := by
          rw [lookup_dictInsert, if_neg (hcn c hc)]
          exact forall₂_getElem? hlk i c u hi hu
        have hget := map_get_grows (decodedForm signed) T1 T2 u o hgT ho
        simp only [hl1, hget, Option.getD_some])

theorem roundTrips_struct (env : TypeEnv) (reg : Registry) (tfuel : Nat) (signed : Int → Obj)
    (n : Nat) (name : String) (fields : List GoValue)
    (hplain : Plain env (tfuel + 2) (.struct name fields))
    (hnames : ((candidates env (tfuel + 2) (.struct name)).map (fun c => c.Name)).Nodup)
    (hreg : ∀ cls, reg.lookup (.struct name) = some cls →
      cls.isDictionary = false ∧
        ∀ c ∈ candidates env (tfuel + 2) (.struct name), c.Name ≠ "$class")
    (hx : ∀ c ∈ candidates env (tfuel + 2) (.struct name), ∀ x,
      getAt c.idx (.struct name fields) = some x → RoundTrips env reg (tfuel + 2) signed n x) :
    RoundTrips env reg (tfuel + 2) signed (n + 1) (.struct name fields) := by
  cases hl : reg.lookup (.struct name) with
  | none => exact roundTrips_struct_table env reg tfuel signed n name fields hl hplain hnames hx
  | some cls =>
    exact roundTrips_struct_registered env reg tfuel signed n name fields cls hl (hreg cls hl).1
      (hreg cls hl).2 hplain hnames hx


/-! ## Round trip: the theorem -/

theorem RT.kind_ne_ptr {env : TypeEnv} {reg : Registry} {tfuel n : Nat} {P : Int → Prop}
    {v : GoValue} (h : RT env reg tfuel P n v) : v.kind ≠ .Ptr := by
  cases h with
  | int n k x hp hlo hx => cases k <;> (intro h; cases h)
  | uint n k x hx => cases k <;> (intro h; cases h)
  | float64 n f hf => intro h; cases h
  | float32 n f hf h32 => intro h; cases h
  | _ => intro h; cases h

theorem RT.succ {env : TypeEnv} {reg : Registry} {tfuel n : Nat} {P : Int → Prop}
    {v : GoValue} (h : RT env reg tfuel P n v) : RT env reg tfuel P (n + 1) v := by
  induction h with
  | bool n b => exact RT.bool _ b
  | int n k x hp hlo hx => exact RT.int _ k x hp hlo hx
  | uint n k x hx => exact RT.uint _ k x hx
  | float64 n f hf => exact RT.float64 _ f hf
  | float32 n f hf h32 => exact RT.float32 _ f hf h32
  | string n s => exact RT.string _ s
  | bytes n b => exact RT.bytes _ b
  | time n s hs => exact RT.time _ s hs
  | uuid n b hb => exact RT.uuid _ b hb
  | nilSlice n elem hk => exact RT.nilSlice _ elem hk
  | slice n elem xs ze hk hne hz ht _ ih => exact RT.slice _ elem xs ze hk hne hz ht ih
  | struct n name fields hplain hnames hreg _ ih =>
    exact RT.struct _ name fields hplain hnames hreg ih

theorem RT.deeper {env : TypeEnv} {reg : Registry} {tfuel n : Nat} {P : Int → Prop}
    {v : GoValue} (h : RT env reg tfuel P n v) : ∀ m, n ≤ m → RT env reg tfuel P m v := by
  intro m hm
  induction hm with
  | refl => exact h
  | step _ ih => exact ih.succ

theorem roundTrips_of_RT (env : TypeEnv) (reg : Registry) (tfuel : Nat) (signed : Int → Obj)
    (P : Int → Prop) (hsigned : ∀ x : Int, P x → signed x = .uint .uint64 (wrapUint 64 x))
    (n : Nat) (v : GoValue) (h : RT env reg (tfuel + 2) P n v) :
    RoundTrips env reg (tfuel + 2) signed n v := by
  induction h with
  | bool n b => exact roundTrips_bool env reg _ signed n b
  | int n k x hp hlo hx => exact roundTrips_int env reg _ signed n k x (hsigned x hp) hlo hx
  | uint n k x hx => exact roundTrips_uint env reg _ signed n k x hx
  | float64 n f hf => exact roundTrips_float64 env reg _ signed n f
  | float32 n f hf h32 => exact roundTrips_float32 env reg _ signed n f h32
  | string n s => exact roundTrips_string env reg _ signed n s
  | bytes n b => exact roundTrips_bytes env reg tfuel signed n b
  | time n s hs => exact roundTrips_time env reg tfuel signed n s hs
  | uuid n b hb => exact roundTrips_uuid env reg tfuel signed n b hb
  | nilSlice n elem hk => exact roundTrips_nilSlice env reg tfuel signed n elem hk
  | slice n elem xs ze hk hne hz ht hx ih =>
    have hkp : elem.kind ≠ .Ptr := by
      cases xs with
      | nil => exact absurd rfl hne
      | cons x xs =>
        rw [← kind_of_typ x elem (ht x (List.mem_cons_self _ _))]
        exact (hx x (List.mem_cons_self _ _)).kind_ne_ptr
    exact roundTrips_slice env reg tfuel signed n elem xs ze hk hkp hne hz ht ih
  | struct n name fields hplain hnames hreg _ ih =>
    exact roundTrips_struct env reg tfuel signed n name fields hplain hnames hreg ih

/-- Claim C1, counterexample. Twelve values that `Marshal` encodes with a nil error
and that do not come back from `Unmarshal` of the decoded table into a zero value
of their type. (1) An instant with nanoseconds comes back as the whole second,
whatever the codec. (2) An instant in the location UTC comes back in the location
`time.Local`. (3) The instant `2 ^ 53 + 1` seconds after the reference epoch comes
back one second earlier. (4) A NaN comes back as a NaN, which `==` tells apart
from itself. (5) With a codec that reads an `int64` entry back as an `int64`, the
integer `-1` is refused. (6) An empty slice that is not nil comes back nil. (7) A
field tagged `-` comes back empty. (8) An unexported field comes back empty. (9) Of
two fields listed under one name the first comes back zero. (10) A struct
registered under the name of a dictionary class comes back empty. (11) With a
field named `$class` in a struct that has a registered class, `Unmarshal` panics.
(12) With an unexported embedded field that is not a struct, `Unmarshal` panics. -/
theorem values_not_restored :
    ((Marshal plainEnv [] 3 3 emptyArchiver (.time 1000000000 500 .local)).2 = .ok () ∧
      (∀ signed : Int → Obj,
        Unmarshal plainEnv 3 3
            ((Marshal plainEnv [] 3 3 emptyArchiver (.time 1000000000 500 .local)).1.decoded
              signed)
            (.ptr (.struct "time.Time") (some (.time (-62135596800) 0 .utc))) =
          (.ptr (.struct "time.Time") (some (.time 1000000000 0 .local)), .ok ())) ∧
      GoValue.time 1000000000 0 .local ≠ GoValue.time 1000000000 500 .local) ∧
    ((Marshal plainEnv [] 3 3 emptyArchiver (.time 978393600 0 .utc)).2 = .ok () ∧
      (∀ signed : Int → Obj,
        Unmarshal plainEnv 3 3
            ((Marshal plainEnv [] 3 3 emptyArchiver (.time 978393600 0 .utc)).1.decoded signed)
            (.ptr (.struct "time.Time") (some (.time (-62135596800) 0 .utc))) =
          (.ptr (.struct "time.Time") (some (.time 978393600 0 .local)), .ok ())) ∧
      GoValue.time 978393600 0 .local ≠ GoValue.time 978393600 0 .utc) ∧
    ((Marshal plainEnv [] 3 3 emptyArchiver (.time 9007200233048193 0 .local)).2 = .ok () ∧
      (∀ signed : Int → Obj,
        Unmarshal plainEnv 3 3
            ((Marshal plainEnv [] 3 3 emptyArchiver
              (.time 9007200233048193 0 .local)).1.decoded signed)
            (.ptr (.struct "time.Time") (some (.time (-62135596800) 0 .utc))) =
          (.ptr (.struct "time.Time") (some (.time 9007200233048192 0 .local)), .ok ())) ∧
      GoValue.time 9007200233048192 0 .local ≠ GoValue.time 9007200233048193 0 .local) ∧
    ((Marshal plainEnv [] 3 3 emptyArchiver (.float .float64 .nan)).2 = .ok () ∧
      (∀ signed : Int → Obj,
        Unmarshal plainEnv 3 3
            ((Marshal plainEnv [] 3 3 emptyArchiver (.float .float64 .nan)).1.decoded signed)
            (.ptr (.float .float64) (some (.float .float64 (.num 0 0)))) =
          (.ptr (.float .float64) (some (.float .float64 .nan)), .ok ())) ∧
      F64.goEq .nan .nan = false) ∧
    ((Marshal plainEnv [] 3 3 emptyArchiver (.int .int64 (-1))).2 = .ok () ∧
      Unmarshal plainEnv 3 3
          ((Marshal plainEnv [] 3 3 emptyArchiver (.int .int64 (-1))).1.decoded readsInt64)
          (.ptr (.int .int64) (some (.int .int64 0))) =
        (.ptr (.int .int64) (some (.int .int64 0)), .err (.other "type not assay"))) ∧
    ((Marshal plainEnv [] 3 3 emptyArchiver (.slice .string (some []))).2 = .ok () ∧
      (∀ signed : Int → Obj,
        Unmarshal plainEnv 3 3
            ((Marshal plainEnv [] 3 3 emptyArchiver (.slice .string (some []))).1.decoded signed)
            (.ptr (.slice .string) (some (.slice .string none))) =
          (.ptr (.slice .string) (some (.slice .string none)), .ok ())) ∧
      GoValue.slice .string none ≠ GoValue.slice .string (some [])) ∧
    ((Marshal exclusionEnv [] 3 3 emptyArchiver (.struct "S" [.string "n", .string "s"])).2 =
        .ok () ∧
      (∀ signed : Int → Obj,
        Unmarshal exclusionEnv 3 3
            ((Marshal exclusionEnv [] 3 3 emptyArchiver
              (.struct "S" [.string "n", .string "s"])).1.decoded signed)
            (.ptr (.struct "S") (some (.struct "S" [.string "", .string ""]))) =
          (.ptr (.struct "S") (some (.struct "S" [.string "n", .string ""])), .ok ())) ∧
      GoValue.struct "S" [.string "n", .string ""] ≠
        GoValue.struct "S" [.string "n", .string "s"]) ∧
    ((Marshal hiddenEnv [] 3 3 emptyArchiver (.struct "H" [.string "a", .string "b"])).2 =
        .ok () ∧
      (∀ signed : Int → Obj,
        Unmarshal hiddenEnv 3 3
            ((Marshal hiddenEnv [] 3 3 emptyArchiver
              (.struct "H" [.string "a", .string "b"])).1.decoded signed)
            (.ptr (.struct "H") (some (.struct "H" [.string "", .string ""]))) =
          (.ptr (.struct "H") (some (.struct "H" [.string "a", .string ""])), .ok ())) ∧
      GoValue.struct "H" [.string "a", .string ""] ≠
        GoValue.struct "H" [.string "a", .string "b"]) ∧
    ((Marshal sameNameEnv [] 3 3 emptyArchiver (.struct "D" [.int .int 1, .int .int 2])).2 =
        .ok () ∧
      Unmarshal sameNameEnv 3 3
          ((Marshal sameNameEnv [] 3 3 emptyArchiver
            (.struct "D" [.int .int 1, .int .int 2])).1.decoded readsUint64)
          (.ptr (.struct "D") (some (.struct "D" [.int .int 0, .int .int 0]))) =
        (.ptr (.struct "D") (some (.struct "D" [.int .int 0, .int .int 2])), .ok ()) ∧
      GoValue.struct "D" [.int .int 0, .int .int 2] ≠
        GoValue.struct "D" [.int .int 1, .int .int 2]) ∧
    ((Marshal plainEnv dictionaryNamed 3 3 emptyArchiver (.struct "S" [.string "a"])).2 =
        .ok () ∧
      (∀ signed : Int → Obj,
        Unmarshal plainEnv 3 3
            ((Marshal plainEnv dictionaryNamed 3 3 emptyArchiver
              (.struct "S" [.string "a"])).1.decoded signed)
            (.ptr (.struct "S") (some (.struct "S" [.string ""]))) =
          (.ptr (.struct "S") (some (.struct "S" [.string ""])), .ok ())) ∧
      GoValue.struct "S" [.string ""] ≠ GoValue.struct "S" [.string "a"]) ∧
    ((Marshal classKeyEnv classKeyRegistry 3 3 emptyArchiver (.struct "C" [.string "k"])).2 =
        .ok () ∧
      (∀ signed : Int → Obj, ∃ m,
        (Unmarshal classKeyEnv 3 3
            ((Marshal classKeyEnv classKeyRegistry 3 3 emptyArchiver
              (.struct "C" [.string "k"])).1.decoded signed)
            (.ptr (.struct "C") (some (.struct "C" [.string ""])))).2 = .panic m)) ∧
    ((Marshal embedEnv [] 3 3 emptyArchiver
        (.struct "E" [.int .int 1, .struct "Base" [.int .int 2], .string "a", .bool true])).2 =
        .ok () ∧
      ∃ m,
        (Unmarshal embedEnv 3 3
          ((Marshal embedEnv [] 3 3 emptyArchiver
            (.struct "E" [.int .int 1, .struct "Base" [.int .int 2], .string "a",
              .bool true])).1.decoded readsUint64)
          (.ptr (.struct "E")
            (some (.struct "E" [.int .int 0, .struct "Base" [.int .int 0], .string "",
              .bool false])))).2 = .panic m) :=
  ⟨⟨by rfl, fun _ => by rfl, by simp⟩, ⟨by rfl, fun _ => by rfl, by simp⟩,
    ⟨by rfl, fun _ => by rfl, by simp⟩, ⟨by rfl, fun _ => by rfl, by rfl⟩,
    ⟨by rfl, by rfl⟩, ⟨by rfl, fun _ => by rfl, by simp⟩,
    ⟨by rfl, fun _ => by rfl, by simp⟩, ⟨by rfl, fun _ => by rfl, by simp⟩,
    ⟨by rfl, by rfl, by simp⟩, ⟨by rfl, fun _ => by rfl, by simp⟩,
    ⟨by rfl, fun _ => ⟨_, by rfl⟩⟩, ⟨by rfl, ⟨_, by rfl⟩⟩⟩

/-- Claim C1, amended. Let the codec read back as the `uint64` of the same 64 bits
every signed integer that occurs in `v`, and let `v` be built (`RT`, nesting at
most `n`) from bools, integers and floats of their kinds, no float being a NaN,
strings, byte slices, instants of whole seconds within `2 ^ 53` seconds of the
reference epoch in the location `time.Local`, `uuid.UUID` values, slices that are
nil or not empty, and structs, with or without a registered class, every field of
which is not tagged `-` and is either exported and not an embedded struct, or a
struct embedded by value that is such a struct in turn, the fields `GetTypeInfo`
collects having distinct names; a registered class is not named as a dictionary
class and comes with no field named `$class`. Then with any depth of recursion
`fuel` of at least `n`, `Marshal(v)` succeeds, and if the table has at most
`2 ^ 64` entries, `Unmarshal` of the decoded table into a pointer to a zero value
of the type of `v` succeeds and leaves `v` there. -/
theorem round_trip (env : TypeEnv) (reg : Registry) (tfuel : Nat) (signed : Int → Obj)
    (n fuel : Nat) (a0 : Archiver) (v : GoValue) (t : GoType) (z : GoValue) (m : Nat)
    (hv : RT env reg (tfuel + 2) (fun x => signed x = .uint .uint64 (wrapUint 64 x)) n v)
    (hn : n ≤ fuel) (ht : v.typ = some t) (hz : zeroValue env m t = some z) :
    ∃ a, Marshal env reg (tfuel + 2) fuel a0 v = (a, .ok ()) ∧
      (a.Objects.length ≤ 2 ^ 64 →
        Unmarshal env (tfuel + 2) fuel (a.decoded signed) (.ptr t (some z)) =
          (.ptr t (some v), .ok ())) := by
  have hrt := roundTrips_of_RT env reg tfuel signed _ (fun _ h => h) fuel v (hv.deeper fuel hn)
  obtain ⟨T1, i, o, hm, _, ho, hdec⟩ := hrt [.string "$null"] false rfl
  have h0 : (addObject [] (.string "$null")).2 = [.string "$null"] := rfl
  refine ⟨archiveOf T1 i, ?_, ?_⟩
  · simp only [Marshal, h0, hm, archiveOf, Flags.root]
  · intro hl
    have hzk : z.kind ≠ .Ptr := by
      rw [kind_of_typ z t (zeroValue_typ env m t z hz), ← kind_of_typ v t ht]
      exact hv.kind_ne_ptr
    have hget : (T1.map (decodedForm signed)).get? i = some (decodedForm signed o) :=
      map_get_grows _ T1 T1 i o (Grows.refl T1) ho
    rw [Unmarshal_root env (tfuel + 2) fuel _ _ i (decodedForm signed o) rfl hget]
    show unmarshal env (tfuel + 2) (T1.map (decodedForm signed)) fuel _ _ false false = _
    rw [unmarshal_ptr_target _ _ _ _ _ _ _ _ _ hzk,
      hdec T1 (Grows.refl T1) hl t z m ht hz]

theorem candidates_baseEnv :
    candidates baseEnv 3 (.struct "W") =
      [ { idx := [0, 0], Name := "ID", OmitEmpty := false },
        { idx := [1], Name := "A", OmitEmpty := false } ] := by
  rfl

/-- The value `W{Base: Base{ID: -3}, A: "a"}` of the declarations `baseEnv`, `W`
having a registered class, is in the domain of the round trip when the codec reads
integers back as `uint64`. -/
theorem rt_baseEnv (P : Int → Prop) (hp : P (-3)) :
    RT baseEnv baseRegistry 3 P 1 (.struct "W" [.struct "Base" [.int .int (-3)], .string "a"]) := by
  have hdW : decl baseEnv "W" =
      [ { Name := "Base", PkgPath := "", Typ := .struct "Base", Tag := "", Anonymous := true },
        { Name := "A", PkgPath := "", Typ := .string, Tag := "", Anonymous := false } ] := rfl
  have hdB : decl baseEnv "Base" =
      [ { Name := "ID", PkgPath := "", Typ := .int .int, Tag := "", Anonymous := false } ] := rfl
  refine RT.struct 0 "W" _ ?_ ?_ ?_ ?_
  · show List.Forall₂ _ (decl baseEnv "W") _
    rw [hdW]
    refine List.Forall₂.cons ⟨by decide, rfl, Or.inr ⟨rfl, ?_⟩⟩
      (List.Forall₂.cons ⟨by decide, rfl, Or.inl ⟨rfl, rfl⟩⟩ List.Forall₂.nil)
    show List.Forall₂ _ (decl baseEnv "Base") _
    rw [hdB]
    exact List.Forall₂.cons ⟨by decide, rfl, Or.inl ⟨rfl, rfl⟩⟩ List.Forall₂.nil
  · rw [candidates_baseEnv]
    decide
  · intro cls h
    have hc : cls = { ClassName := "W", Classes := some ["W", "NSObject"] } := by
      have h1 : baseRegistry.lookup (.struct "W") =
          some { ClassName := "W", Classes := some ["W", "NSObject"] } := by rfl
      rw [h1] at h
      exact (Option.some.inj h).symm
    subst hc
    refine ⟨by decide, ?_⟩
    rw [candidates_baseEnv]
    intro c hc
    simp only [List.mem_cons, List.mem_singleton, List.not_mem_nil, or_false] at hc
    rcases hc with rfl | rfl <;> decide
  · rw [candidates_baseEnv]
    intro c hc x hx
    simp only [List.mem_cons, List.mem_singleton, List.not_mem_nil, or_false] at hc
    rcases hc with rfl | rfl
    · have hx1 : x = .int .int (-3) := (Option.some.inj hx).symm
      subst hx1
      exact RT.int 0 .int (-3) hp (by decide) (by decide)
    · have hx1 : x = .string "a" := (Option.some.inj hx).symm
      subst hx1
      exact RT.string 0 "a"

/-- The amended claim C1 at `W{Base: Base{ID: -3}, A: "a"}` for
`type Base struct { ID int }` and `type W struct { Base; A string }`, `W` having a
registered class and the codec reading integers back as `uint64`. -/
theorem round_trip_witness :
    ∃ a, Marshal baseEnv baseRegistry 3 1 emptyArchiver
          (.struct "W" [.struct "Base" [.int .int (-3)], .string "a"]) = (a, .ok ()) ∧
      (a.Objects.length ≤ 2 ^ 64 →
        Unmarshal baseEnv 3 1 (a.decoded readsUint64)
            (.ptr (.struct "W")
              (some (.struct "W" [.struct "Base" [.int .int 0], .string ""]))) =
          (.ptr (.struct "W")
            (some (.struct "W" [.struct "Base" [.int .int (-3)], .string "a"])), .ok ())) :=
  round_trip baseEnv baseRegistry 1 readsUint64 1 1 emptyArchiver
    (.struct "W" [.struct "Base" [.int .int (-3)], .string "a"]) (.struct "W")
    (.struct "W" [.struct "Base" [.int .int 0], .string ""]) 2
    (rt_baseEnv _ rfl) (Nat.le_refl 1) rfl rfl


/-! ## Deduplication -/

theorem rt_plainEnv (P : Int → Prop) (s : String) :
    RT plainEnv [] 3 P 1 (.struct "S" [.string s]) := by
  have hd : decl plainEnv "S" =
      [ { Name := "A", PkgPath := "", Typ := .string, Tag := "", Anonymous := false } ] := rfl
  have hc : candidates plainEnv 3 (.struct "S") =
      [ { idx := [0], Name := "A", OmitEmpty := false } ] := by rfl
  refine RT.struct 0 "S" _ ?_ ?_ ?_ ?_
  · show List.Forall₂ _ (decl plainEnv "S") _
    rw [hd]
    exact List.Forall₂.cons ⟨by decide, rfl, Or.inl ⟨rfl, rfl⟩⟩ List.Forall₂.nil
  · rw [hc]
    decide
  · intro cls h
    cases h
  · rw [hc]
    intro c hc x hx
    simp only [List.mem_singleton] at hc
    subst hc
    have hx1 : x = .string s := (Option.some.inj hx).symm
    subst hx1
    exact RT.string 0 s

/-- Claim C3, counterexample. (1) In a `TT{A, B}` whose two `time.Time` fields hold
the same second and differ in their nanoseconds, `Marshal` emits the same reference
for both fields (the objects of the wrapper are `[2, 2]`) and the table holds one
date entry, though the two values are not deeply equal. (2) The same with two
fields that hold one instant in the locations UTC and `time.Local`. (3) A NaN
encoded a second time gets a second entry and another reference. -/
theorem equal_references_for_different_times :
    (Marshal twoTimesEnv [] 3 3 emptyArchiver
        (.struct "TT" [.time 978307200 0 .utc, .time 978307200 5 .utc]) =
      ({ Version := 100000,
         Objects := [.string "$null", archiverDateClass.toObj, .dateRef (.num 0 0) 1,
           .string "A", .string "B", archiverMutableDictionaryClass.toObj,
           .tableRef [3, 4] [2, 2] 5],
         ArchiverName := "NSKeyedArchiver", Top := some 6 }, .ok ()) ∧
      GoValue.time 978307200 0 .utc ≠ GoValue.time 978307200 5 .utc) ∧
    (Marshal twoTimesEnv [] 3 3 emptyArchiver
        (.struct "TT" [.time 978307200 0 .utc, .time 978307200 0 .local]) =
      ({ Version := 100000,
         Objects := [.string "$null", archiverDateClass.toObj, .dateRef (.num 0 0) 1,
           .string "A", .string "B", archiverMutableDictionaryClass.toObj,
           .tableRef [3, 4] [2, 2] 5],
         ArchiverName := "NSKeyedArchiver", Top := some 6 }, .ok ()) ∧
      GoValue.time 978307200 0 .utc ≠ GoValue.time 978307200 0 .local) ∧
    (marshal plainEnv [] 3 3 [.string "$null"] (.float .float64 .nan) Flags.root =
        ([.string "$null", .float .float64 .nan], .ok 1) ∧
      marshal plainEnv [] 3 3 [.string "$null", .float .float64 .nan] (.float .float64 .nan)
          Flags.root =
        ([.string "$null", .float .float64 .nan, .float .float64 .nan], .ok 2)) :=
  ⟨⟨by rfl, by simp⟩, ⟨by rfl, by simp⟩, by rfl, by rfl⟩

/-- Two values of one type that come back from their encodings and were encoded at
the same reference are equal. -/
theorem distinct_of_roundTrips (env : TypeEnv) (reg : Registry) (tfuel n : Nat)
    (signed : Int → Obj) (v w : GoValue) (t : GoType) (z : GoValue) (m : Nat)
    (T T1 T1' T2 : List Obj) (a a' : Bool) (i j : Nat)
    (hv : RoundTrips env reg tfuel signed n v) (hw : RoundTrips env reg tfuel signed n w)
    (htv : v.typ = some t) (htw : w.typ = some t) (hz : zeroValue env m t = some z)
    (h0 : T[0]? = some (.string "$null"))
    (hm : marshal env reg tfuel n T v { addr := a, ro := false } = (T1, .ok i))
    (hg : Grows T1 T1')
    (hm' : marshal env reg tfuel n T1' w { addr := a', ro := false } = (T2, .ok j))
    (hl : T2.length ≤ 2 ^ 64) (hij : i = j) : v = w := by
  obtain ⟨T1x, ix, o, hmx, hgx, ho, hdec⟩ := hv T a h0
  rw [hm] at hmx
  obtain ⟨rfl, hix⟩ := Prod.mk.inj hmx
  obtain rfl : i = ix := Res.ok.inj hix
  have h0' : T1'[0]? = some (.string "$null") := (hgx.trans hg).getElem? 0 _ h0
  obtain ⟨T2x, jx, o', hmx', hg2, ho', hdec'⟩ := hw T1' a' h0'
  rw [hm'] at hmx'
  obtain ⟨rfl, hjx⟩ := Prod.mk.inj hmx'
  obtain rfl : j = jx := Res.ok.inj hjx
  subst hij
  have ho2 := (hg.trans hg2).getElem? i o ho
  rw [ho'] at ho2
  obtain rfl : o' = o := Option.some.inj ho2
  have h1 := hdec T2 (hg.trans hg2) hl t z m htv hz
  have h2 := hdec' T2 (Grows.refl T2) hl t z m htw hz
  rw [h1] at h2
  exact (Prod.mk.inj h2).1

/-- Claim C3, amended. (1) Once `marshal` has encoded a value free of NaN, the table
has only grown, and encoding the same value again with the same flags on that
table, or on any table grown from it, ends the same way and leaves the table as it
is: equal values share one entry. (2) For two values `v` and `w` of one type, which
has a zero value, from the domain `RT` of the round trip, signed integers
included, `marshal` encodes `v` at a reference `i` whose entry is one from which
`unmarshal` rebuilds `v`, integers being read back as `uint64`, and encodes `w` on
any table grown from the result at a reference `j`; when that table holds at most
`2 ^ 64` entries and `i = j`, then `v = w`: different values get distinct entries.
(3) The same holds for any two values of one type that come back from their
encodings (`RoundTrips`), whatever the reading `signed` of the integers by the
codec: two values share an entry only if the encoding does not keep them apart. -/
theorem equal_values_share_one_entry (env : TypeEnv) (reg : Registry) (tfuel n : Nat) :
    (∀ (u : GoValue) (fl : Flags) (U U1 : List Obj) (r : Res Nat), u.noNaN = true →
      marshal env reg (tfuel + 2) n U u fl = (U1, r) →
      Grows U U1 ∧ ∀ U2, Grows U1 U2 → marshal env reg (tfuel + 2) n U2 u fl = (U2, r)) ∧
    (∀ (v w : GoValue) (t : GoType) (z : GoValue) (m : Nat) (T : List Obj) (a a' : Bool),
      RT env reg (tfuel + 2) (fun _ => True) n v → RT env reg (tfuel + 2) (fun _ => True) n w →
      v.typ = some t → w.typ = some t → zeroValue env m t = some z →
      T[0]? = some (.string "$null") →
      ∃ T1 i, marshal env reg (tfuel + 2) n T v { addr := a, ro := false } = (T1, .ok i) ∧
        Decodes env (tfuel + 2) readsUint64 n T1 i v ∧
        ∀ T1', Grows T1 T1' →
          ∃ T2 j, marshal env reg (tfuel + 2) n T1' w { addr := a', ro := false } =
              (T2, .ok j) ∧
            (T2.length ≤ 2 ^ 64 → i = j → v = w)) ∧
    (∀ (signed : Int → Obj) (v w : GoValue) (t : GoType) (z : GoValue) (m : Nat)
        (T T1 T1' T2 : List Obj) (a a' : Bool) (i j : Nat),
      RoundTrips env reg (tfuel + 2) signed n v → RoundTrips env reg (tfuel + 2) signed n w →
      v.typ = some t → w.typ = some t → zeroValue env m t = some z →
      T[0]? = some (.string "$null") →
      marshal env reg (tfuel + 2) n T v { addr := a, ro := false } = (T1, .ok i) →
      Grows T1 T1' →
      marshal env reg (tfuel + 2) n T1' w { addr := a', ro := false } = (T2, .ok j) →
      T2.length ≤ 2 ^ 64 → i = j → v = w) := by
  refine ⟨fun u fl U U1 r hu h => marshal_stable env reg (tfuel + 2) n U u fl U1 r hu h, ?_,
    fun signed v w t z m T T1 T1' T2 a a' i j hv hw htv htw hz h0 hm hg hm' hl hij =>
      distinct_of_roundTrips env reg (tfuel + 2) n signed v w t z m T T1 T1' T2 a a' i j hv hw
        htv htw hz h0 hm hg hm' hl hij⟩
  intro v w t z m T a a' hv hw htv htw hz h0
  have hrv := roundTrips_of_RT env reg tfuel readsUint64 (fun _ => True) (fun _ _ => rfl) n v hv
  have hrw := roundTrips_of_RT env reg tfuel readsUint64 (fun _ => True) (fun _ _ => rfl) n w hw
  obtain ⟨T1, i, o, hm, hg1, ho, hdec⟩ := hrv T a h0
  refine ⟨T1, i, hm, ⟨o, ho, hdec⟩, fun T1' hg => ?_⟩
  obtain ⟨T2, j, _, hm', _, _, _⟩ := hrw T1' a' ((hg1.trans hg).getElem? 0 _ h0)
  exact ⟨T2, j, hm', fun hl hij =>
    distinct_of_roundTrips env reg (tfuel + 2) n readsUint64 v w t z m T T1 T1' T2 a a' i j hrv
      hrw htv htw hz h0 hm hg hm' hl hij⟩

/-- The amended claim C3 at `S{A: "a"}` and `S{A: "b"}` for
`type S struct { A string }`: `S{A: "a"}` is encoded on the initial table in an
entry from which it is rebuilt, and `S{A: "b"}`, encoded on any table grown from
the result, gets the same reference only if the two values are equal. -/
theorem equal_values_share_one_entry_witness :
    ∃ T1 i, marshal plainEnv [] 3 1 [.string "$null"] (.struct "S" [.string "a"])
          { addr := false, ro := false } = (T1, .ok i) ∧
      Decodes plainEnv 3 readsUint64 1 T1 i (.struct "S" [.string "a"]) ∧
      ∀ T1', Grows T1 T1' →
        ∃ T2 j, marshal plainEnv [] 3 1 T1' (.struct "S" [.string "b"])
            { addr := false, ro := false } = (T2, .ok j) ∧
          (T2.length ≤ 2 ^ 64 → i = j →
            GoValue.struct "S" [.string "a"] = GoValue.struct "S" [.string "b"]) :=
  (equal_values_share_one_entry plainEnv [] 1 1).2.1 (.struct "S" [.string "a"])
    (.struct "S" [.string "b"]) (.struct "S") (.struct "S" [.string ""]) 1 [.string "$null"]
    false false (rt_plainEnv _ "a") (rt_plainEnv _ "b") rfl rfl rfl rfl

/-! ## Integers that do not fit the target -/

theorem wrapInt_uint64 (k : IntKind) (n : Nat) (hn : n < 2 ^ 64) :
    wrapInt k.bits (wrapInt 64 (n : Int)) =
        ((n : Int) + 2 ^ (k.bits - 1)) % 2 ^ k.bits - 2 ^ (k.bits - 1) ∧
      (((n : Int) + 2 ^ (k.bits - 1)) % 2 ^ k.bits - 2 ^ (k.bits - 1) = (n : Int) ↔
        n < 2 ^ (k.bits - 1)) := by
  have hn' : (n : Int) < 18446744073709551616 := by exact_mod_cast hn
  cases k <;> simp only [wrapInt, IntKind.bits] <;> norm_num <;> omega

theorem wrapUint_uint64 (k : UintKind) (n : Nat) (hn : n < 2 ^ 64) :
    wrapUint k.bits (wrapUint 64 (n : Int)) = n % 2 ^ k.bits ∧
      (n % 2 ^ k.bits = n ↔ n < 2 ^ k.bits) := by
  have h1 : wrapUint 64 (n : Int) = n := by
    unfold wrapUint
    rw [Int.emod_eq_of_lt (by omega) (by exact_mod_cast hn)]
    simp
  rw [h1]
  constructor
  · unfold wrapUint
    have : ((n : Int) % 2 ^ k.bits) = ((n % 2 ^ k.bits : Nat) : Int) := by
      push_cast
      rfl
    rw [this, Int.toNat_ofNat]
  · constructor
    · intro h
      rw [← h]
      exact Nat.mod_lt _ (by positivity)
    · intro h
      exact Nat.mod_eq_of_lt h

/-- Claim C31, counterexample. The decoded integers 300, `2 ^ 63` and 256 do not fit
an `int8`, an `int64` and a `uint8`; `Archiver.unmarshal` returns nil for each and
leaves 44, `-2 ^ 63` and 0 in the target, the value reduced modulo `2 ^ 8`,
reinterpreted as negative, and reduced modulo `2 ^ 8`. -/
theorem integer_overflow_stored :
    unmarshal (fun _ => []) 3 [] 3 (.uint .uint64 300) (.int .int8 0) true false =
      (.int .int8 44, .ok ()) ∧
    unmarshal (fun _ => []) 3 [] 3 (.uint .uint64 9223372036854775808) (.int .int64 0) true
        false = (.int .int64 (-9223372036854775808), .ok ()) ∧
    unmarshal (fun _ => []) 3 [] 3 (.uint .uint64 256) (.uint .uint8 7) true false =
      (.uint .uint8 0, .ok ()) :=
  ⟨by rfl, by rfl, by rfl⟩

/-- Claim C31, amended. For every decoded `uint64` `n` and every addressable integer
target, `Archiver.unmarshal` returns nil: it never fails for a value that does not
fit. A signed target of width `w` is left with `n` reduced modulo `2 ^ w` into
the range from `-2 ^ (w - 1)`, which is `n` exactly when `n < 2 ^ (w - 1)`; an
unsigned target of width `w` is left with `n` modulo `2 ^ w`, which is `n`
exactly when `n < 2 ^ w`. -/
theorem integer_decode_wraps (env : TypeEnv) (tfuel : Nat) (objects : List Obj) (fuel : Nat)
    (n : Nat) (hn : n < 2 ^ 64) :
    (∀ (k : IntKind) (x : Int),
      unmarshal env tfuel objects fuel (.uint .uint64 n) (.int k x) true false =
          (.int k (((n : Int) + 2 ^ (k.bits - 1)) % 2 ^ k.bits - 2 ^ (k.bits - 1)), .ok ()) ∧
        (((n : Int) + 2 ^ (k.bits - 1)) % 2 ^ k.bits - 2 ^ (k.bits - 1) = (n : Int) ↔
          n < 2 ^ (k.bits - 1))) ∧
    (∀ (k : UintKind) (x : Nat),
      unmarshal env tfuel objects fuel (.uint .uint64 n) (.uint k x) true false =
          (.uint k (n % 2 ^ k.bits), .ok ()) ∧
        (n % 2 ^ k.bits = n ↔ n < 2 ^ k.bits)) := by
  constructor
  · intro k x
    have h := wrapInt_uint64 k n hn
    refine ⟨?_, h.2⟩
    rw [unmarshal_unfold, ← h.1]
    rfl
  · intro k x
    have h := wrapUint_uint64 k n hn
    refine ⟨?_, h.2⟩
    rw [unmarshal_unfold, ← h.1]
    rfl

/-- The amended claim C31 at 300, which fits an `int16` and a `uint16`. -/
theorem integer_decode_wraps_witness :
    300 < 2 ^ 64 ∧
    unmarshal (fun _ => []) 3 [] 3 (.uint .uint64 300) (.int .int16 0) true false =
      (.int .int16 300, .ok ()) ∧
    unmarshal (fun _ => []) 3 [] 3 (.uint .uint64 300) (.uint .uint8 0) true false =
      (.uint .uint8 44, .ok ()) :=
  ⟨by decide,
    ((integer_decode_wraps (fun _ => []) 3 [] 3 300 (by decide)).1 .int16 0).1,
    ((integer_decode_wraps (fun _ => []) 3 [] 3 300 (by decide)).2 .uint8 0).1⟩

end Plist
